import Mathlib

/-! GoToSocial: remote-entity resolution and enrichment.

A shallow embedding of `internal/federation/dereferencing` (`account.go`,
`status.go`) and of `internal/gtsmodel/account.go`.

The Go code talks to collaborators that live outside these files: the database
(`d.db`), the transport controller and the transports it hands out, the type
converter, the media manager, the identifier generator and the wall clock.
Every such call is embedded as an *oracle call*: it appends one `Event` to the
trace carried in the state and takes its answer from the environment `Env`,
which may answer differently at each position of the trace.  An environment is
therefore an arbitrary (possibly stateful, possibly hostile) behaviour of the
database and of the network; the program itself is deterministic.

Go pointers: a function that mutates an object it received by pointer returns
the final state of that object next to its Go results.
-/

namespace GoToSocial

/-! ## Time -/

/-- A Go `time.Time`, as the number of nanoseconds elapsed since the zero
instant (1 January of year 1, 00:00:00 UTC). -/
structure Time where
  ns : Int
  deriving DecidableEq, Repr

/-- A Go `time.Duration`: a number of nanoseconds. -/
abbrev Duration := Int

/-- The zero instant `time.Time{}`. -/
def Time.zero : Time := ⟨0⟩

/-- Go `time.Hour`, in nanoseconds. -/
def Hour : Duration := 3600 * 1000000000

/-- Go `t.IsZero()`. -/
def Time.IsZero (t : Time) : Bool := t.ns == 0

/-- Go `t.Add(d)`. -/
def Time.Add (t : Time) (d : Duration) : Time := ⟨t.ns + d⟩

/-- Go `t.Before(u)`. -/
def Time.Before (t u : Time) : Bool := decide (t.ns < u.ns)

/-- Nanoseconds between the zero instant and the Unix epoch (Go's
`unixToInternal`, 62135596800 seconds). -/
def unixToInternal : Int := 62135596800 * 1000000000

/-- A wall-clock reading: the operating system reports a count of nanoseconds
since the Unix epoch, which Go's `time.Now()` shifts to its own zero instant. -/
def Time.ofUnixNano (n : Nat) : Time := ⟨unixToInternal + (n : Int)⟩

/-! ## Errors -/

/-- Go `error` values met in the embedded code.  `ErrNoEntries` and
`ErrAlreadyExists` are the sentinels of package `db`; `external` is any other
error produced by a collaborator; `errorf` is `errors.New` or a `fmt.Errorf`
that does not wrap; `errorfW` is a `fmt.Errorf` with `%w`; `blocked` is the
`fmt.Errorf` whose text says that the host is blocked; the remaining
constructors are the error wrappers of package `dereferencing`. -/
inductive Err where
  | ErrNoEntries
  | ErrAlreadyExists
  | external (code : Nat)
  | errorf (msg : String)
  | errorfW (msg : String) (cause : Err)
  | blocked (site : String) (host : String)
  | ErrNotRetrievable (cause : Err)
  | ErrDB (cause : Err)
  | ErrTransportError (cause : Err)
  | ErrWrongType (cause : Err)
  | ErrOther (cause : Err)
  | wrapDerefError (cause : Err) (msg : String)
  deriving DecidableEq, Repr

/-- Go `errors.Is(err, target)` for a sentinel `target`: follows the `%w`
chain. -/
def Err.Is : Err → Err → Bool
  | .errorfW msg cause, target =>
      decide (Err.errorfW msg cause = target) || Err.Is cause target
  | e, target => decide (e = target)

/-- A Go `(T, error)` result. -/
abbrev Res (α : Type) := Except Err α

/-- The error says that the target host is domain-blocked. -/
def Err.isBlocked : Err → Bool
  | .blocked _ _ => true
  | .errorfW _ cause => cause.isBlocked
  | .ErrNotRetrievable cause => cause.isBlocked
  | .ErrDB cause => cause.isBlocked
  | .ErrTransportError cause => cause.isBlocked
  | .ErrWrongType cause => cause.isBlocked
  | .ErrOther cause => cause.isBlocked
  | .wrapDerefError cause _ => cause.isBlocked
  | _ => false

/-- The error is a `NotRetrievable` error. -/
def Err.isNotRetrievable : Err → Bool
  | .ErrNotRetrievable _ => true
  | _ => false

/-! ## Data model -/

/-- A Go `*url.URL`: `Host` and the result `raw` of `String()`. -/
structure URL where
  Host : String
  raw : String
  deriving DecidableEq, Repr

/-- The fields of `gtsmodel.Emoji` that the embedded code reads. -/
structure Emoji where
  ID : String
  URI : String
  deriving DecidableEq, Repr

/-- The fields of `gtsmodel.Account` that the embedded code reads or writes.
Lazily attached objects other than `Emojis` are not modelled. -/
structure Account where
  ID : String := ""
  CreatedAt : Time := Time.zero
  UpdatedAt : Time := Time.zero
  FetchedAt : Time := Time.zero
  Username : String := ""
  Domain : String := ""
  AvatarMediaAttachmentID : String := ""
  AvatarRemoteURL : String := ""
  HeaderMediaAttachmentID : String := ""
  HeaderRemoteURL : String := ""
  EmojiIDs : List String := []
  Emojis : List Emoji := []
  Note : String := ""
  Language : String := ""
  URI : String := ""
  URL : String := ""
  FollowingURI : String := ""
  FollowersURI : String := ""
  FeaturedCollectionURI : String := ""
  deriving DecidableEq, Repr

/-- The values of `config.GetHost()` and `config.GetAccountDomain()`. -/
structure Config where
  Host : String
  AccountDomain : String
  deriving DecidableEq, Repr

/-- Go `strings.Contains` on character lists. -/
def containsChars : List Char → List Char → Bool
  | [], sub => sub.isEmpty
  | c :: cs, sub => sub.isPrefixOf (c :: cs) || containsChars cs sub

/-- Go `strings.Contains(s, substr)`. -/
def stringsContains (s substr : String) : Bool :=
  containsChars s.toList substr.toList

/-- `Account.IsLocal`: whether account is a local user account. -/
def Account.IsLocal (cfg : Config) (a : Account) : Bool :=
  a.Domain == "" || a.Domain == cfg.Host || a.Domain == cfg.AccountDomain

/-- `Account.IsRemote`: whether account is a remote user account. -/
def Account.IsRemote (cfg : Config) (a : Account) : Bool :=
  !a.IsLocal cfg

/-- `Account.IsInstance`: whether account is an instance internal actor
account. -/
def Account.IsInstance (a : Account) : Bool :=
  a.Username == a.Domain ||
    a.FollowersURI == "" ||
    a.FollowingURI == "" ||
    (a.Username == "internal.fetch" && stringsContains a.Note "internal service actor")

/-- The fields of `gtsmodel.MediaAttachment` that the embedded code reads or
writes. -/
structure MediaAttachment where
  ID : String := ""
  AccountID : String := ""
  StatusID : String := ""
  RemoteURL : String := ""
  CreatedAt : Time := Time.zero
  Description : String := ""
  Blurhash : String := ""
  deriving DecidableEq, Repr

/-- The fields of `gtsmodel.Mention` that the embedded code reads or writes.
The attached `Status`, `OriginAccount` and `TargetAccount` objects are not
modelled, their identifiers are. -/
structure Mention where
  ID : String := ""
  StatusID : String := ""
  CreatedAt : Time := Time.zero
  UpdatedAt : Time := Time.zero
  OriginAccountID : String := ""
  OriginAccountURI : String := ""
  TargetAccountID : String := ""
  NameString : String := ""
  TargetAccountURI : String := ""
  TargetAccountURL : String := ""
  deriving DecidableEq, Repr

/-- The fields of `gtsmodel.Status` that the embedded code reads or writes.
The attached `Account`, `InReplyTo` and `InReplyToAccount` objects are not
modelled, their identifiers are. -/
structure Status where
  ID : String := ""
  URI : String := ""
  URL : String := ""
  CreatedAt : Time := Time.zero
  UpdatedAt : Time := Time.zero
  PinnedAt : Time := Time.zero
  AccountID : String := ""
  AccountURI : String := ""
  BoostOfID : String := ""
  InReplyToID : String := ""
  InReplyToURI : String := ""
  InReplyToAccountID : String := ""
  MentionIDs : List String := []
  Mentions : List Mention := []
  AttachmentIDs : List String := []
  Attachments : List MediaAttachment := []
  EmojiIDs : List String := []
  Emojis : List Emoji := []
  Visibility : String := ""
  Federated : Option Bool := none
  Boostable : Option Bool := none
  Replyable : Option Bool := none
  Likeable : Option Bool := none
  deriving DecidableEq, Repr

/-- One entry of the `orderedItems` of an ordered collection, as the iterator
of `fetchRemoteAccountFeatured` sees it: a whole Note or a whole Article with
the IRI of its `id` (absent when the object or its id is nil), or anything
else with the result of `GetIRI()`. -/
inductive Item where
  | note (id : Option URL)
  | article (id : Option URL)
  | other (iri : Option URL)
  deriving DecidableEq, Repr

/-- A decoded ActivityStreams value (`vocab.Type`): `typeName` is
`GetTypeName()`, `goType` names the vocabulary interface that the Go value
implements (what a type assertion tests), `id` is the IRI of `GetJSONLDId()`
(absent when the property is nil or not an IRI), `orderedItems` is
`GetActivityStreamsOrderedItems()`. -/
structure VType where
  typeName : String
  goType : String
  id : Option URL := none
  orderedItems : Option (List Item) := none
  deriving DecidableEq, Repr

/-- `ap.Accountable`. -/
abbrev Accountable := VType

/-- `ap.Statusable`. -/
abbrev Statusable := VType

/-- The bytes returned by `Transport.Dereference`. -/
abbrev Bytes := List Nat

/-- The `map[string]interface{}` filled by `json.Unmarshal`. -/
structure JsonMap where
  key : Nat
  deriving DecidableEq, Repr

/-- A `transport.Transport` handed out by the transport controller. -/
structure Transport where
  id : Nat
  deriving DecidableEq, Repr

/-- A `*media.ProcessingMedia`; `AttachmentID` is what `AttachmentID()`
returns. -/
structure ProcessingMedia where
  AttachmentID : String
  deriving DecidableEq, Repr

/-- The names of package `ap` used by the type switches. -/
def ActorApplication : String := "Application"
def ActorGroup : String := "Group"
def ActorOrganization : String := "Organization"
def ActorPerson : String := "Person"
def ActorService : String := "Service"
def ObjectArticle : String := "Article"
def ObjectDocument : String := "Document"
def ObjectImage : String := "Image"
def ObjectVideo : String := "Video"
def ObjectNote : String := "Note"
def ObjectPage : String := "Page"
def ObjectEvent : String := "Event"
def ObjectPlace : String := "Place"
def ObjectProfile : String := "Profile"
def ObjectOrderedCollection : String := "OrderedCollection"

/-! ## Calls to collaborators -/

/-- One call made to a collaborator, with its arguments. -/
inductive Event where
  | timeNow
  | newULID
  | newULIDFromTime (t : Time)
  | newRandomULID
  | dbGetAccountByURI (uri : String)
  | dbGetAccountByURL (url : String)
  | dbGetAccountByUsernameDomain (username domain : String)
  | dbPutAccount (account : Account)
  | dbUpdateAccount (account : Account)
  | dbIsDomainBlocked (host : String)
  | dbIsURIBlocked (uri : URL)
  | dbGetStatusByURI (uri : String)
  | dbGetStatusByURL (url : String)
  | dbPutStatus (status : Status)
  | dbUpdateStatus (status : Status) (columns : List String)
  | dbGetAccountPinnedStatuses (accountID : String)
  | dbGetEmojiByID (id : String)
  | dbPutMention (mention : Mention)
  | newTransportForUsername (username : String)
  | finger (transport : Transport) (username domain : String)
  | dereference (transport : Transport) (uri : URL)
  | asRepresentationToAccount (accountable : Accountable) (accountDomain : String)
  | asStatusToStatus (statusable : Statusable)
  | preProcessMedia (transport : Transport) (mediaURI : URL) (accountID : String)
      (avatar header : Bool) (remoteURL : String)
  | loadAttachment (processing : ProcessingMedia)
  | getRemoteMedia (username accountID remoteURL : String)
  | populateEmojis (emojis : List Emoji) (username : String)
  | startHandshake (username : String) (uri : URL)
  | stopHandshake (username : String) (uri : URL)
  deriving DecidableEq, Repr

/-- The call goes out to the network through a transport: the webfinger
request and the dereference of an ActivityPub document. -/
def Event.isNetwork : Event → Bool
  | .finger _ _ _ => true
  | .dereference _ _ => true
  | _ => false

/-- The call asks the transport for an ActivityPub document. -/
def Event.isDereference : Event → Bool
  | .dereference _ _ => true
  | _ => false

/-- The call uses a transport: creating one, a webfinger request, a
dereference, or media processing that reads through one. -/
def Event.usesTransport : Event → Bool
  | .newTransportForUsername _ => true
  | .finger _ _ _ => true
  | .dereference _ _ => true
  | .preProcessMedia _ _ _ _ _ _ => true
  | .loadAttachment _ => true
  | .getRemoteMedia _ _ _ => true
  | .populateEmojis _ _ => true
  | _ => false

/-- The call writes to the database. -/
def Event.isDbWrite : Event → Bool
  | .dbPutAccount _ => true
  | .dbUpdateAccount _ => true
  | .dbPutStatus _ => true
  | .dbUpdateStatus _ _ => true
  | .dbPutMention _ => true
  | .populateEmojis _ _ => true
  | .getRemoteMedia _ _ _ => true
  | .loadAttachment _ => true
  | _ => false

/-- The call is `db.PutStatus`. -/
def Event.isPutStatus : Event → Bool
  | .dbPutStatus _ => true
  | _ => false

/-- The collaborators.  The fields without a position argument are pure
library functions and configuration; every other field answers the call made
at the given position of the trace. -/
structure Env where
  cfg : Config
  urlParse : String → Res URL
  jsonUnmarshal : Bytes → Res JsonMap
  toType : JsonMap → Res VType
  extractAttributedTo : Statusable → Res URL
  timeNow : Nat → Nat
  newULID : Nat → String
  newULIDFromTime : Nat → Time → Res String
  newRandomULID : Nat → Res String
  dbGetAccountByURI : Nat → String → Res Account
  dbGetAccountByURL : Nat → String → Res Account
  dbGetAccountByUsernameDomain : Nat → String → String → Res Account
  dbPutAccount : Nat → Account → Option Err
  dbUpdateAccount : Nat → Account → Option Err
  dbIsDomainBlocked : Nat → String → Res Bool
  dbIsURIBlocked : Nat → URL → Res Bool
  dbGetStatusByURI : Nat → String → Res Status
  dbGetStatusByURL : Nat → String → Res Status
  dbPutStatus : Nat → Status → Option Err
  dbUpdateStatus : Nat → Status → List String → Option Err
  dbGetAccountPinnedStatuses : Nat → String → Res (List Status)
  dbGetEmojiByID : Nat → String → Res Emoji
  dbPutMention : Nat → Mention → Option Err
  newTransportForUsername : Nat → String → Res Transport
  finger : Nat → Transport → String → String → Res (String × URL)
  dereference : Nat → Transport → URL → Res Bytes
  asRepresentationToAccount : Nat → Accountable → String → Res Account
  asStatusToStatus : Nat → Statusable → Res Status
  preProcessMedia : Nat → Transport → URL → String → Bool → Bool → String → Res ProcessingMedia
  loadAttachment : Nat → ProcessingMedia → Res MediaAttachment
  getRemoteMedia : Nat → String → String → String → Res ProcessingMedia
  populateEmojis : Nat → List Emoji → String → Res (List Emoji)

/-- The two tables of media dereferences in progress, `d.derefAvatars` and
`d.derefHeaders`, keyed by remote URL. -/
structure Tables where
  derefAvatars : List (String × ProcessingMedia) := []
  derefHeaders : List (String × ProcessingMedia) := []
  deriving DecidableEq, Repr

/-- How a run ends: with a value, with a Go panic, or cut off because the
nesting of resolutions went deeper than the depth allowance.  `evs` are the
calls made during the run, oldest first. -/
inductive Outcome (α : Type) where
  | done (a : α) (evs : List Event) (t : Tables)
  | panicked (evs : List Event) (t : Tables)
  | outOfFuel
  deriving DecidableEq, Repr

/-- A computation: given the number of calls made before it starts and the
tables, it makes calls and ends. -/
def M (α : Type) : Type := Nat → Tables → Outcome α

/-- The computation that returns `a` and makes no call. -/
def M.pure {α : Type} (a : α) : M α := fun _ t => Outcome.done a [] t

/-- Sequencing: the second computation starts after the calls of the first; a
panic or a cut-off ends the run. -/
def M.bind {α β : Type} (m : M α) (f : α → M β) : M β := fun pos t =>
  match m pos t with
  | Outcome.done a e1 t1 =>
      match f a (pos + e1.length) t1 with
      | Outcome.done b e2 t2 => Outcome.done b (e1 ++ e2) t2
      | Outcome.panicked e2 t2 => Outcome.panicked (e1 ++ e2) t2
      | Outcome.outOfFuel => Outcome.outOfFuel
  | Outcome.panicked e1 t1 => Outcome.panicked e1 t1
  | Outcome.outOfFuel => Outcome.outOfFuel

instance : Monad M where
  pure := M.pure
  bind := M.bind

/-- A Go panic. -/
def goPanic {α : Type} : M α := fun _ t => Outcome.panicked [] t

/-- The part of a Go `defer` that concerns panics: when the computation is
left by a panic, the deferred call `ev` is made while the stack unwinds and
closes the trace.  On a return the deferred call is made by the computation
itself, as its last call. -/
def deferOnPanic {α : Type} (ev : Event) (m : M α) : M α := fun pos t =>
  match m pos t with
  | Outcome.done a evs t' => Outcome.done a evs t'
  | Outcome.panicked evs t' => Outcome.panicked (evs ++ [ev]) t'
  | Outcome.outOfFuel => Outcome.outOfFuel

/-- The cut-off of a run whose nesting is too deep. -/
def cutOff {α : Type} : M α := fun _ _ => Outcome.outOfFuel

/-- A call to a collaborator: the answer is the environment's at the current
position, and the call is recorded. -/
def call {α : Type} (ev : Event) (answer : Nat → α) : M α := fun pos t =>
  Outcome.done (answer pos) [ev] t

/-- Reads the tables. -/
def getTables : M Tables := fun _ t => Outcome.done t [] t

/-- Replaces the tables. -/
def setTables (t : Tables) : M Unit := fun _ _ => Outcome.done () [] t

/-- Go `time.Now()`. -/
def timeNow (env : Env) : M Time :=
  call Event.timeNow (fun i => Time.ofUnixNano (env.timeNow i))

/-- The type of `d.GetStatus`. -/
abbrev GetStatusFn := String → URL → Bool → Bool → M (Res (Status × Option Statusable))

/-- The type of `d.GetAccountByURI`. -/
abbrev GetAccountFn := String → URL → Bool → M (Res Account)

/-! ## account.go

Where the Go code assigns to a variable on some branches and carries on, the
embedding gives the code that follows a name of its own and calls it from each
branch; the doc comments give the lines. -/

/-- `dereferenceAccountable` (account.go 362-393): GET the document and resolve
it to an actor type.  The type assertions of the switch are unchecked in Go
and panic when the value does not implement the asserted interface. -/
def dereferenceAccountable (env : Env) (transport : Transport) (remoteAccountID : URL) :
    M (Res Accountable) := do
  match ← call (.dereference transport remoteAccountID)
      (fun i => env.dereference i transport remoteAccountID) with
  | .error err => pure (.error (.errorfW "DereferenceAccountable: error deferencing" err))
  | .ok b =>
  match env.jsonUnmarshal b with
  | .error err =>
      pure (.error (.errorfW "DereferenceAccountable: error unmarshalling bytes into json" err))
  | .ok m =>
  match env.toType m with
  | .error err =>
      pure (.error
        (.errorfW "DereferenceAccountable: error resolving json into ap vocab type" err))
  | .ok t =>
  if t.typeName == ActorApplication then
    if t.goType == ActorApplication then pure (.ok t) else goPanic
  else if t.typeName == ActorGroup then
    if t.goType == ActorGroup then pure (.ok t) else goPanic
  else if t.typeName == ActorOrganization then
    if t.goType == ActorOrganization then pure (.ok t) else goPanic
  else if t.typeName == ActorPerson then
    if t.goType == ActorPerson then pure (.ok t) else goPanic
  else if t.typeName == ActorService then
    if t.goType == ActorService then pure (.ok t) else goPanic
  else
    pure (.error (.ErrWrongType
      (.errorf "DereferenceAccountable: type name not supported as Accountable")))

/-- `fetchRemoteAccountAvatar` (account.go 395-446).  A dereference already in
progress for the URL is awaited; otherwise one is registered in
`derefAvatars`, loaded, and removed again on exit. -/
def fetchRemoteAccountAvatar (env : Env) (tsport : Transport) (avatarURL accountID : String) :
    M (Res String) := do
  match env.urlParse avatarURL with
  | .error err => pure (.error err)
  | .ok avatarURI =>
  let t ← getTables
  match t.derefAvatars.lookup avatarURL with
  | some processing =>
      match ← call (.loadAttachment processing) (fun i => env.loadAttachment i processing) with
      | .error err => pure (.error err)
      | .ok _ => pure (.ok processing.AttachmentID)
  | none =>
      match ← call (.preProcessMedia tsport avatarURI accountID true false avatarURL)
          (fun i => env.preProcessMedia i tsport avatarURI accountID true false avatarURL) with
      | .error err => pure (.error err)
      | .ok processing =>
          setTables { t with derefAvatars := (avatarURL, processing) :: t.derefAvatars }
          let loaded ← call (.loadAttachment processing) (fun i => env.loadAttachment i processing)
          let t2 ← getTables
          setTables { t2 with derefAvatars := t2.derefAvatars.filter (fun kv => kv.1 != avatarURL) }
          match loaded with
          | .error err => pure (.error err)
          | .ok _ => pure (.ok processing.AttachmentID)

/-- `fetchRemoteAccountHeader` (account.go 448-499), the same over
`derefHeaders`. -/
def fetchRemoteAccountHeader (env : Env) (tsport : Transport) (headerURL accountID : String) :
    M (Res String) := do
  match env.urlParse headerURL with
  | .error err => pure (.error err)
  | .ok headerURI =>
  let t ← getTables
  match t.derefHeaders.lookup headerURL with
  | some processing =>
      match ← call (.loadAttachment processing) (fun i => env.loadAttachment i processing) with
      | .error err => pure (.error err)
      | .ok _ => pure (.ok processing.AttachmentID)
  | none =>
      match ← call (.preProcessMedia tsport headerURI accountID false true headerURL)
          (fun i => env.preProcessMedia i tsport headerURI accountID false true headerURL) with
      | .error err => pure (.error err)
      | .ok processing =>
          setTables { t with derefHeaders := (headerURL, processing) :: t.derefHeaders }
          let loaded ← call (.loadAttachment processing) (fun i => env.loadAttachment i processing)
          let t2 ← getTables
          setTables { t2 with derefHeaders := t2.derefHeaders.filter (fun kv => kv.1 != headerURL) }
          match loaded with
          | .error err => pure (.error err)
          | .ok _ => pure (.ok processing.AttachmentID)

/-- The loop of `fetchRemoteAccountEmojis` (account.go 512-518) that loads the
emojis of the given IDs from the database, stopping at the first error. -/
def loadMaybeEmojis (env : Env) : List String → List Emoji → M (Res (List Emoji))
  | [], maybeEmojis => pure (.ok maybeEmojis)
  | emojiID :: rest, maybeEmojis => do
      match ← call (.dbGetEmojiByID emojiID) (fun i => env.dbGetEmojiByID i emojiID) with
      | .error err => pure (.error err)
      | .ok maybeEmoji => loadMaybeEmojis env rest (maybeEmojis ++ [maybeEmoji])

/-- The comparison at the end of `fetchRemoteAccountEmojis` (account.go
535-610): returns the target account as left by it, and `changed`. -/
def compareEmojis (targetAccount : Account) (maybeEmojis gotEmojis : List Emoji)
    (gotEmojiIDs : List String) : Account × Bool :=
  let maybeLen := maybeEmojis.length
  let gotLen := gotEmojis.length
  if maybeLen == 0 && gotLen == 0 then
    (targetAccount, false)
  else if maybeLen != gotLen then
    ({ targetAccount with Emojis := gotEmojis, EmojiIDs := gotEmojiIDs }, true)
  else if maybeEmojis.any (fun maybeEmoji =>
      !gotEmojis.any (fun gotEmoji => maybeEmoji.URI == gotEmoji.URI)) then
    ({ targetAccount with Emojis := gotEmojis, EmojiIDs := gotEmojiIDs }, true)
  else if gotEmojis.any (fun gotEmoji =>
      !maybeEmojis.any (fun maybeEmoji =>
        gotEmoji.URI == maybeEmoji.URI && gotEmoji.ID == maybeEmoji.ID)) then
    ({ targetAccount with Emojis := gotEmojis, EmojiIDs := gotEmojiIDs }, true)
  else
    (targetAccount, false)

/-- Lines 502-519 of `fetchRemoteAccountEmojis`: the previously known emojis,
loaded from the database when the account carries more IDs than emojis. -/
def maybeEmojisOf (env : Env) (targetAccount : Account) : M (Res (List Emoji)) :=
  if targetAccount.EmojiIDs.length > targetAccount.Emojis.length then
    loadMaybeEmojis env targetAccount.EmojiIDs []
  else
    pure (.ok targetAccount.Emojis)

/-- `fetchRemoteAccountEmojis` (account.go 501-611): returns the target account
as left by the call, and the Go results `(changed, err)`. -/
def fetchRemoteAccountEmojis (env : Env) (targetAccount : Account) (requestingUsername : String) :
    M (Account × Res Bool) := do
  match ← maybeEmojisOf env targetAccount with
  | .error err => pure (targetAccount, .error err)
  | .ok maybeEmojis =>
  match ← call (.populateEmojis maybeEmojis requestingUsername)
      (fun i => env.populateEmojis i maybeEmojis requestingUsername) with
  | .error err => pure (targetAccount, .error err)
  | .ok gotEmojis =>
      let gotEmojiIDs := gotEmojis.map (fun e => e.ID)
      pure ((compareEmojis targetAccount maybeEmojis gotEmojis gotEmojiIDs).1,
        .ok (compareEmojis targetAccount maybeEmojis gotEmojis gotEmojiIDs).2)

/-- The status URI that `fetchRemoteAccountFeatured` extracts from one item
(account.go 664-684). -/
def featuredStatusURI : Item → Option URL
  | .note id => id
  | .article id => id
  | .other iri => iri

/-- One round of the first loop of `fetchRemoteAccountFeatured` (account.go
663-733): returns the status URIs collected so far. -/
def featuredPinItem (env : Env) (getStatus : GetStatusFn) (requestingUsername : String)
    (uri : URL) (accountID : String) (item : Item) (statusURIs : List URL) : M (List URL) := do
  match featuredStatusURI item with
  | none => pure statusURIs
  | some statusURI =>
  if statusURI.Host != uri.Host then pure statusURIs
  else
  match ← getStatus requestingUsername statusURI false false with
  | .error _ => pure (statusURIs ++ [statusURI])
  | .ok (status, _) =>
  if !status.PinnedAt.IsZero then pure (statusURIs ++ [statusURI])
  else if status.AccountID != accountID then pure (statusURIs ++ [statusURI])
  else if status.BoostOfID != "" then pure (statusURIs ++ [statusURI])
  else do
    let now ← timeNow env
    let _ ← call (.dbUpdateStatus { status with PinnedAt := now } ["pinned_at"])
      (fun i => env.dbUpdateStatus i { status with PinnedAt := now } ["pinned_at"])
    pure (statusURIs ++ [statusURI])

/-- The first loop of `fetchRemoteAccountFeatured` over the ordered items. -/
def featuredPinLoop (env : Env) (getStatus : GetStatusFn) (requestingUsername : String)
    (uri : URL) (accountID : String) : List Item → List URL → M (List URL)
  | [], statusURIs => pure statusURIs
  | item :: items, statusURIs => do
      let statusURIs ← featuredPinItem env getStatus requestingUsername uri accountID item statusURIs
      featuredPinLoop env getStatus requestingUsername uri accountID items statusURIs

/-- The second loop of `fetchRemoteAccountFeatured` (account.go 737-753):
unpins the previously pinned statuses that are not listed. -/
def featuredUnpinLoop (env : Env) (statusURIs : List URL) : List Status → M (Option Err)
  | [] => pure none
  | status :: rest => do
      if statusURIs.any (fun statusURI => status.URI == statusURI.raw) then
        featuredUnpinLoop env statusURIs rest
      else
        match ← call (.dbUpdateStatus { status with PinnedAt := Time.zero } ["pinned_at"])
            (fun i => env.dbUpdateStatus i { status with PinnedAt := Time.zero } ["pinned_at"]) with
        | some err => pure (some (.errorfW "error unpinning status" err))
        | none => featuredUnpinLoop env statusURIs rest

/-- Lines 662-755 of `fetchRemoteAccountFeatured`: pin the listed statuses,
then unpin the previously pinned ones that are not listed. -/
def featuredReconcile (env : Env) (getStatus : GetStatusFn) (requestingUsername : String)
    (uri : URL) (accountID : String) (items : List Item) (wasPinned : List Status) :
    M (Option Err) := do
  let statusURIs ← featuredPinLoop env getStatus requestingUsername uri accountID items []
  featuredUnpinLoop env statusURIs wasPinned

/-- `fetchRemoteAccountFeatured` (account.go 616-756). -/
def fetchRemoteAccountFeatured (env : Env) (getStatus : GetStatusFn)
    (requestingUsername featuredCollectionURI accountID : String) : M (Option Err) := do
  match env.urlParse featuredCollectionURI with
  | .error err => pure (some err)
  | .ok uri =>
  match ← call (.newTransportForUsername requestingUsername)
      (fun i => env.newTransportForUsername i requestingUsername) with
  | .error err => pure (some err)
  | .ok tsport =>
  match ← call (.dereference tsport uri) (fun i => env.dereference i tsport uri) with
  | .error err => pure (some err)
  | .ok b =>
  match env.jsonUnmarshal b with
  | .error err => pure (some (.errorfW "error unmarshalling bytes into json" err))
  | .ok m =>
  match env.toType m with
  | .error err => pure (some (.errorfW "error resolving json into ap vocab type" err))
  | .ok t =>
  if t.typeName != ObjectOrderedCollection then
    pure (some (.errorf "was not an OrderedCollection"))
  else if t.goType != ObjectOrderedCollection then
    pure (some (.errorf "couldn't coerce OrderedCollection"))
  else
  match t.orderedItems with
  | none => pure (some (.errorf "nil orderedItems"))
  | some items =>
  match ← call (.dbGetAccountPinnedStatuses accountID)
      (fun i => env.dbGetAccountPinnedStatuses i accountID) with
  | .error err =>
      if !err.Is .ErrNoEntries then
        pure (some (.errorfW "error getting account pinned statuses" err))
      else
        featuredReconcile env getStatus requestingUsername uri accountID items []
  | .ok wasPinned =>
      featuredReconcile env getStatus requestingUsername uri accountID items wasPinned

/-- `accountDB.UpdateAccount` (bundb/account.go 194-233): stamps `UpdatedAt`
on the account it was given and stores it; returns the account as left by the
call, and the error. -/
def dbUpdateAccount (env : Env) (account : Account) : M (Account × Option Err) := do
  let now ← timeNow env
  let err ← call (.dbUpdateAccount { account with UpdatedAt := now })
    (fun i => env.dbUpdateAccount i { account with UpdatedAt := now })
  pure ({ account with UpdatedAt := now }, err)

/-- Lines 222-253 of `enrichAccount`: the webfinger made after the fetch when
no username was known before it; returns `latestAcc` with its domain set. -/
def enrichAccountFingerLatest (env : Env) (transport : Transport) (account : Account)
    (apubAcc : Accountable) (latestAcc : Account) : M (Res Account) := do
  if account.Username == "" then
    match apubAcc.id with
    | none =>
        pure (.error
          (.errorf "enrichAccount: no id property found on person, or id was not an iri"))
    | some idIRI =>
        match ← call (.finger transport latestAcc.Username idIRI.Host)
            (fun i => env.finger i transport latestAcc.Username idIRI.Host) with
        | .error _ => pure (.ok { latestAcc with Domain := idIRI.Host })
        | .ok (accDomain, _) => pure (.ok { latestAcc with Domain := accDomain })
  else
    pure (.ok latestAcc)

/-- Lines 263-282 of `enrichAccount`: the avatar. -/
def enrichAccountAvatar (env : Env) (transport : Transport) (account : Account)
    (latestAcc : Account) : M Account := do
  if latestAcc.AvatarRemoteURL != account.AvatarRemoteURL then
    if latestAcc.AvatarRemoteURL != "" then
      match ← fetchRemoteAccountAvatar env transport latestAcc.AvatarRemoteURL latestAcc.ID with
      | .error _ =>
          pure { latestAcc with
            AvatarMediaAttachmentID := account.AvatarMediaAttachmentID,
            AvatarRemoteURL := account.AvatarRemoteURL }
      | .ok attachmentID => pure { latestAcc with AvatarMediaAttachmentID := attachmentID }
    else
      pure { latestAcc with AvatarMediaAttachmentID := "" }
  else
    pure latestAcc

/-- Lines 284-303 of `enrichAccount`: the header. -/
def enrichAccountHeader (env : Env) (transport : Transport) (account : Account)
    (latestAcc : Account) : M Account := do
  if latestAcc.HeaderRemoteURL != account.HeaderRemoteURL then
    if latestAcc.HeaderRemoteURL != "" then
      match ← fetchRemoteAccountHeader env transport latestAcc.HeaderRemoteURL latestAcc.ID with
      | .error _ =>
          pure { latestAcc with
            HeaderMediaAttachmentID := account.HeaderMediaAttachmentID,
            HeaderRemoteURL := account.HeaderRemoteURL }
      | .ok attachmentID => pure { latestAcc with HeaderMediaAttachmentID := attachmentID }
    else
      pure { latestAcc with HeaderMediaAttachmentID := "" }
  else
    pure latestAcc

/-- Lines 310-341 of `enrichAccount`: insert the new account, re-reading the
stored one when it already exists, or update the existing one. -/
def enrichAccountStore (env : Env) (account : Account) (latestAcc : Account) :
    M (Res Account) := do
  if account.CreatedAt.IsZero then
    match ← call
        (.dbPutAccount { latestAcc with
          CreatedAt := latestAcc.FetchedAt, UpdatedAt := latestAcc.FetchedAt })
        (fun i => env.dbPutAccount i { latestAcc with
          CreatedAt := latestAcc.FetchedAt, UpdatedAt := latestAcc.FetchedAt }) with
    | none =>
        pure (.ok { latestAcc with
          CreatedAt := latestAcc.FetchedAt, UpdatedAt := latestAcc.FetchedAt })
    | some err =>
        if err.Is .ErrAlreadyExists then
          match ← call (.dbGetAccountByURI latestAcc.URI)
              (fun i => env.dbGetAccountByURI i latestAcc.URI) with
          | .error err2 =>
              pure (.error (.errorfW "enrichAccount: error putting in database" err2))
          | .ok stored => pure (.ok stored)
        else
          pure (.error (.errorfW "enrichAccount: error putting in database" err))
  else
    let updated ← dbUpdateAccount env { latestAcc with
      UpdatedAt := latestAcc.FetchedAt,
      CreatedAt := account.CreatedAt,
      Language := account.Language }
    match updated.2 with
    | some err => pure (.error (.errorfW "enrichAccount: error updating database" err))
    | none => pure (.ok updated.1)

/-- Lines 208-341 of `enrichAccount`: dereference the account, convert it,
webfinger it when no username was known, refresh avatar, header and emojis,
and store it. -/
def enrichAccountLatest (env : Env) (requestUser : String)
    (transport : Transport) (uri : URL) (account : Account) : M (Res Account) := do
  match ← dereferenceAccountable env transport uri with
  | .error err => pure (.error (.errorfW "enrichAccount: error dereferencing account" err))
  | .ok apubAcc =>
  match ← call (.asRepresentationToAccount apubAcc account.Domain)
      (fun i => env.asRepresentationToAccount i apubAcc account.Domain) with
  | .error err =>
      pure (.error (.errorfW "enrichAccount: error converting accountable to gts model" err))
  | .ok converted =>
  match ← enrichAccountFingerLatest env transport account apubAcc converted with
  | .error err => pure (.error err)
  | .ok fingered =>
  let now ← timeNow env
  let withAvatar ← enrichAccountAvatar env transport account
    { fingered with
      ID := account.ID,
      FetchedAt := now,
      AvatarMediaAttachmentID := account.AvatarMediaAttachmentID,
      HeaderMediaAttachmentID := account.HeaderMediaAttachmentID }
  let withHeader ← enrichAccountHeader env transport account withAvatar
  let emojis ← fetchRemoteAccountEmojis env withHeader requestUser
  enrichAccountStore env account emojis.1

/-- Lines 204-355 of `enrichAccount`: the handshake is marked as started, the
account is brought up to date and stored, the featured collection of the
stored account is fetched, and the deferred `stopHandshake` (lines 205-206)
runs on every return and, by `deferOnPanic`, when the function is left by a
panic. -/
def enrichAccountDeref (env : Env) (getStatus : GetStatusFn) (requestUser : String)
    (transport : Transport) (uri : URL) (account : Account) : M (Res Account) := do
  call (.startHandshake requestUser uri) (fun _ => ())
  deferOnPanic (.stopHandshake requestUser uri) (do
    match ← enrichAccountLatest env requestUser transport uri account with
    | .error err =>
        call (.stopHandshake requestUser uri) (fun _ => ())
        pure (.error err)
    | .ok latestAcc =>
        if latestAcc.FeaturedCollectionURI != "" then
          let _ ← fetchRemoteAccountFeatured env getStatus requestUser
            latestAcc.FeaturedCollectionURI latestAcc.ID
          call (.stopHandshake requestUser uri) (fun _ => ())
          pure (.ok latestAcc)
        else
          call (.stopHandshake requestUser uri) (fun _ => ())
          pure (.ok latestAcc))

/-- Lines 154-185 of `enrichAccount`: the webfinger made before the fetch when
a username is known.  Returns the caller's account object as left by these
lines, the account that `account` now points to, and `uri`. -/
def enrichAccountFinger (env : Env) (transport : Transport) (uri : Option URL)
    (account : Account) : M (Res (Account × Account × Option URL)) := do
  if account.Username != "" then
    match ← call (.finger transport account.Username account.Domain)
        (fun i => env.finger i transport account.Username account.Domain) with
    | .error err =>
        if account.URI == "" then
          pure (.error (.errorfW "enrichAccount: error webfingering account" err))
        else
          pure (.ok (account, account, uri))
    | .ok (accDomain, accURI) =>
        if account.Domain != accDomain then
          match ← call (.dbGetAccountByUsernameDomain account.Username accDomain)
              (fun i => env.dbGetAccountByUsernameDomain i account.Username accDomain) with
          | .error err =>
              if !err.Is .ErrNoEntries then
                pure (.error
                  (.errorfW "enrichAccount: db err looking for account again after webfinger" err))
              else
                pure (.ok ({ account with URI := accURI.raw, Domain := accDomain },
                  { account with URI := accURI.raw, Domain := accDomain }, some accURI))
          | .ok alreadyAccount =>
              pure (.ok (account,
                { alreadyAccount with URI := accURI.raw, Domain := accDomain }, some accURI))
        else
          pure (.ok ({ account with URI := accURI.raw, Domain := accDomain },
            { account with URI := accURI.raw, Domain := accDomain }, some accURI))
  else
    pure (.ok (account, account, uri))

/-- Lines 187-195 of `enrichAccount`: the URI to dereference, parsed from the
account when none was provided or found. -/
def enrichAccountURI (env : Env) (uri : Option URL) (account : Account) : Res URL :=
  match uri with
  | some u => .ok u
  | none => env.urlParse account.URI

/-- Lines 148-355 of `enrichAccount`: what follows the three early returns. -/
def enrichAccountFetch (env : Env) (getStatus : GetStatusFn) (requestUser : String)
    (uri : Option URL) (account : Account) : M (Account × Res Account) := do
  match ← call (.newTransportForUsername requestUser)
      (fun i => env.newTransportForUsername i requestUser) with
  | .error err =>
      pure (account, .error (.errorfW "enrichAccount: couldn't create transport" err))
  | .ok transport =>
  match ← enrichAccountFinger env transport uri account with
  | .error err => pure (account, .error err)
  | .ok (caller, current, found) =>
  match enrichAccountURI env found current with
  | .error err => pure (caller, .error (.errorfW "enrichAccount: invalid uri" err))
  | .ok target =>
  match ← call (.dbIsDomainBlocked target.Host)
      (fun i => env.dbIsDomainBlocked i target.Host) with
  | .error err =>
      pure (caller, .error
        (.ErrDB (.errorfW "enrichAccount: error checking blocked domain" err)))
  | .ok blocked =>
  if blocked then
    pure (caller, .error (.blocked "enrichAccount" target.Host))
  else do
    let r ← enrichAccountDeref env getStatus requestUser transport target current
    pure (caller, r)

set_option linter.unusedVariables false in
/-- `enrichAccount` (account.go 128-356).  `uri` is `none` for a nil URI.
Returns the caller's account object as left by the call, and the Go results. -/
def enrichAccount (env : Env) (getStatus : GetStatusFn) (requestUser : String)
    (uri : Option URL) (account : Account) (force block : Bool) :
    M (Account × Res Account) := do
  if account.IsLocal env.cfg then
    pure (account, .ok account)
  else if !account.CreatedAt.IsZero && account.IsInstance then
    pure (account, .ok account)
  else if !force then
    let now ← timeNow env
    if now.Before (account.FetchedAt.Add (Hour * 48)) then
      pure (account, .ok account)
    else
      enrichAccountFetch env getStatus requestUser uri account
  else
    enrichAccountFetch env getStatus requestUser uri account

/-- Lines 62-74 of `GetAccountByURI`: no account was found; `err` is the error
of the last database lookup. -/
def GetAccountByURINew (env : Env) (getStatus : GetStatusFn) (requestUser : String)
    (uri : URL) (err : Err) : M (Res Account) := do
  if uri.Host == env.cfg.Host || uri.Host == env.cfg.AccountDomain then
    pure (.error (.ErrNotRetrievable err))
  else
    let newID ← call .newULID env.newULID
    let r ← enrichAccount env getStatus requestUser (some uri)
      { ID := newID, Domain := uri.Host, URI := uri.raw } false true
    pure r.2

/-- Lines 76-83 of `GetAccountByURI`: an account was found. -/
def GetAccountByURIFound (env : Env) (getStatus : GetStatusFn) (requestUser : String)
    (uri : URL) (account : Account) (block : Bool) : M (Res Account) := do
  let r ← enrichAccount env getStatus requestUser (some uri) account false block
  match r.2 with
  | .error _ => pure (.ok r.1)
  | .ok enriched => pure (.ok enriched)

/-- `GetAccountByURI` (account.go 41-84), with the nested `d.GetStatus` as a
parameter. -/
def GetAccountByURIBody (env : Env) (getStatus : GetStatusFn) (requestUser : String)
    (uri : URL) (block : Bool) : M (Res Account) := do
  match ← call (.dbGetAccountByURI uri.raw) (fun i => env.dbGetAccountByURI i uri.raw) with
  | .ok account => GetAccountByURIFound env getStatus requestUser uri account block
  | .error err =>
      if !err.Is .ErrNoEntries then
        pure (.error
          (.errorfW "GetAccountByURI: error checking database for account by uri" err))
      else
        match ← call (.dbGetAccountByURL uri.raw) (fun i => env.dbGetAccountByURL i uri.raw) with
        | .ok account => GetAccountByURIFound env getStatus requestUser uri account block
        | .error err =>
            if !err.Is .ErrNoEntries then
              pure (.error
                (.errorfW "GetAccountByURI: error checking database for account by url" err))
            else
              GetAccountByURINew env getStatus requestUser uri err

/-- `GetAccountByUsernameDomain` (account.go 86-121), with the nested
`d.GetStatus` as a parameter. -/
def GetAccountByUsernameDomainBody (env : Env) (getStatus : GetStatusFn) (requestUser : String)
    (username domain : String) (block : Bool) : M (Res Account) := do
  let domain :=
    if domain == env.cfg.Host || domain == env.cfg.AccountDomain then "" else domain
  match ← call (.dbGetAccountByUsernameDomain username domain)
      (fun i => env.dbGetAccountByUsernameDomain i username domain) with
  | .error err =>
      if !err.Is .ErrNoEntries then
        pure (.error
          (.errorfW "GetAccountByUsernameDomain: error checking database for account" err))
      else if domain == "" then
        pure (.error (.ErrNotRetrievable err))
      else
        let newID ← call .newULID env.newULID
        let r ← enrichAccount env getStatus requestUser none
          { ID := newID, Username := username, Domain := domain } false true
        pure r.2
  | .ok account =>
      let r ← enrichAccount env getStatus requestUser none account false block
      match r.2 with
      | .error _ => pure (.ok r.1)
      | .ok enriched => pure (.ok enriched)

/-- `UpdateAccount` (account.go 123-125), with the nested `d.GetStatus` as a
parameter. -/
def UpdateAccountBody (env : Env) (getStatus : GetStatusFn) (requestUser : String)
    (account : Account) (force : Bool) : M (Account × Res Account) :=
  enrichAccount env getStatus requestUser none account force false

/-! ## status.go -/

/-- One case of the type switch of `dereferenceStatusable`: the checked type
assertion. -/
def resolveStatusableAs (t : VType) (name : String) : Res Statusable :=
  if t.goType == name then .ok t
  else .error (.errorf ("DereferenceStatusable: error resolving type as ActivityStreams" ++ name))

/-- The condition `blocked || err != nil` of `dereferenceStatusable`. -/
def blockedOrErr (answer : Res Bool) : Bool :=
  match answer with
  | .ok blocked => blocked
  | .error _ => true

/-- `dereferenceStatusable` (status.go 157-236). -/
def dereferenceStatusable (env : Env) (tsport : Transport) (remoteStatusID : URL) :
    M (Res Statusable) := do
  let answer ← call (.dbIsDomainBlocked remoteStatusID.Host)
    (fun i => env.dbIsDomainBlocked i remoteStatusID.Host)
  if blockedOrErr answer then
    pure (.error (.blocked "DereferenceStatusable" remoteStatusID.Host))
  else
  match ← call (.dereference tsport remoteStatusID)
      (fun i => env.dereference i tsport remoteStatusID) with
  | .error _ => pure (.error (.errorf "DereferenceStatusable: error deferencing"))
  | .ok b =>
  match env.jsonUnmarshal b with
  | .error _ =>
      pure (.error (.errorf "DereferenceStatusable: error unmarshalling bytes into json"))
  | .ok m =>
  match env.toType m with
  | .error _ =>
      pure (.error (.errorf "DereferenceStatusable: error resolving json into ap vocab type"))
  | .ok t =>
  if t.typeName == ObjectArticle then pure (resolveStatusableAs t ObjectArticle)
  else if t.typeName == ObjectDocument then pure (resolveStatusableAs t ObjectDocument)
  else if t.typeName == ObjectImage then pure (resolveStatusableAs t ObjectImage)
  else if t.typeName == ObjectVideo then pure (resolveStatusableAs t ObjectVideo)
  else if t.typeName == ObjectNote then pure (resolveStatusableAs t ObjectNote)
  else if t.typeName == ObjectPage then pure (resolveStatusableAs t ObjectPage)
  else if t.typeName == ObjectEvent then pure (resolveStatusableAs t ObjectEvent)
  else if t.typeName == ObjectPlace then pure (resolveStatusableAs t ObjectPlace)
  else if t.typeName == ObjectProfile then pure (resolveStatusableAs t ObjectProfile)
  else
    pure (.error (.ErrWrongType
      (.errorf "DereferenceStatusable: type name not supported as Statusable")))

/-- One round of the loop of `populateStatusAttachments` (status.go 410-434):
returns the attachment IDs and attachments collected so far. -/
def populateStatusAttachment (env : Env) (status : Status) (requestingUsername : String)
    (a : MediaAttachment) (acc : List String × List MediaAttachment) :
    M (List String × List MediaAttachment) := do
  match ← call (.getRemoteMedia requestingUsername status.AccountID a.RemoteURL)
      (fun i => env.getRemoteMedia i requestingUsername status.AccountID a.RemoteURL) with
  | .error _ => pure acc
  | .ok processingMedia =>
  match ← call (.loadAttachment processingMedia)
      (fun i => env.loadAttachment i processingMedia) with
  | .error _ => pure acc
  | .ok attachment => pure (acc.1 ++ [attachment.ID], acc.2 ++ [attachment])

/-- The loop of `populateStatusAttachments`. -/
def populateStatusAttachmentsLoop (env : Env) (status : Status) (requestingUsername : String) :
    List MediaAttachment → List String × List MediaAttachment →
    M (List String × List MediaAttachment)
  | [], acc => pure acc
  | a :: rest, acc => do
      let acc ← populateStatusAttachment env status requestingUsername a acc
      populateStatusAttachmentsLoop env status requestingUsername rest acc

/-- `populateStatusAttachments` (status.go 400-440): returns the status as left
by the call, and the error. -/
def populateStatusAttachments (env : Env) (status : Status) (requestingUsername : String) :
    M (Status × Option Err) := do
  let r ← populateStatusAttachmentsLoop env status requestingUsername status.Attachments ([], [])
  pure ({ status with AttachmentIDs := r.1, Attachments := r.2 }, none)

/-- `populateStatusEmojis` (status.go 442-456). -/
def populateStatusEmojis (env : Env) (status : Status) (requestingUsername : String) :
    M (Status × Option Err) := do
  match ← call (.populateEmojis status.Emojis requestingUsername)
      (fun i => env.populateEmojis i status.Emojis requestingUsername) with
  | .error err => pure (status, some err)
  | .ok emojis =>
      pure ({ status with Emojis := emojis, EmojiIDs := emojis.map (fun e => e.ID) }, none)

/-- Lines 365-391 of `populateStatusMentions`: the target account is known;
create the mention and store it. -/
def populateStatusMentionNew (env : Env) (status : Status) (m : Mention)
    (targetAccount : Account) (acc : List String × List Mention) :
    M (Res (List String × List Mention)) := do
  match ← call .newRandomULID env.newRandomULID with
  | .error _ => pure (.error (.errorf "populateStatusMentions: error generating ulid"))
  | .ok mID =>
  let newMention : Mention := {
    ID := mID,
    StatusID := status.ID,
    CreatedAt := status.CreatedAt,
    UpdatedAt := status.UpdatedAt,
    OriginAccountID := status.AccountID,
    OriginAccountURI := status.AccountURI,
    TargetAccountID := targetAccount.ID,
    NameString := m.NameString,
    TargetAccountURI := targetAccount.URI,
    TargetAccountURL := targetAccount.URL }
  match ← call (.dbPutMention newMention) (fun i => env.dbPutMention i newMention) with
  | some _ => pure (.error (.errorf "populateStatusMentions: error creating mention"))
  | none => pure (.ok (acc.1 ++ [newMention.ID], acc.2 ++ [newMention]))

/-- One round of the loop of `populateStatusMentions` (status.go 318-392):
returns the mention IDs and mentions collected so far, or the error that ends
the function. -/
def populateStatusMention (env : Env) (getAccountByURI : GetAccountFn) (status : Status)
    (requestingUsername : String) (m : Mention) (acc : List String × List Mention) :
    M (Res (List String × List Mention)) := do
  if m.ID != "" then
    pure (.ok (acc.1 ++ [m.ID], acc.2 ++ [m]))
  else if m.TargetAccountURI == "" then
    pure (.ok acc)
  else
  match env.urlParse m.TargetAccountURI with
  | .error _ => pure (.ok acc)
  | .ok targetAccountURI =>
  match ← call (.dbGetAccountByURI targetAccountURI.raw)
      (fun i => env.dbGetAccountByURI i targetAccountURI.raw) with
  | .ok a => populateStatusMentionNew env status m a acc
  | .error _ =>
      match ← getAccountByURI requestingUsername targetAccountURI false with
      | .error _ => pure (.ok acc)
      | .ok a => populateStatusMentionNew env status m a acc

/-- The loop of `populateStatusMentions`. -/
def populateStatusMentionsLoop (env : Env) (getAccountByURI : GetAccountFn) (status : Status)
    (requestingUsername : String) :
    List Mention → List String × List Mention → M (Res (List String × List Mention))
  | [], acc => pure (.ok acc)
  | m :: rest, acc => do
      match ← populateStatusMention env getAccountByURI status requestingUsername m acc with
      | .error err => pure (.error err)
      | .ok acc => populateStatusMentionsLoop env getAccountByURI status requestingUsername rest acc

/-- `populateStatusMentions` (status.go 312-398): returns the status as left by
the call, and the error. -/
def populateStatusMentions (env : Env) (getAccountByURI : GetAccountFn) (status : Status)
    (requestingUsername : String) : M (Status × Option Err) := do
  match ← populateStatusMentionsLoop env getAccountByURI status requestingUsername
      status.Mentions ([], []) with
  | .error err => pure (status, some err)
  | .ok r => pure ({ status with MentionIDs := r.1, Mentions := r.2 }, none)

/-- `populateStatusRepliedTo` (status.go 458-478). -/
def populateStatusRepliedTo (env : Env) (getStatus : GetStatusFn) (status : Status)
    (requestingUsername : String) : M (Status × Option Err) := do
  if status.InReplyToURI != "" && status.InReplyToID == "" then
    match env.urlParse status.InReplyToURI with
    | .error err => pure (status, some err)
    | .ok statusURI =>
    match ← getStatus requestingUsername statusURI false false with
    | .error _ =>
        pure (status, some
          (.errorf "populateStatusRepliedTo: couldn't get reply to status"))
    | .ok (replyToStatus, _) =>
        pure ({ status with
          InReplyToID := replyToStatus.ID,
          InReplyToAccountID := replyToStatus.AccountID }, none)
  else
    pure (status, none)

/-- Lines 274-281 of `populateStatusFields`: give the status an ID when it has
none. -/
def populateStatusID (env : Env) (status : Status) : M (Res Status) := do
  if status.ID == "" then
    match ← call (.newULIDFromTime status.CreatedAt)
        (fun i => env.newULIDFromTime i status.CreatedAt) with
    | .error _ => pure (.error (.errorf "populateStatusFields: error creating ulid for status"))
    | .ok newID => pure (.ok { status with ID := newID })
  else
    pure (.ok status)

/-- `populateStatusFields` (status.go 260-310): returns the status as left by
the call, and the error. -/
def populateStatusFields (env : Env) (getAccountByURI : GetAccountFn) (getStatus : GetStatusFn)
    (status : Status) (requestingUsername : String) (includeParent : Bool) :
    M (Status × Option Err) := do
  match env.urlParse status.URI with
  | .error _ =>
      pure (status, some (.errorf "populateStatusFields: couldn't parse status URI"))
  | .ok statusIRI =>
  match ← call (.dbIsURIBlocked statusIRI) (fun i => env.dbIsURIBlocked i statusIRI) with
  | .error _ =>
      pure (status, some (.errorf "populateStatusFields: error checking blocked status"))
  | .ok blocked =>
  if blocked then
    pure (status, some (.blocked "populateStatusFields" statusIRI.raw))
  else
  match ← populateStatusID env status with
  | .error err => pure (status, some err)
  | .ok withID =>
  let attached ← populateStatusAttachments env withID requestingUsername
  if attached.2.isSome then
    pure (attached.1,
      some (.errorf "populateStatusFields: error populating status attachments"))
  else
  let emojis ← populateStatusEmojis env attached.1 requestingUsername
  if emojis.2.isSome then
    pure (emojis.1, some (.errorf "populateStatusFields: error populating status emojis"))
  else
  let mentions ← populateStatusMentions env getAccountByURI emojis.1 requestingUsername
  if mentions.2.isSome then
    pure (mentions.1, some (.errorf "populateStatusFields: error populating status mentions"))
  else if includeParent then
    let replied ← populateStatusRepliedTo env getStatus mentions.1 requestingUsername
    if replied.2.isSome then
      pure (replied.1,
        some (.errorf "populateStatusFields: error populating status repliedTo"))
    else
      pure (replied.1, none)
  else
    pure (mentions.1, none)

/-- `EnrichRemoteStatus` (status.go 45-53), with the nested resolutions as
parameters. -/
def EnrichRemoteStatusBody (env : Env) (getAccountByURI : GetAccountFn) (getStatus : GetStatusFn)
    (username : String) (status : Status) (includeParent : Bool) : M (Status × Res Status) := do
  let populated ← populateStatusFields env getAccountByURI getStatus status username includeParent
  match populated.2 with
  | some err => pure (populated.1, .error err)
  | none =>
  match ← call (.dbUpdateStatus populated.1 [])
      (fun i => env.dbUpdateStatus i populated.1 []) with
  | some err => pure (populated.1, .error err)
  | none => pure (populated.1, .ok populated.1)

/-- Lines 135-154 of `GetStatus`: the author of the new status is known;
convert the status, populate it and insert it. -/
def GetStatusStore (env : Env) (getAccountByURI : GetAccountFn) (getStatus : GetStatusFn)
    (username : String) (statusable : Statusable) (includeParent : Bool) :
    M (Res (Status × Option Statusable)) := do
  match ← call (.asStatusToStatus statusable) (fun i => env.asStatusToStatus i statusable) with
  | .error _ =>
      pure (.error
        (.ErrOther (.errorf "GetRemoteStatus: error converting statusable to status")))
  | .ok converted =>
  match ← call (.newULIDFromTime converted.CreatedAt)
      (fun i => env.newULIDFromTime i converted.CreatedAt) with
  | .error _ =>
      pure (.error (.ErrOther (.errorf "GetRemoteStatus: error generating new id for status")))
  | .ok ulid =>
  let populated ← populateStatusFields env getAccountByURI getStatus
    { converted with ID := ulid } username includeParent
  if populated.2.isSome then
    pure (.error (.ErrOther (.errorf "GetRemoteStatus: error populating status fields")))
  else
  match ← call (.dbPutStatus populated.1) (fun i => env.dbPutStatus i populated.1) with
  | some err =>
      if !err.Is .ErrAlreadyExists then
        pure (.error (.ErrDB (.errorf "GetRemoteStatus: error putting new status")))
      else
        pure (.ok (populated.1, some statusable))
  | none => pure (.ok (populated.1, some statusable))

/-- Lines 124-154 of `GetStatus`: the status is new; resolve its author, then
convert, populate and insert the status. -/
def GetStatusNew (env : Env) (getAccountByURI : GetAccountFn) (getStatus : GetStatusFn)
    (username : String) (statusable : Statusable) (includeParent : Bool) :
    M (Res (Status × Option Statusable)) := do
  match env.extractAttributedTo statusable with
  | .error err =>
      pure (.error (.ErrOther (.errorfW "GetRemoteStatus: error extracting attributedTo" err)))
  | .ok accountURI =>
  match ← getAccountByURI username accountURI true with
  | .error _ => pure (.error (.ErrOther (.errorf "GetRemoteStatus: couldn't get status author")))
  | .ok _ => GetStatusStore env getAccountByURI getStatus username statusable includeParent

/-- Lines 97-154 of `GetStatus`: what follows the two database lookups;
`status` is the status found by them, if any. -/
def GetStatusFetch (env : Env) (getAccountByURI : GetAccountFn) (getStatus : GetStatusFn)
    (username : String) (statusURI : URL) (refetch includeParent : Bool)
    (status : Option Status) : M (Res (Status × Option Statusable)) := do
  if statusURI.Host == env.cfg.Host || statusURI.Host == env.cfg.AccountDomain then
    match status with
    | some found => pure (.ok (found, none))
    | none =>
        pure (.error (.ErrNotRetrievable
          (.errorf "GetRemoteStatus: uri is apparently ours, but we have nothing in the db for it, will not proceed to dereference our own status")))
  else
  match ← call (.newTransportForUsername username)
      (fun i => env.newTransportForUsername i username) with
  | .error err =>
      pure (.error
        (.ErrTransportError (.errorfW "GetRemoteStatus: error creating transport" err)))
  | .ok tsport =>
  match ← dereferenceStatusable env tsport statusURI with
  | .error derefErr =>
      pure (.error (.wrapDerefError derefErr "GetRemoteStatus: error dereferencing statusable"))
  | .ok statusable =>
  match status with
  | some found =>
      if refetch then
        pure (.ok (found, some statusable))
      else
        GetStatusNew env getAccountByURI getStatus username statusable includeParent
  | none => GetStatusNew env getAccountByURI getStatus username statusable includeParent

/-- `GetStatus` (status.go 66-155), with the nested `d.GetAccountByURI` and
`d.GetStatus` as parameters. -/
def GetStatusBody (env : Env) (getAccountByURI : GetAccountFn) (getStatus : GetStatusFn)
    (username : String) (statusURI : URL) (refetch includeParent : Bool) :
    M (Res (Status × Option Statusable)) := do
  match ← call (.dbGetStatusByURI statusURI.raw)
      (fun i => env.dbGetStatusByURI i statusURI.raw) with
  | .ok found =>
      if !refetch then
        pure (.ok (found, none))
      else
        GetStatusFetch env getAccountByURI getStatus username statusURI refetch includeParent
          (some found)
  | .error dbErr =>
      if !dbErr.Is .ErrNoEntries then
        pure (.error (.ErrDB (.errorfW "GetRemoteStatus: error during GetStatusByURI" dbErr)))
      else
        match ← call (.dbGetStatusByURL statusURI.raw)
            (fun i => env.dbGetStatusByURL i statusURI.raw) with
        | .ok found =>
            if !refetch then
              pure (.ok (found, none))
            else
              GetStatusFetch env getAccountByURI getStatus username statusURI refetch
                includeParent (some found)
        | .error dbErr =>
            if !dbErr.Is .ErrNoEntries then
              pure (.error
                (.ErrDB (.errorfW "GetRemoteStatus: error during GetStatusByURI" dbErr)))
            else
              GetStatusFetch env getAccountByURI getStatus username statusURI refetch
                includeParent none

/-! ## The nesting of resolutions -/

/-- The two entry points that call each other. -/
structure Derefs where
  GetAccountByURI : GetAccountFn
  GetStatus : GetStatusFn

/-- The entry points with nested resolutions allowed down to the given depth:
at depth 0 every resolution is cut off. -/
def derefs (env : Env) : Nat → Derefs
  | 0 => ⟨fun _ _ _ => cutOff, fun _ _ _ _ => cutOff⟩
  | depth + 1 =>
      ⟨GetAccountByURIBody env (derefs env depth).GetStatus,
       GetStatusBody env (derefs env depth).GetAccountByURI (derefs env depth).GetStatus⟩

/-- `GetAccountByURI` with nesting depth `depth`. -/
def GetAccountByURI (env : Env) (depth : Nat) : GetAccountFn :=
  (derefs env depth).GetAccountByURI

/-- `GetStatus` with nesting depth `depth`. -/
def GetStatus (env : Env) (depth : Nat) : GetStatusFn :=
  (derefs env depth).GetStatus

/-- `GetAccountByUsernameDomain` with nesting depth `depth`. -/
def GetAccountByUsernameDomain (env : Env) (depth : Nat) (requestUser username domain : String)
    (block : Bool) : M (Res Account) :=
  match depth with
  | 0 => cutOff
  | depth + 1 =>
      GetAccountByUsernameDomainBody env (GetStatus env depth) requestUser username domain block

/-- `UpdateAccount` with nesting depth `depth`. -/
def UpdateAccount (env : Env) (depth : Nat) (requestUser : String) (account : Account)
    (force : Bool) : M (Account × Res Account) :=
  match depth with
  | 0 => cutOff
  | depth + 1 => UpdateAccountBody env (GetStatus env depth) requestUser account force

/-- `EnrichRemoteStatus` with nesting depth `depth`. -/
def EnrichRemoteStatus (env : Env) (depth : Nat) (username : String) (status : Status)
    (includeParent : Bool) : M (Status × Res Status) :=
  match depth with
  | 0 => cutOff
  | depth + 1 =>
      EnrichRemoteStatusBody env (GetAccountByURI env depth) (GetStatus env depth)
        username status includeParent

/-! ## Concrete environments

Explicit collaborators and records, on which the embedded code is evaluated. -/

/-- The instance `local.example` with an empty database: nothing is stored or
blocked, no URL parses, no document decodes, and every call to the network
fails; the clock stands 100 hours after the Unix epoch. -/
def emptyEnv : Env where
  cfg := ⟨"local.example", "local.example"⟩
  urlParse := fun _ => .error (.external 1)
  jsonUnmarshal := fun _ => .error (.external 2)
  toType := fun _ => .error (.external 3)
  extractAttributedTo := fun _ => .error (.external 4)
  timeNow := fun _ => 360000000000000
  newULID := fun _ => "01N"
  newULIDFromTime := fun _ _ => .ok "01T"
  newRandomULID := fun _ => .ok "01R"
  dbGetAccountByURI := fun _ _ => .error .ErrNoEntries
  dbGetAccountByURL := fun _ _ => .error .ErrNoEntries
  dbGetAccountByUsernameDomain := fun _ _ _ => .error .ErrNoEntries
  dbPutAccount := fun _ _ => none
  dbUpdateAccount := fun _ _ => none
  dbIsDomainBlocked := fun _ _ => .ok false
  dbIsURIBlocked := fun _ _ => .ok false
  dbGetStatusByURI := fun _ _ => .error .ErrNoEntries
  dbGetStatusByURL := fun _ _ => .error .ErrNoEntries
  dbPutStatus := fun _ _ => none
  dbUpdateStatus := fun _ _ _ => none
  dbGetAccountPinnedStatuses := fun _ _ => .error .ErrNoEntries
  dbGetEmojiByID := fun _ _ => .error .ErrNoEntries
  dbPutMention := fun _ _ => none
  newTransportForUsername := fun _ _ => .ok ⟨0⟩
  finger := fun _ _ _ _ => .error (.external 5)
  dereference := fun _ _ _ => .error (.external 6)
  asRepresentationToAccount := fun _ _ _ => .error (.external 7)
  asStatusToStatus := fun _ _ => .error (.external 8)
  preProcessMedia := fun _ _ _ _ _ _ _ => .error (.external 9)
  loadAttachment := fun _ _ => .error (.external 10)
  getRemoteMedia := fun _ _ _ _ => .error (.external 11)
  populateEmojis := fun _ _ _ => .error (.external 12)

/-- The remote account `alice@remote.example`, created long ago and fetched
at the given instant. -/
def aliceFetchedAt (fetchedAt : Time) : Account :=
  { ID := "01A", CreatedAt := ⟨1⟩, FetchedAt := fetchedAt, Username := "alice",
    Domain := "remote.example", URI := "https://remote.example/users/alice",
    FollowingURI := "https://remote.example/users/alice/following",
    FollowersURI := "https://remote.example/users/alice/followers" }

/-- The actor URI `https://remote.example/users/bob`. -/
def bobURI : URL := ⟨"remote.example", "https://remote.example/users/bob"⟩

/-- The remote account `alice@remote.example`, last fetched at the Unix epoch,
whose profile `url` points at the local host. -/
def spoofedAlice : Account :=
  { aliceFetchedAt (Time.ofUnixNano 0) with URL := "https://local.example/@alice" }

/-- The URI `https://local.example/@alice`, on the local host. -/
def spoofURI : URL := ⟨"local.example", "https://local.example/@alice"⟩

/-- The instance `local.example` whose database holds `spoofedAlice`, found by
her URL. -/
def spoofEnv : Env :=
  { emptyEnv with
    dbGetAccountByURL := fun _ url =>
      if url == "https://local.example/@alice" then .ok spoofedAlice else .error .ErrNoEntries }

/-- The local account `zork`. -/
def localZork : Account :=
  { ID := "01Z", CreatedAt := ⟨1⟩, Username := "zork",
    URI := "https://local.example/users/zork", URL := "https://local.example/@zork",
    FollowingURI := "https://local.example/users/zork/following",
    FollowersURI := "https://local.example/users/zork/followers" }

/-- The URI `https://local.example/users/zork`, on the local host. -/
def zorkURI : URL := ⟨"local.example", "https://local.example/users/zork"⟩

/-- The instance `local.example` whose database holds `localZork`. -/
def zorkEnv : Env :=
  { emptyEnv with
    dbGetAccountByURI := fun _ uri =>
      if uri == "https://local.example/users/zork" then .ok localZork else .error .ErrNoEntries }

/-- A status of `localZork`. -/
def zorkStatus : Status :=
  { ID := "01S", URI := "https://local.example/users/zork/statuses/01S",
    URL := "https://local.example/@zork/statuses/01S", CreatedAt := ⟨1⟩,
    AccountID := "01Z", AccountURI := "https://local.example/users/zork" }

/-- The URI of `zorkStatus`, on the local host. -/
def zorkStatusURI : URL :=
  ⟨"local.example", "https://local.example/users/zork/statuses/01S"⟩

/-- The instance `local.example` whose database holds `zorkStatus`. -/
def zorkStatusEnv : Env :=
  { emptyEnv with
    dbGetStatusByURI := fun _ uri =>
      if uri == "https://local.example/users/zork/statuses/01S" then .ok zorkStatus
      else .error .ErrNoEntries }

/-- A status of `alice@remote.example`. -/
def aliceStatus : Status :=
  { ID := "01AS", URI := "https://remote.example/users/alice/statuses/1",
    URL := "https://remote.example/@alice/1", CreatedAt := ⟨1⟩,
    AccountID := "01A", AccountURI := "https://remote.example/users/alice" }

/-- The URI of `aliceStatus`. -/
def aliceStatusURI : URL :=
  ⟨"remote.example", "https://remote.example/users/alice/statuses/1"⟩

/-- The Note that `remote.example` serves for `aliceStatus`. -/
def aliceNote : VType :=
  { typeName := "Note", goType := "Note", id := some aliceStatusURI }

/-- The instance `local.example` whose database holds `aliceStatus`, with
`remote.example` serving the Note of that status. -/
def noteEnv : Env :=
  { emptyEnv with
    dbGetStatusByURI := fun _ uri =>
      if uri == "https://remote.example/users/alice/statuses/1" then .ok aliceStatus
      else .error .ErrNoEntries
    dereference := fun _ _ uri =>
      if uri == aliceStatusURI then .ok [1] else .error (.external 6)
    jsonUnmarshal := fun b => if b == [1] then .ok ⟨1⟩ else .error (.external 2)
    toType := fun m => if m == ⟨1⟩ then .ok aliceNote else .error (.external 3) }

/-- A status stored from `blocked.example`. -/
def blockedStatus : Status :=
  { ID := "01BS", URI := "https://blocked.example/statuses/1",
    URL := "https://blocked.example/@eve/1", CreatedAt := ⟨1⟩,
    AccountID := "01E", AccountURI := "https://blocked.example/users/eve" }

/-- The URI of `blockedStatus`. -/
def blockedStatusURI : URL := ⟨"blocked.example", "https://blocked.example/statuses/1"⟩

/-- The instance `local.example` with every domain blocked, whose database
holds `blockedStatus`. -/
def blockedEnv : Env :=
  { emptyEnv with
    dbIsDomainBlocked := fun _ _ => .ok true
    dbGetStatusByURI := fun _ uri =>
      if uri == "https://blocked.example/statuses/1" then .ok blockedStatus
      else .error .ErrNoEntries }

/-- The actor URI `https://blocked.example/users/eve`. -/
def eveURI : URL := ⟨"blocked.example", "https://blocked.example/users/eve"⟩

/-- The remote account `eve@blocked.example`, created long ago and last
fetched at the Unix epoch. -/
def eveStale : Account :=
  { ID := "01E", CreatedAt := ⟨1⟩, FetchedAt := Time.ofUnixNano 0, Username := "eve",
    Domain := "blocked.example", URI := "https://blocked.example/users/eve",
    FollowingURI := "https://blocked.example/users/eve/following",
    FollowersURI := "https://blocked.example/users/eve/followers" }

/-- The URI of a Note that `remote.example` serves. -/
def bobNoteURI : URL := ⟨"remote.example", "https://remote.example/users/bob/statuses/1"⟩

/-- The Note served at `bobNoteURI`. -/
def bobNote : VType :=
  { typeName := "Note", goType := "Note", id := some bobNoteURI }

/-- The instance `local.example` with an empty database, with `remote.example`
serving `bobNote`, attributed to `bobURI`, but failing to serve the actor. -/
def orphanNoteEnv : Env :=
  { emptyEnv with
    dereference := fun _ _ uri =>
      if uri == bobNoteURI then .ok [1] else .error (.external 6)
    jsonUnmarshal := fun b => if b == [1] then .ok ⟨1⟩ else .error (.external 2)
    toType := fun m => if m == ⟨1⟩ then .ok bobNote else .error (.external 3)
    extractAttributedTo := fun _ => .ok bobURI }

/-- The emoji `:blob:` of `remote.example`, stored under the ID `01EM`. -/
def blobEmoji : Emoji := ⟨"01EM", "https://remote.example/emoji/blob"⟩

/-- The instance `local.example` with an empty database, whose media manager
resolves every emoji to the stored `blobEmoji`. -/
def emojiEnv : Env :=
  { emptyEnv with populateEmojis := fun _ es _ => .ok (es.map fun _ => blobEmoji) }

/-! ## Properties of runs -/

/-- The calls made during a run, oldest first. -/
def Outcome.events {α : Type} : Outcome α → List Event
  | .done _ evs _ => evs
  | .panicked evs _ => evs
  | .outOfFuel => []

/-- Every call made by the computation satisfies `P`. -/
def Emits {α : Type} (P : Event → Prop) (m : M α) : Prop :=
  ∀ pos t, ∀ e ∈ (m pos t).events, P e

/-- Every run of the computation that returns makes a call satisfying `P`. -/
def Has {α : Type} (P : Event → Prop) (m : M α) : Prop :=
  ∀ pos t a evs t', m pos t = Outcome.done a evs t' → ∃ e ∈ evs, P e

/-- The calls of every run of the computation that ends begin with `l`. -/
def StartsWith {α : Type} (l : List Event) (m : M α) : Prop :=
  ∀ pos t, (m pos t) = Outcome.outOfFuel ∨ ∃ rest, (m pos t).events = l ++ rest


/-- The calls `evs` of a run that started at position `pos` either hold no
dereference, and no network call at all when no username was known; or the
first dereference follows, right after the handshake mark, a consultation of
the blocklist for the host of the dereferenced URI, which answered that the
host is not blocked. -/
def CheckedFirst (env : Env) (requestUser username : String) (pos : Nat)
    (evs : List Event) : Prop :=
  ((∀ e ∈ evs, e.isDereference = false) ∧
    (username = "" → ∀ e ∈ evs, e.isNetwork = false)) ∨
  ∃ pre tr target rest,
    evs = pre ++ .dbIsDomainBlocked target.Host :: .startHandshake requestUser target ::
      .dereference tr target :: rest ∧
    (∀ e ∈ pre, e.isDereference = false) ∧
    (username = "" → ∀ e ∈ pre, e.isNetwork = false) ∧
    env.dbIsDomainBlocked (pos + pre.length) target.Host = .ok false


/-- The emoji `:blob:` as first seen on an account, with no ID yet. -/
def blobEmojiNoID : Emoji := ⟨"", "https://remote.example/emoji/blob"⟩

/-- The emoji `:a:` of `remote.example`. -/
def emojiA : Emoji := ⟨"01EA", "https://remote.example/emoji/a"⟩

/-- The emoji `:b:` of `remote.example`. -/
def emojiB : Emoji := ⟨"01EB", "https://remote.example/emoji/b"⟩

/-- The emoji `:c:` of `remote.example`. -/
def emojiC : Emoji := ⟨"01EC", "https://remote.example/emoji/c"⟩

/-- The instance `local.example` with an empty database, whose media manager
resolves every list of emojis to itself. -/
def sameEmojiEnv : Env :=
  { emptyEnv with populateEmojis := fun _ es _ => .ok es }

/-- The instance `local.example` with an empty database, whose media manager
resolves every list of emojis to `[emojiA, emojiC]`. -/
def swapEmojiEnv : Env :=
  { emptyEnv with populateEmojis := fun _ _ _ => .ok [emojiA, emojiC] }

/-- The Person that `remote.example` serves for the actor `bobURI`. -/
def bobPerson : VType :=
  { typeName := "Person", goType := "Person", id := some bobURI }

/-- The account that the type converter makes of `bobPerson`. -/
def bobConverted : Account :=
  { Username := "bob", Domain := "remote.example",
    URI := "https://remote.example/users/bob", URL := "https://remote.example/@bob",
    FollowingURI := "https://remote.example/users/bob/following",
    FollowersURI := "https://remote.example/users/bob/followers" }

/-- The row for `bob@remote.example` that a concurrent resolution stored. -/
def bobStored : Account :=
  { bobConverted with ID := "01BOB", CreatedAt := ⟨5⟩, UpdatedAt := ⟨5⟩, FetchedAt := ⟨5⟩ }

/-- The placeholder that `GetAccountByURI` builds for `bobURI`. -/
def bobPlaceholder : Account :=
  { ID := "01N", Domain := "remote.example", URI := "https://remote.example/users/bob" }

/-- The instance `local.example` during a race: `remote.example` serves
`bobPerson`, every insert of an account answers that it already exists, and
the lookup by URI finds `bobStored` from the ninth call of the run on. -/
def raceEnv : Env :=
  { emptyEnv with
    dereference := fun _ _ uri =>
      if uri == bobURI then .ok [2] else .error (.external 6)
    jsonUnmarshal := fun b => if b == [2] then .ok ⟨2⟩ else .error (.external 2)
    toType := fun m => if m == ⟨2⟩ then .ok bobPerson else .error (.external 3)
    asRepresentationToAccount := fun _ _ _ => .ok bobConverted
    dbPutAccount := fun _ _ => some .ErrAlreadyExists
    dbGetAccountByURI := fun i uri =>
      if 9 ≤ i && uri == "https://remote.example/users/bob" then .ok bobStored
      else .error .ErrNoEntries }

/-- The account that `enrichAccount` tries to insert for `bobPlaceholder` at
the clock reading of `emptyEnv`. -/
def bobInserted : Account :=
  { bobConverted with
    ID := "01N",
    CreatedAt := Time.ofUnixNano 360000000000000,
    UpdatedAt := Time.ofUnixNano 360000000000000,
    FetchedAt := Time.ofUnixNano 360000000000000 }

/-- The actor URI `https://remote.example/users/alice`. -/
def aliceURI : URL := ⟨"remote.example", "https://remote.example/users/alice"⟩

/-- The stored account `alice@remote.example`, last fetched at the Unix epoch,
with an avatar and a header. -/
def aliceWithMedia : Account :=
  { aliceFetchedAt (Time.ofUnixNano 0) with
    AvatarRemoteURL := "https://remote.example/a1.png", AvatarMediaAttachmentID := "01AV1",
    HeaderRemoteURL := "https://remote.example/h1.png", HeaderMediaAttachmentID := "01HD1" }

/-- The Person that `remote.example` serves for the actor `aliceURI`. -/
def alicePerson : VType :=
  { typeName := "Person", goType := "Person", id := some aliceURI }

/-- The account that the type converter makes of `alicePerson`: the avatar
has changed and the header is gone. -/
def aliceConverted : Account :=
  { Username := "alice", Domain := "remote.example",
    URI := "https://remote.example/users/alice",
    AvatarRemoteURL := "https://remote.example/a2.png",
    FollowingURI := "https://remote.example/users/alice/following",
    FollowersURI := "https://remote.example/users/alice/followers" }

/-- The instance `local.example` where `remote.example` serves `alicePerson`
and the download of the new avatar fails. -/
def mediaEnv : Env :=
  { emptyEnv with
    urlParse := fun s =>
      if s == "https://remote.example/a2.png" then
        .ok ⟨"remote.example", "https://remote.example/a2.png"⟩
      else .error (.external 1)
    dereference := fun _ _ uri =>
      if uri == aliceURI then .ok [4] else .error (.external 6)
    jsonUnmarshal := fun b => if b == [4] then .ok ⟨4⟩ else .error (.external 2)
    toType := fun m => if m == ⟨4⟩ then .ok alicePerson else .error (.external 3)
    asRepresentationToAccount := fun _ _ _ => .ok aliceConverted
    preProcessMedia := fun _ _ _ _ _ _ _ => .ok ⟨"01AV2"⟩ }

/-- The stored account `bob@remote.example`, fetched at the clock reading of
`emptyEnv`. -/
def bobFresh : Account :=
  { bobConverted with
    ID := "01BOB", CreatedAt := ⟨5⟩, UpdatedAt := ⟨5⟩,
    FetchedAt := Time.ofUnixNano 360000000000000 }

/-- The status that the type converter makes of `bobNote`. -/
def bobNoteConverted : Status :=
  { URI := "https://remote.example/users/bob/statuses/1",
    URL := "https://remote.example/@bob/1", CreatedAt := ⟨7⟩, UpdatedAt := ⟨7⟩,
    AccountID := "01BOB", AccountURI := "https://remote.example/users/bob" }

/-- The row for `bobNote` that a concurrent resolution stored. -/
def bobNoteWinner : Status := { bobNoteConverted with ID := "01WIN" }

/-- The instance `local.example` during a race on `bobNote`: `bobFresh` is
stored, `remote.example` serves `bobNote`, every insert of a status answers
that it already exists, and the lookup by URI finds `bobNoteWinner` from the
third call of the run on. -/
def statusRaceEnv : Env :=
  { orphanNoteEnv with
    urlParse := fun s =>
      if s == "https://remote.example/users/bob/statuses/1" then .ok bobNoteURI
      else .error (.external 1)
    dbGetAccountByURI := fun _ uri =>
      if uri == "https://remote.example/users/bob" then .ok bobFresh
      else .error .ErrNoEntries
    asStatusToStatus := fun _ _ => .ok bobNoteConverted
    populateEmojis := fun _ es _ => .ok es
    dbPutStatus := fun _ _ => some .ErrAlreadyExists
    dbGetStatusByURI := fun i uri =>
      if 2 ≤ i && uri == "https://remote.example/users/bob/statuses/1" then .ok bobNoteWinner
      else .error .ErrNoEntries }

/-- The URI of the featured collection of `alice@remote.example`. -/
def featuredURI : URL :=
  ⟨"remote.example", "https://remote.example/users/alice/collections/featured"⟩

/-- The URI of the status P1 of alice. -/
def p1URI : URL := ⟨"remote.example", "https://remote.example/users/alice/statuses/p1"⟩

/-- The URI of the status P2 of alice. -/
def p2URI : URL := ⟨"remote.example", "https://remote.example/users/alice/statuses/p2"⟩

/-- The URI of the status P3 of alice. -/
def p3URI : URL := ⟨"remote.example", "https://remote.example/users/alice/statuses/p3"⟩

/-- The URI of the status P4 of bob. -/
def p4URI : URL := ⟨"remote.example", "https://remote.example/users/bob/statuses/p4"⟩

/-- The URI of a status on another host. -/
def p5URI : URL := ⟨"elsewhere.example", "https://elsewhere.example/statuses/p5"⟩

/-- The stored status P1 of alice, pinned. -/
def statusP1 : Status :=
  { ID := "01P1", URI := "https://remote.example/users/alice/statuses/p1", CreatedAt := ⟨1⟩,
    PinnedAt := ⟨2⟩, AccountID := "01A", AccountURI := "https://remote.example/users/alice" }

/-- The stored status P2 of alice, pinned. -/
def statusP2 : Status :=
  { ID := "01P2", URI := "https://remote.example/users/alice/statuses/p2", CreatedAt := ⟨1⟩,
    PinnedAt := ⟨2⟩, AccountID := "01A", AccountURI := "https://remote.example/users/alice" }

/-- The stored status P3 of alice, not pinned. -/
def statusP3 : Status :=
  { ID := "01P3", URI := "https://remote.example/users/alice/statuses/p3", CreatedAt := ⟨1⟩,
    AccountID := "01A", AccountURI := "https://remote.example/users/alice" }

/-- The stored status P4 of bob, not pinned. -/
def statusP4 : Status :=
  { ID := "01P4", URI := "https://remote.example/users/bob/statuses/p4", CreatedAt := ⟨1⟩,
    AccountID := "01BOB", AccountURI := "https://remote.example/users/bob" }

/-- The items of the featured collection of alice: P2 and P3, P4 of bob, and
a status on another host. -/
def featuredItems : List Item :=
  [.other (some p2URI), .note (some p3URI), .other (some p4URI), .other (some p5URI)]

/-- The ordered collection that `remote.example` serves at `featuredURI`. -/
def featuredCollection : VType :=
  { typeName := "OrderedCollection", goType := "OrderedCollection",
    id := some featuredURI, orderedItems := some featuredItems }

/-- The account that the type converter makes of `alicePerson` when the
document names her featured collection. -/
def aliceFeatured : Account :=
  { Username := "alice", Domain := "remote.example",
    URI := "https://remote.example/users/alice",
    FollowingURI := "https://remote.example/users/alice/following",
    FollowersURI := "https://remote.example/users/alice/followers",
    FeaturedCollectionURI := "https://remote.example/users/alice/collections/featured" }

/-- The instance `local.example` whose database holds the statuses P1 to P4,
with P1 and P2 pinned for alice, while `remote.example` serves alice and her
featured collection. -/
def pinEnv : Env :=
  { emptyEnv with
    urlParse := fun s =>
      if s == "https://remote.example/users/alice/collections/featured" then .ok featuredURI
      else .error (.external 1)
    dereference := fun _ _ uri =>
      if uri == aliceURI then .ok [4]
      else if uri == featuredURI then .ok [5]
      else .error (.external 6)
    jsonUnmarshal := fun b =>
      if b == [4] then .ok ⟨4⟩ else if b == [5] then .ok ⟨5⟩ else .error (.external 2)
    toType := fun m =>
      if m == ⟨4⟩ then .ok alicePerson
      else if m == ⟨5⟩ then .ok featuredCollection
      else .error (.external 3)
    asRepresentationToAccount := fun _ _ _ => .ok aliceFeatured
    populateEmojis := fun _ es _ => .ok es
    dbGetAccountPinnedStatuses := fun _ accountID =>
      if accountID == "01A" then .ok [statusP1, statusP2] else .error .ErrNoEntries
    dbGetStatusByURI := fun _ uri =>
      if uri == "https://remote.example/users/alice/statuses/p1" then .ok statusP1
      else if uri == "https://remote.example/users/alice/statuses/p2" then .ok statusP2
      else if uri == "https://remote.example/users/alice/statuses/p3" then .ok statusP3
      else if uri == "https://remote.example/users/bob/statuses/p4" then .ok statusP4
      else .error .ErrNoEntries }

/-- The instance `pinEnv` with a database that refuses to clear `PinnedAt`. -/
def unpinFailEnv : Env :=
  { pinEnv with
    dbUpdateStatus := fun _ status _ =>
      if status.PinnedAt.IsZero then some (.external 13) else none }

/-- What `GetStatus` answers in `pinEnv` for the status URIs that alice's
featured collection lists. -/
def pinResolve (u : URL) : Res (Status × Option Statusable) :=
  if u = p2URI then .ok (statusP2, none)
  else if u = p3URI then .ok (statusP3, none)
  else if u = p4URI then .ok (statusP4, none)
  else .error .ErrNoEntries

/-- The `pinned_at` column of `pinEnv` before the reconciliation: P1 and P2
are pinned. -/
def pinColumn (id : String) : Time :=
  if id = "01P1" ∨ id = "01P2" then ⟨2⟩ else Time.zero

/-- The call writes an account: `db.PutAccount` or `db.UpdateAccount`. -/
def Event.isAccountWrite : Event → Bool
  | .dbPutAccount _ => true
  | .dbUpdateAccount _ => true
  | _ => false

/-- The call is one that `enrichAccount` makes on its way to storing the
account: the clock, the transport, webfinger, the lookups, the blocklist, the
handshake marks, the fetch and conversion of the document, media and emojis. -/
def Event.isEnrichStep : Event → Bool
  | .timeNow => true
  | .newTransportForUsername _ => true
  | .finger _ _ _ => true
  | .dbGetAccountByUsernameDomain _ _ => true
  | .dbIsDomainBlocked _ => true
  | .startHandshake _ _ => true
  | .stopHandshake _ _ => true
  | .dereference _ _ => true
  | .asRepresentationToAccount _ _ => true
  | .preProcessMedia _ _ _ _ _ _ => true
  | .loadAttachment _ => true
  | .dbGetEmojiByID _ => true
  | .populateEmojis _ _ => true
  | _ => false

/-- The calls of a run that reached the storing of the account: enrichment
steps `evsA`, then the calls `evsS` of `enrichAccountStore`, which gave the
result `r`, then `evsB`. -/
def ReachedStore (env : Env) (pos : Nat) (r : Res Account) (evs : List Event) : Prop :=
  ∃ evsA, (∀ e ∈ evsA, e.isEnrichStep = true) ∧
    ((∃ err, r = .error err ∧ evs = evsA) ∨
      ∃ account latestAcc tA evsS tS evsB, evs = evsA ++ evsS ++ evsB ∧
        enrichAccountStore env account latestAcc (pos + evsA.length) tA = .done r evsS tS)

/-- The status URIs that the first loop of `fetchRemoteAccountFeatured` keeps
(account.go 664-702): the identifiers of the items that have one, on the host
of the collection URI. -/
def extractedURIs (uri : URL) (items : List Item) : List URL :=
  (items.filterMap featuredStatusURI).filter (fun statusURI => !(statusURI.Host != uri.Host))

/-- The test of the second loop of `fetchRemoteAccountFeatured` (account.go
738-745): the URI of the status is among the kept status URIs. -/
def isListed (statusURIs : List URL) (status : Status) : Bool :=
  statusURIs.any (fun statusURI => status.URI == statusURI.raw)

/-- The call is `db.UpdateStatus`. -/
def Event.isUpdateStatus : Event → Bool
  | .dbUpdateStatus _ _ => true
  | _ => false

/-- The call by which the second loop of `fetchRemoteAccountFeatured` unpins a
status (account.go 749-752). -/
def unpinCall (status : Status) : Event :=
  .dbUpdateStatus { status with PinnedAt := Time.zero } ["pinned_at"]

/-- What a call made while the featured collection of `accountID` is
reconciled must look like when it stores a non-zero `PinnedAt` on a status:
either it is a call of the nested `GetStatus` of a listed URI, or the status
was listed (`listed u`), `GetStatus` resolved `u` to it, it was not pinned, it
belongs to the account and is not a boost, and the call stores just its
`pinned_at`. -/
def PinJustified (getStatus : GetStatusFn) (requestingUsername accountID : String)
    (listed : URL → Prop) (e : Event) : Prop :=
  ∀ s cols, e = .dbUpdateStatus s cols → s.PinnedAt.IsZero = false →
    (∃ u p tb, listed u ∧ e ∈ (getStatus requestingUsername u false false p tb).events) ∨
    ∃ u status sa p tb e1 tb' now, listed u ∧
      getStatus requestingUsername u false false p tb = .done (.ok (status, sa)) e1 tb' ∧
      status.PinnedAt.IsZero = true ∧ status.AccountID = accountID ∧
      status.BoostOfID = "" ∧
      s = { status with PinnedAt := now } ∧ cols = ["pinned_at"]

/-- The status URIs listed by the featured collection at
`featuredCollectionURI`: the URIs kept from the items of the ordered collection
that the document fetched from there decodes to. -/
def ListedAt (env : Env) (featuredCollectionURI : String) (u : URL) : Prop :=
  ∃ uri i tsport b m ty items,
    env.urlParse featuredCollectionURI = .ok uri ∧
    env.dereference i tsport uri = .ok b ∧
    env.jsonUnmarshal b = .ok m ∧
    env.toType m = .ok ty ∧
    ty.orderedItems = some items ∧
    u ∈ extractedURIs uri items

/-- The condition under which the first loop of `fetchRemoteAccountFeatured`
pins a resolved status (account.go 712-727): it is not pinned, it belongs to
the account, and it is not a boost. -/
def pinEligible (accountID : String) (status : Status) : Bool :=
  status.PinnedAt.IsZero && status.AccountID == accountID && status.BoostOfID == ""

/-- The `pinned_at` column of the statuses table, by status ID, after the
calls `evs` of a run that started at position `pos` with the column `col`:
every `UpdateStatus` that succeeded and stored the column (`pinned_at` is
among the named columns, or no column is named, which stores them all) sets
the entry of its status. -/
def pinColumnAfter (env : Env) : Nat → List Event → (String → Time) → String → Time
  | _, [], col => col
  | pos, .dbUpdateStatus s cols :: rest, col =>
      pinColumnAfter env (pos + 1) rest
        (if (env.dbUpdateStatus pos s cols).isNone && (cols.isEmpty || cols.contains "pinned_at")
          then (fun id => if id = s.ID then s.PinnedAt else col id)
          else col)
  | pos, _ :: rest, col => pinColumnAfter env (pos + 1) rest col

/-- The updates of statuses among the calls `evs` are exactly the pins of the
eligible statuses that the URIs `listed` resolve to. -/
def PinsOf (accountID : String) (resolve : URL → Res (Status × Option Statusable))
    (listed : List URL) (evs : List Event) : Prop :=
  (∀ s cols, Event.dbUpdateStatus s cols ∈ evs →
    ∃ u ∈ listed, ∃ status sa n, resolve u = .ok (status, sa) ∧
      pinEligible accountID status = true ∧
      s = { status with PinnedAt := Time.ofUnixNano n } ∧ cols = ["pinned_at"]) ∧
  (∀ u ∈ listed, ∀ status sa, resolve u = .ok (status, sa) →
    pinEligible accountID status = true →
    ∃ n, Event.dbUpdateStatus { status with PinnedAt := Time.ofUnixNano n } ["pinned_at"] ∈ evs)

/-! ## processing/status: pin.go and create.go

The processor of the client API works on the statuses stored in the database.
To follow a status over several calls, the statuses table is carried as a
value; the other collaborators of a call (clock, account lookup, visibility
filter, converter) and the failures of the database are given per call. -/

/-- Modelled from the spec: `gtsmodel.VisibilityPublic`.  The file that
declares the values of `gtsmodel.Visibility` (`gtsmodel/status.go`) is not
among the sources; the five values are those listed by the validation tag of
`Account.Privacy` (gtsmodel/account.go line 59). -/
def VisibilityPublic : String := "public"

/-- Modelled from the spec: `gtsmodel.VisibilityUnlocked`, see
`VisibilityPublic`. -/
def VisibilityUnlocked : String := "unlocked"

/-- Modelled from the spec: `gtsmodel.VisibilityFollowersOnly`, see
`VisibilityPublic`. -/
def VisibilityFollowersOnly : String := "followers_only"

/-- Modelled from the spec: `gtsmodel.VisibilityMutualsOnly`, see
`VisibilityPublic`. -/
def VisibilityMutualsOnly : String := "mutuals_only"

/-- Modelled from the spec: `gtsmodel.VisibilityDirect`, see
`VisibilityPublic`. -/
def VisibilityDirect : String := "direct"

/-- Go `allowedPinnedCount` (pin.go 31). -/
def allowedPinnedCount : Nat := 10

/-- Modelled from the spec: package `gtserror` is not among the sources.  A
`gtserror.WithCode` is the constructor that built it, with the wrapped
error. -/
inductive WithCode where
  | ErrorNotFound (err : Err)
  | ErrorInternalError (err : Err)
  | ErrorUnprocessableEntity (err : Err)
  deriving DecidableEq, Repr

/-- Modelled from the spec: `WithCode.Code()`, the HTTP status each
constructor of package `gtserror` is named for; the doc comment of `PinCreate`
(pin.go 90) names 422 Unprocessable Entity. -/
def WithCode.Code : WithCode → Nat
  | .ErrorNotFound _ => 404
  | .ErrorInternalError _ => 500
  | .ErrorUnprocessableEntity _ => 422

/-- An `apimodel.Status`, as far as the embedded code is concerned: the result
of the converter. -/
structure APIStatus where
  ID : String
  Pinned : Bool
  deriving DecidableEq, Repr

/-- The rows of the `statuses` table. -/
abbrev StatusTable := List Status

/-- The collaborators of one call of the status processor: the clock reading
(nanoseconds since the Unix epoch), the failures of the three database calls
on statuses (none when the call goes through), `DB.GetAccountByID`,
`p.filter.StatusVisible` and `p.tc.StatusToAPIStatus`. -/
structure Processor where
  timeNow : Nat
  getStatusFails : Option Err
  countFails : Option Err
  updateFails : Option Err
  dbGetAccountByID : String → Res Account
  statusVisible : Status → Account → Res Bool
  statusToAPIStatus : Status → Account → Res APIStatus

/-- Modelled from the spec: `DB.GetStatusByID` (`bundb/status.go` is not among
the sources), the keyed lookup of section 6: the row with the given ID, or
`ErrNoEntries`. -/
def dbGetStatusByID (p : Processor) (table : StatusTable) (id : String) : Res Status :=
  match p.getStatusFails with
  | some err => .error err
  | none =>
      match table.find? (fun row => row.ID == id) with
      | some row => .ok row
      | none => .error .ErrNoEntries

/-- The query of `accountDB.CountAccountPinned` (bundb/account.go 353-358): the
number of rows of the account whose `pinned_at` is not NULL; the column is
stored as NULL for the zero time. -/
def countAccountPinned (table : StatusTable) (accountID : String) : Nat :=
  (table.filter (fun row => row.AccountID == accountID && !row.PinnedAt.IsZero)).length

/-- `accountDB.CountAccountPinned` (bundb/account.go 352-359). -/
def dbCountAccountPinned (p : Processor) (table : StatusTable) (accountID : String) : Res Nat :=
  match p.countFails with
  | some err => .error err
  | none => .ok (countAccountPinned table accountID)

/-- Modelled from the spec: `DB.UpdateStatus(ctx, status, "pinned_at")`
(`bundb/status.go` is not among the sources), the keyed update of section 6:
the column `pinned_at` of the row with the ID of `status` takes the value of
`status`; a failed call writes nothing. -/
def dbUpdateStatusPinnedAt (p : Processor) (table : StatusTable) (status : Status) :
    StatusTable × Option Err :=
  match p.updateFails with
  | some err => (table, some err)
  | none =>
      (table.map (fun row =>
        if row.ID == status.ID then { row with PinnedAt := status.PinnedAt } else row), none)

/-- `getPinnableStatus` (pin.go 41-79). -/
def getPinnableStatus (p : Processor) (table : StatusTable)
    (targetStatusID requestingAccountID : String) : Except WithCode Status :=
  match dbGetStatusByID p table targetStatusID with
  | .error err => .error (.ErrorNotFound (.errorfW "error fetching status" err))
  | .ok targetStatus =>
  match p.dbGetAccountByID requestingAccountID with
  | .error err => .error (.ErrorInternalError err)
  | .ok requestingAccount =>
  match p.statusVisible targetStatus requestingAccount with
  | .error err => .error (.ErrorInternalError err)
  | .ok visible =>
  if !visible then
    .error (.ErrorNotFound (.errorf "status not visible to account"))
  else if targetStatus.AccountID != requestingAccountID then
    .error (.ErrorUnprocessableEntity (.errorf "status does not belong to account"))
  else if targetStatus.Visibility == VisibilityDirect then
    .error (.ErrorUnprocessableEntity (.errorf "cannot pin direct messages"))
  else if targetStatus.BoostOfID != "" then
    .error (.ErrorUnprocessableEntity (.errorf "cannot pin boosts"))
  else
    .ok targetStatus

/-- `PinCreate` (pin.go 91-123): returns the table as left by the call, and
the Go results. -/
def PinCreate (p : Processor) (table : StatusTable) (requestingAccount : Account)
    (targetStatusID : String) : StatusTable × Except WithCode APIStatus :=
  match getPinnableStatus p table targetStatusID requestingAccount.ID with
  | .error errWithCode => (table, .error errWithCode)
  | .ok targetStatus =>
  if !targetStatus.PinnedAt.IsZero then
    (table, .error (.ErrorUnprocessableEntity (.errorf "status already pinned")))
  else
  match dbCountAccountPinned p table requestingAccount.ID with
  | .error err =>
      (table, .error
        (.ErrorInternalError (.errorfW "error checking number of pinned statuses" err)))
  | .ok pinnedCount =>
  if pinnedCount >= allowedPinnedCount then
    (table, .error (.ErrorUnprocessableEntity (.errorf "status pin limit exceeded")))
  else
  match dbUpdateStatusPinnedAt p table
      { targetStatus with PinnedAt := Time.ofUnixNano p.timeNow } with
  | (table', some err) =>
      (table', .error (.ErrorInternalError (.errorfW "db error pinning status" err)))
  | (table', none) =>
  match p.statusToAPIStatus
      { targetStatus with PinnedAt := Time.ofUnixNano p.timeNow } requestingAccount with
  | .error err =>
      (table', .error
        (.ErrorInternalError (.errorfW "error converting status to frontend representation" err)))
  | .ok apiStatus => (table', .ok apiStatus)

/-- Lines 149-154 of `PinRemove`: convert the status for the client. -/
def pinRemoveConvert (p : Processor) (table : StatusTable) (requestingAccount : Account)
    (targetStatus : Status) : StatusTable × Except WithCode APIStatus :=
  match p.statusToAPIStatus targetStatus requestingAccount with
  | .error err =>
      (table, .error
        (.ErrorInternalError (.errorfW "error converting status to frontend representation" err)))
  | .ok apiStatus => (table, .ok apiStatus)

/-- `PinRemove` (pin.go 136-155): returns the table as left by the call, and
the Go results. -/
def PinRemove (p : Processor) (table : StatusTable) (requestingAccount : Account)
    (targetStatusID : String) : StatusTable × Except WithCode APIStatus :=
  match getPinnableStatus p table targetStatusID requestingAccount.ID with
  | .error errWithCode => (table, .error errWithCode)
  | .ok targetStatus =>
  if !targetStatus.PinnedAt.IsZero then
    match dbUpdateStatusPinnedAt p table { targetStatus with PinnedAt := Time.zero } with
    | (table', some err) =>
        (table', .error (.ErrorInternalError (.errorfW "db error unpinning status" err)))
    | (table', none) =>
        pinRemoveConvert p table' requestingAccount { targetStatus with PinnedAt := Time.zero }
  else
    pinRemoveConvert p table requestingAccount targetStatus

/-- The fields of `apimodel.AdvancedStatusCreateForm` that `processVisibility`
reads; a nil pointer is `none`. -/
structure AdvancedStatusCreateForm where
  Visibility : String := ""
  Federated : Option Bool := none
  Boostable : Option Bool := none
  Replyable : Option Bool := none
  Likeable : Option Bool := none
  deriving DecidableEq, Repr

/-- The flags chosen by the second switch of `processVisibility` (create.go
219-263), in the order federated, boostable, replyable, likeable. -/
def visibilityFlags (form : AdvancedStatusCreateForm) (vis : String) :
    Bool × Bool × Bool × Bool :=
  if vis == VisibilityPublic then
    (true, true, true, true)
  else if vis == VisibilityUnlocked then
    (form.Federated.getD true, form.Boostable.getD true, form.Replyable.getD true,
      form.Likeable.getD true)
  else if vis == VisibilityFollowersOnly || vis == VisibilityMutualsOnly then
    (form.Federated.getD true, false, form.Replyable.getD true, form.Likeable.getD true)
  else if vis == VisibilityDirect then
    (true, false, true, true)
  else
    (true, true, true, true)

/-- `processVisibility` (create.go 200-271): returns the status as left by the
call, and the error.  `apiVisToVis` is `typeutils.APIVisToVis` and
`visibilityDefault` is `gtsmodel.VisibilityDefault`, neither of which is among
the sources. -/
def processVisibility (apiVisToVis : String → String) (visibilityDefault : String)
    (form : AdvancedStatusCreateForm) (accountDefaultVis : String) (status : Status) :
    Status × Option Err :=
  let vis :=
    if form.Visibility != "" then apiVisToVis form.Visibility
    else if accountDefaultVis != "" then accountDefaultVis
    else visibilityDefault
  ({ status with
      Visibility := vis,
      Federated := some (visibilityFlags form vis).1,
      Boostable := some (visibilityFlags form vis).2.1,
      Replyable := some (visibilityFlags form vis).2.2.1,
      Likeable := some (visibilityFlags form vis).2.2.2 }, none)

/-- One call of the client API on pins, with the collaborators it meets. -/
inductive PinCall where
  | create (p : Processor) (requestingAccount : Account) (targetStatusID : String)
  | remove (p : Processor) (requestingAccount : Account) (targetStatusID : String)

/-- The table after one call. -/
def PinCall.run (table : StatusTable) : PinCall → StatusTable
  | .create p requestingAccount targetStatusID =>
      (PinCreate p table requestingAccount targetStatusID).1
  | .remove p requestingAccount targetStatusID =>
      (PinRemove p table requestingAccount targetStatusID).1

/-- The table after a sequence of calls, made one after the other. -/
def runPinCalls (table : StatusTable) (calls : List PinCall) : StatusTable :=
  calls.foldl PinCall.run table

/-- A processor whose collaborators all answer: the requesting account is
found, every status is visible to it, and the converter reports the ID of the
status and whether it is pinned. -/
def pinProcessor : Processor where
  timeNow := 360000000000000
  getStatusFails := none
  countFails := none
  updateFails := none
  dbGetAccountByID := fun id => .ok { ID := id }
  statusVisible := fun _ _ => .ok true
  statusToAPIStatus := fun s _ => .ok ⟨s.ID, !s.PinnedAt.IsZero⟩

/-- A mutuals-only status of the account `01ZORK`, not pinned, not a boost. -/
def mutualsStatus : Status :=
  { ID := "01S1", URI := "https://local.example/users/zork/statuses/01S1",
    AccountID := "01ZORK", Visibility := VisibilityMutualsOnly }

/-- A pinned public status of the account `01ZORK`. -/
def pinnedStatus (id : String) : Status :=
  { ID := id, AccountID := "01ZORK", Visibility := VisibilityPublic,
    PinnedAt := Time.ofUnixNano 1000 }

/-- A table in which the account `01ZORK` has ten pinned statuses and one
public status that is not pinned. -/
def fullPinsTable : StatusTable :=
  ["01P0", "01P1", "01P2", "01P3", "01P4", "01P5", "01P6", "01P7", "01P8", "01P9"].map
      pinnedStatus ++
    [{ ID := "01S2", AccountID := "01ZORK", Visibility := VisibilityPublic }]

/-- The type names of the actor variants that the type resolver accepts. -/
def actorTypeNames : List String :=
  [ActorApplication, ActorGroup, ActorOrganization, ActorPerson, ActorService]

/-- The type names of the object variants that the type resolver accepts. -/
def objectTypeNames : List String :=
  [ObjectArticle, ObjectDocument, ObjectImage, ObjectVideo, ObjectNote, ObjectPage,
    ObjectEvent, ObjectPlace, ObjectProfile]

/-- The error is one built by `newErrWrongType`, the error that the type
switches return for a type name they do not support. -/
def Err.isWrongType : Err → Bool
  | .ErrWrongType _ => true
  | _ => false

/-- An environment whose remote server answers every request with a document
that is well-formed JSON, but from which `streams.ToType` cannot construct the
type that the document claims: the conversion fails. -/
def unbuildableEnv : Env :=
  { emptyEnv with
    dereference := fun _ _ _ => .ok [1]
    jsonUnmarshal := fun _ => .ok ⟨1⟩ }

/-- An environment whose remote server answers every request with a document
of the type Mention, a type of the vocabulary that neither type switch
lists. -/
def mentionDocEnv : Env :=
  { emptyEnv with
    dereference := fun _ _ _ => .ok [1]
    jsonUnmarshal := fun _ => .ok ⟨1⟩
    toType := fun _ => .ok { typeName := "Mention", goType := "Mention" } }

/-- The call is a webfinger request. -/
def Event.isFinger : Event → Bool
  | .finger _ _ _ => true
  | _ => false

/-- The URI under which an actor is first met: a profile link on
`example.org` that leads to an actor whose id is on `somewhere.else`. -/
def redirectURI : URL := ⟨"example.org", "https://example.org/@someone@somewhere.else"⟩

/-- The id of the actor that the document names. -/
def someoneURI : URL := ⟨"somewhere.else", "https://somewhere.else/users/someone"⟩

/-- The document served under `redirectURI`: a Person with the id
`someoneURI`. -/
def someonePerson : VType :=
  { typeName := "Person", goType := "Person", id := some someoneURI }

/-- An environment with nothing stored, in which the document under
`redirectURI` is `someonePerson`, the converter keeps the account domain it is
given, and every webfinger request fails. -/
def redirectEnv : Env :=
  { emptyEnv with
    dereference := fun _ _ uri => if uri == redirectURI then .ok [7] else .error (.external 6)
    jsonUnmarshal := fun b => if b == [7] then .ok ⟨7⟩ else .error (.external 2)
    toType := fun m => if m == ⟨7⟩ then .ok someonePerson else .error (.external 3)
    asRepresentationToAccount := fun _ _ accountDomain =>
      .ok { Username := "someone", Domain := accountDomain, URI := someoneURI.raw,
            URL := "https://somewhere.else/@someone",
            FollowingURI := "https://somewhere.else/users/someone/following",
            FollowersURI := "https://somewhere.else/users/someone/followers" } }

/-- The mention that `populateStatusMentions` creates (status.go 370-384) for
the unresolved mention `m` of `status`, from its target account and a new
ID. -/
def newMentionFor (status : Status) (m : Mention) (targetAccount : Account) (mID : String) :
    Mention :=
  { ID := mID,
    StatusID := status.ID,
    CreatedAt := status.CreatedAt,
    UpdatedAt := status.UpdatedAt,
    OriginAccountID := status.AccountID,
    OriginAccountURI := status.AccountURI,
    TargetAccountID := targetAccount.ID,
    NameString := m.NameString,
    TargetAccountURI := targetAccount.URI,
    TargetAccountURL := targetAccount.URL }

/-- The target account of an unresolved mention, when the database answers
`stored` to a lookup by URI and the remote resolution answers `remote`: the
account found locally, else the account dereferenced; none when the mention
names no target, when the URI of the target does not parse, and when the
account can neither be found locally nor dereferenced. -/
def resolveTarget (env : Env) (stored : String → Res Account) (remote : URL → Res Account)
    (m : Mention) : Option Account :=
  if m.TargetAccountURI == "" then none
  else
    match env.urlParse m.TargetAccountURI with
    | .error _ => none
    | .ok targetAccountURI =>
        match stored targetAccountURI.raw with
        | .ok a => some a
        | .error _ =>
            match remote targetAccountURI with
            | .ok a => some a
            | .error _ => none

/-- The mention is already populated, or its target resolves. -/
def isAttachable (env : Env) (stored : String → Res Account) (remote : URL → Res Account)
    (m : Mention) : Bool :=
  m.ID != "" || (resolveTarget env stored remote m).isSome

/-- What `new` is to the mention `m` of `status` it stands for: `m` itself
when `m` is already populated, else the mention created for `m` and the
account that its target resolves to, under some new ID. -/
def Attached (env : Env) (stored : String → Res Account) (remote : URL → Res Account)
    (status : Status) (m new : Mention) : Prop :=
  (m.ID ≠ "" ∧ new = m) ∨
  (m.ID = "" ∧ ∃ a mID, resolveTarget env stored remote m = some a ∧
    new = newMentionFor status m a mID)

/-- The URI of an actor that is not stored and cannot be fetched. -/
def ghostURI : URL := ⟨"gone.example", "https://gone.example/users/ghost"⟩

/-- An environment in which the accounts of bob and alice are stored, the
actor `ghostURI` is neither stored nor served, and mention IDs are
generated. -/
def mentionEnv : Env :=
  { emptyEnv with
    urlParse := fun s =>
      if s == bobURI.raw then .ok bobURI
      else if s == aliceURI.raw then .ok aliceURI
      else if s == ghostURI.raw then .ok ghostURI
      else .error (.external 1)
    dbGetAccountByURI := fun _ u =>
      if u == bobURI.raw then .ok bobStored
      else if u == aliceURI.raw then .ok aliceWithMedia
      else .error .ErrNoEntries
    newRandomULID := fun i => if i == 1 then .ok "01RA" else .ok "01RB" }

/-- A status of zork with three unresolved mentions: of bob, of the actor
`ghostURI`, and of alice. -/
def taggedStatus : Status :=
  { ID := "01TS", URI := "https://other.example/users/zork/statuses/9",
    AccountID := "01Z", AccountURI := "https://other.example/users/zork",
    Mentions := [
      { NameString := "@bob@remote.example", TargetAccountURI := bobURI.raw },
      { NameString := "@ghost@gone.example", TargetAccountURI := ghostURI.raw },
      { NameString := "@alice@remote.example", TargetAccountURI := aliceURI.raw }] }

/-- An environment like `mentionEnv` in which no mention can be inserted. -/
def mentionPutFailsEnv : Env :=
  { mentionEnv with dbPutMention := fun _ _ => some (.external 13) }

/-! ### A server that never runs out of actors and posts -/

/-- Go `strings.HasPrefix`. -/
def hasPrefix (s pre : String) : Bool :=
  pre.data.isPrefixOf s.data

/-- The URI under which the server `evil.example` serves its post number
`n`. -/
def evilStatusURI (n : Nat) : URL :=
  ⟨"evil.example", "https://evil.example/statuses/" ++ toString n⟩

/-- The URI under which the server `evil.example` serves its actor number
`n`. -/
def evilActorURI (n : Nat) : URL :=
  ⟨"evil.example", "https://evil.example/users/" ++ toString n⟩

/-- What `streams.ToType` makes of the documents of `evil.example`: document
`3 * n` is the Note number `n`, document `3 * n + 1` is an ordered collection
that lists the post number `n`, and document `3 * n + 2` is the Person number
`n`. -/
def evilToType (m : JsonMap) : Res VType :=
  if m.key % 3 == 0 then
    .ok { typeName := ObjectNote, goType := ObjectNote, id := some (evilStatusURI (m.key / 3)) }
  else if m.key % 3 == 1 then
    .ok { typeName := ObjectOrderedCollection, goType := ObjectOrderedCollection,
          orderedItems := some [.other (some (evilStatusURI (m.key / 3)))] }
  else
    .ok { typeName := ActorPerson, goType := ActorPerson, id := some (evilActorURI (m.key / 3)) }

/-- A remote server that never runs out of new actors and posts.  Every
request to `evil.example` is answered with a document made for the occasion,
numbered by the position of the request: under a post URI a Note whose author
is a new actor, under a collection URI an ordered collection that lists a new
post, under any other URI a Person with a featured collection of its own.
Nothing is stored beforehand, every insert is accepted, and the identifiers
generated are all different.  In a run of a resolution against this server no
URI is looked up after an entity was stored under it, so the answers of the
database, that nothing is stored under the URI, are those of a database that
keeps what it is given. -/
def endlessEnv : Env :=
  { emptyEnv with
    urlParse := fun s =>
      if hasPrefix s "https://evil.example/" then .ok ⟨"evil.example", s⟩
      else .error (.external 1)
    dereference := fun i _ uri =>
      if hasPrefix uri.raw "https://evil.example/statuses/" then .ok [3 * i]
      else if hasPrefix uri.raw "https://evil.example/featured/" then .ok [3 * i + 1]
      else .ok [3 * i + 2]
    jsonUnmarshal := fun b =>
      match b with
      | [key] => .ok ⟨key⟩
      | _ => .error (.external 2)
    toType := evilToType
    extractAttributedTo := fun statusable =>
      match statusable.id with
      | some id => .ok ⟨"evil.example", "https://evil.example/users/" ++ id.raw.drop 30⟩
      | none => .error (.external 4)
    asRepresentationToAccount := fun _ accountable accountDomain =>
      match accountable.id with
      | some id =>
          .ok { Username := "mallory", Domain := accountDomain, URI := id.raw, URL := id.raw,
                FollowingURI := id.raw ++ "/following",
                FollowersURI := id.raw ++ "/followers",
                FeaturedCollectionURI := "https://evil.example/featured/" ++ id.raw.drop 27 }
      | none => .error (.external 7)
    newULID := fun i => "01N" ++ toString i
    populateEmojis := fun _ emojis _ => .ok emojis
    dbGetAccountPinnedStatuses := fun _ _ => .ok [] }

/-- The computation ends at every position and with every tables: it is never
cut off for want of nesting depth. -/
def Returns {α : Type} (m : M α) : Prop :=
  ∀ pos t, m pos t ≠ Outcome.outOfFuel

/-! ### Further accounts and environments -/

/-- The stored instance account of `remote.example` (its username is its
domain), which has never been fetched: `FetchedAt` is zero. -/
def remoteInstanceAccount : Account :=
  { ID := "01RI", CreatedAt := ⟨1⟩, Username := "remote.example", Domain := "remote.example",
    URI := "https://remote.example/actor" }

/-- The URI that the webfinger of `blocked.example` now names for eve. -/
def eveMovedURI : URL := ⟨"blocked.example", "https://blocked.example/users/eve2"⟩

/-- The instance `local.example` with every domain blocked, whose database
holds `eveStale`, found by her URI, while the webfinger of `blocked.example`
answers that eve is now at `eveMovedURI`. -/
def eveMovedEnv : Env :=
  { emptyEnv with
    dbIsDomainBlocked := fun _ _ => .ok true
    dbGetAccountByURI := fun _ uri =>
      if uri == "https://blocked.example/users/eve" then .ok eveStale
      else .error .ErrNoEntries
    finger := fun _ _ _ _ => .ok ("blocked.example", eveMovedURI) }

/-- The account that the type converter makes of `alicePerson` when both the
avatar and the header have changed. -/
def aliceRenewed : Account :=
  { aliceConverted with HeaderRemoteURL := "https://remote.example/h2.png" }

/-- The instance `local.example` where `remote.example` serves `alicePerson`
with a new avatar and a new header: the download of the avatar succeeds and
gives the attachment `01AV2`, the download of the header fails. -/
def refreshEnv : Env :=
  { emptyEnv with
    urlParse := fun s =>
      if s == "https://remote.example/a2.png" then
        .ok ⟨"remote.example", "https://remote.example/a2.png"⟩
      else if s == "https://remote.example/h2.png" then
        .ok ⟨"remote.example", "https://remote.example/h2.png"⟩
      else .error (.external 1)
    dereference := fun _ _ uri =>
      if uri == aliceURI then .ok [4] else .error (.external 6)
    jsonUnmarshal := fun b => if b == [4] then .ok ⟨4⟩ else .error (.external 2)
    toType := fun m => if m == ⟨4⟩ then .ok alicePerson else .error (.external 3)
    asRepresentationToAccount := fun _ _ _ => .ok aliceRenewed
    preProcessMedia := fun _ _ _ _ avatar _ _ =>
      if avatar then .ok ⟨"01AV2"⟩ else .ok ⟨"01HD2"⟩
    loadAttachment := fun _ processing =>
      if processing == ⟨"01AV2"⟩ then .ok { ID := "01AV2", AccountID := "01A" }
      else .error (.external 10)
    populateEmojis := fun _ es _ => .ok es }

/-- Lines 255-260 of `enrichAccount`, as `enrichAccountLatest` carries them
out on the freshly converted account: it takes the ID and the two attachment
IDs of the stored account, and the clock reading as its fetch time. -/
def enrichAccountPreset (account fingered : Account) (now : Time) : Account :=
  { fingered with
    ID := account.ID,
    FetchedAt := now,
    AvatarMediaAttachmentID := account.AvatarMediaAttachmentID,
    HeaderMediaAttachmentID := account.HeaderMediaAttachmentID }

/-- The attachment IDs and remote URLs of the avatar and of the header of an
account. -/
def Account.media (a : Account) : (String × String) × (String × String) :=
  ((a.AvatarMediaAttachmentID, a.AvatarRemoteURL),
    (a.HeaderMediaAttachmentID, a.HeaderRemoteURL))

/-! ## Runs, calls and sequencing -/

theorem bind_eq {α β : Type} (m : M α) (f : α → M β) (pos : Nat) (t : Tables) :
    (m >>= f) pos t = match m pos t with
      | Outcome.done a e1 t1 =>
          match f a (pos + e1.length) t1 with
          | Outcome.done b e2 t2 => Outcome.done b (e1 ++ e2) t2
          | Outcome.panicked e2 t2 => Outcome.panicked (e1 ++ e2) t2
          | Outcome.outOfFuel => Outcome.outOfFuel
      | Outcome.panicked e1 t1 => Outcome.panicked e1 t1
      | Outcome.outOfFuel => Outcome.outOfFuel := rfl

theorem pure_eq {α : Type} (a : α) (pos : Nat) (t : Tables) :
    (pure a : M α) pos t = Outcome.done a [] t := rfl

theorem call_eq {α : Type} (ev : Event) (answer : Nat → α) (pos : Nat) (t : Tables) :
    call ev answer pos t = Outcome.done (answer pos) [ev] t := rfl

theorem deferOnPanic_eq {α : Type} (ev : Event) (m : M α) (pos : Nat) (t : Tables) :
    deferOnPanic ev m pos t = match m pos t with
      | Outcome.done a evs t' => Outcome.done a evs t'
      | Outcome.panicked evs t' => Outcome.panicked (evs ++ [ev]) t'
      | Outcome.outOfFuel => Outcome.outOfFuel := rfl

theorem deferOnPanic_of_done {α : Type} {ev : Event} {m : M α} {pos : Nat} {t : Tables}
    {a : α} {evs : List Event} {t' : Tables} (h : m pos t = Outcome.done a evs t') :
    deferOnPanic ev m pos t = Outcome.done a evs t' := by
  rw [deferOnPanic_eq, h]

theorem deferOnPanic_done {α : Type} {ev : Event} {m : M α} {pos : Nat} {t : Tables}
    {a : α} {evs : List Event} {t' : Tables}
    (h : deferOnPanic ev m pos t = Outcome.done a evs t') :
    m pos t = Outcome.done a evs t' := by
  rw [deferOnPanic_eq] at h
  rcases hm : m pos t with ⟨a1, e1, t1⟩ | ⟨e1, t1⟩ | _
  · simpa only [hm] using h
  · simp [hm] at h
  · simp [hm] at h

theorem deferOnPanic_outOfFuel {α : Type} {ev : Event} {m : M α} {pos : Nat} {t : Tables}
    (h : m pos t = Outcome.outOfFuel) : deferOnPanic ev m pos t = Outcome.outOfFuel := by
  rw [deferOnPanic_eq, h]

theorem emits_pure {α : Type} (P : Event → Prop) (a : α) : Emits P (pure a : M α) := by
  intro pos t e he
  simp [pure_eq, Outcome.events] at he

theorem emits_call {α : Type} (P : Event → Prop) (ev : Event) (answer : Nat → α) (h : P ev) :
    Emits P (call ev answer) := by
  intro pos t e he
  simp [call_eq, Outcome.events] at he
  subst he; exact h

theorem emits_timeNow (P : Event → Prop) (env : Env) (h : P .timeNow) :
    Emits P (timeNow env) := emits_call P _ _ h

theorem emits_goPanic {α : Type} (P : Event → Prop) : Emits P (goPanic : M α) := by
  intro pos t e he
  simp [goPanic, Outcome.events] at he

theorem emits_cutOff {α : Type} (P : Event → Prop) : Emits P (cutOff : M α) := by
  intro pos t e he
  simp [cutOff, Outcome.events] at he

theorem emits_getTables (P : Event → Prop) : Emits P getTables := by
  intro pos t e he
  simp [getTables, Outcome.events] at he

theorem emits_setTables (P : Event → Prop) (t : Tables) : Emits P (setTables t) := by
  intro pos t e he
  simp [setTables, Outcome.events] at he

theorem emits_bind {α β : Type} (P : Event → Prop) (m : M α) (f : α → M β)
    (hm : Emits P m) (hf : ∀ a, Emits P (f a)) : Emits P (m >>= f) := by
  intro pos t e he
  rw [bind_eq] at he
  have h1 := hm pos t
  rcases hmo : m pos t with ⟨a, e1, t1⟩ | ⟨e1, t1⟩ | _
  · simp only [hmo] at he h1
    have h2 := hf a (pos + e1.length) t1
    rcases hfo : f a (pos + e1.length) t1 with ⟨b, e2, t2⟩ | ⟨e2, t2⟩ | _
    · simp only [hfo, Outcome.events, List.mem_append] at he h1 h2
      rcases he with he | he
      · exact h1 e he
      · exact h2 e he
    · simp only [hfo, Outcome.events, List.mem_append] at he h1 h2
      rcases he with he | he
      · exact h1 e he
      · exact h2 e he
    · simp [hfo, Outcome.events] at he
  · simp only [hmo] at he h1
    exact h1 e he
  · simp [hmo, Outcome.events] at he

theorem GetStatus_succ (env : Env) (depth : Nat) :
    GetStatus env (depth + 1) =
      GetStatusBody env (GetAccountByURI env depth) (GetStatus env depth) := rfl

theorem GetAccountByURI_succ (env : Env) (depth : Nat) :
    GetAccountByURI env (depth + 1) = GetAccountByURIBody env (GetStatus env depth) := rfl

theorem has_call {α : Type} (P : Event → Prop) (ev : Event) (answer : Nat → α) (h : P ev) :
    Has P (call ev answer) := by
  intro pos t a evs t' hrun
  simp only [call_eq, Outcome.done.injEq] at hrun
  exact ⟨ev, by simp [← hrun.2.1], h⟩

theorem has_bind_left {α β : Type} (P : Event → Prop) (m : M α) (f : α → M β)
    (hm : Has P m) : Has P (m >>= f) := by
  intro pos t b evs t' hrun
  rw [bind_eq] at hrun
  rcases hmo : m pos t with ⟨a, e1, t1⟩ | ⟨e1, t1⟩ | _
  · simp only [hmo] at hrun
    obtain ⟨e, he, hp⟩ := hm pos t a e1 t1 hmo
    rcases hfo : f a (pos + e1.length) t1 with ⟨b2, e2, t2⟩ | ⟨e2, t2⟩ | _
    · simp only [hfo, Outcome.done.injEq] at hrun
      exact ⟨e, by simp [← hrun.2.1, he], hp⟩
    · simp [hfo] at hrun
    · simp [hfo] at hrun
  · simp [hmo] at hrun
  · simp [hmo] at hrun

theorem has_bind_right {α β : Type} (P : Event → Prop) (m : M α) (f : α → M β)
    (hf : ∀ a, Has P (f a)) : Has P (m >>= f) := by
  intro pos t b evs t' hrun
  rw [bind_eq] at hrun
  rcases hmo : m pos t with ⟨a, e1, t1⟩ | ⟨e1, t1⟩ | _
  · simp only [hmo] at hrun
    rcases hfo : f a (pos + e1.length) t1 with ⟨b2, e2, t2⟩ | ⟨e2, t2⟩ | _
    · simp only [hfo, Outcome.done.injEq] at hrun
      obtain ⟨e, he, hp⟩ := hf a (pos + e1.length) t1 b2 e2 t2 hfo
      exact ⟨e, by simp [← hrun.2.1, he], hp⟩
    · simp [hfo] at hrun
    · simp [hfo] at hrun
  · simp [hmo] at hrun
  · simp [hmo] at hrun

theorem has_deferOnPanic {α : Type} (P : Event → Prop) (ev : Event) (m : M α)
    (hm : Has P m) : Has P (deferOnPanic ev m) := by
  intro pos t a evs t' hrun
  exact hm pos t a evs t' (deferOnPanic_done hrun)

theorem emits_deferOnPanic {α : Type} (P : Event → Prop) (ev : Event) (m : M α)
    (hev : P ev) (hm : Emits P m) : Emits P (deferOnPanic ev m) := by
  intro pos t e he
  have h := hm pos t
  rw [deferOnPanic_eq] at he
  rcases hmo : m pos t with ⟨a1, e1, t1⟩ | ⟨e1, t1⟩ | _
  · simp only [hmo, Outcome.events] at he h
    exact h e he
  · simp only [hmo, Outcome.events, List.mem_append, List.mem_singleton] at he h
    rcases he with he | he
    · exact h e he
    · rw [he]
      exact hev
  · simp [hmo, Outcome.events] at he

theorem bind_done {α β : Type} {m : M α} {f : α → M β} {pos : Nat} {t : Tables}
    {b : β} {evs : List Event} {t' : Tables}
    (h : (m >>= f) pos t = Outcome.done b evs t') :
    ∃ a e1 t1 e2, m pos t = Outcome.done a e1 t1 ∧
      f a (pos + e1.length) t1 = Outcome.done b e2 t' ∧ evs = e1 ++ e2 := by
  rw [bind_eq] at h
  rcases hmo : m pos t with ⟨a, e1, t1⟩ | ⟨e1, t1⟩ | _
  · simp only [hmo] at h
    rcases hfo : f a (pos + e1.length) t1 with ⟨b2, e2, t2⟩ | ⟨e2, t2⟩ | _
    · simp only [hfo, Outcome.done.injEq] at h
      obtain ⟨rfl, rfl, rfl⟩ := h
      exact ⟨a, e1, t1, e2, rfl, hfo, rfl⟩
    · simp [hfo] at h
    · simp [hfo] at h
  · simp [hmo] at h
  · simp [hmo] at h

theorem call_done {α : Type} {ev : Event} {answer : Nat → α} {pos : Nat} {t : Tables}
    {a : α} {evs : List Event} {t' : Tables}
    (h : call ev answer pos t = Outcome.done a evs t') :
    a = answer pos ∧ evs = [ev] ∧ t' = t := by
  simp only [call_eq, Outcome.done.injEq] at h
  exact ⟨h.1.symm, h.2.1.symm, h.2.2.symm⟩

theorem pure_done {α : Type} {x : α} {pos : Nat} {t : Tables}
    {a : α} {evs : List Event} {t' : Tables}
    (h : (pure x : M α) pos t = Outcome.done a evs t') :
    a = x ∧ evs = [] ∧ t' = t := by
  simp only [pure_eq, Outcome.done.injEq] at h
  exact ⟨h.1.symm, h.2.1.symm, h.2.2.symm⟩

theorem bind_assoc_eq {α β γ : Type} (m : M α) (f : α → M β) (g : β → M γ)
    (pos : Nat) (t : Tables) :
    ((m >>= f) >>= g) pos t = (m >>= fun a => f a >>= g) pos t := by
  simp only [bind_eq]
  rcases hm : m pos t with ⟨a, e1, t1⟩ | ⟨e1, t1⟩ | _
  · simp only []
    rcases hf : f a (pos + e1.length) t1 with ⟨b, e2, t2⟩ | ⟨e2, t2⟩ | _
    · simp only [List.length_append, Nat.add_assoc]
      rcases hg : g b (pos + (e1.length + e2.length)) t2 with ⟨c, e3, t3⟩ | ⟨e3, t3⟩ | _ <;>
        simp
    · simp
    · simp
  · simp
  · simp


/-! ## Lemmas on the embedded functions -/

theorem enrichAccountLatest_has_dereference (env : Env) (requestUser : String)
    (transport : Transport) (uri : URL) (account : Account) :
    Has (fun e => e.isDereference = true)
      (enrichAccountLatest env requestUser transport uri account) := by
  unfold enrichAccountLatest
  apply has_bind_left
  unfold dereferenceAccountable
  apply has_bind_left
  exact has_call _ _ _ rfl

theorem enrichAccountDeref_has_dereference (env : Env) (getStatus : GetStatusFn)
    (requestUser : String) (transport : Transport) (uri : URL) (account : Account) :
    Has (fun e => e.isDereference = true)
      (enrichAccountDeref env getStatus requestUser transport uri account) := by
  unfold enrichAccountDeref
  apply has_bind_right
  intro _
  apply has_deferOnPanic
  apply has_bind_left
  exact enrichAccountLatest_has_dereference env requestUser transport uri account

theorem enrichAccountFetch_head (env : Env) (getStatus : GetStatusFn) (requestUser : String)
    (uri : Option URL) (account : Account) (pos : Nat) (t : Tables)
    (r : Account × Res Account) (evs : List Event) (t' : Tables)
    (hrun : enrichAccountFetch env getStatus requestUser uri account pos t = .done r evs t') :
    ∃ rest, evs = .newTransportForUsername requestUser :: rest := by
  unfold enrichAccountFetch at hrun
  obtain ⟨a, e1, t1, e2, h1, -, rfl⟩ := bind_done hrun
  obtain ⟨-, rfl, -⟩ := call_done h1
  exact ⟨e2, rfl⟩

theorem enrichAccountFetch_ok_dereference (env : Env) (getStatus : GetStatusFn)
    (requestUser : String) (uri : Option URL) (account : Account) (pos : Nat) (t : Tables)
    (c r : Account) (evs : List Event) (t' : Tables)
    (hrun : enrichAccountFetch env getStatus requestUser uri account pos t =
      .done (c, .ok r) evs t') :
    ∃ e ∈ evs, e.isDereference = true := by
  unfold enrichAccountFetch at hrun
  obtain ⟨a, e1, t1, e2, -, h2, rfl⟩ := bind_done hrun
  rcases a with err | transport
  · simp [pure_eq] at h2
  · obtain ⟨a, e3, t3, e4, -, h4, rfl⟩ := bind_done h2
    rcases a with err | ⟨caller, current, found⟩
    · simp [pure_eq] at h4
    · rcases hU : enrichAccountURI env found current with err | target
      · simp [hU, pure_eq] at h4
      · simp only [hU] at h4
        obtain ⟨a, e5, t5, e6, -, h6, rfl⟩ := bind_done h4
        rcases a with err | blocked
        · simp [pure_eq] at h6
        · cases blocked
          · obtain ⟨a, e7, t7, e8, h7, -, rfl⟩ := bind_done h6
            obtain ⟨e, he, hp⟩ := enrichAccountDeref_has_dereference _ _ _ _ _ _ _ _ _ _ _ h7
            exact ⟨e, by simp [he], hp⟩
          · simp [pure_eq] at h6

theorem enrichAccount_stale (env : Env) (getStatus : GetStatusFn) (requestUser : String)
    (uri : Option URL) (account : Account) (block : Bool) (pos : Nat) (t : Tables)
    (hremote : account.IsRemote env.cfg = true)
    (hgate : (!account.CreatedAt.IsZero && account.IsInstance) = false)
    (hstale : (account.FetchedAt.Add (Hour * 48)).ns ≤ (Time.ofUnixNano (env.timeNow pos)).ns) :
    enrichAccount env getStatus requestUser uri account false block pos t =
      (timeNow env >>= fun _ => enrichAccountFetch env getStatus requestUser uri account) pos t := by
  have hl : account.IsLocal env.cfg = false := by
    simpa [Account.IsRemote] using hremote
  have hb : (Time.ofUnixNano (env.timeNow pos)).Before (account.FetchedAt.Add (Hour * 48))
      = false := by
    simp only [Time.Before, decide_eq_false_iff_not, not_lt]
    exact hstale
  simp [enrichAccount, hl, hgate, bind_eq, timeNow, call_eq, hb]

theorem ofUnixNano_not_before_zero_window (n : Nat) :
    (Time.ofUnixNano n).Before (Time.zero.Add (Hour * 48)) = false := by
  simp only [Time.Before, Time.ofUnixNano, Time.Add, Time.zero, Hour, unixToInternal,
    decide_eq_false_iff_not, not_lt]
  omega

theorem enrichAccount_zero_fetchedAt (env : Env) (getStatus : GetStatusFn)
    (requestUser : String) (uri : Option URL) (account : Account) (block : Bool)
    (pos : Nat) (t : Tables)
    (hz : account.FetchedAt = Time.zero) (hremote : account.IsRemote env.cfg = true)
    (hgate : (!account.CreatedAt.IsZero && account.IsInstance) = false) :
    enrichAccount env getStatus requestUser uri account false block pos t =
      (timeNow env >>= fun _ =>
        enrichAccount env getStatus requestUser uri account true block) pos t := by
  have hl : account.IsLocal env.cfg = false := by
    simpa [Account.IsRemote] using hremote
  have hb := ofUnixNano_not_before_zero_window (env.timeNow pos)
  rw [← hz] at hb
  simp [enrichAccount, hl, hgate, bind_eq, timeNow, call_eq, hb]

theorem enrichAccount_forced (env : Env) (getStatus : GetStatusFn)
    (requestUser : String) (uri : Option URL) (account : Account) (block : Bool)
    (hremote : account.IsRemote env.cfg = true)
    (hgate : (!account.CreatedAt.IsZero && account.IsInstance) = false) :
    enrichAccount env getStatus requestUser uri account true block =
      enrichAccountFetch env getStatus requestUser uri account := by
  have hl : account.IsLocal env.cfg = false := by
    simpa [Account.IsRemote] using hremote
  simp [enrichAccount, hl, hgate]

theorem isRemote_of_host (cfg : Config) (account : Account)
    (h0 : account.Domain ≠ "") (h1 : account.Domain ≠ cfg.Host)
    (h2 : account.Domain ≠ cfg.AccountDomain) : account.IsRemote cfg = true := by
  simp [Account.IsRemote, Account.IsLocal, h0, h1, h2]


theorem Time.zero_isZero : Time.zero.IsZero = true := rfl

theorem GetAccountByURIBody_not_found (env : Env) (getStatus : GetStatusFn)
    (requestUser : String) (uri : URL) (block : Bool) (pos : Nat) (t : Tables)
    (err1 err2 : Err)
    (h0 : uri.Host ≠ "") (h1 : uri.Host ≠ env.cfg.Host)
    (h2 : uri.Host ≠ env.cfg.AccountDomain)
    (q1 : env.dbGetAccountByURI pos uri.raw = .error err1)
    (hn1 : err1.Is .ErrNoEntries = true)
    (q2 : env.dbGetAccountByURL (pos + 1) uri.raw = .error err2)
    (hn2 : err2.Is .ErrNoEntries = true) :
    GetAccountByURIBody env getStatus requestUser uri block pos t =
      (call (.dbGetAccountByURI uri.raw) (fun i => env.dbGetAccountByURI i uri.raw) >>= fun _ =>
        call (.dbGetAccountByURL uri.raw) (fun i => env.dbGetAccountByURL i uri.raw) >>= fun _ =>
        call .newULID env.newULID >>= fun newID =>
        (timeNow env >>= fun _ =>
          enrichAccountFetch env getStatus requestUser (some uri)
            { ID := newID, Domain := uri.Host, URI := uri.raw }) >>= fun r =>
        pure r.2) pos t := by
  have hl : (uri.Host == env.cfg.Host || uri.Host == env.cfg.AccountDomain) = false := by
    simp [h1, h2]
  have hE : ∀ newID p tb, enrichAccount env getStatus requestUser (some uri)
      { ID := newID, Domain := uri.Host, URI := uri.raw } false true p tb =
      (timeNow env >>= fun _ => enrichAccountFetch env getStatus requestUser (some uri)
        { ID := newID, Domain := uri.Host, URI := uri.raw }) p tb := by
    intro newID p tb
    rw [enrichAccount_zero_fetchedAt env getStatus requestUser (some uri)
        { ID := newID, Domain := uri.Host, URI := uri.raw } true p tb rfl
        (isRemote_of_host _ _ h0 h1 h2) (by rfl),
      enrichAccount_forced env getStatus requestUser (some uri)
        { ID := newID, Domain := uri.Host, URI := uri.raw } true
        (isRemote_of_host _ _ h0 h1 h2) (by rfl)]
  simp [GetAccountByURIBody, GetAccountByURINew, bind_eq, call_eq, pure_eq,
    q1, hn1, q2, hn2, hl, hE]
theorem GetStatusStore_ok (env : Env) (getAccountByURI : GetAccountFn) (getStatus : GetStatusFn)
    (username : String) (statusable : Statusable) (includeParent : Bool)
    (pos : Nat) (t : Tables) (st : Status) (sa : Option Statusable) (evs : List Event)
    (t' : Tables)
    (hrun : GetStatusStore env getAccountByURI getStatus username statusable includeParent pos t =
      .done (.ok (st, sa)) evs t') : sa = some statusable := by
  unfold GetStatusStore at hrun
  obtain ⟨a1, e1, t1, r1, -, h1, rfl⟩ := bind_done hrun
  rcases a1 with err | converted
  · simp [pure_eq] at h1
  · obtain ⟨a2, e2, t2, r2, -, h2, rfl⟩ := bind_done h1
    rcases a2 with err | ulid
    · simp [pure_eq] at h2
    · obtain ⟨a3, e3, t3, r3, -, h3, rfl⟩ := bind_done h2
      by_cases hp : a3.2.isSome = true
      · simp [hp, pure_eq] at h3
      · simp only [hp] at h3
        obtain ⟨a4, e4, t4, r4, -, h4, rfl⟩ := bind_done h3
        rcases a4 with _ | err
        · obtain ⟨ha, -, -⟩ := pure_done h4
          simp only [Except.ok.injEq, Prod.mk.injEq] at ha
          exact ha.2
        · by_cases hx : err.Is .ErrAlreadyExists = true
          · simp only [hx, Bool.not_true, Bool.false_eq_true, if_false] at h4
            obtain ⟨ha, -, -⟩ := pure_done h4
            simp only [Except.ok.injEq, Prod.mk.injEq] at ha
            exact ha.2
          · simp [hx, pure_eq] at h4

theorem GetStatusNew_ok (env : Env) (getAccountByURI : GetAccountFn) (getStatus : GetStatusFn)
    (username : String) (statusable : Statusable) (includeParent : Bool)
    (pos : Nat) (t : Tables) (st : Status) (sa : Option Statusable) (evs : List Event)
    (t' : Tables)
    (hrun : GetStatusNew env getAccountByURI getStatus username statusable includeParent pos t =
      .done (.ok (st, sa)) evs t') : sa = some statusable := by
  unfold GetStatusNew at hrun
  rcases hA : env.extractAttributedTo statusable with err | accountURI
  · simp [hA, pure_eq] at hrun
  · simp only [hA] at hrun
    obtain ⟨a1, e1, t1, r1, -, h1, rfl⟩ := bind_done hrun
    rcases a1 with err | acct
    · simp [pure_eq] at h1
    · exact GetStatusStore_ok _ _ _ _ _ _ _ _ _ _ _ _ h1

theorem GetStatusFetch_ok (env : Env) (getAccountByURI : GetAccountFn) (getStatus : GetStatusFn)
    (username : String) (statusURI : URL) (refetch includeParent : Bool)
    (status : Option Status) (pos : Nat) (t : Tables) (st : Status) (sa : Option Statusable)
    (evs : List Event) (t' : Tables)
    (hnl : (statusURI.Host == env.cfg.Host || statusURI.Host == env.cfg.AccountDomain) = false)
    (hrun : GetStatusFetch env getAccountByURI getStatus username statusURI refetch includeParent
      status pos t = .done (.ok (st, sa)) evs t') :
    ∃ statusable tsport p tb e tb', sa = some statusable ∧
      dereferenceStatusable env tsport statusURI p tb = .done (.ok statusable) e tb' := by
  unfold GetStatusFetch at hrun
  simp only [hnl, Bool.false_eq_true, if_false] at hrun
  obtain ⟨a1, e1, t1, r1, -, h1, rfl⟩ := bind_done hrun
  rcases a1 with err | tsport
  · simp [pure_eq] at h1
  · obtain ⟨a2, e2, t2, r2, hd, h2, rfl⟩ := bind_done h1
    rcases a2 with err | statusable
    · simp [pure_eq] at h2
    · refine ⟨statusable, tsport, _, _, _, _, ?_, hd⟩
      rcases status with _ | found
      · exact GetStatusNew_ok _ _ _ _ _ _ _ _ _ _ _ _ h2
      · cases refetch
        · exact GetStatusNew_ok _ _ _ _ _ _ _ _ _ _ _ _ h2
        · obtain ⟨ha, -, -⟩ := pure_done h2
          simp only [Except.ok.injEq, Prod.mk.injEq] at ha
          exact ha.2
theorem startsWith_nil {α : Type} (m : M α) : StartsWith [] m := by
  intro pos t
  exact Or.inr ⟨_, rfl⟩

theorem startsWith_bind {α β : Type} (l : List Event) (m : M α) (f : α → M β)
    (hm : StartsWith l m) : StartsWith l (m >>= f) := by
  intro pos t
  rw [bind_eq]
  rcases hm pos t with h | ⟨rest, h⟩
  · left; simp [h]
  · rcases hmo : m pos t with ⟨a, e1, t1⟩ | ⟨e1, t1⟩ | _
    · simp only [hmo, Outcome.events] at h
      subst h
      rcases hfo : f a (pos + (l ++ rest).length) t1 with ⟨b, e2, t2⟩ | ⟨e2, t2⟩ | _
      · right; exact ⟨rest ++ e2, by simp only [hfo, Outcome.events, List.append_assoc]⟩
      · right; exact ⟨rest ++ e2, by simp only [hfo, Outcome.events, List.append_assoc]⟩
      · left; simp only [hfo]
    · simp only [hmo, Outcome.events] at h
      right; exact ⟨rest, by simp only [Outcome.events, h]⟩
    · left; rfl

theorem startsWith_call_bind {α β : Type} (l : List Event) (ev : Event) (answer : Nat → α)
    (f : α → M β) (hf : ∀ a, StartsWith l (f a)) :
    StartsWith (ev :: l) (call ev answer >>= f) := by
  intro pos t
  rw [bind_eq]
  simp only [call_eq]
  rcases hf (answer pos) (pos + [ev].length) t with h | ⟨rest, h⟩
  · left; simp only [h]
  · rcases hfo : f (answer pos) (pos + [ev].length) t with ⟨b, e2, t2⟩ | ⟨e2, t2⟩ | _
    · simp only [hfo, Outcome.events] at h
      right; exact ⟨rest, by simp [hfo, Outcome.events, h]⟩
    · simp only [hfo, Outcome.events] at h
      right; exact ⟨rest, by simp [hfo, Outcome.events, h]⟩
    · left; simp only [hfo]

theorem dereferenceAccountable_startsWith (env : Env) (transport : Transport) (uri : URL) :
    StartsWith [.dereference transport uri] (dereferenceAccountable env transport uri) := by
  unfold dereferenceAccountable
  exact startsWith_call_bind [] _ _ _ (fun _ => startsWith_nil _)

theorem startsWith_deferOnPanic {α : Type} (l : List Event) (ev : Event) (m : M α)
    (hm : StartsWith l m) : StartsWith l (deferOnPanic ev m) := by
  intro pos t
  rw [deferOnPanic_eq]
  rcases hm pos t with h | ⟨rest, h⟩
  · left; simp [h]
  · rcases hmo : m pos t with ⟨a, e1, t1⟩ | ⟨e1, t1⟩ | _
    · simp only [hmo, Outcome.events] at h
      right; exact ⟨rest, by simp only [Outcome.events, h]⟩
    · simp only [hmo, Outcome.events] at h
      right; exact ⟨rest ++ [ev], by simp only [Outcome.events, h, List.append_assoc]⟩
    · left; rfl

theorem enrichAccountDeref_startsWith (env : Env) (getStatus : GetStatusFn)
    (requestUser : String) (transport : Transport) (uri : URL) (account : Account) :
    StartsWith [.startHandshake requestUser uri, .dereference transport uri]
      (enrichAccountDeref env getStatus requestUser transport uri account) := by
  unfold enrichAccountDeref
  refine startsWith_call_bind _ _ _ _ (fun _ => ?_)
  apply startsWith_deferOnPanic
  apply startsWith_bind
  unfold enrichAccountLatest
  apply startsWith_bind
  exact dereferenceAccountable_startsWith env transport uri

theorem isDereference_finger (tr : Transport) (u d : String) :
    (Event.finger tr u d).isDereference = false := rfl

theorem isDereference_dbGetAccountByUsernameDomain (u d : String) :
    (Event.dbGetAccountByUsernameDomain u d).isDereference = false := rfl

theorem enrichAccountFinger_run (env : Env) (transport : Transport) (uri : Option URL)
    (account : Account) (pos : Nat) (t : Tables) :
    ∃ a e, enrichAccountFinger env transport uri account pos t = .done a e t ∧
      (∀ ev ∈ e, ev.isDereference = false) ∧
      (account.Username = "" → e = []) := by
  unfold enrichAccountFinger
  by_cases hu : account.Username = ""
  · simp [hu, pure_eq]
  · simp only [bne_iff_ne, ne_eq, hu, not_false_eq_true, if_true, bind_eq, call_eq]
    rcases hf : env.finger pos transport account.Username account.Domain with
      err | ⟨accDomain, accURI⟩
    · by_cases h : account.URI = "" <;> simp [h, pure_eq] <;>
        exact ⟨_, _, ⟨rfl, rfl⟩, by simp [isDereference_finger]⟩
    · by_cases hd : account.Domain = accDomain
      · simp [hd, pure_eq]
        exact ⟨_, _, ⟨rfl, rfl⟩, by simp [isDereference_finger]⟩
      · rcases hq : env.dbGetAccountByUsernameDomain (pos + 1) account.Username accDomain with
          err | already
        · rcases hn : err.Is .ErrNoEntries <;>
            simp [hd, hq, hn, pure_eq, bind_eq, call_eq] <;>
            exact ⟨_, _, ⟨rfl, rfl⟩,
              by simp [isDereference_finger, isDereference_dbGetAccountByUsernameDomain]⟩
        · simp [hd, hq, pure_eq, bind_eq, call_eq]
          exact ⟨_, _, ⟨rfl, rfl⟩,
            by simp [isDereference_finger, isDereference_dbGetAccountByUsernameDomain]⟩

theorem checkedFirst_nil (env : Env) (requestUser username : String) (pos : Nat) :
    CheckedFirst env requestUser username pos [] :=
  Or.inl ⟨by simp, by simp⟩

theorem checkedFirst_cons (env : Env) (requestUser username : String) (pos : Nat)
    (ev : Event) (evs : List Event) (h1 : ev.isDereference = false)
    (h2 : ev.isNetwork = false)
    (h : CheckedFirst env requestUser username (pos + 1) evs) :
    CheckedFirst env requestUser username pos (ev :: evs) := by
  rcases h with ⟨hd, hn⟩ | ⟨pre, tr, target, rest, rfl, hd, hn, hb⟩
  · left
    refine ⟨?_, ?_⟩
    · intro e he
      rcases List.mem_cons.1 he with rfl | he
      · exact h1
      · exact hd e he
    · intro hu e he
      rcases List.mem_cons.1 he with rfl | he
      · exact h2
      · exact hn hu e he
  · right
    refine ⟨ev :: pre, tr, target, rest, rfl, ?_, ?_, ?_⟩
    · intro e he
      rcases List.mem_cons.1 he with rfl | he
      · exact h1
      · exact hd e he
    · intro hu e he
      rcases List.mem_cons.1 he with rfl | he
      · exact h2
      · exact hn hu e he
    · rw [List.length_cons, ← hb]
      congr 1
      omega

theorem enrichAccountFetch_checkedFirst (env : Env) (getStatus : GetStatusFn)
    (requestUser : String) (uri : Option URL) (account : Account) (pos : Nat) (t : Tables) :
    CheckedFirst env requestUser account.Username pos
      (enrichAccountFetch env getStatus requestUser uri account pos t).events := by
  unfold enrichAccountFetch
  simp only [bind_eq, call_eq]
  rcases hnt : env.newTransportForUsername pos requestUser with terr | transport
  · simp only [pure_eq, Outcome.events]
    left
    simp [Event.isDereference, Event.isNetwork]
  · obtain ⟨a, e, hfin, hnd, hnn⟩ := enrichAccountFinger_run env transport uri account
      (pos + [Event.newTransportForUsername requestUser].length) t
    simp only [bind_eq, hfin]
    have hleft : ∀ extra : List Event, (∀ ev ∈ extra, ev.isDereference = false) →
        (∀ ev ∈ extra, ev.isNetwork = false) →
        CheckedFirst env requestUser account.Username pos
          ([Event.newTransportForUsername requestUser] ++ (e ++ extra)) := by
      intro extra hx1 hx2
      left
      refine ⟨?_, ?_⟩
      · intro ev hev
        simp only [List.singleton_append, List.mem_cons, List.mem_append] at hev
        rcases hev with rfl | hev | hev
        · rfl
        · exact hnd ev hev
        · exact hx1 ev hev
      · intro hu ev hev
        rw [hnn hu] at hev
        simp only [List.singleton_append, List.mem_cons, List.nil_append] at hev
        rcases hev with rfl | hev
        · rfl
        · exact hx2 ev hev
    rcases a with err | ⟨caller, current, found⟩
    · simp only [pure_eq, Outcome.events]
      exact hleft [] (by simp) (by simp)
    · simp only []
      rcases hU : enrichAccountURI env found current with err | target
      · simp only [pure_eq, Outcome.events]
        exact hleft [] (by simp) (by simp)
      · simp only [bind_eq, call_eq]
        rcases hck : env.dbIsDomainBlocked
            (pos + [Event.newTransportForUsername requestUser].length + e.length)
            target.Host with err | blocked
        · simp only [pure_eq, Outcome.events, List.append_nil]
          exact hleft [Event.dbIsDomainBlocked target.Host]
            (by simp [Event.isDereference]) (by simp [Event.isNetwork])
        · cases blocked
          · simp only [Bool.false_eq_true, if_false, bind_eq, pure_eq]
            rcases enrichAccountDeref_startsWith env getStatus requestUser transport target
                current
                (pos + [Event.newTransportForUsername requestUser].length + e.length +
                  [Event.dbIsDomainBlocked target.Host].length) t with hcut | ⟨rest, hev⟩
            · simp only [hcut, Outcome.events]
              exact checkedFirst_nil _ _ _ _
            · rcases hdo : enrichAccountDeref env getStatus requestUser transport target
                  current
                  (pos + [Event.newTransportForUsername requestUser].length + e.length +
                    [Event.dbIsDomainBlocked target.Host].length) t with
                ⟨b, e2, t2⟩ | ⟨e2, t2⟩ | _
              · simp only [hdo, Outcome.events] at hev
                subst hev
                simp only [Outcome.events]
                right
                refine ⟨Event.newTransportForUsername requestUser :: e, transport, target,
                  rest, by simp, ?_, ?_, ?_⟩
                · intro ev hev
                  rcases List.mem_cons.1 hev with rfl | hev
                  · rfl
                  · exact hnd ev hev
                · intro hu ev hev
                  rw [hnn hu] at hev
                  simp only [List.mem_singleton] at hev
                  subst hev
                  rfl
                · rw [← hck]
                  congr 1
                  simp only [List.length_cons, List.length_nil]
                  omega
              · simp only [hdo, Outcome.events] at hev
                subst hev
                simp only [Outcome.events]
                right
                refine ⟨Event.newTransportForUsername requestUser :: e, transport, target,
                  rest, by simp, ?_, ?_, ?_⟩
                · intro ev hev
                  rcases List.mem_cons.1 hev with rfl | hev
                  · rfl
                  · exact hnd ev hev
                · intro hu ev hev
                  rw [hnn hu] at hev
                  simp only [List.mem_singleton] at hev
                  subst hev
                  rfl
                · rw [← hck]
                  congr 1
                  simp only [List.length_cons, List.length_nil]
                  omega
              · simp only [Outcome.events]
                exact checkedFirst_nil _ _ _ _
          · simp only [if_true, pure_eq, Outcome.events, List.append_nil]
            exact hleft [Event.dbIsDomainBlocked target.Host]
              (by simp [Event.isDereference]) (by simp [Event.isNetwork])


/-! ### Runs that make no call to `PutStatus` -/

theorem dereferenceAccountable_noPut (env : Env) (transport : Transport) (u : URL) :
    Emits (fun e => e.isPutStatus = false) (dereferenceAccountable env transport u) := by
  unfold dereferenceAccountable
  repeat' first
    | exact emits_pure _ _
    | exact emits_goPanic _
    | exact emits_call _ _ _ rfl
    | refine emits_bind _ _ _ ?_ (fun _ => ?_)
    | split

theorem fetchRemoteAccountAvatar_noPut (env : Env) (tsport : Transport) (a b : String) :
    Emits (fun e => e.isPutStatus = false) (fetchRemoteAccountAvatar env tsport a b) := by
  unfold fetchRemoteAccountAvatar
  repeat' first
    | exact emits_pure _ _
    | exact emits_getTables _
    | exact emits_setTables _ _
    | exact emits_call _ _ _ rfl
    | refine emits_bind _ _ _ ?_ (fun _ => ?_)
    | split

theorem fetchRemoteAccountHeader_noPut (env : Env) (tsport : Transport) (a b : String) :
    Emits (fun e => e.isPutStatus = false) (fetchRemoteAccountHeader env tsport a b) := by
  unfold fetchRemoteAccountHeader
  repeat' first
    | exact emits_pure _ _
    | exact emits_getTables _
    | exact emits_setTables _ _
    | exact emits_call _ _ _ rfl
    | refine emits_bind _ _ _ ?_ (fun _ => ?_)
    | split

theorem loadMaybeEmojis_noPut (env : Env) (ids : List String) (acc : List Emoji) :
    Emits (fun e => e.isPutStatus = false) (loadMaybeEmojis env ids acc) := by
  induction ids generalizing acc with
  | nil => exact emits_pure _ _
  | cons id rest ih =>
      unfold loadMaybeEmojis
      refine emits_bind _ _ _ (emits_call _ _ _ rfl) (fun a => ?_)
      split
      · exact emits_pure _ _
      · exact ih _

theorem fetchRemoteAccountEmojis_noPut (env : Env) (a : Account) (u : String) :
    Emits (fun e => e.isPutStatus = false) (fetchRemoteAccountEmojis env a u) := by
  unfold fetchRemoteAccountEmojis maybeEmojisOf
  repeat' first
    | exact emits_pure _ _
    | exact loadMaybeEmojis_noPut _ _ _
    | exact emits_call _ _ _ rfl
    | refine emits_bind _ _ _ ?_ (fun _ => ?_)
    | split

theorem dbUpdateAccount_noPut (env : Env) (a : Account) :
    Emits (fun e => e.isPutStatus = false) (dbUpdateAccount env a) := by
  unfold dbUpdateAccount timeNow
  repeat' first
    | exact emits_pure _ _
    | exact emits_call _ _ _ rfl
    | refine emits_bind _ _ _ ?_ (fun _ => ?_)

theorem enrichAccountLatest_noPut (env : Env) (requestUser : String) (transport : Transport)
    (uri : URL) (account : Account) :
    Emits (fun e => e.isPutStatus = false)
      (enrichAccountLatest env requestUser transport uri account) := by
  unfold enrichAccountLatest enrichAccountFingerLatest enrichAccountAvatar enrichAccountHeader
    enrichAccountStore timeNow
  repeat' first
    | exact emits_pure _ _
    | exact dereferenceAccountable_noPut _ _ _
    | exact fetchRemoteAccountAvatar_noPut _ _ _ _
    | exact fetchRemoteAccountHeader_noPut _ _ _ _
    | exact fetchRemoteAccountEmojis_noPut _ _ _
    | exact dbUpdateAccount_noPut _ _
    | exact emits_call _ _ _ rfl
    | refine emits_bind _ _ _ ?_ (fun _ => ?_)
    | split

theorem enrichAccountFinger_noPut (env : Env) (transport : Transport) (uri : Option URL)
    (account : Account) :
    Emits (fun e => e.isPutStatus = false) (enrichAccountFinger env transport uri account) := by
  unfold enrichAccountFinger
  repeat' first
    | exact emits_pure _ _
    | exact emits_call _ _ _ rfl
    | refine emits_bind _ _ _ ?_ (fun _ => ?_)
    | split

theorem dereferenceStatusable_noPut (env : Env) (tsport : Transport) (u : URL) :
    Emits (fun e => e.isPutStatus = false) (dereferenceStatusable env tsport u) := by
  unfold dereferenceStatusable
  repeat' first
    | exact emits_pure _ _
    | exact emits_call _ _ _ rfl
    | refine emits_bind _ _ _ ?_ (fun _ => ?_)
    | split

theorem emits_done {α : Type} {P : Event → Prop} {m : M α} (h : Emits P m) {pos : Nat}
    {t : Tables} {a : α} {evs : List Event} {t' : Tables}
    (hrun : m pos t = Outcome.done a evs t') : ∀ e ∈ evs, P e := by
  have := h pos t
  simpa only [hrun, Outcome.events] using this

theorem enrichAccountDeref_error_noPut (env : Env) (getStatus : GetStatusFn)
    (requestUser : String) (transport : Transport) (uri : URL) (account : Account)
    (pos : Nat) (t : Tables) (err : Err) (evs : List Event) (t' : Tables)
    (hrun : enrichAccountDeref env getStatus requestUser transport uri account pos t =
      .done (.error err) evs t') : ∀ e ∈ evs, e.isPutStatus = false := by
  unfold enrichAccountDeref at hrun
  obtain ⟨a1, e1, t1, r1, hc1, h1, rfl⟩ := bind_done hrun
  obtain ⟨-, rfl, rfl⟩ := call_done hc1
  obtain ⟨a2, e2, t2, r2, hl, h2, rfl⟩ := bind_done (deferOnPanic_done h1)
  have hle := emits_done (enrichAccountLatest_noPut env requestUser transport uri account) hl
  rcases a2 with err2 | latestAcc
  · obtain ⟨a3, e3, t3, r3, hc3, h3, rfl⟩ := bind_done h2
    obtain ⟨-, rfl, rfl⟩ := call_done hc3
    obtain ⟨-, rfl, -⟩ := pure_done h3
    intro e he
    simp only [List.mem_append, List.mem_singleton, List.mem_cons, List.not_mem_nil,
      or_false] at he
    rcases he with rfl | he | rfl
    · rfl
    · exact hle e he
    · rfl
  · exfalso
    by_cases hf : (latestAcc.FeaturedCollectionURI != "") = true
    · simp only [hf, if_true] at h2
      obtain ⟨a3, e3, t3, r3, -, h3, rfl⟩ := bind_done h2
      obtain ⟨a4, e4, t4, r4, -, h4, rfl⟩ := bind_done h3
      obtain ⟨ha, -, -⟩ := pure_done h4
      cases ha
    · simp only [hf] at h2
      obtain ⟨a4, e4, t4, r4, -, h4, rfl⟩ := bind_done h2
      obtain ⟨ha, -, -⟩ := pure_done h4
      cases ha

theorem enrichAccountFetch_error_noPut (env : Env) (getStatus : GetStatusFn)
    (requestUser : String) (uri : Option URL) (account : Account)
    (pos : Nat) (t : Tables) (a : Account) (err : Err) (evs : List Event) (t' : Tables)
    (hrun : enrichAccountFetch env getStatus requestUser uri account pos t =
      .done (a, .error err) evs t') : ∀ e ∈ evs, e.isPutStatus = false := by
  unfold enrichAccountFetch at hrun
  obtain ⟨a1, e1, t1, r1, hc1, h1, rfl⟩ := bind_done hrun
  obtain ⟨-, rfl, rfl⟩ := call_done hc1
  rcases a1 with err1 | transport
  · obtain ⟨-, rfl, -⟩ := pure_done h1
    intro e he
    simp only [List.append_nil, List.mem_singleton] at he
    subst he; rfl
  · obtain ⟨a2, e2, t2, r2, hfi, h2, rfl⟩ := bind_done h1
    have hfe := emits_done (enrichAccountFinger_noPut env transport uri account) hfi
    rcases a2 with err2 | ⟨caller, current, found⟩
    · obtain ⟨-, rfl, -⟩ := pure_done h2
      intro e he
      simp only [List.append_nil, List.mem_append, List.mem_singleton] at he
      rcases he with rfl | he
      · rfl
      · exact hfe e he
    · simp only [] at h2
      rcases hu : enrichAccountURI env found current with err3 | target
      · simp only [hu] at h2
        obtain ⟨-, rfl, -⟩ := pure_done h2
        intro e he
        simp only [List.append_nil, List.mem_append, List.mem_singleton] at he
        rcases he with rfl | he
        · rfl
        · exact hfe e he
      · simp only [hu] at h2
        obtain ⟨a4, e4, t4, r4, hc4, h4, rfl⟩ := bind_done h2
        obtain ⟨-, rfl, rfl⟩ := call_done hc4
        rcases a4 with err4 | blocked
        · obtain ⟨-, rfl, -⟩ := pure_done h4
          intro e he
          simp only [List.append_nil, List.mem_append, List.mem_singleton] at he
          rcases he with rfl | he | rfl
          · rfl
          · exact hfe e he
          · rfl
        · cases blocked
          · simp only [Bool.false_eq_true, if_false] at h4
            obtain ⟨a5, e5, t5, r5, hd5, h5, rfl⟩ := bind_done h4
            obtain ⟨ha, rfl, -⟩ := pure_done h5
            simp only [Prod.mk.injEq] at ha
            obtain ⟨-, ha⟩ := ha
            subst ha
            have hde := enrichAccountDeref_error_noPut _ _ _ _ _ _ _ _ _ _ _ hd5
            intro e he
            simp only [List.append_nil, List.mem_append, List.mem_singleton] at he
            rcases he with rfl | he | rfl | he
            · rfl
            · exact hfe e he
            · rfl
            · exact hde e he
          · simp only [if_true] at h4
            obtain ⟨-, rfl, -⟩ := pure_done h4
            intro e he
            simp only [List.append_nil, List.mem_append, List.mem_singleton] at he
            rcases he with rfl | he | rfl
            · rfl
            · exact hfe e he
            · rfl

theorem enrichAccount_error_noPut (env : Env) (getStatus : GetStatusFn)
    (requestUser : String) (uri : Option URL) (account : Account) (force block : Bool)
    (pos : Nat) (t : Tables) (a : Account) (err : Err) (evs : List Event) (t' : Tables)
    (hrun : enrichAccount env getStatus requestUser uri account force block pos t =
      .done (a, .error err) evs t') : ∀ e ∈ evs, e.isPutStatus = false := by
  unfold enrichAccount at hrun
  rcases hl : account.IsLocal env.cfg
  rotate_left
  · simp only [hl, if_true] at hrun
    obtain ⟨ha, -, -⟩ := pure_done hrun
    cases ha
  rcases hg : (!account.CreatedAt.IsZero && account.IsInstance)
  rotate_left
  · simp only [hl, hg, Bool.false_eq_true, if_true, if_false] at hrun
    obtain ⟨ha, -, -⟩ := pure_done hrun
    cases ha
  cases force
  · simp only [hl, hg, Bool.false_eq_true, if_false, Bool.not_false, if_true] at hrun
    obtain ⟨now, e1, t1, r1, hc1, h1, rfl⟩ := bind_done hrun
    obtain ⟨-, rfl, rfl⟩ := call_done hc1
    rcases hb : now.Before (account.FetchedAt.Add (Hour * 48))
    · simp only [hb, Bool.false_eq_true, if_false] at h1
      have := enrichAccountFetch_error_noPut _ _ _ _ _ _ _ _ _ _ _ h1
      intro e he
      simp only [List.mem_append, List.mem_singleton] at he
      rcases he with rfl | he
      · rfl
      · exact this e he
    · simp only [hb, if_true] at h1
      obtain ⟨ha, -, -⟩ := pure_done h1
      cases ha
  · simp only [hl, hg, Bool.false_eq_true, if_false, Bool.not_true] at hrun
    exact enrichAccountFetch_error_noPut _ _ _ _ _ _ _ _ _ _ _ hrun

theorem GetAccountByURIFound_ok (env : Env) (getStatus : GetStatusFn) (requestUser : String)
    (uri : URL) (account : Account) (block : Bool) (pos : Nat) (t : Tables) (err : Err)
    (evs : List Event) (t' : Tables) :
    GetAccountByURIFound env getStatus requestUser uri account block pos t ≠
      .done (.error err) evs t' := by
  intro hrun
  unfold GetAccountByURIFound at hrun
  obtain ⟨r, e1, t1, r1, -, h1, rfl⟩ := bind_done hrun
  rcases hr : r.2 with e2 | enriched
  · simp only [hr] at h1
    obtain ⟨ha, -, -⟩ := pure_done h1
    cases ha
  · simp only [hr] at h1
    obtain ⟨ha, -, -⟩ := pure_done h1
    cases ha

theorem GetAccountByURIBody_error_noPut (env : Env) (getStatus : GetStatusFn)
    (requestUser : String) (uri : URL) (block : Bool)
    (pos : Nat) (t : Tables) (err : Err) (evs : List Event) (t' : Tables)
    (hrun : GetAccountByURIBody env getStatus requestUser uri block pos t =
      .done (.error err) evs t') : ∀ e ∈ evs, e.isPutStatus = false := by
  unfold GetAccountByURIBody at hrun
  obtain ⟨a1, e1, t1, r1, hc1, h1, rfl⟩ := bind_done hrun
  obtain ⟨-, rfl, rfl⟩ := call_done hc1
  rcases a1 with err1 | account
  · simp only [] at h1
    rcases hn1 : err1.Is .ErrNoEntries
    · simp only [hn1, Bool.not_false, if_true] at h1
      obtain ⟨-, rfl, -⟩ := pure_done h1
      intro e he
      simp only [List.append_nil, List.mem_singleton] at he
      subst he; rfl
    · simp only [hn1, Bool.not_true, Bool.false_eq_true, if_false] at h1
      obtain ⟨a2, e2, t2, r2, hc2, h2, rfl⟩ := bind_done h1
      obtain ⟨-, rfl, rfl⟩ := call_done hc2
      rcases a2 with err2 | account
      · simp only [] at h2
        rcases hn2 : err2.Is .ErrNoEntries
        · simp only [hn2, Bool.not_false, if_true] at h2
          obtain ⟨-, rfl, -⟩ := pure_done h2
          intro e he
          simp only [List.append_nil, List.mem_append, List.mem_singleton] at he
          rcases he with rfl | rfl <;> rfl
        · simp only [hn2, Bool.not_true, Bool.false_eq_true, if_false] at h2
          unfold GetAccountByURINew at h2
          rcases hh : (uri.Host == env.cfg.Host || uri.Host == env.cfg.AccountDomain)
          · simp only [hh, Bool.false_eq_true, if_false] at h2
            obtain ⟨a3, e3, t3, r3, hc3, h3, rfl⟩ := bind_done h2
            obtain ⟨-, rfl, rfl⟩ := call_done hc3
            obtain ⟨r, e4, t4, r4, he4, h4, rfl⟩ := bind_done h3
            obtain ⟨ha, rfl, -⟩ := pure_done h4
            rcases r with ⟨ra, rr⟩
            simp only at ha
            subst ha
            have := enrichAccount_error_noPut _ _ _ _ _ _ _ _ _ _ _ _ _ he4
            intro e he
            simp only [List.append_nil, List.mem_append, List.mem_singleton] at he
            rcases he with rfl | rfl | rfl | he
            · rfl
            · rfl
            · rfl
            · exact this e he
          · simp only [hh, if_true] at h2
            obtain ⟨-, rfl, -⟩ := pure_done h2
            intro e he
            simp only [List.append_nil, List.mem_append, List.mem_singleton] at he
            rcases he with rfl | rfl <;> rfl
      · exact absurd h2 (GetAccountByURIFound_ok _ _ _ _ _ _ _ _ _ _ _)
  · exact absurd h1 (GetAccountByURIFound_ok _ _ _ _ _ _ _ _ _ _ _)

theorem GetAccountByURI_error_noPut (env : Env) (depth : Nat)
    (requestUser : String) (uri : URL) (block : Bool)
    (pos : Nat) (t : Tables) (err : Err) (evs : List Event) (t' : Tables)
    (hrun : GetAccountByURI env depth requestUser uri block pos t =
      .done (.error err) evs t') : ∀ e ∈ evs, e.isPutStatus = false := by
  cases depth with
  | zero => cases hrun
  | succ d => exact GetAccountByURIBody_error_noPut _ _ _ _ _ _ _ _ _ _ hrun

/-! ### The comparison of emoji lists -/

theorem compareEmojis_unchanged (targetAccount : Account) (maybeEmojis gotEmojis : List Emoji)
    (gotEmojiIDs : List String) :
    (compareEmojis targetAccount maybeEmojis gotEmojis gotEmojiIDs).2 = false ↔
      (maybeEmojis = [] ∧ gotEmojis = []) ∨
      (maybeEmojis.length = gotEmojis.length ∧
        (∀ m ∈ maybeEmojis, ∃ g ∈ gotEmojis, m.URI = g.URI) ∧
        (∀ g ∈ gotEmojis, ∃ m ∈ maybeEmojis, g.URI = m.URI ∧ g.ID = m.ID)) := by
  unfold compareEmojis
  by_cases h0 : (maybeEmojis.length == 0 && gotEmojis.length == 0) = true
  · simp only [h0, if_true, true_iff]
    left
    simpa [List.length_eq_zero] using h0
  · have hne : ¬ (maybeEmojis = [] ∧ gotEmojis = []) := by
      simpa [List.length_eq_zero] using h0
    simp only [h0, if_false, hne, false_or]
    by_cases hlen : maybeEmojis.length = gotEmojis.length
    · have hl : (maybeEmojis.length != gotEmojis.length) = false := by simp [hlen]
      simp only [hl, Bool.false_eq_true, if_false]
      rw [and_iff_right hlen]
      by_cases h1 : (maybeEmojis.any fun maybeEmoji =>
          !gotEmojis.any fun gotEmoji => maybeEmoji.URI == gotEmoji.URI) = true
      · simp only [h1, if_true, Bool.true_eq_false, false_iff]
        intro hc
        simp only [List.any_eq_true, Bool.not_eq_true_eq_eq_false, Bool.not_eq_eq_eq_not,
          Bool.not_true, List.any_eq_false, beq_iff_eq] at h1
        obtain ⟨m, hm, hno⟩ := h1
        obtain ⟨g, hg, hmg⟩ := hc.1 m hm
        exact hno g hg hmg
      · simp only [h1, Bool.false_eq_true, if_false]
        have h1a : ∀ m ∈ maybeEmojis, ∃ g ∈ gotEmojis, m.URI = g.URI := by
          intro m hm
          by_contra hcon
          apply h1
          simp only [List.any_eq_true, Bool.not_eq_eq_eq_not, Bool.not_true, List.any_eq_false,
            beq_iff_eq]
          refine ⟨m, hm, ?_⟩
          intro g hg hmg
          exact hcon ⟨g, hg, hmg⟩
        by_cases h2 : (gotEmojis.any fun gotEmoji =>
            !maybeEmojis.any fun maybeEmoji =>
              gotEmoji.URI == maybeEmoji.URI && gotEmoji.ID == maybeEmoji.ID) = true
        · simp only [h2, if_true, Bool.true_eq_false, false_iff]
          intro hc
          simp only [List.any_eq_true, Bool.not_eq_eq_eq_not, Bool.not_true, List.any_eq_false,
            Bool.and_eq_true, beq_iff_eq] at h2
          obtain ⟨g, hg, hno⟩ := h2
          obtain ⟨m, hm, hgm⟩ := hc.2 g hg
          exact hno m hm hgm
        · simp only [h2, Bool.false_eq_true, if_false, true_iff]
          refine ⟨h1a, ?_⟩
          intro g hg
          by_contra hcon
          apply h2
          simp only [List.any_eq_true, Bool.not_eq_eq_eq_not, Bool.not_true, List.any_eq_false,
            Bool.and_eq_true, beq_iff_eq]
          refine ⟨g, hg, ?_⟩
          intro m hm hgm
          exact hcon ⟨m, hm, hgm⟩
    · have hl : (maybeEmojis.length != gotEmojis.length) = true := by simp [hlen]
      simp [hl, hlen]

/-! ### The way of a run of `enrichAccount` to the storing of the account -/

theorem dereferenceAccountable_enrichStep (env : Env) (transport : Transport) (u : URL) :
    Emits (fun e => e.isEnrichStep = true) (dereferenceAccountable env transport u) := by
  unfold dereferenceAccountable
  repeat' first
    | exact emits_pure _ _
    | exact emits_goPanic _
    | exact emits_call _ _ _ rfl
    | refine emits_bind _ _ _ ?_ (fun _ => ?_)
    | split

theorem fetchRemoteAccountAvatar_enrichStep (env : Env) (tsport : Transport) (a b : String) :
    Emits (fun e => e.isEnrichStep = true) (fetchRemoteAccountAvatar env tsport a b) := by
  unfold fetchRemoteAccountAvatar
  repeat' first
    | exact emits_pure _ _
    | exact emits_getTables _
    | exact emits_setTables _ _
    | exact emits_call _ _ _ rfl
    | refine emits_bind _ _ _ ?_ (fun _ => ?_)
    | split

theorem fetchRemoteAccountHeader_enrichStep (env : Env) (tsport : Transport) (a b : String) :
    Emits (fun e => e.isEnrichStep = true) (fetchRemoteAccountHeader env tsport a b) := by
  unfold fetchRemoteAccountHeader
  repeat' first
    | exact emits_pure _ _
    | exact emits_getTables _
    | exact emits_setTables _ _
    | exact emits_call _ _ _ rfl
    | refine emits_bind _ _ _ ?_ (fun _ => ?_)
    | split

theorem loadMaybeEmojis_enrichStep (env : Env) (ids : List String) (acc : List Emoji) :
    Emits (fun e => e.isEnrichStep = true) (loadMaybeEmojis env ids acc) := by
  induction ids generalizing acc with
  | nil => exact emits_pure _ _
  | cons id rest ih =>
      unfold loadMaybeEmojis
      refine emits_bind _ _ _ (emits_call _ _ _ rfl) (fun a => ?_)
      split
      · exact emits_pure _ _
      · exact ih _

theorem fetchRemoteAccountEmojis_enrichStep (env : Env) (a : Account) (u : String) :
    Emits (fun e => e.isEnrichStep = true) (fetchRemoteAccountEmojis env a u) := by
  unfold fetchRemoteAccountEmojis maybeEmojisOf
  repeat' first
    | exact emits_pure _ _
    | exact loadMaybeEmojis_enrichStep _ _ _
    | exact emits_call _ _ _ rfl
    | refine emits_bind _ _ _ ?_ (fun _ => ?_)
    | split

theorem enrichAccountFingerLatest_enrichStep (env : Env) (transport : Transport)
    (account : Account) (apubAcc : Accountable) (latestAcc : Account) :
    Emits (fun e => e.isEnrichStep = true)
      (enrichAccountFingerLatest env transport account apubAcc latestAcc) := by
  unfold enrichAccountFingerLatest
  repeat' first
    | exact emits_pure _ _
    | exact emits_call _ _ _ rfl
    | refine emits_bind _ _ _ ?_ (fun _ => ?_)
    | split

theorem enrichAccountAvatar_enrichStep (env : Env) (transport : Transport)
    (account latestAcc : Account) :
    Emits (fun e => e.isEnrichStep = true)
      (enrichAccountAvatar env transport account latestAcc) := by
  unfold enrichAccountAvatar
  repeat' first
    | exact emits_pure _ _
    | exact fetchRemoteAccountAvatar_enrichStep _ _ _ _
    | refine emits_bind _ _ _ ?_ (fun _ => ?_)
    | split

theorem enrichAccountHeader_enrichStep (env : Env) (transport : Transport)
    (account latestAcc : Account) :
    Emits (fun e => e.isEnrichStep = true)
      (enrichAccountHeader env transport account latestAcc) := by
  unfold enrichAccountHeader
  repeat' first
    | exact emits_pure _ _
    | exact fetchRemoteAccountHeader_enrichStep _ _ _ _
    | refine emits_bind _ _ _ ?_ (fun _ => ?_)
    | split

theorem enrichAccountFinger_enrichStep (env : Env) (transport : Transport) (uri : Option URL)
    (account : Account) :
    Emits (fun e => e.isEnrichStep = true) (enrichAccountFinger env transport uri account) := by
  unfold enrichAccountFinger
  repeat' first
    | exact emits_pure _ _
    | exact emits_call _ _ _ rfl
    | refine emits_bind _ _ _ ?_ (fun _ => ?_)
    | split

theorem isAccountWrite_of_enrichStep (e : Event) (h : e.isEnrichStep = true) :
    e.isAccountWrite = false := by
  cases e <;> first | rfl | cases h

theorem enrichAccountStore_run (env : Env) (account latestAcc : Account) (pos : Nat)
    (t : Tables) :
    (account.CreatedAt.IsZero = true ∧
      ∃ r rest, enrichAccountStore env account latestAcc pos t =
          .done r (.dbPutAccount { latestAcc with
            CreatedAt := latestAcc.FetchedAt, UpdatedAt := latestAcc.FetchedAt } :: rest) t ∧
        ∀ err, env.dbPutAccount pos { latestAcc with
            CreatedAt := latestAcc.FetchedAt, UpdatedAt := latestAcc.FetchedAt } = some err →
          err.Is .ErrAlreadyExists = true →
          rest = [.dbGetAccountByURI latestAcc.URI] ∧
          r = match env.dbGetAccountByURI (pos + 1) latestAcc.URI with
            | .ok stored => .ok stored
            | .error e => .error (.errorfW "enrichAccount: error putting in database" e)) ∨
    (account.CreatedAt.IsZero = false ∧
      ∃ r a, enrichAccountStore env account latestAcc pos t =
        .done r [.timeNow, .dbUpdateAccount a] t) := by
  unfold enrichAccountStore
  rcases hz : account.CreatedAt.IsZero
  · right
    refine ⟨rfl, ?_⟩
    simp only [Bool.false_eq_true, if_false, dbUpdateAccount, bind_eq, timeNow, call_eq, pure_eq]
    rcases hu : env.dbUpdateAccount (pos + [Event.timeNow].length)
      { latestAcc with
        UpdatedAt := Time.ofUnixNano (env.timeNow pos),
        CreatedAt := account.CreatedAt,
        Language := account.Language } with _ | err
    · exact ⟨_, _, rfl⟩
    · exact ⟨_, _, rfl⟩
  · left
    refine ⟨rfl, ?_⟩
    simp only [if_true, bind_eq, call_eq, pure_eq]
    rcases hp : env.dbPutAccount pos { latestAcc with
        CreatedAt := latestAcc.FetchedAt, UpdatedAt := latestAcc.FetchedAt } with _ | err
    · refine ⟨_, _, rfl, ?_⟩
      intro err h
      cases h
    · simp only []
      rcases he : err.Is .ErrAlreadyExists
      · simp only [Bool.false_eq_true, if_false, pure_eq]
        refine ⟨_, _, rfl, ?_⟩
        intro err2 h h2
        cases h
        rw [he] at h2
        cases h2
      · simp only [if_true, bind_eq, call_eq]
        rcases hg : env.dbGetAccountByURI (pos + [Event.dbPutAccount { latestAcc with
          CreatedAt := latestAcc.FetchedAt, UpdatedAt := latestAcc.FetchedAt }].length)
          latestAcc.URI with e2 | stored
        · simp only [pure_eq]
          refine ⟨_, _, rfl, ?_⟩
          intro err2 _ _
          simp only [List.append_nil, List.length_singleton] at hg ⊢
          rw [hg]
          exact ⟨rfl, rfl⟩
        · simp only [pure_eq]
          refine ⟨_, _, rfl, ?_⟩
          intro err2 _ _
          simp only [List.append_nil, List.length_singleton] at hg ⊢
          rw [hg]
          exact ⟨rfl, rfl⟩

theorem reachedStore_cons (env : Env) (pos : Nat) (r : Res Account) (ev : Event)
    (evs : List Event) (hev : ev.isEnrichStep = true)
    (h : ReachedStore env (pos + 1) r evs) : ReachedStore env pos r (ev :: evs) := by
  obtain ⟨evsA, hA, h⟩ := h
  refine ⟨ev :: evsA, ?_, ?_⟩
  · intro e he
    rcases List.mem_cons.1 he with rfl | he
    · exact hev
    · exact hA e he
  · rcases h with ⟨err, rfl, rfl⟩ | ⟨account, latestAcc, tA, evsS, tS, evsB, rfl, hs⟩
    · exact Or.inl ⟨err, rfl, rfl⟩
    · refine Or.inr ⟨account, latestAcc, tA, evsS, tS, evsB, by simp, ?_⟩
      rw [← hs]
      congr 1
      simp only [List.length_cons]
      omega

theorem reachedStore_append (env : Env) (pos : Nat) (r : Res Account) (pre evs : List Event)
    (hpre : ∀ e ∈ pre, e.isEnrichStep = true)
    (h : ReachedStore env (pos + pre.length) r evs) : ReachedStore env pos r (pre ++ evs) := by
  induction pre generalizing pos with
  | nil => simpa using h
  | cons ev pre ih =>
      rw [List.cons_append]
      apply reachedStore_cons env pos r ev _ (hpre ev (List.mem_cons_self _ _))
      apply ih
      · intro e he
        exact hpre e (List.mem_cons_of_mem _ he)
      · have hp : pos + 1 + pre.length = pos + (ev :: pre).length := by
          simp only [List.length_cons]
          omega
        rw [hp]
        exact h

theorem reachedStore_error (env : Env) (pos : Nat) (err : Err) (evs : List Event)
    (h : ∀ e ∈ evs, e.isEnrichStep = true) : ReachedStore env pos (.error err) evs :=
  ⟨evs, h, Or.inl ⟨err, rfl, rfl⟩⟩

theorem reachedStore_tail (env : Env) (pos : Nat) (r : Res Account) (evs post : List Event)
    (hr : ∃ a, r = .ok a) (h : ReachedStore env pos r evs) :
    ReachedStore env pos r (evs ++ post) := by
  obtain ⟨evsA, hA, h⟩ := h
  refine ⟨evsA, hA, ?_⟩
  rcases h with ⟨err, rfl, rfl⟩ | ⟨account, latestAcc, tA, evsS, tS, evsB, rfl, hs⟩
  · obtain ⟨a, ha⟩ := hr
    cases ha
  · exact Or.inr ⟨account, latestAcc, tA, evsS, tS, evsB ++ post, by simp, hs⟩

theorem reachedStore_tail_step (env : Env) (pos : Nat) (r : Res Account)
    (evs post : List Event) (hpost : ∀ e ∈ post, e.isEnrichStep = true)
    (h : ReachedStore env pos r evs) : ReachedStore env pos r (evs ++ post) := by
  obtain ⟨evsA, hA, h⟩ := h
  rcases h with ⟨err, hr, hev⟩ | ⟨account, latestAcc, tA, evsS, tS, evsB, rfl, hs⟩
  · subst hr
    subst hev
    refine ⟨evs ++ post, ?_, Or.inl ⟨err, rfl, rfl⟩⟩
    intro e he
    rcases List.mem_append.1 he with he | he
    · exact hA e he
    · exact hpost e he
  · exact ⟨evsA, hA, Or.inr ⟨account, latestAcc, tA, evsS, tS, evsB ++ post, by simp, hs⟩⟩

theorem enrichAccountLatest_reachedStore (env : Env) (requestUser : String)
    (transport : Transport) (uri : URL) (account : Account) (pos : Nat) (t : Tables)
    (r : Res Account) (evs : List Event) (t' : Tables)
    (hrun : enrichAccountLatest env requestUser transport uri account pos t = .done r evs t') :
    ReachedStore env pos r evs := by
  unfold enrichAccountLatest at hrun
  obtain ⟨a1, e1, t1, r1, hd1, h1, rfl⟩ := bind_done hrun
  have he1 := emits_done (dereferenceAccountable_enrichStep env transport uri) hd1
  rcases a1 with err | apubAcc
  · obtain ⟨rfl, rfl, -⟩ := pure_done h1
    exact reachedStore_error _ _ _ _ (by simpa using he1)
  apply reachedStore_append _ _ _ _ _ he1
  obtain ⟨a2, e2, t2, r2, hc2, h2, rfl⟩ := bind_done h1
  obtain ⟨-, rfl, rfl⟩ := call_done hc2
  refine reachedStore_append _ _ _ _ _ (fun e he => by simp at he; subst he; rfl) ?_
  rcases a2 with err | converted
  · obtain ⟨rfl, rfl, -⟩ := pure_done h2
    exact reachedStore_error _ _ _ _ (by simp)
  obtain ⟨a3, e3, t3, r3, hd3, h3, rfl⟩ := bind_done h2
  have he3 := emits_done
    (enrichAccountFingerLatest_enrichStep env transport account apubAcc converted) hd3
  rcases a3 with err | fingered
  · obtain ⟨rfl, rfl, -⟩ := pure_done h3
    exact reachedStore_error _ _ _ _ (by simpa using he3)
  apply reachedStore_append _ _ _ _ _ he3
  obtain ⟨now, e4, t4, r4, hc4, h4, rfl⟩ := bind_done h3
  obtain ⟨-, rfl, rfl⟩ := call_done hc4
  refine reachedStore_append _ _ _ _ _ (fun e he => by simp at he; subst he; rfl) ?_
  obtain ⟨a5, e5, t5, r5, hd5, h5, rfl⟩ := bind_done h4
  apply reachedStore_append _ _ _ _ _ (emits_done (enrichAccountAvatar_enrichStep _ _ _ _) hd5)
  obtain ⟨a6, e6, t6, r6, hd6, h6, rfl⟩ := bind_done h5
  apply reachedStore_append _ _ _ _ _ (emits_done (enrichAccountHeader_enrichStep _ _ _ _) hd6)
  obtain ⟨a7, e7, t7, r7, hd7, h7, rfl⟩ := bind_done h6
  apply reachedStore_append _ _ _ _ _
    (emits_done (fetchRemoteAccountEmojis_enrichStep _ _ _) hd7)
  exact ⟨[], by simp, Or.inr ⟨account, a7.1, _, r7, t', [], by simp, by simpa using h7⟩⟩

theorem enrichAccountDeref_reachedStore (env : Env) (getStatus : GetStatusFn)
    (requestUser : String) (transport : Transport) (uri : URL) (account : Account)
    (pos : Nat) (t : Tables) (r : Res Account) (evs : List Event) (t' : Tables)
    (hrun : enrichAccountDeref env getStatus requestUser transport uri account pos t =
      .done r evs t') : ReachedStore env pos r evs := by
  unfold enrichAccountDeref at hrun
  obtain ⟨a1, e1, t1, r1, hc1, h1, rfl⟩ := bind_done hrun
  obtain ⟨-, rfl, rfl⟩ := call_done hc1
  refine reachedStore_append _ _ _ _ _ (fun e he => by simp at he; subst he; rfl) ?_
  obtain ⟨a2, e2, t2, r2, hl, h2, rfl⟩ := bind_done (deferOnPanic_done h1)
  have hs := enrichAccountLatest_reachedStore _ _ _ _ _ _ _ _ _ _ hl
  rcases a2 with err | latestAcc
  · obtain ⟨a3, e3, t3, r3, hc3, h3, rfl⟩ := bind_done h2
    obtain ⟨-, rfl, rfl⟩ := call_done hc3
    obtain ⟨rfl, rfl, -⟩ := pure_done h3
    exact reachedStore_tail_step _ _ _ _ _ (fun e he => by simp at he; subst he; rfl) hs
  · by_cases hf : (latestAcc.FeaturedCollectionURI != "") = true
    · simp only [hf, if_true] at h2
      obtain ⟨a3, e3, t3, r3, -, h3, rfl⟩ := bind_done h2
      obtain ⟨a4, e4, t4, r4, -, h4, rfl⟩ := bind_done h3
      obtain ⟨rfl, rfl, -⟩ := pure_done h4
      exact reachedStore_tail _ _ _ _ _ ⟨_, rfl⟩ hs
    · simp only [hf] at h2
      obtain ⟨a4, e4, t4, r4, -, h4, rfl⟩ := bind_done h2
      obtain ⟨rfl, rfl, -⟩ := pure_done h4
      exact reachedStore_tail _ _ _ _ _ ⟨_, rfl⟩ hs

theorem enrichAccountFetch_reachedStore (env : Env) (getStatus : GetStatusFn)
    (requestUser : String) (uri : Option URL) (account : Account)
    (pos : Nat) (t : Tables) (c : Account) (r : Res Account) (evs : List Event) (t' : Tables)
    (hrun : enrichAccountFetch env getStatus requestUser uri account pos t =
      .done (c, r) evs t') : ReachedStore env pos r evs := by
  unfold enrichAccountFetch at hrun
  obtain ⟨a1, e1, t1, r1, hc1, h1, rfl⟩ := bind_done hrun
  obtain ⟨-, rfl, rfl⟩ := call_done hc1
  refine reachedStore_append _ _ _ _ _ (fun e he => by simp at he; subst he; rfl) ?_
  rcases a1 with err1 | transport
  · obtain ⟨ha, rfl, -⟩ := pure_done h1
    cases ha
    exact reachedStore_error _ _ _ _ (by simp)
  obtain ⟨a2, e2, t2, r2, hfi, h2, rfl⟩ := bind_done h1
  refine reachedStore_append _ _ _ _ _
    (emits_done (enrichAccountFinger_enrichStep env transport uri account) hfi) ?_
  rcases a2 with err2 | ⟨caller, current, found⟩
  · obtain ⟨ha, rfl, -⟩ := pure_done h2
    cases ha
    exact reachedStore_error _ _ _ _ (by simp)
  simp only [] at h2
  rcases hu : enrichAccountURI env found current with err3 | target
  · simp only [hu] at h2
    obtain ⟨ha, rfl, -⟩ := pure_done h2
    cases ha
    exact reachedStore_error _ _ _ _ (by simp)
  simp only [hu] at h2
  obtain ⟨a4, e4, t4, r4, hc4, h4, rfl⟩ := bind_done h2
  obtain ⟨-, rfl, rfl⟩ := call_done hc4
  refine reachedStore_append _ _ _ _ _ (fun e he => by simp at he; subst he; rfl) ?_
  rcases a4 with err4 | blocked
  · obtain ⟨ha, rfl, -⟩ := pure_done h4
    cases ha
    exact reachedStore_error _ _ _ _ (by simp)
  cases blocked
  · simp only [Bool.false_eq_true, if_false] at h4
    obtain ⟨a5, e5, t5, r5, hd5, h5, rfl⟩ := bind_done h4
    obtain ⟨ha, rfl, -⟩ := pure_done h5
    simp only [Prod.mk.injEq] at ha
    obtain ⟨-, ha⟩ := ha
    subst ha
    simpa using enrichAccountDeref_reachedStore _ _ _ _ _ _ _ _ _ _ _ hd5
  · simp only [if_true] at h4
    obtain ⟨ha, rfl, -⟩ := pure_done h4
    cases ha
    exact reachedStore_error _ _ _ _ (by simp)

theorem enrichAccount_reachedStore (env : Env) (getStatus : GetStatusFn)
    (requestUser : String) (uri : Option URL) (account : Account) (force block : Bool)
    (pos : Nat) (t : Tables) (c : Account) (r : Res Account) (evs : List Event) (t' : Tables)
    (hrun : enrichAccount env getStatus requestUser uri account force block pos t =
      .done (c, r) evs t') :
    (r = .ok account ∧ ∀ e ∈ evs, e.isEnrichStep = true) ∨ ReachedStore env pos r evs := by
  unfold enrichAccount at hrun
  rcases hl : account.IsLocal env.cfg
  rotate_left
  · simp only [hl, if_true] at hrun
    obtain ⟨ha, rfl, -⟩ := pure_done hrun
    cases ha
    exact Or.inl ⟨rfl, by simp⟩
  rcases hg : (!account.CreatedAt.IsZero && account.IsInstance)
  rotate_left
  · simp only [hl, hg, Bool.false_eq_true, if_true, if_false] at hrun
    obtain ⟨ha, rfl, -⟩ := pure_done hrun
    cases ha
    exact Or.inl ⟨rfl, by simp⟩
  cases force
  · simp only [hl, hg, Bool.false_eq_true, if_false, Bool.not_false, if_true] at hrun
    obtain ⟨now, e1, t1, r1, hc1, h1, rfl⟩ := bind_done hrun
    obtain ⟨-, rfl, rfl⟩ := call_done hc1
    rcases hb : now.Before (account.FetchedAt.Add (Hour * 48))
    · simp only [hb, Bool.false_eq_true, if_false] at h1
      right
      refine reachedStore_append _ _ _ _ _ (fun e he => by simp at he; subst he; rfl) ?_
      exact enrichAccountFetch_reachedStore _ _ _ _ _ _ _ _ _ _ _ h1
    · simp only [hb, if_true] at h1
      obtain ⟨ha, rfl, -⟩ := pure_done h1
      cases ha
      left
      refine ⟨rfl, ?_⟩
      intro e he
      simp at he
      subst he
      rfl
  · simp only [hl, hg, Bool.false_eq_true, if_false, Bool.not_true] at hrun
    exact Or.inr (enrichAccountFetch_reachedStore _ _ _ _ _ _ _ _ _ _ _ hrun)

theorem first_occurrence_unique {α : Type} (P : α → Prop) (l1 l2 r1 r2 : List α) (x y : α)
    (h : l1 ++ x :: r1 = l2 ++ y :: r2) (hx : P x) (hy : P y)
    (h1 : ∀ e ∈ l1, ¬ P e) (h2 : ∀ e ∈ l2, ¬ P e) : l1 = l2 ∧ x = y ∧ r1 = r2 := by
  induction l1 generalizing l2 with
  | nil =>
      cases l2 with
      | nil =>
          simp only [List.nil_append, List.cons.injEq] at h
          exact ⟨rfl, h.1, h.2⟩
      | cons z l2 =>
          simp only [List.nil_append, List.cons_append, List.cons.injEq] at h
          exact absurd (h.1 ▸ hx) (h2 z (List.mem_cons_self _ _))
  | cons z l1 ih =>
      cases l2 with
      | nil =>
          simp only [List.nil_append, List.cons_append, List.cons.injEq] at h
          exact absurd (h.1 ▸ hy) (h1 z (List.mem_cons_self _ _))
      | cons w l2 =>
          simp only [List.cons_append, List.cons.injEq] at h
          obtain ⟨hl, hx2, hr⟩ := ih l2 h.2 (fun e he => h1 e (List.mem_cons_of_mem _ he))
            (fun e he => h2 e (List.mem_cons_of_mem _ he))
          exact ⟨by rw [h.1, hl], hx2, hr⟩

/-! ### The reconciliation of the featured collection -/

theorem pure_bind_eq {α β : Type} (a : α) (f : α → M β) : (pure a >>= f) = f a := by
  funext pos t
  rw [bind_eq, pure_eq]
  simp only [List.length_nil, Nat.add_zero, List.nil_append]
  rcases f a pos t with ⟨b, e, t2⟩ | ⟨e, t2⟩ | _ <;> rfl

theorem featuredPinLoop_cons (env : Env) (getStatus : GetStatusFn) (requestingUsername : String)
    (uri : URL) (accountID : String) (item : Item) (items : List Item) (statusURIs : List URL) :
    featuredPinLoop env getStatus requestingUsername uri accountID (item :: items) statusURIs =
      (featuredPinItem env getStatus requestingUsername uri accountID item statusURIs >>=
        fun statusURIs =>
          featuredPinLoop env getStatus requestingUsername uri accountID items statusURIs) :=
  rfl

theorem featuredPinItem_discard (env : Env) (getStatus : GetStatusFn)
    (requestingUsername : String) (uri : URL) (accountID : String) (item : Item)
    (statusURIs : List URL)
    (h : ∀ statusURI, featuredStatusURI item = some statusURI → statusURI.Host ≠ uri.Host) :
    featuredPinItem env getStatus requestingUsername uri accountID item statusURIs =
      pure statusURIs := by
  unfold featuredPinItem
  rcases hi : featuredStatusURI item with _ | statusURI
  · rfl
  · have hne : (statusURI.Host != uri.Host) = true := by simpa using h statusURI hi
    simp only [hne, if_true]

theorem featuredPinLoop_discard (env : Env) (getStatus : GetStatusFn)
    (requestingUsername : String) (uri : URL) (accountID : String) (item : Item)
    (h : ∀ statusURI, featuredStatusURI item = some statusURI → statusURI.Host ≠ uri.Host)
    (pre post : List Item) (statusURIs : List URL) :
    featuredPinLoop env getStatus requestingUsername uri accountID (pre ++ item :: post)
        statusURIs =
      featuredPinLoop env getStatus requestingUsername uri accountID (pre ++ post)
        statusURIs := by
  induction pre generalizing statusURIs with
  | nil =>
      rw [List.nil_append, List.nil_append, featuredPinLoop_cons,
        featuredPinItem_discard env getStatus requestingUsername uri accountID item statusURIs h,
        pure_bind_eq]
  | cons x pre ih =>
      rw [List.cons_append, List.cons_append, featuredPinLoop_cons, featuredPinLoop_cons]
      congr 1
      funext s
      exact ih s

theorem extractedURIs_discard (uri : URL) (item : Item)
    (h : ∀ statusURI, featuredStatusURI item = some statusURI → statusURI.Host ≠ uri.Host)
    (pre post : List Item) :
    extractedURIs uri (pre ++ item :: post) = extractedURIs uri (pre ++ post) := by
  unfold extractedURIs
  rw [List.filterMap_append, List.filterMap_append, List.filterMap_cons]
  rcases hi : featuredStatusURI item with _ | statusURI
  · rfl
  · have hne : (statusURI.Host != uri.Host) = true := by simpa using h statusURI hi
    simp only [List.filter_append, List.filter_cons, hne, Bool.not_true, Bool.false_eq_true,
      if_false]

theorem fetchRemoteAccountFeatured_items (env : Env) (getStatus : GetStatusFn)
    (requestingUsername featuredCollectionURI accountID : String) (pos : Nat) (t : Tables)
    (uri : URL) (tsport : Transport) (b : Bytes) (m : JsonMap) (ty : VType) (items : List Item)
    (hparse : env.urlParse featuredCollectionURI = .ok uri)
    (htr : env.newTransportForUsername pos requestingUsername = .ok tsport)
    (hderef : env.dereference (pos + 1) tsport uri = .ok b)
    (hjson : env.jsonUnmarshal b = .ok m)
    (htype : env.toType m = .ok ty)
    (hname : ty.typeName = ObjectOrderedCollection)
    (hgo : ty.goType = ObjectOrderedCollection)
    (hitems : ty.orderedItems = some items) :
    fetchRemoteAccountFeatured env getStatus requestingUsername featuredCollectionURI accountID
        pos t =
      (call (.newTransportForUsername requestingUsername)
          (fun i => env.newTransportForUsername i requestingUsername) >>= fun _ =>
        call (.dereference tsport uri) (fun i => env.dereference i tsport uri) >>= fun _ =>
        call (.dbGetAccountPinnedStatuses accountID)
          (fun i => env.dbGetAccountPinnedStatuses i accountID) >>= fun answer =>
        match answer with
        | .error err =>
            if !err.Is .ErrNoEntries then
              pure (some (.errorfW "error getting account pinned statuses" err))
            else
              featuredReconcile env getStatus requestingUsername uri accountID items []
        | .ok wasPinned =>
            featuredReconcile env getStatus requestingUsername uri accountID items wasPinned)
        pos t := by
  unfold fetchRemoteAccountFeatured
  simp only [hparse, bind_eq, call_eq, htr, List.length_singleton, hderef, hjson, htype, hname,
    hgo, bne_self_eq_false, Bool.false_eq_true, if_false, hitems]

theorem featuredUnpinLoop_cons_listed (env : Env) (statusURIs : List URL) (status : Status)
    (rest : List Status) (h : isListed statusURIs status = true) :
    featuredUnpinLoop env statusURIs (status :: rest) = featuredUnpinLoop env statusURIs rest := by
  unfold isListed at h
  rw [featuredUnpinLoop]
  simp only [h, if_true]

theorem featuredUnpinLoop_cons_unlisted (env : Env) (statusURIs : List URL) (status : Status)
    (rest : List Status) (h : isListed statusURIs status = false) (pos : Nat) (t : Tables) :
    featuredUnpinLoop env statusURIs (status :: rest) pos t =
      match env.dbUpdateStatus pos { status with PinnedAt := Time.zero } ["pinned_at"] with
      | some err =>
          .done (some (.errorfW "error unpinning status" err)) [unpinCall status] t
      | none =>
          match featuredUnpinLoop env statusURIs rest (pos + 1) t with
          | .done r e t' => .done r (unpinCall status :: e) t'
          | .panicked e t' => .panicked (unpinCall status :: e) t'
          | .outOfFuel => .outOfFuel := by
  unfold isListed at h
  rw [featuredUnpinLoop]
  simp only [h, Bool.false_eq_true, if_false, bind_eq, call_eq, List.length_singleton]
  rcases env.dbUpdateStatus pos { status with PinnedAt := Time.zero } ["pinned_at"] with
    _ | err
  · simp only []
    rcases featuredUnpinLoop env statusURIs rest (pos + 1) t with ⟨r, e, t'⟩ | ⟨e, t'⟩ | _ <;>
      rfl
  · rfl

theorem featuredUnpinLoop_failure_last (env : Env) (statusURIs : List URL)
    (wasPinned : List Status) (pos : Nat) (t : Tables) (r : Option Err) (evs : List Event)
    (t' : Tables)
    (hrun : featuredUnpinLoop env statusURIs wasPinned pos t = .done r evs t') :
    ∀ j s cols cause, evs.get? j = some (.dbUpdateStatus s cols) →
      env.dbUpdateStatus (pos + j) s cols = some cause →
      r = some (.errorfW "error unpinning status" cause) ∧ j + 1 = evs.length := by
  induction wasPinned generalizing pos evs with
  | nil =>
      intro j s cols cause hj
      rw [featuredUnpinLoop] at hrun
      obtain ⟨-, rfl, -⟩ := pure_done hrun
      simp at hj
  | cons status rest ih =>
      rcases hl : isListed statusURIs status
      · rw [featuredUnpinLoop_cons_unlisted env statusURIs status rest hl] at hrun
        rcases hu : env.dbUpdateStatus pos { status with PinnedAt := Time.zero } ["pinned_at"]
          with _ | err
        · simp only [hu] at hrun
          rcases hrest : featuredUnpinLoop env statusURIs rest (pos + 1) t with
            ⟨r2, e2, t2⟩ | ⟨e2, t2⟩ | _
          · simp only [hrest, Outcome.done.injEq] at hrun
            obtain ⟨rfl, rfl, rfl⟩ := hrun
            intro j s cols cause hj hans
            cases j with
            | zero =>
                simp only [List.get?_cons_zero, Option.some.injEq, unpinCall,
                  Event.dbUpdateStatus.injEq] at hj
                obtain ⟨rfl, rfl⟩ := hj
                rw [Nat.add_zero, hu] at hans
                cases hans
            | succ j =>
                simp only [List.get?_cons_succ] at hj
                have hans2 : env.dbUpdateStatus (pos + 1 + j) s cols = some cause := by
                  rw [← hans]
                  congr 1
                  omega
                obtain ⟨hr, hlen⟩ := ih (pos + 1) e2 hrest j s cols cause hj hans2
                exact ⟨hr, by simp only [List.length_cons]; omega⟩
          · simp [hrest] at hrun
          · simp [hrest] at hrun
        · simp only [hu, Outcome.done.injEq] at hrun
          obtain ⟨rfl, rfl, rfl⟩ := hrun
          intro j s cols cause hj hans
          cases j with
          | zero =>
              simp only [List.get?_cons_zero, Option.some.injEq, unpinCall,
                Event.dbUpdateStatus.injEq] at hj
              obtain ⟨rfl, rfl⟩ := hj
              rw [Nat.add_zero, hu] at hans
              cases hans
              exact ⟨rfl, rfl⟩
          | succ j => simp at hj
      · rw [featuredUnpinLoop_cons_listed env statusURIs status rest hl] at hrun
        exact ih pos evs hrun

theorem featuredUnpinLoop_none (env : Env) (statusURIs : List URL)
    (wasPinned : List Status) (pos : Nat) (t : Tables) (evs : List Event) (t' : Tables)
    (hrun : featuredUnpinLoop env statusURIs wasPinned pos t = .done none evs t') :
    evs = (wasPinned.filter (fun s => !isListed statusURIs s)).map unpinCall ∧ t' = t := by
  induction wasPinned generalizing pos evs with
  | nil =>
      rw [featuredUnpinLoop] at hrun
      obtain ⟨-, rfl, rfl⟩ := pure_done hrun
      exact ⟨rfl, rfl⟩
  | cons status rest ih =>
      rcases hl : isListed statusURIs status
      · rw [featuredUnpinLoop_cons_unlisted env statusURIs status rest hl] at hrun
        rcases hu : env.dbUpdateStatus pos { status with PinnedAt := Time.zero } ["pinned_at"]
          with _ | err
        · simp only [hu] at hrun
          rcases hrest : featuredUnpinLoop env statusURIs rest (pos + 1) t with
            ⟨r2, e2, t2⟩ | ⟨e2, t2⟩ | _
          · simp only [hrest, Outcome.done.injEq] at hrun
            obtain ⟨rfl, rfl, rfl⟩ := hrun
            obtain ⟨he, ht⟩ := ih (pos + 1) e2 hrest
            refine ⟨?_, ht⟩
            simp only [List.filter_cons, hl, Bool.not_false, if_true, List.map_cons, he]
          · simp [hrest] at hrun
          · simp [hrest] at hrun
        · simp [hu] at hrun
      · rw [featuredUnpinLoop_cons_listed env statusURIs status rest hl] at hrun
        obtain ⟨he, ht⟩ := ih pos evs hrun
        refine ⟨?_, ht⟩
        simp only [List.filter_cons, hl, Bool.not_true, Bool.false_eq_true, if_false, he]

theorem featuredPinItem_result (env : Env) (getStatus : GetStatusFn)
    (requestingUsername : String) (uri : URL) (accountID : String) (item : Item)
    (statusURIs : List URL) (pos : Nat) (t : Tables) (r : List URL) (evs : List Event)
    (t' : Tables)
    (hrun : featuredPinItem env getStatus requestingUsername uri accountID item statusURIs
      pos t = .done r evs t') :
    r = statusURIs ++ extractedURIs uri [item] := by
  unfold featuredPinItem at hrun
  unfold extractedURIs
  rcases hi : featuredStatusURI item with _ | statusURI
  · simp only [hi] at hrun
    obtain ⟨rfl, -, -⟩ := pure_done hrun
    simp [hi]
  · simp only [hi] at hrun
    rcases hh : (statusURI.Host != uri.Host)
    · simp only [hh, Bool.false_eq_true, if_false] at hrun
      have hx : List.filter (fun statusURI => !(statusURI.Host != uri.Host))
          (List.filterMap featuredStatusURI [item]) = [statusURI] := by
        simp [List.filterMap_cons, hi, List.filter_cons, hh]
      rw [hx]
      obtain ⟨a, e1, t1, e2, -, h2, rfl⟩ := bind_done hrun
      rcases a with err | ⟨status, sa⟩
      · obtain ⟨rfl, -, -⟩ := pure_done h2
        rfl
      · simp only [] at h2
        split at h2
        · obtain ⟨rfl, -, -⟩ := pure_done h2
          rfl
        · split at h2
          · obtain ⟨rfl, -, -⟩ := pure_done h2
            rfl
          · split at h2
            · obtain ⟨rfl, -, -⟩ := pure_done h2
              rfl
            · obtain ⟨now, e3, t3, e4, -, h4, rfl⟩ := bind_done h2
              obtain ⟨x, e5, t5, e6, -, h6, rfl⟩ := bind_done h4
              obtain ⟨rfl, -, -⟩ := pure_done h6
              rfl
    · simp only [hh, if_true] at hrun
      obtain ⟨rfl, -, -⟩ := pure_done hrun
      simp [List.filterMap_cons, hi, List.filter_cons, hh]

theorem extractedURIs_cons (uri : URL) (item : Item) (items : List Item) :
    extractedURIs uri (item :: items) = extractedURIs uri [item] ++ extractedURIs uri items := by
  unfold extractedURIs
  rw [← List.filter_append, ← List.filterMap_append]
  rfl

theorem featuredPinLoop_result (env : Env) (getStatus : GetStatusFn)
    (requestingUsername : String) (uri : URL) (accountID : String) (items : List Item)
    (statusURIs : List URL) (pos : Nat) (t : Tables) (r : List URL) (evs : List Event)
    (t' : Tables)
    (hrun : featuredPinLoop env getStatus requestingUsername uri accountID items statusURIs
      pos t = .done r evs t') :
    r = statusURIs ++ extractedURIs uri items := by
  induction items generalizing statusURIs pos t evs with
  | nil =>
      rw [featuredPinLoop] at hrun
      obtain ⟨rfl, -, -⟩ := pure_done hrun
      simp [extractedURIs]
  | cons item items ih =>
      rw [featuredPinLoop_cons] at hrun
      obtain ⟨a, e1, t1, e2, h1, h2, rfl⟩ := bind_done hrun
      have ha := featuredPinItem_result _ _ _ _ _ _ _ _ _ _ _ _ h1
      have hr := ih a _ _ e2 h2
      rw [hr, ha, List.append_assoc, ← extractedURIs_cons]

theorem featuredReconcile_done (env : Env) (getStatus : GetStatusFn)
    (requestingUsername : String) (uri : URL) (accountID : String) (items : List Item)
    (wasPinned : List Status) (pos : Nat) (t : Tables) (r : Option Err) (evs : List Event)
    (t' : Tables)
    (hrun : featuredReconcile env getStatus requestingUsername uri accountID items wasPinned
      pos t = .done r evs t') :
    ∃ evsP tP evsU,
      featuredPinLoop env getStatus requestingUsername uri accountID items [] pos t =
        .done (extractedURIs uri items) evsP tP ∧
      featuredUnpinLoop env (extractedURIs uri items) wasPinned (pos + evsP.length) tP =
        .done r evsU t' ∧
      evs = evsP ++ evsU := by
  unfold featuredReconcile at hrun
  obtain ⟨a, e1, t1, e2, h1, h2, rfl⟩ := bind_done hrun
  have ha := featuredPinLoop_result _ _ _ _ _ _ _ _ _ _ _ _ h1
  rw [List.nil_append] at ha
  subst ha
  exact ⟨e1, t1, e2, h1, h2, rfl⟩

theorem enrichAccountDeref_featured_ignored (env : Env) (getStatus : GetStatusFn)
    (requestUser : String) (transport : Transport) (uri : URL) (account : Account)
    (pos : Nat) (t : Tables) (latestAcc : Account) (e1 : List Event) (t1 : Tables)
    (ferr : Option Err) (e2 : List Event) (t2 : Tables)
    (hl : enrichAccountLatest env requestUser transport uri account (pos + 1) t =
      .done (.ok latestAcc) e1 t1)
    (hf : latestAcc.FeaturedCollectionURI ≠ "")
    (hfe : fetchRemoteAccountFeatured env getStatus requestUser
      latestAcc.FeaturedCollectionURI latestAcc.ID (pos + 1 + e1.length) t1 =
        .done ferr e2 t2) :
    enrichAccountDeref env getStatus requestUser transport uri account pos t =
      .done (.ok latestAcc)
        (.startHandshake requestUser uri :: (e1 ++ e2 ++ [.stopHandshake requestUser uri]))
        t2 := by
  have hne : (latestAcc.FeaturedCollectionURI != "") = true := by simpa using hf
  unfold enrichAccountDeref
  simp only [bind_eq, call_eq, deferOnPanic_eq, List.length_singleton, hl, hne, if_true, hfe,
    pure_eq,
    List.append_nil, List.singleton_append, List.append_assoc]

theorem emits_bind_run {α β : Type} (P : Event → Prop) (m : M α) (f : α → M β)
    (hm : Emits P m)
    (hf : ∀ pos t a e1 t1, m pos t = .done a e1 t1 →
      ∀ e ∈ (f a (pos + e1.length) t1).events, P e) : Emits P (m >>= f) := by
  intro pos t e he
  rw [bind_eq] at he
  have h1 := hm pos t
  rcases hmo : m pos t with ⟨a, e1, t1⟩ | ⟨e1, t1⟩ | _
  · simp only [hmo] at he h1
    have h2 := hf pos t a e1 t1 hmo
    rcases hfo : f a (pos + e1.length) t1 with ⟨b, e2, t2⟩ | ⟨e2, t2⟩ | _
    · simp only [hfo, Outcome.events, List.mem_append] at he h1 h2
      rcases he with he | he
      · exact h1 e he
      · exact h2 e he
    · simp only [hfo, Outcome.events, List.mem_append] at he h1 h2
      rcases he with he | he
      · exact h1 e he
      · exact h2 e he
    · simp [hfo, Outcome.events] at he
  · simp only [hmo] at he h1
    exact h1 e he
  · simp [hmo, Outcome.events] at he

theorem pinJustified_of_not_update (getStatus : GetStatusFn) (ru accountID : String)
    (listed : URL → Prop) (e : Event) (h : e.isUpdateStatus = false) :
    PinJustified getStatus ru accountID listed e := by
  intro s cols he
  subst he
  cases h

theorem pinJustified_unpinCall (getStatus : GetStatusFn) (ru accountID : String)
    (listed : URL → Prop) (status : Status) :
    PinJustified getStatus ru accountID listed (unpinCall status) := by
  intro s cols he hz
  simp only [unpinCall, Event.dbUpdateStatus.injEq] at he
  obtain ⟨rfl, -⟩ := he
  cases hz

theorem pinJustified_mono (getStatus : GetStatusFn) (ru accountID : String)
    (listed listed2 : URL → Prop) (h : ∀ u, listed u → listed2 u) (e : Event)
    (he : PinJustified getStatus ru accountID listed e) :
    PinJustified getStatus ru accountID listed2 e := by
  intro s cols hs hz
  rcases he s cols hs hz with ⟨u, p, tb, hl, h1⟩ | ⟨u, status, sa, p, tb, e1, tb', now, hl, hrest⟩
  · exact Or.inl ⟨u, p, tb, h u hl, h1⟩
  · exact Or.inr ⟨u, status, sa, p, tb, e1, tb', now, h u hl, hrest⟩

theorem featuredPinItem_justified (env : Env) (getStatus : GetStatusFn) (ru : String)
    (uri : URL) (accountID : String) (listed : URL → Prop) (item : Item)
    (statusURIs : List URL)
    (hitem : ∀ u, featuredStatusURI item = some u → (u.Host != uri.Host) = false → listed u) :
    Emits (PinJustified getStatus ru accountID listed)
      (featuredPinItem env getStatus ru uri accountID item statusURIs) := by
  unfold featuredPinItem
  rcases hi : featuredStatusURI item with _ | u
  · exact emits_pure _ _
  · simp only []
    rcases hh : (u.Host != uri.Host)
    · simp only [Bool.false_eq_true, if_false]
      refine emits_bind_run _ _ _ ?_ ?_
      · intro pos t e he s cols _ _
        exact Or.inl ⟨u, pos, t, hitem u hi hh, he⟩
      · intro pos t a e1 t1 hrun e he
        rcases a with err | ⟨status, sa⟩
        · simp [pure_eq, Outcome.events] at he
        · simp only [] at he
          rcases hp : status.PinnedAt.IsZero
          · simp [hp, pure_eq, Outcome.events] at he
          · rcases ha : (status.AccountID != accountID)
            · rcases hb : (status.BoostOfID != "")
              · simp only [hp, ha, hb, Bool.not_true, Bool.false_eq_true, if_false, bind_eq,
                  timeNow, call_eq, pure_eq, Outcome.events, List.append_nil,
                  List.singleton_append, List.mem_cons, List.mem_singleton,
                  List.not_mem_nil, or_false] at he
                rcases he with rfl | rfl
                · exact pinJustified_of_not_update _ _ _ _ _ rfl
                · intro s cols hs _
                  simp only [Event.dbUpdateStatus.injEq] at hs
                  obtain ⟨rfl, rfl⟩ := hs
                  refine Or.inr ⟨u, status, sa, pos, t, e1, t1, _, hitem u hi hh, hrun, hp,
                    ?_, ?_, rfl, rfl⟩
                  · simpa using ha
                  · simpa using hb
              · simp [hp, ha, hb, pure_eq, Outcome.events] at he
            · simp [hp, ha, pure_eq, Outcome.events] at he
    · simp only [if_true]
      exact emits_pure _ _

theorem featuredPinLoop_justified (env : Env) (getStatus : GetStatusFn) (ru : String)
    (uri : URL) (accountID : String) (listed : URL → Prop) (items : List Item)
    (statusURIs : List URL)
    (hitems : ∀ item ∈ items, ∀ u, featuredStatusURI item = some u →
      (u.Host != uri.Host) = false → listed u) :
    Emits (PinJustified getStatus ru accountID listed)
      (featuredPinLoop env getStatus ru uri accountID items statusURIs) := by
  induction items generalizing statusURIs with
  | nil =>
      rw [featuredPinLoop]
      exact emits_pure _ _
  | cons item items ih =>
      rw [featuredPinLoop_cons]
      refine emits_bind _ _ _ ?_ (fun a => ?_)
      · exact featuredPinItem_justified env getStatus ru uri accountID listed item statusURIs
          (hitems item (List.mem_cons_self _ _))
      · exact ih a (fun it hit => hitems it (List.mem_cons_of_mem _ hit))

theorem featuredUnpinLoop_justified (env : Env) (getStatus : GetStatusFn) (ru : String)
    (accountID : String) (listed : URL → Prop) (statusURIs : List URL)
    (wasPinned : List Status) :
    Emits (PinJustified getStatus ru accountID listed)
      (featuredUnpinLoop env statusURIs wasPinned) := by
  induction wasPinned with
  | nil =>
      rw [featuredUnpinLoop]
      exact emits_pure _ _
  | cons status rest ih =>
      rw [featuredUnpinLoop]
      split
      · exact ih
      · refine emits_bind _ _ _ (emits_call _ _ _ (pinJustified_unpinCall _ _ _ _ status))
          (fun a => ?_)
        split
        · exact emits_pure _ _
        · exact ih

theorem mem_extractedURIs (uri : URL) (items : List Item) (item : Item) (u : URL)
    (hmem : item ∈ items) (hi : featuredStatusURI item = some u)
    (hh : (u.Host != uri.Host) = false) : u ∈ extractedURIs uri items := by
  unfold extractedURIs
  rw [List.mem_filter]
  refine ⟨List.mem_filterMap.2 ⟨item, hmem, hi⟩, ?_⟩
  simp only [hh, Bool.not_false]

theorem featuredReconcile_justified (env : Env) (getStatus : GetStatusFn) (ru : String)
    (uri : URL) (accountID : String) (items : List Item) (wasPinned : List Status) :
    Emits (PinJustified getStatus ru accountID (fun u => u ∈ extractedURIs uri items))
      (featuredReconcile env getStatus ru uri accountID items wasPinned) := by
  unfold featuredReconcile
  refine emits_bind _ _ _ ?_ (fun a => ?_)
  · exact featuredPinLoop_justified env getStatus ru uri accountID _ items []
      (fun item hmem u hi hh => mem_extractedURIs uri items item u hmem hi hh)
  · exact featuredUnpinLoop_justified env getStatus ru accountID _ a wasPinned

theorem fetchRemoteAccountFeatured_justified (env : Env) (getStatus : GetStatusFn)
    (ru featuredCollectionURI accountID : String) :
    Emits (PinJustified getStatus ru accountID (ListedAt env featuredCollectionURI))
      (fetchRemoteAccountFeatured env getStatus ru featuredCollectionURI accountID) := by
  unfold fetchRemoteAccountFeatured
  rcases hparse : env.urlParse featuredCollectionURI with err | uri
  · exact emits_pure _ _
  simp only []
  refine emits_bind _ _ _ (emits_call _ _ _ (pinJustified_of_not_update _ _ _ _ _ rfl))
    (fun a => ?_)
  rcases a with err | tsport
  · exact emits_pure _ _
  simp only []
  refine emits_bind_run _ _ _ (emits_call _ _ _ (pinJustified_of_not_update _ _ _ _ _ rfl)) ?_
  intro pos t a e1 t1 hrun e he
  obtain ⟨ha, -, -⟩ := call_done hrun
  rcases a with err | b
  · simp [pure_eq, Outcome.events] at he
  simp only [] at he
  rcases hjson : env.jsonUnmarshal b with err | m
  · simp [hjson, pure_eq, Outcome.events] at he
  rcases htype : env.toType m with err | ty
  · simp [hjson, htype, pure_eq, Outcome.events] at he
  simp only [hjson, htype] at he
  rcases hname : (ty.typeName != ObjectOrderedCollection)
  rotate_left
  · simp [hname, pure_eq, Outcome.events] at he
  rcases hgo : (ty.goType != ObjectOrderedCollection)
  rotate_left
  · simp [hname, hgo, pure_eq, Outcome.events] at he
  simp only [hname, hgo, Bool.false_eq_true, if_false] at he
  rcases hitems : ty.orderedItems with _ | items
  · simp [hitems, pure_eq, Outcome.events] at he
  simp only [hitems] at he
  have hmono : ∀ ev, PinJustified getStatus ru accountID (fun u => u ∈ extractedURIs uri items)
      ev → PinJustified getStatus ru accountID (ListedAt env featuredCollectionURI) ev := by
    intro ev hev
    refine pinJustified_mono _ _ _ _ _ ?_ ev hev
    intro u hu
    exact ⟨uri, pos, tsport, b, m, ty, items, hparse, ha.symm, hjson, htype, hitems, hu⟩
  have hrec : ∀ wasPinned,
      Emits (PinJustified getStatus ru accountID (ListedAt env featuredCollectionURI))
        (featuredReconcile env getStatus ru uri accountID items wasPinned) := by
    intro wasPinned p tb ev hev
    exact hmono ev (featuredReconcile_justified env getStatus ru uri accountID items wasPinned
      p tb ev hev)
  refine (emits_bind _ _ _ ?_ (fun answer => ?_)) _ _ e he
  · exact emits_call _ _ _ (pinJustified_of_not_update _ _ _ _ _ rfl)
  rcases answer with err | wasPinned
  · simp only []
    split
    · exact emits_pure _ _
    · exact hrec []
  · exact hrec wasPinned

theorem pinColumnAfter_cons_other (env : Env) (pos : Nat) (e : Event) (rest : List Event)
    (col : String → Time) (h : e.isUpdateStatus = false) :
    pinColumnAfter env pos (e :: rest) col = pinColumnAfter env (pos + 1) rest col := by
  cases e <;> first | rfl | cases h

theorem pinColumnAfter_append (env : Env) (pos : Nat) (e1 e2 : List Event)
    (col : String → Time) :
    pinColumnAfter env pos (e1 ++ e2) col =
      pinColumnAfter env (pos + e1.length) e2 (pinColumnAfter env pos e1 col) := by
  induction e1 generalizing pos col with
  | nil => rfl
  | cons e rest ih =>
      have hp : pos + (e :: rest).length = pos + 1 + rest.length := by
        simp only [List.length_cons]
        omega
      rw [hp]
      rcases hu : e.isUpdateStatus
      · rw [List.cons_append, pinColumnAfter_cons_other env pos e _ col hu,
          pinColumnAfter_cons_other env pos e _ col hu, ih]
      · cases e <;> cases hu
        simp only [List.cons_append, pinColumnAfter]
        exact ih _ _

theorem pinColumnAfter_untouched (env : Env) (pos : Nat) (evs : List Event)
    (col : String → Time) (id : String)
    (h : ∀ s cols, Event.dbUpdateStatus s cols ∈ evs → s.ID ≠ id) :
    pinColumnAfter env pos evs col id = col id := by
  induction evs generalizing pos col with
  | nil => rfl
  | cons e rest ih =>
      have hrest : ∀ s cols, Event.dbUpdateStatus s cols ∈ rest → s.ID ≠ id :=
        fun s cols hm => h s cols (List.mem_cons_of_mem _ hm)
      rcases hu : e.isUpdateStatus
      · rw [pinColumnAfter_cons_other env pos e _ col hu]
        exact ih (pos + 1) col hrest
      · cases e <;> cases hu
        rename_i s cols
        simp only [pinColumnAfter]
        rw [ih (pos + 1) _ hrest]
        have hne : id ≠ s.ID := fun heq => h s cols (List.mem_cons_self _ _) heq.symm
        split
        · simp only [hne, if_false]
        · rfl

theorem pinColumnAfter_written (env : Env) (Q : Time → Prop) (pos : Nat) (evs : List Event)
    (col : String → Time) (id : String)
    (hupd : ∀ i s cols, env.dbUpdateStatus i s cols = none)
    (hall : ∀ s cols, Event.dbUpdateStatus s cols ∈ evs → s.ID = id →
      cols = ["pinned_at"] ∧ Q s.PinnedAt)
    (hsome : Q (col id) ∨ ∃ s cols, Event.dbUpdateStatus s cols ∈ evs ∧ s.ID = id) :
    Q (pinColumnAfter env pos evs col id) := by
  induction evs generalizing pos col with
  | nil =>
      rcases hsome with h | ⟨s, cols, hm, -⟩
      · exact h
      · cases hm
  | cons e rest ih =>
      have hrest : ∀ s cols, Event.dbUpdateStatus s cols ∈ rest → s.ID = id →
          cols = ["pinned_at"] ∧ Q s.PinnedAt :=
        fun s cols hm => hall s cols (List.mem_cons_of_mem _ hm)
      rcases hu : e.isUpdateStatus
      · rw [pinColumnAfter_cons_other env pos e _ col hu]
        apply ih (pos + 1) col hrest
        rcases hsome with h | ⟨s, cols, hm, hid⟩
        · exact Or.inl h
        · rcases List.mem_cons.1 hm with heq | hm
          · subst heq
            cases hu
          · exact Or.inr ⟨s, cols, hm, hid⟩
      · cases e <;> cases hu
        rename_i s cols
        simp only [pinColumnAfter]
        apply ih (pos + 1) _ hrest
        by_cases hid : s.ID = id
        · obtain ⟨hc, hq⟩ := hall s cols (List.mem_cons_self _ _) hid
          left
          subst hc
          simp only [hupd, Option.isNone_none, Bool.true_and]
          have : (([] : List String).isEmpty || ["pinned_at"].contains "pinned_at") = true := by
            decide
          simp only [List.isEmpty_cons, Bool.false_or] at this ⊢
          rw [if_pos (by decide)]
          simp only [hid, if_true]
          exact hq
        · rcases hsome with h | ⟨s2, cols2, hm, hid2⟩
          · left
            have hne : id ≠ s.ID := fun heq => hid heq.symm
            split
            · simp only [hne, if_false]
              exact h
            · exact h
          · rcases List.mem_cons.1 hm with heq | hm
            · simp only [Event.dbUpdateStatus.injEq] at heq
              obtain ⟨rfl, -⟩ := heq
              exact absurd hid2 hid
            · exact Or.inr ⟨s2, cols2, hm, hid2⟩

theorem extractedURIs_single_none (uri : URL) (item : Item)
    (h : featuredStatusURI item = none) : extractedURIs uri [item] = [] := by
  simp [extractedURIs, List.filterMap_cons, h]

theorem extractedURIs_single_other (uri : URL) (item : Item) (u : URL)
    (h : featuredStatusURI item = some u) (hh : (u.Host != uri.Host) = true) :
    extractedURIs uri [item] = [] := by
  simp [extractedURIs, List.filterMap_cons, h, List.filter_cons, hh]

theorem extractedURIs_single_same (uri : URL) (item : Item) (u : URL)
    (h : featuredStatusURI item = some u) (hh : (u.Host != uri.Host) = false) :
    extractedURIs uri [item] = [u] := by
  simp [extractedURIs, List.filterMap_cons, h, List.filter_cons, hh]

theorem pinsOf_nil (accountID : String) (resolve : URL → Res (Status × Option Statusable)) :
    PinsOf accountID resolve [] [] :=
  ⟨fun _ _ h => (by cases h), fun _ h => (by cases h)⟩

theorem pinsOf_append (accountID : String) (resolve : URL → Res (Status × Option Statusable))
    (l1 l2 : List URL) (e1 e2 : List Event) (h1 : PinsOf accountID resolve l1 e1)
    (h2 : PinsOf accountID resolve l2 e2) : PinsOf accountID resolve (l1 ++ l2) (e1 ++ e2) := by
  constructor
  · intro s cols hm
    rcases List.mem_append.1 hm with hm | hm
    · obtain ⟨u, hu, rest⟩ := h1.1 s cols hm
      exact ⟨u, List.mem_append_left _ hu, rest⟩
    · obtain ⟨u, hu, rest⟩ := h2.1 s cols hm
      exact ⟨u, List.mem_append_right _ hu, rest⟩
  · intro u hu status sa hr he
    rcases List.mem_append.1 hu with hu | hu
    · obtain ⟨n, hn⟩ := h1.2 u hu status sa hr he
      exact ⟨n, List.mem_append_left _ hn⟩
    · obtain ⟨n, hn⟩ := h2.2 u hu status sa hr he
      exact ⟨n, List.mem_append_right _ hn⟩

theorem featuredPinItem_pinsOf (env : Env) (getStatus : GetStatusFn) (ru : String)
    (uri : URL) (accountID : String) (item : Item) (statusURIs : List URL) (pos : Nat)
    (t : Tables) (r : List URL) (evs : List Event) (t' : Tables)
    (resolve : URL → Res (Status × Option Statusable))
    (hres : ∀ u ∈ extractedURIs uri [item], ∀ p tb, ∃ e tb',
      getStatus ru u false false p tb = .done (resolve u) e tb' ∧
      ∀ ev ∈ e, ev.isUpdateStatus = false)
    (hrun : featuredPinItem env getStatus ru uri accountID item statusURIs pos t =
      .done r evs t') :
    PinsOf accountID resolve (extractedURIs uri [item]) evs := by
  unfold featuredPinItem at hrun
  rcases hi : featuredStatusURI item with _ | u
  · simp only [hi] at hrun
    obtain ⟨-, rfl, -⟩ := pure_done hrun
    rw [extractedURIs_single_none uri item hi]
    exact pinsOf_nil _ _
  simp only [hi] at hrun
  rcases hh : (u.Host != uri.Host)
  rotate_left
  · simp only [hh, if_true] at hrun
    obtain ⟨-, rfl, -⟩ := pure_done hrun
    rw [extractedURIs_single_other uri item u hi hh]
    exact pinsOf_nil _ _
  simp only [hh, Bool.false_eq_true, if_false] at hrun
  rw [extractedURIs_single_same uri item u hi hh] at hres ⊢
  obtain ⟨e, tb', hg, hnu⟩ := hres u (List.mem_singleton_self u) pos t
  obtain ⟨a, e1, t1, e2, h1, h2, rfl⟩ := bind_done hrun
  rw [hg] at h1
  simp only [Outcome.done.injEq] at h1
  obtain ⟨rfl, rfl, rfl⟩ := h1
  have hnoupd : ∀ s cols, Event.dbUpdateStatus s cols ∉ e := by
    intro s cols hm
    have := hnu _ hm
    cases this
  rcases hr : resolve u with err | ⟨status, sa⟩
  · simp only [hr] at h2
    obtain ⟨-, rfl, -⟩ := pure_done h2
    constructor
    · intro s cols hm
      rw [List.append_nil] at hm
      exact absurd hm (hnoupd s cols)
    · intro u2 hu2 status2 sa2 hr2 _
      rw [List.mem_singleton.1 hu2, hr] at hr2
      cases hr2
  · simp only [hr] at h2
    rcases hel : pinEligible accountID status
    · have hnone : e2 = [] := by
        unfold pinEligible at hel
        rcases hp : status.PinnedAt.IsZero
        · simp only [hp, Bool.not_false, if_true] at h2
          exact (pure_done h2).2.1
        · rcases ha : (status.AccountID != accountID)
          · rcases hb : (status.BoostOfID != "")
            · exfalso
              have ha2 : (status.AccountID == accountID) = true := by
                simpa [bne] using ha
              have hb2 : (status.BoostOfID == "") = true := by
                simpa [bne] using hb
              rw [hp, ha2, hb2] at hel
              cases hel
            · simp only [hp, ha, hb, Bool.not_true, Bool.false_eq_true, if_false, if_true]
                at h2
              exact (pure_done h2).2.1
          · simp only [hp, ha, Bool.not_true, Bool.false_eq_true, if_false, if_true] at h2
            exact (pure_done h2).2.1
      subst hnone
      constructor
      · intro s cols hm
        rw [List.append_nil] at hm
        exact absurd hm (hnoupd s cols)
      · intro u2 hu2 status2 sa2 hr2 hel2
        rw [List.mem_singleton.1 hu2, hr] at hr2
        cases hr2
        rw [hel] at hel2
        cases hel2
    · have hel2 := hel
      unfold pinEligible at hel2
      simp only [Bool.and_eq_true, beq_iff_eq] at hel2
      obtain ⟨⟨hp, ha⟩, hb⟩ := hel2
      have ha2 : (status.AccountID != accountID) = false := by simp [ha]
      have hb2 : (status.BoostOfID != "") = false := by simp [hb]
      simp only [hp, ha2, hb2, Bool.not_true, Bool.false_eq_true, if_false, bind_eq, timeNow,
        call_eq, pure_eq, List.append_nil, List.singleton_append, Outcome.done.injEq] at h2
      obtain ⟨-, rfl, -⟩ := h2
      constructor
      · intro s cols hm
        rcases List.mem_append.1 hm with hm | hm
        · exact absurd hm (hnoupd s cols)
        · rcases List.mem_cons.1 hm with h | h
          · cases h
          · rcases List.mem_cons.1 h with h | h
            · cases h
              exact ⟨u, List.mem_singleton_self u, status, sa, _, hr, hel, rfl, rfl⟩
            · cases h
      · intro u2 hu2 status2 sa2 hr2 _
        rw [List.mem_singleton.1 hu2, hr] at hr2
        cases hr2
        refine ⟨env.timeNow (pos + e.length), ?_⟩
        apply List.mem_append_right
        simp

theorem featuredPinLoop_pinsOf (env : Env) (getStatus : GetStatusFn) (ru : String)
    (uri : URL) (accountID : String) (items : List Item) (statusURIs : List URL) (pos : Nat)
    (t : Tables) (r : List URL) (evs : List Event) (t' : Tables)
    (resolve : URL → Res (Status × Option Statusable))
    (hres : ∀ u ∈ extractedURIs uri items, ∀ p tb, ∃ e tb',
      getStatus ru u false false p tb = .done (resolve u) e tb' ∧
      ∀ ev ∈ e, ev.isUpdateStatus = false)
    (hrun : featuredPinLoop env getStatus ru uri accountID items statusURIs pos t =
      .done r evs t') :
    PinsOf accountID resolve (extractedURIs uri items) evs := by
  induction items generalizing statusURIs pos t evs with
  | nil =>
      rw [featuredPinLoop] at hrun
      obtain ⟨-, rfl, -⟩ := pure_done hrun
      exact pinsOf_nil _ _
  | cons item items ih =>
      rw [featuredPinLoop_cons] at hrun
      obtain ⟨a, e1, t1, e2, h1, h2, rfl⟩ := bind_done hrun
      rw [extractedURIs_cons] at hres ⊢
      apply pinsOf_append
      · exact featuredPinItem_pinsOf env getStatus ru uri accountID item statusURIs pos t a e1
          t1 resolve (fun u hu => hres u (List.mem_append_left _ hu)) h1
      · exact ih a _ _ e2 (fun u hu => hres u (List.mem_append_right _ hu)) h2

theorem ofUnixNano_isZero (n : Nat) : (Time.ofUnixNano n).IsZero = false := by
  simp only [Time.IsZero, Time.ofUnixNano, unixToInternal, beq_eq_false_iff_ne, ne_eq]
  omega

theorem pinEligible_isZero (accountID : String) (status : Status)
    (h : pinEligible accountID status = true) : status.PinnedAt.IsZero = true := by
  unfold pinEligible at h
  simp only [Bool.and_eq_true] at h
  exact h.1.1

theorem mem_unpinCalls (statusURIs : List URL) (wasPinned : List Status) (s : Status)
    (cols : List String)
    (h : Event.dbUpdateStatus s cols ∈
      (wasPinned.filter (fun s => !isListed statusURIs s)).map unpinCall) :
    ∃ s2 ∈ wasPinned, isListed statusURIs s2 = false ∧
      s = { s2 with PinnedAt := Time.zero } ∧ cols = ["pinned_at"] := by
  obtain ⟨s2, hs2, heq⟩ := List.mem_map.1 h
  rw [List.mem_filter] at hs2
  simp only [unpinCall, Event.dbUpdateStatus.injEq] at heq
  refine ⟨s2, hs2.1, ?_, heq.1.symm, heq.2.symm⟩
  simpa using hs2.2

theorem featuredReconcile_pinColumn (env : Env) (getStatus : GetStatusFn)
    (requestingUsername : String) (uri : URL) (accountID : String) (items : List Item)
    (wasPinned : List Status) (pos : Nat) (t : Tables) (evs : List Event) (t' : Tables)
    (resolve : URL → Res (Status × Option Statusable)) (col : String → Time)
    (hrun : featuredReconcile env getStatus requestingUsername uri accountID items wasPinned
      pos t = .done none evs t')
    (hupd : ∀ i s cols, env.dbUpdateStatus i s cols = none)
    (hres : ∀ u ∈ extractedURIs uri items, ∀ p tb, ∃ e tb',
      getStatus requestingUsername u false false p tb = .done (resolve u) e tb' ∧
      ∀ ev ∈ e, ev.isUpdateStatus = false)
    (hpinned : ∀ u ∈ extractedURIs uri items, ∀ status sa, resolve u = .ok (status, sa) →
      ∀ s ∈ wasPinned, s.ID = status.ID → status.PinnedAt.IsZero = false)
    (hkey : ∀ s1 ∈ wasPinned, ∀ s2 ∈ wasPinned, s1.ID = s2.ID → s1.URI = s2.URI) :
    (∀ s ∈ wasPinned, isListed (extractedURIs uri items) s = true →
      pinColumnAfter env pos evs col s.ID = col s.ID) ∧
    (∀ s ∈ wasPinned, isListed (extractedURIs uri items) s = false →
      pinColumnAfter env pos evs col s.ID = Time.zero) ∧
    (∀ u ∈ extractedURIs uri items, ∀ status sa, resolve u = .ok (status, sa) →
      pinEligible accountID status = true →
      (pinColumnAfter env pos evs col status.ID).IsZero = false) ∧
    (∀ id,
      (∀ s ∈ wasPinned, isListed (extractedURIs uri items) s = false → s.ID ≠ id) →
      (∀ u ∈ extractedURIs uri items, ∀ status sa, resolve u = .ok (status, sa) →
        pinEligible accountID status = true → status.ID ≠ id) →
      pinColumnAfter env pos evs col id = col id) := by
  obtain ⟨evsP, tP, evsU, hP, hU, rfl⟩ := featuredReconcile_done _ _ _ _ _ _ _ _ _ _ _ _ hrun
  have hpins := featuredPinLoop_pinsOf env getStatus requestingUsername uri accountID items []
    pos t _ evsP tP resolve hres hP
  obtain ⟨hevsU, -⟩ := featuredUnpinLoop_none env _ wasPinned _ tP evsU t' hU
  have hother : ∀ id,
      (∀ s ∈ wasPinned, isListed (extractedURIs uri items) s = false → s.ID ≠ id) →
      (∀ u ∈ extractedURIs uri items, ∀ status sa, resolve u = .ok (status, sa) →
        pinEligible accountID status = true → status.ID ≠ id) →
      pinColumnAfter env pos (evsP ++ evsU) col id = col id := by
    intro id h1 h2
    rw [pinColumnAfter_append, pinColumnAfter_untouched, pinColumnAfter_untouched]
    · intro s cols hm
      obtain ⟨u, hu, status, sa, n, hr, hel, rfl, -⟩ := hpins.1 s cols hm
      exact h2 u hu status sa hr hel
    · intro s cols hm
      rw [hevsU] at hm
      obtain ⟨s2, hs2, hl, rfl, -⟩ := mem_unpinCalls _ _ _ _ hm
      exact h1 s2 hs2 hl
  refine ⟨?_, ?_, ?_, hother⟩
  · intro s hs hl
    apply hother
    · intro s2 hs2 hl2 heq
      have huri := hkey s2 hs2 s hs heq
      unfold isListed at hl hl2
      rw [huri, hl] at hl2
      cases hl2
    · intro u hu status sa hr hel heq
      have h1 := hpinned u hu status sa hr s hs heq.symm
      rw [pinEligible_isZero accountID status hel] at h1
      cases h1
  · intro s hs hl
    rw [pinColumnAfter_append]
    apply pinColumnAfter_written env (fun x => x = Time.zero) _ _ _ _ hupd
    · intro s2 cols hm _
      rw [hevsU] at hm
      obtain ⟨s3, -, -, rfl, rfl⟩ := mem_unpinCalls _ _ _ _ hm
      exact ⟨rfl, rfl⟩
    · right
      refine ⟨{ s with PinnedAt := Time.zero }, ["pinned_at"], ?_, rfl⟩
      rw [hevsU]
      refine List.mem_map.2 ⟨s, List.mem_filter.2 ⟨hs, ?_⟩, rfl⟩
      simp only [hl, Bool.not_false]
  · intro u hu status sa hr hel
    rw [pinColumnAfter_append, pinColumnAfter_untouched]
    · apply pinColumnAfter_written env (fun x => x.IsZero = false) _ _ _ _ hupd
      · intro s cols hm _
        obtain ⟨u2, -, status2, sa2, n, -, -, rfl, rfl⟩ := hpins.1 s cols hm
        exact ⟨rfl, ofUnixNano_isZero n⟩
      · right
        obtain ⟨n, hn⟩ := hpins.2 u hu status sa hr hel
        exact ⟨_, _, hn, rfl⟩
    · intro s cols hm heq
      rw [hevsU] at hm
      obtain ⟨s2, hs2, -, rfl, -⟩ := mem_unpinCalls _ _ _ _ hm
      have h1 := hpinned u hu status sa hr s2 hs2 heq
      rw [pinEligible_isZero accountID status hel] at h1
      cases h1

theorem fetchRemoteAccountFeatured_nil (env : Env) (getStatus : GetStatusFn)
    (requestingUsername featuredCollectionURI accountID : String) (pos : Nat) (t : Tables)
    (evs : List Event) (t' : Tables)
    (uri : URL) (tsport : Transport) (b : Bytes) (m : JsonMap) (ty : VType) (items : List Item)
    (hparse : env.urlParse featuredCollectionURI = .ok uri)
    (htr : env.newTransportForUsername pos requestingUsername = .ok tsport)
    (hderef : env.dereference (pos + 1) tsport uri = .ok b)
    (hjson : env.jsonUnmarshal b = .ok m)
    (htype : env.toType m = .ok ty)
    (hitems : ty.orderedItems = some items)
    (hrun : fetchRemoteAccountFeatured env getStatus requestingUsername featuredCollectionURI
      accountID pos t = .done none evs t') :
    ∃ evsR,
      evs = .newTransportForUsername requestingUsername :: .dereference tsport uri ::
        .dbGetAccountPinnedStatuses accountID :: evsR ∧
      featuredReconcile env getStatus requestingUsername uri accountID items
        (match env.dbGetAccountPinnedStatuses (pos + 2) accountID with
          | .ok wasPinned => wasPinned
          | .error _ => []) (pos + 3) t = .done none evsR t' := by
  have hname : ty.typeName = ObjectOrderedCollection := by
    by_contra hne
    have hb : (ty.typeName != ObjectOrderedCollection) = true := by simpa using hne
    simp [fetchRemoteAccountFeatured, hparse, bind_eq, call_eq, htr, hderef, hjson, htype, hb,
      hne, pure_eq] at hrun
  have hgo : ty.goType = ObjectOrderedCollection := by
    by_contra hne
    have hb : (ty.goType != ObjectOrderedCollection) = true := by simpa using hne
    simp [fetchRemoteAccountFeatured, hparse, bind_eq, call_eq, htr, hderef, hjson, htype,
      hname, hb, hne, pure_eq] at hrun
  rw [fetchRemoteAccountFeatured_items env getStatus requestingUsername featuredCollectionURI
    accountID pos t uri tsport b m ty items hparse htr hderef hjson htype hname hgo hitems]
    at hrun
  obtain ⟨a1, e1, t1, r1, hc1, h1, rfl⟩ := bind_done hrun
  obtain ⟨-, rfl, rfl⟩ := call_done hc1
  obtain ⟨a2, e2, t2, r2, hc2, h2, rfl⟩ := bind_done h1
  obtain ⟨-, rfl, rfl⟩ := call_done hc2
  obtain ⟨a3, e3, t3, r3, hc3, h3, rfl⟩ := bind_done h2
  obtain ⟨ha3, rfl, rfl⟩ := call_done hc3
  have hp : pos + [Event.newTransportForUsername requestingUsername].length +
      [Event.dereference tsport uri].length = pos + 2 := rfl
  have hp3 : pos + [Event.newTransportForUsername requestingUsername].length +
      [Event.dereference tsport uri].length +
      [Event.dbGetAccountPinnedStatuses accountID].length = pos + 3 := rfl
  rw [hp] at ha3
  rw [hp3] at h3
  refine ⟨r3, rfl, ?_⟩
  rw [← ha3]
  rcases a3 with err | wasPinned
  · simp only [] at h3 ⊢
    rcases hn : err.Is .ErrNoEntries
    · simp [hn, pure_eq] at h3
    · simpa [hn] using h3
  · exact h3

theorem getPinnableStatus_ok {p : Processor} {table : StatusTable} {id accountID : String}
    {s : Status} (h : getPinnableStatus p table id accountID = .ok s) :
    dbGetStatusByID p table id = .ok s ∧ (s.AccountID != accountID) = false ∧
      (s.Visibility == VisibilityDirect) = false ∧ (s.BoostOfID != "") = false := by
  unfold getPinnableStatus at h
  rcases hg : dbGetStatusByID p table id with err | st
  · simp [hg] at h
  · simp only [hg] at h
    rcases ha : p.dbGetAccountByID accountID with err | acc
    · simp [ha] at h
    · simp only [ha] at h
      rcases hv : p.statusVisible st acc with err | visible
      · simp [hv] at h
      · simp only [hv] at h
        split at h
        · cases h
        split at h
        · cases h
        split at h
        · cases h
        split at h
        · cases h
        cases h
        rename_i h1 h2 h3 h4
        exact ⟨rfl, by simpa using h2, by simpa using h3, by simpa using h4⟩

theorem dbGetStatusByID_ok {p : Processor} {table : StatusTable} {id : String} {s : Status}
    (h : dbGetStatusByID p table id = .ok s) : s ∈ table ∧ s.ID = id := by
  unfold dbGetStatusByID at h
  split at h
  · cases h
  · split at h
    · cases h
      rename_i row hf
      exact ⟨List.mem_of_find?_eq_some hf, by simpa using List.find?_some hf⟩
    · cases h

/-- The update of `pinned_at` keeps the IDs of the rows. -/
theorem dbUpdateStatusPinnedAt_ids (p : Processor) (table : StatusTable) (status : Status) :
    (dbUpdateStatusPinnedAt p table status).1.map (fun row => row.ID) =
      table.map (fun row => row.ID) := by
  unfold dbUpdateStatusPinnedAt
  split
  · rfl
  · simp only [List.map_map]
    apply List.map_congr_left
    intro row _
    simp only [Function.comp]
    split <;> rfl

/-- The count of pinned statuses as a count over the rows. -/
theorem countAccountPinned_eq_countP (table : StatusTable) (accountID : String) :
    countAccountPinned table accountID =
      table.countP (fun row => row.AccountID == accountID && !row.PinnedAt.IsZero) := by
  simp [countAccountPinned, List.countP_eq_length_filter]

/-- A rewriting of the rows that pins no row of the account does not raise its
count. -/
theorem countP_map_le (P : Status → Bool) (f : Status → Status) (table : StatusTable)
    (h : ∀ row ∈ table, P (f row) = true → P row = true) :
    (table.map f).countP P ≤ table.countP P := by
  induction table with
  | nil => simp
  | cons row rest ih =>
      have ih2 := ih (fun r hr => h r (List.mem_cons_of_mem _ hr))
      have h1 := h row (List.mem_cons_self _ _)
      simp only [List.map_cons, List.countP_cons]
      by_cases hp : P (f row) = true
      · simp only [hp, h1 hp, if_true]
        omega
      · simp only [hp, Bool.false_eq_true, if_false]
        omega

/-- A rewriting of the rows that changes at most the rows with one ID raises
the count by one at most, the IDs of the rows being distinct. -/
theorem countP_map_le_succ (P : Status → Bool) (f : Status → Status) (id : String)
    (table : StatusTable) (hkey : (table.map (fun row => row.ID)).Nodup)
    (hf : ∀ row ∈ table, row.ID ≠ id → f row = row) :
    (table.map f).countP P ≤ table.countP P + 1 := by
  induction table with
  | nil => simp
  | cons row rest ih =>
      simp only [List.map_cons, List.nodup_cons] at hkey
      have ih2 := ih hkey.2 (fun r hr => hf r (List.mem_cons_of_mem _ hr))
      simp only [List.map_cons, List.countP_cons]
      by_cases hid : row.ID = id
      · have hrest : (rest.map f).countP P ≤ rest.countP P := by
          apply countP_map_le
          intro r hr hp
          have hne : r.ID ≠ id := by
            intro heq
            apply hkey.1
            rw [hid, ← heq]
            exact List.mem_map_of_mem _ hr
          rw [hf r (List.mem_cons_of_mem _ hr) hne] at hp
          exact hp
        have h1 : (if P (f row) = true then 1 else 0) ≤ 1 := by split <;> omega
        omega
      · rw [hf row (List.mem_cons_self _ _) hid]
        split <;> omega

/-- Clearing `pinned_at` never raises the count of pinned statuses of any
account. -/
theorem countAccountPinned_unpin (p : Processor) (table : StatusTable) (status : Status)
    (accountID : String) (hz : status.PinnedAt.IsZero = true) :
    countAccountPinned (dbUpdateStatusPinnedAt p table status).1 accountID ≤
      countAccountPinned table accountID := by
  unfold dbUpdateStatusPinnedAt
  split
  · exact Nat.le_refl _
  · simp only [countAccountPinned_eq_countP]
    apply countP_map_le
    intro row _
    split
    · simp [hz]
    · exact id

/-- Writing `pinned_at` of a status does not raise the count of an account
that owns no row with the ID of the status. -/
theorem countAccountPinned_other (p : Processor) (table : StatusTable) (status : Status)
    (accountID : String)
    (hother : ∀ row ∈ table, row.ID = status.ID → row.AccountID ≠ accountID) :
    countAccountPinned (dbUpdateStatusPinnedAt p table status).1 accountID ≤
      countAccountPinned table accountID := by
  unfold dbUpdateStatusPinnedAt
  split
  · exact Nat.le_refl _
  · simp only [countAccountPinned_eq_countP]
    apply countP_map_le
    intro row hrow
    split
    · rename_i hid
      have := hother row hrow (by simpa using hid)
      simp [this]
    · exact id

/-- Writing `pinned_at` of a status raises the count of an account by one at
most, the IDs of the rows being distinct. -/
theorem countAccountPinned_pin (p : Processor) (table : StatusTable) (status : Status)
    (accountID : String) (hkey : (table.map (fun row => row.ID)).Nodup) :
    countAccountPinned (dbUpdateStatusPinnedAt p table status).1 accountID ≤
      countAccountPinned table accountID + 1 := by
  unfold dbUpdateStatusPinnedAt
  split
  · exact Nat.le_succ _
  · simp only [countAccountPinned_eq_countP]
    apply countP_map_le_succ _ _ status.ID _ hkey
    intro row _ hne
    simp [hne]

/-- The table after the conversion for the client is the table before it. -/
theorem pinRemoveConvert_table (p : Processor) (table : StatusTable) (a : Account)
    (s : Status) : (pinRemoveConvert p table a s).1 = table := by
  unfold pinRemoveConvert
  split <;> rfl

/-- The table after `PinCreate`: untouched, or the pin of a status that
`getPinnableStatus` let through, that was not pinned, with the count of the
account below the limit. -/
theorem PinCreate_table (p : Processor) (table : StatusTable) (a : Account) (id : String) :
    (PinCreate p table a id).1 = table ∨
    ∃ s, getPinnableStatus p table id a.ID = .ok s ∧
      countAccountPinned table a.ID < allowedPinnedCount ∧
      (PinCreate p table a id).1 =
        (dbUpdateStatusPinnedAt p table { s with PinnedAt := Time.ofUnixNano p.timeNow }).1 := by
  unfold PinCreate
  rcases hg : getPinnableStatus p table id a.ID with e | s
  · exact Or.inl rfl
  · simp only []
    split
    · exact Or.inl rfl
    · rcases hc : dbCountAccountPinned p table a.ID with e | n
      · exact Or.inl rfl
      · simp only []
        split
        · exact Or.inl rfl
        · rename_i hz hlim
          right
          refine ⟨s, rfl, ?_, ?_⟩
          · unfold dbCountAccountPinned at hc
            split at hc
            · cases hc
            · cases hc
              omega
          · cases hu : dbUpdateStatusPinnedAt p table
              { s with PinnedAt := Time.ofUnixNano p.timeNow } with
            | mk table2 oerr =>
                cases oerr with
                | none =>
                    simp only []
                    split <;> rfl
                | some err => rfl

/-- The table after `PinRemove`: untouched, or `pinned_at` of a status
cleared. -/
theorem PinRemove_table (p : Processor) (table : StatusTable) (a : Account) (id : String) :
    (PinRemove p table a id).1 = table ∨
    ∃ s : Status, (PinRemove p table a id).1 =
      (dbUpdateStatusPinnedAt p table { s with PinnedAt := Time.zero }).1 := by
  unfold PinRemove
  rcases hg : getPinnableStatus p table id a.ID with e | s
  · exact Or.inl rfl
  · simp only []
    split
    · right
      refine ⟨s, ?_⟩
      cases hu : dbUpdateStatusPinnedAt p table { s with PinnedAt := Time.zero } with
      | mk table2 oerr =>
          cases oerr with
          | none => exact pinRemoveConvert_table _ _ _ _
          | some err => rfl
    · exact Or.inl (pinRemoveConvert_table _ _ _ _)

/-- One call keeps the IDs of the rows, and keeps the count of every account
within the limit, the IDs being distinct. -/
theorem PinCall_run_keeps (table : StatusTable) (call : PinCall) (accountID : String)
    (hkey : (table.map (fun row => row.ID)).Nodup)
    (hcount : countAccountPinned table accountID ≤ allowedPinnedCount) :
    (PinCall.run table call).map (fun row => row.ID) = table.map (fun row => row.ID) ∧
    countAccountPinned (PinCall.run table call) accountID ≤ allowedPinnedCount := by
  rcases call with ⟨p, a, id⟩ | ⟨p, a, id⟩
  · simp only [PinCall.run]
    rcases PinCreate_table p table a id with h | ⟨s, hg, hlim, h⟩
    · rw [h]
      exact ⟨rfl, hcount⟩
    · rw [h]
      refine ⟨dbUpdateStatusPinnedAt_ids _ _ _, ?_⟩
      obtain ⟨hget, hown, -, -⟩ := getPinnableStatus_ok hg
      obtain ⟨hmem, hsid⟩ := dbGetStatusByID_ok hget
      by_cases hacc : accountID = a.ID
      · subst hacc
        have := countAccountPinned_pin p table
          { s with PinnedAt := Time.ofUnixNano p.timeNow } a.ID hkey
        omega
      · refine Nat.le_trans (countAccountPinned_other p table _ accountID ?_) hcount
        intro row hrow hrid
        have hrow2 : row = s := by
          apply List.inj_on_of_nodup_map hkey hrow hmem
          exact hrid
        rw [hrow2]
        have : s.AccountID = a.ID := by simpa using hown
        rw [this]
        exact fun h => hacc h.symm
  · simp only [PinCall.run]
    rcases PinRemove_table p table a id with h | ⟨s, h⟩
    · rw [h]
      exact ⟨rfl, hcount⟩
    · rw [h]
      exact ⟨dbUpdateStatusPinnedAt_ids _ _ _,
        Nat.le_trans (countAccountPinned_unpin p table _ accountID rfl) hcount⟩

/-- A sequence of calls keeps the count of every account within the limit. -/
theorem runPinCalls_keeps (calls : List PinCall) (table : StatusTable) (accountID : String)
    (hkey : (table.map (fun row => row.ID)).Nodup)
    (hcount : countAccountPinned table accountID ≤ allowedPinnedCount) :
    countAccountPinned (runPinCalls table calls) accountID ≤ allowedPinnedCount := by
  induction calls generalizing table with
  | nil => exact hcount
  | cons call rest ih =>
      simp only [runPinCalls, List.foldl_cons]
      obtain ⟨hids, hc⟩ := PinCall_run_keeps table call accountID hkey hcount
      exact ih _ (by rw [hids]; exact hkey) hc

/-- Removing the entries of a key that the table does not hold leaves the
table as it is. -/
theorem filter_ne_of_lookup_none (k : String) (l : List (String × ProcessingMedia))
    (h : l.lookup k = none) : l.filter (fun kv => kv.1 != k) = l := by
  induction l with
  | nil => rfl
  | cons kv rest ih =>
      rcases kv with ⟨k2, v⟩
      simp only [List.lookup] at h
      rcases hk : (k == k2) with _ | _
      · rw [hk] at h
        simp only [] at h
        have hne : ((k2, v).1 != k) = true := by
          simp only [bne_iff_ne, ne_eq]
          intro heq
          rw [heq] at hk
          simp at hk
        simp only [List.filter_cons, hne, if_true, ih h]
      · rw [hk] at h
        cases h

theorem dereferenceAccountable_decoded (env : Env) (tr : Transport) (u : URL) (pos : Nat)
    (t : Tables) (b : Bytes) (m : JsonMap) (ty : VType)
    (hb : env.dereference pos tr u = .ok b) (hm : env.jsonUnmarshal b = .ok m)
    (hty : env.toType m = .ok ty) :
    (ty.typeName ∈ actorTypeNames → ty.goType = ty.typeName →
      dereferenceAccountable env tr u pos t = .done (.ok ty) [.dereference tr u] t) ∧
    (ty.typeName ∈ actorTypeNames → ty.goType ≠ ty.typeName →
      dereferenceAccountable env tr u pos t = .panicked [.dereference tr u] t) ∧
    (ty.typeName ∉ actorTypeNames →
      dereferenceAccountable env tr u pos t =
        .done (.error (.ErrWrongType
          (.errorf "DereferenceAccountable: type name not supported as Accountable")))
          [.dereference tr u] t) := by
  refine ⟨?_, ?_, ?_⟩
  · intro hmem hgo
    simp only [actorTypeNames, List.mem_cons, List.mem_singleton, List.mem_nil_iff,
      or_false] at hmem
    rcases hmem with h | h | h | h | h <;>
      simp [dereferenceAccountable, bind_eq, call_eq, pure_eq, hb, hm, hty, hgo, h,
        ActorApplication, ActorGroup, ActorOrganization, ActorPerson, ActorService]
  · intro hmem hgo
    simp only [actorTypeNames, List.mem_cons, List.mem_singleton, List.mem_nil_iff,
      or_false] at hmem
    rcases hmem with h | h | h | h | h <;>
      · rw [h] at hgo
        simp only [ActorApplication, ActorGroup, ActorOrganization, ActorPerson,
          ActorService] at hgo
        simp [dereferenceAccountable, bind_eq, call_eq, pure_eq, goPanic, hb, hm, hty, hgo, h,
          ActorApplication, ActorGroup, ActorOrganization, ActorPerson, ActorService]
  · intro hmem
    simp only [actorTypeNames, List.mem_cons, List.mem_singleton, List.mem_nil_iff,
      or_false, not_or] at hmem
    obtain ⟨h1, h2, h3, h4, h5⟩ := hmem
    simp [dereferenceAccountable, bind_eq, call_eq, pure_eq, hb, hm, hty, h1, h2, h3, h4, h5]

theorem dereferenceStatusable_decoded (env : Env) (tr : Transport) (u : URL) (pos : Nat)
    (t : Tables) (b : Bytes) (m : JsonMap) (ty : VType)
    (hblock : env.dbIsDomainBlocked pos u.Host = .ok false)
    (hb : env.dereference (pos + 1) tr u = .ok b) (hm : env.jsonUnmarshal b = .ok m)
    (hty : env.toType m = .ok ty) :
    (ty.typeName ∈ objectTypeNames → ty.goType = ty.typeName →
      dereferenceStatusable env tr u pos t =
        .done (.ok ty) [.dbIsDomainBlocked u.Host, .dereference tr u] t) ∧
    (ty.typeName ∈ objectTypeNames → ty.goType ≠ ty.typeName →
      dereferenceStatusable env tr u pos t =
        .done (.error (.errorf
          ("DereferenceStatusable: error resolving type as ActivityStreams" ++ ty.typeName)))
          [.dbIsDomainBlocked u.Host, .dereference tr u] t) ∧
    (ty.typeName ∉ objectTypeNames →
      dereferenceStatusable env tr u pos t =
        .done (.error (.ErrWrongType
          (.errorf "DereferenceStatusable: type name not supported as Statusable")))
          [.dbIsDomainBlocked u.Host, .dereference tr u] t) := by
  refine ⟨?_, ?_, ?_⟩
  · intro hmem hgo
    simp only [objectTypeNames, List.mem_cons, List.mem_singleton, List.mem_nil_iff,
      or_false] at hmem
    rcases hmem with h | h | h | h | h | h | h | h | h <;>
      simp [dereferenceStatusable, resolveStatusableAs, blockedOrErr, bind_eq, call_eq, pure_eq,
        hblock, hb, hm, hty, hgo, h,
        ObjectArticle, ObjectDocument, ObjectImage, ObjectVideo, ObjectNote, ObjectPage,
        ObjectEvent, ObjectPlace, ObjectProfile]
  · intro hmem hgo
    simp only [objectTypeNames, List.mem_cons, List.mem_singleton, List.mem_nil_iff,
      or_false] at hmem
    rcases hmem with h | h | h | h | h | h | h | h | h <;>
      · rw [h] at hgo
        simp only [ObjectArticle, ObjectDocument, ObjectImage, ObjectVideo, ObjectNote,
          ObjectPage, ObjectEvent, ObjectPlace, ObjectProfile] at hgo
        simp [dereferenceStatusable, resolveStatusableAs, blockedOrErr, bind_eq, call_eq,
          pure_eq, hblock, hb, hm, hty, hgo, h,
          ObjectArticle, ObjectDocument, ObjectImage, ObjectVideo, ObjectNote, ObjectPage,
          ObjectEvent, ObjectPlace, ObjectProfile]
  · intro hmem
    simp only [objectTypeNames, List.mem_cons, List.mem_singleton, List.mem_nil_iff,
      or_false, not_or] at hmem
    obtain ⟨h1, h2, h3, h4, h5, h6, h7, h8, h9⟩ := hmem
    simp [dereferenceStatusable, blockedOrErr, bind_eq, call_eq, pure_eq, hblock, hb, hm, hty,
      h1, h2, h3, h4, h5, h6, h7, h8, h9]

theorem dereferenceAccountable_ok (env : Env) (tr : Transport) (u : URL) (pos : Nat)
    (t : Tables) (a : Accountable) (evs : List Event) (t' : Tables)
    (hrun : dereferenceAccountable env tr u pos t = .done (.ok a) evs t') :
    ∃ b m, env.dereference pos tr u = .ok b ∧ env.jsonUnmarshal b = .ok m ∧
      env.toType m = .ok a ∧ a.typeName ∈ actorTypeNames ∧ a.goType = a.typeName := by
  rcases hb : env.dereference pos tr u with err | b
  · simp [dereferenceAccountable, bind_eq, call_eq, pure_eq, hb] at hrun
  rcases hm : env.jsonUnmarshal b with err | m
  · simp [dereferenceAccountable, bind_eq, call_eq, pure_eq, hb, hm] at hrun
  rcases hty : env.toType m with err | ty
  · simp [dereferenceAccountable, bind_eq, call_eq, pure_eq, hb, hm, hty] at hrun
  obtain ⟨h1, h2, h3⟩ := dereferenceAccountable_decoded env tr u pos t b m ty hb hm hty
  by_cases hmem : ty.typeName ∈ actorTypeNames
  · by_cases hgo : ty.goType = ty.typeName
    · rw [h1 hmem hgo] at hrun
      cases hrun
      exact ⟨b, m, rfl, hm, hty, hmem, hgo⟩
    · rw [h2 hmem hgo] at hrun
      cases hrun
  · rw [h3 hmem] at hrun
    cases hrun

theorem dereferenceStatusable_ok (env : Env) (tr : Transport) (u : URL) (pos : Nat)
    (t : Tables) (a : Statusable) (evs : List Event) (t' : Tables)
    (hrun : dereferenceStatusable env tr u pos t = .done (.ok a) evs t') :
    ∃ b m, env.dbIsDomainBlocked pos u.Host = .ok false ∧
      env.dereference (pos + 1) tr u = .ok b ∧ env.jsonUnmarshal b = .ok m ∧
      env.toType m = .ok a ∧ a.typeName ∈ objectTypeNames ∧ a.goType = a.typeName := by
  rcases hblock : env.dbIsDomainBlocked pos u.Host with err | blocked
  · simp [dereferenceStatusable, blockedOrErr, bind_eq, call_eq, pure_eq, hblock] at hrun
  rcases blocked with _ | _
  swap
  · simp [dereferenceStatusable, blockedOrErr, bind_eq, call_eq, pure_eq, hblock] at hrun
  rcases hb : env.dereference (pos + 1) tr u with err | b
  · simp [dereferenceStatusable, blockedOrErr, bind_eq, call_eq, pure_eq, hblock, hb] at hrun
  rcases hm : env.jsonUnmarshal b with err | m
  · simp [dereferenceStatusable, blockedOrErr, bind_eq, call_eq, pure_eq, hblock, hb, hm]
      at hrun
  rcases hty : env.toType m with err | ty
  · simp [dereferenceStatusable, blockedOrErr, bind_eq, call_eq, pure_eq, hblock, hb, hm, hty]
      at hrun
  obtain ⟨h1, h2, h3⟩ := dereferenceStatusable_decoded env tr u pos t b m ty hblock hb hm hty
  by_cases hmem : ty.typeName ∈ objectTypeNames
  · by_cases hgo : ty.goType = ty.typeName
    · rw [h1 hmem hgo] at hrun
      cases hrun
      exact ⟨b, m, rfl, rfl, hm, hty, hmem, hgo⟩
    · rw [h2 hmem hgo] at hrun
      cases hrun
  · rw [h3 hmem] at hrun
    cases hrun

/-- A call of `fetchRemoteAccountAvatar` that registers an entry makes the two
calls to the media manager and leaves the tables as it found them. -/
theorem fetchRemoteAccountAvatar_registered (env : Env) (tsport : Transport)
    (mediaURL accountID : String) (pos : Nat) (t : Tables) (mediaURI : URL)
    (processing : ProcessingMedia) (hp : env.urlParse mediaURL = .ok mediaURI)
    (hl : t.derefAvatars.lookup mediaURL = none)
    (hpre : env.preProcessMedia pos tsport mediaURI accountID true false mediaURL =
      .ok processing) :
    ∃ r, fetchRemoteAccountAvatar env tsport mediaURL accountID pos t =
      .done r [.preProcessMedia tsport mediaURI accountID true false mediaURL,
        .loadAttachment processing] t := by
  simp only [fetchRemoteAccountAvatar, hp, bind_eq, getTables, hl, call_eq, hpre, setTables,
    List.length_nil, Nat.add_zero, List.nil_append, List.append_nil, List.length_singleton,
    filter_ne_of_lookup_none mediaURL t.derefAvatars hl, List.filter_cons, bne_self_eq_false,
    Bool.false_eq_true, if_false]
  rcases env.loadAttachment (pos + 1) processing with err | a
  · exact ⟨_, rfl⟩
  · exact ⟨_, rfl⟩

/-- The same for `fetchRemoteAccountHeader`. -/
theorem fetchRemoteAccountHeader_registered (env : Env) (tsport : Transport)
    (mediaURL accountID : String) (pos : Nat) (t : Tables) (mediaURI : URL)
    (processing : ProcessingMedia) (hp : env.urlParse mediaURL = .ok mediaURI)
    (hl : t.derefHeaders.lookup mediaURL = none)
    (hpre : env.preProcessMedia pos tsport mediaURI accountID false true mediaURL =
      .ok processing) :
    ∃ r, fetchRemoteAccountHeader env tsport mediaURL accountID pos t =
      .done r [.preProcessMedia tsport mediaURI accountID false true mediaURL,
        .loadAttachment processing] t := by
  simp only [fetchRemoteAccountHeader, hp, bind_eq, getTables, hl, call_eq, hpre, setTables,
    List.length_nil, Nat.add_zero, List.nil_append, List.append_nil, List.length_singleton,
    filter_ne_of_lookup_none mediaURL t.derefHeaders hl, List.filter_cons, bne_self_eq_false,
    Bool.false_eq_true, if_false]
  rcases env.loadAttachment (pos + 1) processing with err | a
  · exact ⟨_, rfl⟩
  · exact ⟨_, rfl⟩

/-- Every call of `fetchRemoteAccountAvatar` returns, with the tables as it
found them. -/
theorem fetchRemoteAccountAvatar_done (env : Env) (tsport : Transport)
    (mediaURL accountID : String) (pos : Nat) (t : Tables) :
    ∃ r evs, fetchRemoteAccountAvatar env tsport mediaURL accountID pos t = .done r evs t := by
  rcases hp : env.urlParse mediaURL with err | mediaURI
  · exact ⟨.error err, [], by simp [fetchRemoteAccountAvatar, hp, pure_eq]⟩
  · rcases hl : t.derefAvatars.lookup mediaURL with _ | processing
    · rcases hpre : env.preProcessMedia pos tsport mediaURI accountID true false mediaURL with
        err | processing
      · exact ⟨.error err,
          [.preProcessMedia tsport mediaURI accountID true false mediaURL], by
          simp [fetchRemoteAccountAvatar, hp, bind_eq, getTables, hl, call_eq, hpre, pure_eq]⟩
      · obtain ⟨r, h⟩ := fetchRemoteAccountAvatar_registered env tsport mediaURL accountID pos t
          mediaURI processing hp hl hpre
        exact ⟨_, _, h⟩
    · simp only [fetchRemoteAccountAvatar, hp, bind_eq, getTables, hl, call_eq,
        List.length_nil, Nat.add_zero, List.nil_append]
      rcases env.loadAttachment pos processing with err | a
      · exact ⟨_, _, rfl⟩
      · exact ⟨_, _, rfl⟩

/-- Every call of `fetchRemoteAccountHeader` returns, with the tables as it
found them. -/
theorem fetchRemoteAccountHeader_done (env : Env) (tsport : Transport)
    (mediaURL accountID : String) (pos : Nat) (t : Tables) :
    ∃ r evs, fetchRemoteAccountHeader env tsport mediaURL accountID pos t = .done r evs t := by
  rcases hp : env.urlParse mediaURL with err | mediaURI
  · exact ⟨.error err, [], by simp [fetchRemoteAccountHeader, hp, pure_eq]⟩
  · rcases hl : t.derefHeaders.lookup mediaURL with _ | processing
    · rcases hpre : env.preProcessMedia pos tsport mediaURI accountID false true mediaURL with
        err | processing
      · exact ⟨.error err,
          [.preProcessMedia tsport mediaURI accountID false true mediaURL], by
          simp [fetchRemoteAccountHeader, hp, bind_eq, getTables, hl, call_eq, hpre, pure_eq]⟩
      · obtain ⟨r, h⟩ := fetchRemoteAccountHeader_registered env tsport mediaURL accountID pos t
          mediaURI processing hp hl hpre
        exact ⟨_, _, h⟩
    · simp only [fetchRemoteAccountHeader, hp, bind_eq, getTables, hl, call_eq,
        List.length_nil, Nat.add_zero, List.nil_append]
      rcases env.loadAttachment pos processing with err | a
      · exact ⟨_, _, rfl⟩
      · exact ⟨_, _, rfl⟩

/-- The avatar step of `enrichAccount` returns, with the tables as it found
them and the Domain of the account untouched. -/
theorem enrichAccountAvatar_done (env : Env) (transport : Transport)
    (account latestAcc : Account) (pos : Nat) (t : Tables) :
    ∃ a evs, enrichAccountAvatar env transport account latestAcc pos t = .done a evs t ∧
      a.Domain = latestAcc.Domain := by
  unfold enrichAccountAvatar
  split
  · split
    · obtain ⟨r, evs, h⟩ := fetchRemoteAccountAvatar_done env transport
        latestAcc.AvatarRemoteURL latestAcc.ID pos t
      rcases r with err | id
      · exact ⟨{ latestAcc with
            AvatarMediaAttachmentID := account.AvatarMediaAttachmentID,
            AvatarRemoteURL := account.AvatarRemoteURL }, evs,
          by simp [bind_eq, h, pure_eq], rfl⟩
      · exact ⟨{ latestAcc with AvatarMediaAttachmentID := id }, evs,
          by simp [bind_eq, h, pure_eq], rfl⟩
    · exact ⟨_, [], rfl, rfl⟩
  · exact ⟨_, [], rfl, rfl⟩

/-- The header step of `enrichAccount` returns, with the tables as it found
them and the Domain of the account untouched. -/
theorem enrichAccountHeader_done (env : Env) (transport : Transport)
    (account latestAcc : Account) (pos : Nat) (t : Tables) :
    ∃ a evs, enrichAccountHeader env transport account latestAcc pos t = .done a evs t ∧
      a.Domain = latestAcc.Domain := by
  unfold enrichAccountHeader
  split
  · split
    · obtain ⟨r, evs, h⟩ := fetchRemoteAccountHeader_done env transport
        latestAcc.HeaderRemoteURL latestAcc.ID pos t
      rcases r with err | id
      · exact ⟨{ latestAcc with
            HeaderMediaAttachmentID := account.HeaderMediaAttachmentID,
            HeaderRemoteURL := account.HeaderRemoteURL }, evs,
          by simp [bind_eq, h, pure_eq], rfl⟩
      · exact ⟨{ latestAcc with HeaderMediaAttachmentID := id }, evs,
          by simp [bind_eq, h, pure_eq], rfl⟩
    · exact ⟨_, [], rfl, rfl⟩
  · exact ⟨_, [], rfl, rfl⟩

/-- The loop that loads the known emojis returns. -/
theorem loadMaybeEmojis_done (env : Env) (ids : List String) (acc : List Emoji) (pos : Nat)
    (t : Tables) : ∃ r evs, loadMaybeEmojis env ids acc pos t = .done r evs t := by
  induction ids generalizing acc pos with
  | nil => exact ⟨_, [], rfl⟩
  | cons id rest ih =>
      unfold loadMaybeEmojis
      simp only [bind_eq, call_eq]
      rcases env.dbGetEmojiByID pos id with err | e
      · exact ⟨_, _, rfl⟩
      · obtain ⟨r, evs, h⟩ := ih (acc ++ [e]) (pos + [Event.dbGetEmojiByID id].length)
        simp only [h]
        exact ⟨_, _, rfl⟩

/-- The comparison of the emojis leaves the Domain of the account untouched. -/
theorem compareEmojis_domain (targetAccount : Account) (maybeEmojis gotEmojis : List Emoji)
    (gotEmojiIDs : List String) :
    (compareEmojis targetAccount maybeEmojis gotEmojis gotEmojiIDs).1.Domain =
      targetAccount.Domain := by
  unfold compareEmojis
  simp only []
  split_ifs <;> rfl

/-- The emoji step of `enrichAccount` returns, with the tables as it found
them and the Domain of the account untouched. -/
theorem fetchRemoteAccountEmojis_done (env : Env) (targetAccount : Account)
    (requestingUsername : String) (pos : Nat) (t : Tables) :
    ∃ r evs, fetchRemoteAccountEmojis env targetAccount requestingUsername pos t =
        .done r evs t ∧ r.1.Domain = targetAccount.Domain := by
  unfold fetchRemoteAccountEmojis
  have hm : ∃ r evs, maybeEmojisOf env targetAccount pos t = .done r evs t := by
    unfold maybeEmojisOf
    split
    · exact loadMaybeEmojis_done env _ _ pos t
    · exact ⟨_, [], rfl⟩
  obtain ⟨r, evs, h⟩ := hm
  simp only [bind_eq, h]
  rcases r with err | maybeEmojis
  · exact ⟨(targetAccount, .error err), evs, by simp [pure_eq], rfl⟩
  · simp only [bind_eq, call_eq]
    rcases env.populateEmojis (pos + evs.length) maybeEmojis requestingUsername with
      err | gotEmojis
    · exact ⟨(targetAccount, .error err),
        evs ++ [.populateEmojis maybeEmojis requestingUsername], by simp [pure_eq], rfl⟩
    · exact ⟨((compareEmojis targetAccount maybeEmojis gotEmojis
            (gotEmojis.map (fun e => e.ID))).1,
          .ok (compareEmojis targetAccount maybeEmojis gotEmojis
            (gotEmojis.map (fun e => e.ID))).2),
        evs ++ [.populateEmojis maybeEmojis requestingUsername], by simp [pure_eq],
        compareEmojis_domain _ _ _ _⟩

/-- A run of a sequence from the runs of its two parts. -/
theorem bind_run {α β : Type} {m : M α} {f : α → M β} {pos : Nat} {t : Tables}
    {a : α} {e1 : List Event} {t1 : Tables} {b : β} {e2 : List Event} {t2 : Tables}
    (h1 : m pos t = .done a e1 t1) (h2 : f a (pos + e1.length) t1 = .done b e2 t2) :
    (m >>= f) pos t = .done b (e1 ++ e2) t2 := by
  rw [bind_eq, h1]
  simp only [h2]

theorem fetchRemoteAccountAvatar_noFinger (env : Env) (tsport : Transport) (a b : String) :
    Emits (fun e => e.isFinger = false) (fetchRemoteAccountAvatar env tsport a b) := by
  unfold fetchRemoteAccountAvatar
  repeat' first
    | exact emits_pure _ _
    | exact emits_getTables _
    | exact emits_setTables _ _
    | exact emits_call _ _ _ rfl
    | refine emits_bind _ _ _ ?_ (fun _ => ?_)
    | split

theorem fetchRemoteAccountHeader_noFinger (env : Env) (tsport : Transport) (a b : String) :
    Emits (fun e => e.isFinger = false) (fetchRemoteAccountHeader env tsport a b) := by
  unfold fetchRemoteAccountHeader
  repeat' first
    | exact emits_pure _ _
    | exact emits_getTables _
    | exact emits_setTables _ _
    | exact emits_call _ _ _ rfl
    | refine emits_bind _ _ _ ?_ (fun _ => ?_)
    | split

theorem loadMaybeEmojis_noFinger (env : Env) (ids : List String) (acc : List Emoji) :
    Emits (fun e => e.isFinger = false) (loadMaybeEmojis env ids acc) := by
  induction ids generalizing acc with
  | nil => exact emits_pure _ _
  | cons id rest ih =>
      unfold loadMaybeEmojis
      refine emits_bind _ _ _ (emits_call _ _ _ rfl) (fun a => ?_)
      split
      · exact emits_pure _ _
      · exact ih _

theorem fetchRemoteAccountEmojis_noFinger (env : Env) (a : Account) (u : String) :
    Emits (fun e => e.isFinger = false) (fetchRemoteAccountEmojis env a u) := by
  unfold fetchRemoteAccountEmojis maybeEmojisOf
  repeat' first
    | exact emits_pure _ _
    | exact loadMaybeEmojis_noFinger _ _ _
    | exact emits_call _ _ _ rfl
    | refine emits_bind _ _ _ ?_ (fun _ => ?_)
    | split

theorem enrichAccountAvatar_noFinger (env : Env) (transport : Transport)
    (account latestAcc : Account) :
    Emits (fun e => e.isFinger = false) (enrichAccountAvatar env transport account latestAcc) := by
  unfold enrichAccountAvatar
  repeat' first
    | exact emits_pure _ _
    | exact fetchRemoteAccountAvatar_noFinger _ _ _ _
    | refine emits_bind _ _ _ ?_ (fun _ => ?_)
    | split

theorem enrichAccountHeader_noFinger (env : Env) (transport : Transport)
    (account latestAcc : Account) :
    Emits (fun e => e.isFinger = false) (enrichAccountHeader env transport account latestAcc) := by
  unfold enrichAccountHeader
  repeat' first
    | exact emits_pure _ _
    | exact fetchRemoteAccountHeader_noFinger _ _ _ _
    | refine emits_bind _ _ _ ?_ (fun _ => ?_)
    | split

theorem enrichAccountStore_noFinger (env : Env) (account latestAcc : Account) :
    Emits (fun e => e.isFinger = false) (enrichAccountStore env account latestAcc) := by
  unfold enrichAccountStore dbUpdateAccount
  repeat' first
    | exact emits_pure _ _
    | exact emits_timeNow _ _ rfl
    | exact emits_call _ _ _ rfl
    | refine emits_bind _ _ _ ?_ (fun _ => ?_)
    | split

/-- The storing step returns; it hands to the database an account with the
Domain of the account it was given, and no other; and when the database
accepts every write it returns that account. -/
theorem enrichAccountStore_domain (env : Env) (account latestAcc : Account) (pos : Nat)
    (t : Tables) :
    ∃ r evsS, enrichAccountStore env account latestAcc pos t = .done r evsS t ∧
      (∃ a, a.Domain = latestAcc.Domain ∧
        (Event.dbPutAccount a ∈ evsS ∨ Event.dbUpdateAccount a ∈ evsS)) ∧
      (∀ a, Event.dbPutAccount a ∈ evsS ∨ Event.dbUpdateAccount a ∈ evsS →
        a.Domain = latestAcc.Domain) ∧
      ((∀ i a, env.dbPutAccount i a = none) → (∀ i a, env.dbUpdateAccount i a = none) →
        ∃ a, r = .ok a ∧ a.Domain = latestAcc.Domain) := by
  unfold enrichAccountStore
  rcases hz : account.CreatedAt.IsZero
  · simp only [Bool.false_eq_true, if_false, dbUpdateAccount, bind_eq, timeNow, call_eq, pure_eq]
    rcases hu : env.dbUpdateAccount (pos + [Event.timeNow].length)
      { latestAcc with
        UpdatedAt := Time.ofUnixNano (env.timeNow pos),
        CreatedAt := account.CreatedAt,
        Language := account.Language } with _ | err
    · refine ⟨_, _, rfl, ⟨{ latestAcc with
          UpdatedAt := Time.ofUnixNano (env.timeNow pos),
          CreatedAt := account.CreatedAt,
          Language := account.Language }, rfl, Or.inr (by simp)⟩, ?_, ?_⟩
      · intro a ha
        simp at ha
        rw [ha]
      · intro _ _
        exact ⟨_, rfl, rfl⟩
    · refine ⟨_, _, rfl, ⟨{ latestAcc with
          UpdatedAt := Time.ofUnixNano (env.timeNow pos),
          CreatedAt := account.CreatedAt,
          Language := account.Language }, rfl, Or.inr (by simp)⟩, ?_, ?_⟩
      · intro a ha
        simp at ha
        rw [ha]
      · intro _ hupd
        rw [hupd] at hu
        cases hu
  · simp only [if_true, bind_eq, call_eq, pure_eq]
    rcases hp : env.dbPutAccount pos { latestAcc with
        CreatedAt := latestAcc.FetchedAt, UpdatedAt := latestAcc.FetchedAt } with _ | err
    · refine ⟨_, _, rfl, ⟨{ latestAcc with
          CreatedAt := latestAcc.FetchedAt, UpdatedAt := latestAcc.FetchedAt }, rfl, Or.inl (by simp)⟩, ?_, ?_⟩
      · intro a ha
        simp at ha
        rw [ha]
      · intro _ _
        exact ⟨_, rfl, rfl⟩
    · simp only []
      rcases he : err.Is .ErrAlreadyExists
      · simp only [Bool.false_eq_true, if_false, pure_eq]
        refine ⟨_, _, rfl, ⟨{ latestAcc with
          CreatedAt := latestAcc.FetchedAt, UpdatedAt := latestAcc.FetchedAt }, rfl, Or.inl (by simp)⟩, ?_, ?_⟩
        · intro a ha
          simp at ha
          rw [ha]
        · intro hput _
          rw [hput] at hp
          cases hp
      · simp only [if_true, bind_eq, call_eq]
        rcases hg : env.dbGetAccountByURI (pos + [Event.dbPutAccount { latestAcc with
          CreatedAt := latestAcc.FetchedAt, UpdatedAt := latestAcc.FetchedAt }].length)
          latestAcc.URI with e2 | stored
        · simp only [pure_eq]
          refine ⟨_, _, rfl, ⟨{ latestAcc with
          CreatedAt := latestAcc.FetchedAt, UpdatedAt := latestAcc.FetchedAt }, rfl, Or.inl (by simp)⟩, ?_, ?_⟩
          · intro a ha
            simp at ha
            rw [ha]
          · intro hput _
            rw [hput] at hp
            cases hp
        · simp only [pure_eq]
          refine ⟨_, _, rfl, ⟨{ latestAcc with
          CreatedAt := latestAcc.FetchedAt, UpdatedAt := latestAcc.FetchedAt }, rfl, Or.inl (by simp)⟩, ?_, ?_⟩
          · intro a ha
            simp at ha
            rw [ha]
          · intro hput _
            rw [hput] at hp
            cases hp

/-- The part of `enrichAccount` from the dereference to the storing, once the
document is fetched and converted and the webfinger step has given
`fingered`: the run returns; after the webfinger step come the clock reading
and the avatar, header and emoji steps, none of which is a webfinger or a
write of an account, and then the storing of an account with the Domain of
`fingered`. -/
theorem enrichAccountLatest_after_finger (env : Env) (requestUser : String)
    (transport : Transport) (uri : URL) (account : Account) (pos : Nat) (t : Tables)
    (apubAcc : Accountable) (converted fingered : Account) (evsD evF : List Event)
    (tD : Tables)
    (hD : dereferenceAccountable env transport uri pos t = .done (.ok apubAcc) evsD tD)
    (hC : env.asRepresentationToAccount (pos + evsD.length) apubAcc account.Domain =
      .ok converted)
    (hF : enrichAccountFingerLatest env transport account apubAcc converted
      (pos + evsD.length + 1) tD = .done (.ok fingered) evF tD) :
    ∃ (latestAcc : Account) (evsM : List Event) (r : Res Account) (evsS : List Event),
      enrichAccountLatest env requestUser transport uri account pos t =
        .done r (evsD ++ .asRepresentationToAccount apubAcc account.Domain ::
          (evF ++ evsM ++ evsS)) tD ∧
      (∀ e ∈ evsM, e.isFinger = false ∧ e.isAccountWrite = false) ∧
      (∀ e ∈ evsS, e.isFinger = false) ∧
      latestAcc.Domain = fingered.Domain ∧
      (∃ a, a.Domain = latestAcc.Domain ∧
        (Event.dbPutAccount a ∈ evsS ∨ Event.dbUpdateAccount a ∈ evsS)) ∧
      (∀ a, Event.dbPutAccount a ∈ evsS ∨ Event.dbUpdateAccount a ∈ evsS →
        a.Domain = latestAcc.Domain) ∧
      ((∀ i a, env.dbPutAccount i a = none) → (∀ i a, env.dbUpdateAccount i a = none) →
        ∃ a, r = .ok a ∧ a.Domain = latestAcc.Domain) := by
  obtain ⟨a5, e5, h5, hd5⟩ := enrichAccountAvatar_done env transport account
    { fingered with
      ID := account.ID,
      FetchedAt := Time.ofUnixNano (env.timeNow (pos + evsD.length + 1 + evF.length)),
      AvatarMediaAttachmentID := account.AvatarMediaAttachmentID,
      HeaderMediaAttachmentID := account.HeaderMediaAttachmentID }
    (pos + evsD.length + 1 + evF.length + 1) tD
  obtain ⟨a6, e6, h6, hd6⟩ := enrichAccountHeader_done env transport account a5
    (pos + evsD.length + 1 + evF.length + 1 + e5.length) tD
  obtain ⟨a7, e7, h7, hd7⟩ := fetchRemoteAccountEmojis_done env a6 requestUser
    (pos + evsD.length + 1 + evF.length + 1 + e5.length + e6.length) tD
  obtain ⟨r, evsS, h8, hw1, hw2, hw3⟩ := enrichAccountStore_domain env account a7.1
    (pos + evsD.length + 1 + evF.length + 1 + e5.length + e6.length + e7.length) tD
  have hdom : a7.1.Domain = fingered.Domain := by
    rw [hd7, hd6, hd5]
  refine ⟨a7.1, .timeNow :: (e5 ++ e6 ++ e7), r, evsS, ?_, ?_, ?_, hdom, hw1, hw2, hw3⟩
  · have hrun : enrichAccountLatest env requestUser transport uri account pos t =
        .done r (evsD ++ ([.asRepresentationToAccount apubAcc account.Domain] ++
          (evF ++ ([.timeNow] ++ (e5 ++ (e6 ++ (e7 ++ evsS))))))) tD := by
      unfold enrichAccountLatest
      refine bind_run hD ?_
      refine bind_run (call_eq _ _ _ _) ?_
      simp only [hC]
      refine bind_run hF ?_
      refine bind_run (call_eq _ _ _ _) ?_
      refine bind_run h5 ?_
      refine bind_run h6 ?_
      refine bind_run h7 ?_
      exact h8
    rw [hrun]
    simp [List.append_assoc]
  · intro e he
    have hmem : e = .timeNow ∨ e ∈ e5 ∨ e ∈ e6 ∨ e ∈ e7 := by
      simpa [or_assoc] using he
    rcases hmem with h | h | h | h
    · subst h
      exact ⟨rfl, rfl⟩
    · exact ⟨emits_done (enrichAccountAvatar_noFinger _ _ _ _) h5 e h,
        isAccountWrite_of_enrichStep e
          (emits_done (enrichAccountAvatar_enrichStep _ _ _ _) h5 e h)⟩
    · exact ⟨emits_done (enrichAccountHeader_noFinger _ _ _ _) h6 e h,
        isAccountWrite_of_enrichStep e
          (emits_done (enrichAccountHeader_enrichStep _ _ _ _) h6 e h)⟩
    · exact ⟨emits_done (fetchRemoteAccountEmojis_noFinger _ _ _) h7 e h,
        isAccountWrite_of_enrichStep e
          (emits_done (fetchRemoteAccountEmojis_enrichStep _ _ _) h7 e h)⟩
  · exact emits_done (enrichAccountStore_noFinger _ _ _) h8

/-- The creation of a mention, when the ID is generated and the insert is
accepted. -/
theorem populateStatusMentionNew_ok (env : Env) (status : Status) (m : Mention)
    (targetAccount : Account) (acc : List String × List Mention) (pos : Nat) (t : Tables)
    (hulid : ∀ i, ∃ id, env.newRandomULID i = .ok id)
    (hput : ∀ i m, env.dbPutMention i m = none) :
    ∃ mID evs, populateStatusMentionNew env status m targetAccount acc pos t =
      .done (.ok (acc.1 ++ [(newMentionFor status m targetAccount mID).ID],
        acc.2 ++ [newMentionFor status m targetAccount mID])) evs t := by
  obtain ⟨mID, hid⟩ := hulid pos
  refine ⟨mID, [.newRandomULID, .dbPutMention (newMentionFor status m targetAccount mID)], ?_⟩
  simp [populateStatusMentionNew, bind_eq, call_eq, hid, hput, pure_eq, newMentionFor]

/-- One round of the loop of `populateStatusMentions`, when IDs are generated
and inserts accepted: a mention that is not attachable is skipped, an
attachable one adds one mention. -/
theorem populateStatusMention_ok (env : Env) (getAccountByURI : GetAccountFn)
    (status : Status) (requestingUsername : String) (m : Mention)
    (acc : List String × List Mention) (pos : Nat) (t : Tables)
    (stored : String → Res Account) (remote : URL → Res Account)
    (hstored : ∀ i u, env.dbGetAccountByURI i u = stored u)
    (hremote : ∀ u, env.urlParse m.TargetAccountURI = .ok u →
      (∃ e, stored u.raw = .error e) → ∀ p tb, ∃ evs tb',
        getAccountByURI requestingUsername u false p tb = .done (remote u) evs tb')
    (hulid : ∀ i, ∃ id, env.newRandomULID i = .ok id)
    (hput : ∀ i m, env.dbPutMention i m = none) :
    ∃ evs t',
      (isAttachable env stored remote m = false ∧
        populateStatusMention env getAccountByURI status requestingUsername m acc pos t =
          .done (.ok acc) evs t') ∨
      (isAttachable env stored remote m = true ∧
        ∃ new, Attached env stored remote status m new ∧
          populateStatusMention env getAccountByURI status requestingUsername m acc pos t =
            .done (.ok (acc.1 ++ [new.ID], acc.2 ++ [new])) evs t') := by
  unfold populateStatusMention
  rcases hid : (m.ID != "") with _ | _
  swap
  · refine ⟨[], t, Or.inr ⟨by simp [isAttachable, hid], m, Or.inl ⟨by simpa using hid, rfl⟩, ?_⟩⟩
    simp [pure_eq]
  have hid2 : m.ID = "" := by simpa using hid
  simp only [Bool.false_eq_true, if_false]
  rcases ht : (m.TargetAccountURI == "") with _ | _
  swap
  · refine ⟨[], t, Or.inl ⟨by simp [isAttachable, hid, resolveTarget, ht], ?_⟩⟩
    simp [pure_eq]
  simp only [Bool.false_eq_true, if_false]
  rcases hp : env.urlParse m.TargetAccountURI with err | u
  · refine ⟨[], t, Or.inl ⟨by simp [isAttachable, hid, resolveTarget, ht, hp], ?_⟩⟩
    simp [pure_eq]
  simp only [bind_eq, call_eq, hstored]
  rcases hs : stored u.raw with err | a
  · obtain ⟨evs, tb', hr⟩ := hremote u hp ⟨err, hs⟩
      (pos + [Event.dbGetAccountByURI u.raw].length) t
    rcases hrem : remote u with err2 | a
    · rw [hrem] at hr
      refine ⟨[.dbGetAccountByURI u.raw] ++ (evs ++ []), tb',
        Or.inl ⟨by simp [isAttachable, hid, resolveTarget, ht, hp, hs, hrem], ?_⟩⟩
      simp only [bind_eq, hr, pure_eq]
    · rw [hrem] at hr
      obtain ⟨mID, evs2, hnew⟩ := populateStatusMentionNew_ok env status m a acc
        (pos + [Event.dbGetAccountByURI u.raw].length + evs.length) tb' hulid hput
      refine ⟨[.dbGetAccountByURI u.raw] ++ (evs ++ evs2), tb',
        Or.inr ⟨by simp [isAttachable, resolveTarget, ht, hp, hs, hrem],
          newMentionFor status m a mID,
          Or.inr ⟨hid2, a, mID, by simp [resolveTarget, ht, hp, hs, hrem], rfl⟩, ?_⟩⟩
      simp only [bind_eq, hr, hnew]
  · obtain ⟨mID, evs2, hnew⟩ := populateStatusMentionNew_ok env status m a acc
      (pos + [Event.dbGetAccountByURI u.raw].length) t hulid hput
    refine ⟨[.dbGetAccountByURI u.raw] ++ evs2, t,
      Or.inr ⟨by simp [isAttachable, resolveTarget, ht, hp, hs],
        newMentionFor status m a mID,
        Or.inr ⟨hid2, a, mID, by simp [resolveTarget, ht, hp, hs], rfl⟩, ?_⟩⟩
    simp only [hnew]

/-- The loop of `populateStatusMentions`, when IDs are generated and inserts
accepted: it returns no error and adds, in order, one mention for each
attachable mention of the list. -/
theorem populateStatusMentionsLoop_ok (env : Env) (getAccountByURI : GetAccountFn)
    (status : Status) (requestingUsername : String) (mentions : List Mention)
    (stored : String → Res Account) (remote : URL → Res Account)
    (hstored : ∀ i u, env.dbGetAccountByURI i u = stored u)
    (hremote : ∀ m ∈ mentions, ∀ u, env.urlParse m.TargetAccountURI = .ok u →
      (∃ e, stored u.raw = .error e) → ∀ p tb, ∃ evs tb',
        getAccountByURI requestingUsername u false p tb = .done (remote u) evs tb')
    (hulid : ∀ i, ∃ id, env.newRandomULID i = .ok id)
    (hput : ∀ i m, env.dbPutMention i m = none)
    (acc : List String × List Mention) (pos : Nat) (t : Tables) :
    ∃ new evs t',
      populateStatusMentionsLoop env getAccountByURI status requestingUsername mentions acc
          pos t =
        .done (.ok (acc.1 ++ new.map (fun m => m.ID), acc.2 ++ new)) evs t' ∧
      List.Forall₂ (Attached env stored remote status)
        (mentions.filter (isAttachable env stored remote)) new := by
  induction mentions generalizing acc pos t with
  | nil => exact ⟨[], [], t, by simp [populateStatusMentionsLoop, pure_eq], by simp⟩
  | cons m rest ih =>
      have ih2 := ih (fun m2 hm2 => hremote m2 (List.mem_cons_of_mem _ hm2))
      obtain ⟨evs1, t1, h1⟩ := populateStatusMention_ok env getAccountByURI status
        requestingUsername m acc pos t stored remote hstored
        (hremote m (List.mem_cons_self _ _)) hulid hput
      unfold populateStatusMentionsLoop
      rcases h1 with ⟨hno, hrun⟩ | ⟨hyes, new1, hatt, hrun⟩
      · obtain ⟨new, evs2, t2, hrest, hall⟩ := ih2 acc (pos + evs1.length) t1
        refine ⟨new, evs1 ++ evs2, t2, ?_, ?_⟩
        · simp only [bind_eq, hrun, hrest]
        · simp only [List.filter_cons, hno, Bool.false_eq_true, if_false]
          exact hall
      · obtain ⟨new, evs2, t2, hrest, hall⟩ := ih2 (acc.1 ++ [new1.ID], acc.2 ++ [new1])
          (pos + evs1.length) t1
        refine ⟨new1 :: new, evs1 ++ evs2, t2, ?_, ?_⟩
        · simp only [bind_eq, hrun, hrest]
          simp [List.append_assoc]
        · simp only [List.filter_cons, hyes, if_true]
          exact List.Forall₂.cons hatt hall

/-- The creation of a mention fails only with one of its two errors. -/
theorem populateStatusMentionNew_error (env : Env) (status : Status) (m : Mention)
    (targetAccount : Account) (acc : List String × List Mention) (pos : Nat) (t : Tables)
    (err : Err) (evs : List Event) (t' : Tables)
    (hrun : populateStatusMentionNew env status m targetAccount acc pos t =
      .done (.error err) evs t') :
    err = .errorf "populateStatusMentions: error generating ulid" ∨
      err = .errorf "populateStatusMentions: error creating mention" := by
  unfold populateStatusMentionNew at hrun
  obtain ⟨a1, e1, t1, e2, -, h2, rfl⟩ := bind_done hrun
  rcases a1 with e | mID
  · obtain ⟨h, -, -⟩ := pure_done h2
    cases h
    exact Or.inl rfl
  · obtain ⟨a3, e3, t3, e4, -, h4, rfl⟩ := bind_done h2
    rcases a3 with _ | e5
    · obtain ⟨h, -, -⟩ := pure_done h4
      cases h
    · obtain ⟨h, -, -⟩ := pure_done h4
      cases h
      exact Or.inr rfl

/-- One round of the loop fails only with one of the two errors of the
creation of a mention. -/
theorem populateStatusMention_error (env : Env) (getAccountByURI : GetAccountFn)
    (status : Status) (requestingUsername : String) (m : Mention)
    (acc : List String × List Mention) (pos : Nat) (t : Tables)
    (err : Err) (evs : List Event) (t' : Tables)
    (hrun : populateStatusMention env getAccountByURI status requestingUsername m acc pos t =
      .done (.error err) evs t') :
    err = .errorf "populateStatusMentions: error generating ulid" ∨
      err = .errorf "populateStatusMentions: error creating mention" := by
  unfold populateStatusMention at hrun
  rcases hid : (m.ID != "") with _ | _
  swap
  · simp only [hid, if_true] at hrun
    obtain ⟨h, -, -⟩ := pure_done hrun
    cases h
  simp only [hid, Bool.false_eq_true, if_false] at hrun
  rcases ht : (m.TargetAccountURI == "") with _ | _
  swap
  · simp only [ht, if_true] at hrun
    obtain ⟨h, -, -⟩ := pure_done hrun
    cases h
  simp only [ht, Bool.false_eq_true, if_false] at hrun
  rcases hp : env.urlParse m.TargetAccountURI with e | u
  · simp only [hp] at hrun
    obtain ⟨h, -, -⟩ := pure_done hrun
    cases h
  simp only [hp] at hrun
  obtain ⟨a1, e1, t1, e2, hc, h2, rfl⟩ := bind_done hrun
  rcases a1 with e | a
  · obtain ⟨a3, e3, t3, e4, -, h4, rfl⟩ := bind_done h2
    rcases a3 with e5 | a5
    · obtain ⟨h, -, -⟩ := pure_done h4
      cases h
    · exact populateStatusMentionNew_error _ _ _ _ _ _ _ _ _ _ h4
  · exact populateStatusMentionNew_error _ _ _ _ _ _ _ _ _ _ h2

/-- The loop fails only with one of the two errors of the creation of a
mention. -/
theorem populateStatusMentionsLoop_error (env : Env) (getAccountByURI : GetAccountFn)
    (status : Status) (requestingUsername : String) (mentions : List Mention)
    (acc : List String × List Mention) (pos : Nat) (t : Tables)
    (err : Err) (evs : List Event) (t' : Tables)
    (hrun : populateStatusMentionsLoop env getAccountByURI status requestingUsername mentions
      acc pos t = .done (.error err) evs t') :
    err = .errorf "populateStatusMentions: error generating ulid" ∨
      err = .errorf "populateStatusMentions: error creating mention" := by
  induction mentions generalizing acc pos t evs with
  | nil =>
      obtain ⟨h, -, -⟩ := pure_done hrun
      cases h
  | cons m rest ih =>
      unfold populateStatusMentionsLoop at hrun
      obtain ⟨a1, e1, t1, e2, h1, h2, rfl⟩ := bind_done hrun
      rcases a1 with e | acc2
      · obtain ⟨h, -, -⟩ := pure_done h2
        cases h
        exact populateStatusMention_error _ _ _ _ _ _ _ _ _ _ _ h1
      · exact ih _ _ _ _ h2

/-! ### The endless chain of resolutions -/

theorem bind_outOfFuel_left {α β : Type} {m : M α} {f : α → M β} {pos : Nat} {t : Tables}
    (h : m pos t = .outOfFuel) : (m >>= f) pos t = .outOfFuel := by
  rw [bind_eq, h]

theorem bind_outOfFuel_right {α β : Type} {m : M α} {f : α → M β} {pos : Nat} {t : Tables}
    {a : α} {e1 : List Event} {t1 : Tables}
    (h1 : m pos t = .done a e1 t1) (h2 : f a (pos + e1.length) t1 = .outOfFuel) :
    (m >>= f) pos t = .outOfFuel := by
  rw [bind_eq, h1]
  simp only [h2]

theorem hasPrefix_append (pre x : String) : hasPrefix (pre ++ x) pre = true := by
  simp [hasPrefix, String.data_append]

theorem users_not_statuses (x : String) :
    hasPrefix ("https://evil.example/users/" ++ x) "https://evil.example/statuses/" = false := by
  simp [hasPrefix, String.data_append, List.isPrefixOf]

theorem users_not_featured (x : String) :
    hasPrefix ("https://evil.example/users/" ++ x) "https://evil.example/featured/" = false := by
  simp [hasPrefix, String.data_append, List.isPrefixOf]

theorem featured_not_statuses (x : String) :
    hasPrefix ("https://evil.example/featured/" ++ x) "https://evil.example/statuses/" = false := by
  simp [hasPrefix, String.data_append, List.isPrefixOf]

theorem featured_on_evil (x : String) :
    hasPrefix ("https://evil.example/featured/" ++ x) "https://evil.example/" = true := by
  simp [hasPrefix, String.data_append, List.isPrefixOf]

theorem featured_ne_empty (x : String) : "https://evil.example/featured/" ++ x ≠ "" := by
  intro h
  have h2 := congrArg String.length h
  simp only [String.length_append] at h2
  have h3 : "https://evil.example/featured/".length = 30 := by decide
  have h4 : "".length = 0 := by decide
  omega

theorem evilToType_note (i : Nat) :
    evilToType ⟨3 * i⟩ =
      .ok { typeName := ObjectNote, goType := ObjectNote, id := some (evilStatusURI i) } := by
  have h1 : 3 * i % 3 = 0 := by omega
  have h2 : 3 * i / 3 = i := by omega
  simp [evilToType, h1, h2]

theorem evilToType_collection (i : Nat) :
    evilToType ⟨3 * i + 1⟩ =
      .ok { typeName := ObjectOrderedCollection, goType := ObjectOrderedCollection,
            orderedItems := some [.other (some (evilStatusURI i))] } := by
  have h1 : (3 * i + 1) % 3 = 1 := by omega
  have h2 : (3 * i + 1) / 3 = i := by omega
  simp [evilToType, h1, h2]

theorem evilToType_person (i : Nat) :
    evilToType ⟨3 * i + 2⟩ =
      .ok { typeName := ActorPerson, goType := ActorPerson, id := some (evilActorURI i) } := by
  have h1 : (3 * i + 2) % 3 = 2 := by omega
  have h2 : (3 * i + 2) / 3 = i := by omega
  simp [evilToType, h1, h2]

/-- Against the endless server, the resolution of a post goes on to the
resolution of its author. -/
theorem GetStatusBody_endless (getAccountByURI : GetAccountFn) (getStatus : GetStatusFn)
    (username : String) (n : Nat) (refetch includeParent : Bool) (pos : Nat) (t : Tables)
    (hA : ∀ x block p tb, getAccountByURI username
      ⟨"evil.example", "https://evil.example/users/" ++ x⟩ block p tb = .outOfFuel) :
    GetStatusBody endlessEnv getAccountByURI getStatus username (evilStatusURI n) refetch
      includeParent pos t = .outOfFuel := by
  have hd : dereferenceStatusable endlessEnv ⟨0⟩ (evilStatusURI n) (pos + 3) t =
      .done (.ok { typeName := ObjectNote, goType := ObjectNote,
                   id := some (evilStatusURI (pos + 4)) })
        [.dbIsDomainBlocked "evil.example", .dereference ⟨0⟩ (evilStatusURI n)] t := by
    simp [dereferenceStatusable, bind_eq, call_eq, pure_eq, blockedOrErr, endlessEnv, emptyEnv,
      evilStatusURI, hasPrefix_append, evilToType_note, resolveStatusableAs, ObjectNote,
      ObjectArticle, ObjectDocument, ObjectImage, ObjectVideo]
  unfold GetStatusBody
  refine bind_outOfFuel_right (call_eq _ _ _ _) ?_
  have h1 : endlessEnv.dbGetStatusByURI pos (evilStatusURI n).raw = .error .ErrNoEntries := rfl
  simp only [h1]
  have h2 : (!(Err.ErrNoEntries).Is .ErrNoEntries) = false := rfl
  simp only [h2, Bool.false_eq_true, if_false]
  refine bind_outOfFuel_right (call_eq _ _ _ _) ?_
  have h3 : endlessEnv.dbGetStatusByURL (pos + [Event.dbGetStatusByURI (evilStatusURI n).raw].length)
      (evilStatusURI n).raw = .error .ErrNoEntries := rfl
  simp only [h3, h2, Bool.false_eq_true, if_false]
  unfold GetStatusFetch
  have h4 : ((evilStatusURI n).Host == endlessEnv.cfg.Host ||
      (evilStatusURI n).Host == endlessEnv.cfg.AccountDomain) = false := rfl
  simp only [h4, Bool.false_eq_true, if_false]
  refine bind_outOfFuel_right (call_eq _ _ _ _) ?_
  have h5 : ∀ i, endlessEnv.newTransportForUsername i username = .ok ⟨0⟩ := fun _ => rfl
  simp only [h5]
  refine bind_outOfFuel_right hd ?_
  simp only []
  unfold GetStatusNew
  have h6 : endlessEnv.extractAttributedTo
      { typeName := ObjectNote, goType := ObjectNote, id := some (evilStatusURI (pos + 4)) } =
      .ok ⟨"evil.example", "https://evil.example/users/" ++ (evilStatusURI (pos + 4)).raw.drop 30⟩ :=
    rfl
  simp only [h6]
  exact bind_outOfFuel_left (hA _ _ _ _)

theorem enrichAccountFetch_endless (getStatus : GetStatusFn) (username x newID : String)
    (pos : Nat) (t : Tables)
    (hS : ∀ (n : Nat) p tb, getStatus username
      ⟨"evil.example", "https://evil.example/statuses/" ++ toString n⟩ false false p tb =
        .outOfFuel) :
    enrichAccountFetch endlessEnv getStatus username
      (some ⟨"evil.example", "https://evil.example/users/" ++ x⟩)
      { ID := newID, Domain := "evil.example", URI := "https://evil.example/users/" ++ x }
      pos t = .outOfFuel := by
  simp [enrichAccountFetch, enrichAccountFinger, enrichAccountURI, enrichAccountDeref,
    enrichAccountLatest, dereferenceAccountable, enrichAccountFingerLatest, enrichAccountAvatar,
    enrichAccountHeader, fetchRemoteAccountEmojis, maybeEmojisOf, compareEmojis,
    enrichAccountStore, fetchRemoteAccountFeatured, featuredReconcile, featuredPinLoop,
    featuredPinItem, featuredStatusURI, timeNow,
    bind_eq, call_eq, pure_eq, deferOnPanic_eq, endlessEnv, emptyEnv, users_not_statuses,
    users_not_featured,
    featured_not_statuses, featured_on_evil, hasPrefix_append,
    evilToType_person, evilToType_collection, evilStatusURI, evilActorURI, hS,
    Time.zero_isZero, featured_ne_empty,
    ActorPerson, ActorApplication, ActorGroup, ActorOrganization, ActorService,
    ObjectOrderedCollection]

/-- Against the endless server, the resolution of an actor goes on to the
resolution of the post in its featured collection. -/
theorem GetAccountByURIBody_endless (getStatus : GetStatusFn) (username x : String)
    (block : Bool) (pos : Nat) (t : Tables)
    (hS : ∀ (n : Nat) p tb, getStatus username
      ⟨"evil.example", "https://evil.example/statuses/" ++ toString n⟩ false false p tb =
        .outOfFuel) :
    GetAccountByURIBody endlessEnv getStatus username
      ⟨"evil.example", "https://evil.example/users/" ++ x⟩ block pos t = .outOfFuel := by
  rw [GetAccountByURIBody_not_found endlessEnv getStatus username
    ⟨"evil.example", "https://evil.example/users/" ++ x⟩ block pos t .ErrNoEntries .ErrNoEntries
    (show "evil.example" ≠ "" by decide) (show "evil.example" ≠ "local.example" by decide)
    (show "evil.example" ≠ "local.example" by decide) rfl rfl rfl rfl]
  simp only [bind_eq, call_eq, timeNow,
    enrichAccountFetch_endless getStatus username x _ _ _ hS]

/-- Against the endless server, neither entry point returns, whatever the depth
of nesting allowed. -/
theorem endless_outOfFuel (depth : Nat) :
    (∀ username (n : Nat) pos t,
      GetStatus endlessEnv depth username (evilStatusURI n) false false pos t = .outOfFuel) ∧
    (∀ username x block pos t,
      GetAccountByURI endlessEnv depth username
        ⟨"evil.example", "https://evil.example/users/" ++ x⟩ block pos t = .outOfFuel) := by
  induction depth with
  | zero => exact ⟨fun _ _ _ _ => rfl, fun _ _ _ _ _ => rfl⟩
  | succ d ih =>
      refine ⟨fun username n pos t => ?_, fun username x block pos t => ?_⟩
      · rw [GetStatus_succ]
        exact GetStatusBody_endless _ _ username n false false pos t
          (fun x block p tb => ih.2 username x block p tb)
      · rw [GetAccountByURI_succ]
        exact GetAccountByURIBody_endless _ username x block pos t
          (fun n p tb => ih.1 username n p tb)

/-! ### Computations that are not cut off -/

theorem returns_pure {α : Type} (a : α) : Returns (pure a : M α) := by
  intro pos t h
  cases h

theorem returns_call {α : Type} (ev : Event) (answer : Nat → α) : Returns (call ev answer) := by
  intro pos t h
  cases h

theorem returns_timeNow (env : Env) : Returns (timeNow env) :=
  returns_call _ _

theorem returns_goPanic {α : Type} : Returns (goPanic : M α) := by
  intro pos t h
  cases h

theorem returns_getTables : Returns getTables := by
  intro pos t h
  cases h

theorem returns_setTables (t : Tables) : Returns (setTables t) := by
  intro pos t0 h
  cases h

theorem returns_deferOnPanic {α : Type} (ev : Event) (m : M α) (h : Returns m) :
    Returns (deferOnPanic ev m) := by
  intro pos t hcut
  rw [deferOnPanic_eq] at hcut
  rcases hm : m pos t with ⟨a1, e1, t1⟩ | ⟨e1, t1⟩ | _
  · simp [hm] at hcut
  · simp [hm] at hcut
  · exact h pos t hm

theorem returns_bind {α β : Type} (m : M α) (f : α → M β) (h1 : Returns m)
    (h2 : ∀ a, Returns (f a)) : Returns (m >>= f) := by
  intro pos t h
  rw [bind_eq] at h
  rcases hm : m pos t with ⟨a, e1, t1⟩ | ⟨e1, t1⟩ | _
  · simp only [hm] at h
    rcases hf : f a (pos + e1.length) t1 with ⟨b, e2, t2⟩ | ⟨e2, t2⟩ | _
    · simp [hf] at h
    · simp [hf] at h
    · exact h2 a _ _ hf
  · simp [hm] at h
  · exact h1 _ _ hm

theorem dereferenceAccountable_returns (env : Env) (transport : Transport) (u : URL) :
    Returns (dereferenceAccountable env transport u) := by
  unfold dereferenceAccountable
  repeat' first
    | exact returns_pure _
    | exact returns_goPanic
    | exact returns_call _ _
    | refine returns_bind _ _ ?_ (fun _ => ?_)
    | split

theorem fetchRemoteAccountAvatar_returns (env : Env) (tsport : Transport) (a b : String) :
    Returns (fetchRemoteAccountAvatar env tsport a b) := by
  unfold fetchRemoteAccountAvatar
  repeat' first
    | exact returns_pure _
    | exact returns_getTables
    | exact returns_setTables _
    | exact returns_call _ _
    | refine returns_bind _ _ ?_ (fun _ => ?_)
    | split

theorem fetchRemoteAccountHeader_returns (env : Env) (tsport : Transport) (a b : String) :
    Returns (fetchRemoteAccountHeader env tsport a b) := by
  unfold fetchRemoteAccountHeader
  repeat' first
    | exact returns_pure _
    | exact returns_getTables
    | exact returns_setTables _
    | exact returns_call _ _
    | refine returns_bind _ _ ?_ (fun _ => ?_)
    | split

theorem loadMaybeEmojis_returns (env : Env) (ids : List String) (acc : List Emoji) :
    Returns (loadMaybeEmojis env ids acc) := by
  induction ids generalizing acc with
  | nil => exact returns_pure _
  | cons id rest ih =>
      unfold loadMaybeEmojis
      repeat' first
        | exact returns_pure _
        | exact ih _
        | exact returns_call _ _
        | refine returns_bind _ _ ?_ (fun _ => ?_)
        | split

theorem fetchRemoteAccountEmojis_returns (env : Env) (a : Account) (u : String) :
    Returns (fetchRemoteAccountEmojis env a u) := by
  unfold fetchRemoteAccountEmojis maybeEmojisOf
  repeat' first
    | exact returns_pure _
    | exact loadMaybeEmojis_returns _ _ _
    | exact returns_call _ _
    | refine returns_bind _ _ ?_ (fun _ => ?_)
    | split

theorem featuredPinItem_returns (env : Env) (getStatus : GetStatusFn) (ru : String)
    (uri : URL) (accountID : String) (item : Item) (statusURIs : List URL)
    (hS : ∀ u x, Returns (getStatus u x false false)) :
    Returns (featuredPinItem env getStatus ru uri accountID item statusURIs) := by
  unfold featuredPinItem
  repeat' first
    | exact returns_pure _
    | exact hS _ _
    | exact returns_timeNow _
    | exact returns_call _ _
    | refine returns_bind _ _ ?_ (fun _ => ?_)
    | split

theorem featuredPinLoop_returns (env : Env) (getStatus : GetStatusFn) (ru : String)
    (uri : URL) (accountID : String) (items : List Item) (statusURIs : List URL)
    (hS : ∀ u x, Returns (getStatus u x false false)) :
    Returns (featuredPinLoop env getStatus ru uri accountID items statusURIs) := by
  induction items generalizing statusURIs with
  | nil => exact returns_pure _
  | cons item rest ih =>
      unfold featuredPinLoop
      exact returns_bind _ _ (featuredPinItem_returns env getStatus ru uri accountID item _ hS)
        (fun _ => ih _)

theorem featuredUnpinLoop_returns (env : Env) (statusURIs : List URL) (l : List Status) :
    Returns (featuredUnpinLoop env statusURIs l) := by
  induction l with
  | nil => exact returns_pure _
  | cons status rest ih =>
      unfold featuredUnpinLoop
      repeat' first
        | exact returns_pure _
        | exact ih
        | exact returns_call _ _
        | refine returns_bind _ _ ?_ (fun _ => ?_)
        | split

theorem fetchRemoteAccountFeatured_returns (env : Env) (getStatus : GetStatusFn)
    (ru featuredCollectionURI accountID : String)
    (hS : ∀ u x, Returns (getStatus u x false false)) :
    Returns (fetchRemoteAccountFeatured env getStatus ru featuredCollectionURI accountID) := by
  unfold fetchRemoteAccountFeatured featuredReconcile
  repeat' first
    | exact returns_pure _
    | exact featuredPinLoop_returns _ _ _ _ _ _ _ hS
    | exact featuredUnpinLoop_returns _ _ _
    | exact returns_call _ _
    | refine returns_bind _ _ ?_ (fun _ => ?_)
    | split

theorem enrichAccountLatest_returns (env : Env) (requestUser : String) (transport : Transport)
    (uri : URL) (account : Account) :
    Returns (enrichAccountLatest env requestUser transport uri account) := by
  unfold enrichAccountLatest enrichAccountFingerLatest enrichAccountAvatar enrichAccountHeader
    enrichAccountStore dbUpdateAccount
  repeat' first
    | exact returns_pure _
    | exact dereferenceAccountable_returns _ _ _
    | exact fetchRemoteAccountAvatar_returns _ _ _ _
    | exact fetchRemoteAccountHeader_returns _ _ _ _
    | exact fetchRemoteAccountEmojis_returns _ _ _
    | exact returns_timeNow _
    | exact returns_call _ _
    | refine returns_bind _ _ ?_ (fun _ => ?_)
    | split

theorem enrichAccount_returns (env : Env) (getStatus : GetStatusFn) (requestUser : String)
    (uri : Option URL) (account : Account) (force block : Bool)
    (hS : ∀ u x, Returns (getStatus u x false false)) :
    Returns (enrichAccount env getStatus requestUser uri account force block) := by
  unfold enrichAccount enrichAccountFetch enrichAccountDeref enrichAccountFinger
  repeat' first
    | exact returns_pure _
    | exact enrichAccountLatest_returns _ _ _ _ _
    | exact fetchRemoteAccountFeatured_returns _ _ _ _ _ hS
    | exact returns_timeNow _
    | exact returns_call _ _
    | refine returns_deferOnPanic _ _ ?_
    | refine returns_bind _ _ ?_ (fun _ => ?_)
    | split

/-- One level of `GetAccountByURI` does a bounded amount of work of its own:
it ends whenever the nested resolutions of posts end. -/
theorem GetAccountByURIBody_returns (env : Env) (getStatus : GetStatusFn)
    (requestUser : String) (uri : URL) (block : Bool)
    (hS : ∀ u x, Returns (getStatus u x false false)) :
    Returns (GetAccountByURIBody env getStatus requestUser uri block) := by
  unfold GetAccountByURIBody GetAccountByURIFound GetAccountByURINew
  repeat' first
    | exact returns_pure _
    | exact enrichAccount_returns _ _ _ _ _ _ _ hS
    | exact returns_call _ _
    | refine returns_bind _ _ ?_ (fun _ => ?_)
    | split

theorem dereferenceStatusable_returns (env : Env) (tsport : Transport) (u : URL) :
    Returns (dereferenceStatusable env tsport u) := by
  unfold dereferenceStatusable
  repeat' first
    | exact returns_pure _
    | exact returns_call _ _
    | refine returns_bind _ _ ?_ (fun _ => ?_)
    | split

theorem populateStatusAttachmentsLoop_returns (env : Env) (status : Status) (ru : String)
    (l : List MediaAttachment) (acc : List String × List MediaAttachment) :
    Returns (populateStatusAttachmentsLoop env status ru l acc) := by
  induction l generalizing acc with
  | nil => exact returns_pure _
  | cons a rest ih =>
      unfold populateStatusAttachmentsLoop populateStatusAttachment
      repeat' first
        | exact returns_pure _
        | exact ih _
        | exact returns_call _ _
        | refine returns_bind _ _ ?_ (fun _ => ?_)
        | split

theorem populateStatusMention_returns (env : Env) (getAccountByURI : GetAccountFn)
    (status : Status) (ru : String) (m : Mention) (acc : List String × List Mention)
    (hA : ∀ u x b, Returns (getAccountByURI u x b)) :
    Returns (populateStatusMention env getAccountByURI status ru m acc) := by
  unfold populateStatusMention populateStatusMentionNew
  repeat' first
    | exact returns_pure _
    | exact hA _ _ _
    | exact returns_call _ _
    | refine returns_bind _ _ ?_ (fun _ => ?_)
    | split

theorem populateStatusMentionsLoop_returns (env : Env) (getAccountByURI : GetAccountFn)
    (status : Status) (ru : String) (l : List Mention) (acc : List String × List Mention)
    (hA : ∀ u x b, Returns (getAccountByURI u x b)) :
    Returns (populateStatusMentionsLoop env getAccountByURI status ru l acc) := by
  induction l generalizing acc with
  | nil => exact returns_pure _
  | cons m rest ih =>
      unfold populateStatusMentionsLoop
      repeat' first
        | exact returns_pure _
        | exact ih _
        | exact populateStatusMention_returns _ _ _ _ _ _ hA
        | refine returns_bind _ _ ?_ (fun _ => ?_)
        | split

theorem populateStatusRepliedTo_returns (env : Env) (getStatus : GetStatusFn) (status : Status)
    (ru : String) (hS : ∀ u x, Returns (getStatus u x false false)) :
    Returns (populateStatusRepliedTo env getStatus status ru) := by
  unfold populateStatusRepliedTo
  repeat' first
    | exact returns_pure _
    | exact hS _ _
    | refine returns_bind _ _ ?_ (fun _ => ?_)
    | split

theorem populateStatusFields_returns (env : Env) (getAccountByURI : GetAccountFn)
    (getStatus : GetStatusFn) (status : Status) (ru : String) (includeParent : Bool)
    (hA : ∀ u x b, Returns (getAccountByURI u x b))
    (hS : ∀ u x, Returns (getStatus u x false false)) :
    Returns (populateStatusFields env getAccountByURI getStatus status ru includeParent) := by
  unfold populateStatusFields populateStatusID populateStatusAttachments populateStatusEmojis
    populateStatusMentions
  repeat' first
    | exact returns_pure _
    | exact populateStatusAttachmentsLoop_returns _ _ _ _ _
    | exact populateStatusMentionsLoop_returns _ _ _ _ _ _ hA
    | exact populateStatusRepliedTo_returns _ _ _ _ hS
    | exact returns_call _ _
    | refine returns_bind _ _ ?_ (fun _ => ?_)
    | split

/-- One level of `GetStatus` does a bounded amount of work of its own: it
ends whenever the nested resolutions of actors and of the parent end. -/
theorem GetStatusBody_returns (env : Env) (getAccountByURI : GetAccountFn)
    (getStatus : GetStatusFn) (username : String) (statusURI : URL)
    (refetch includeParent : Bool)
    (hA : ∀ u x b, Returns (getAccountByURI u x b))
    (hS : ∀ u x, Returns (getStatus u x false false)) :
    Returns (GetStatusBody env getAccountByURI getStatus username statusURI refetch
      includeParent) := by
  unfold GetStatusBody GetStatusFetch GetStatusNew GetStatusStore
  repeat' first
    | exact returns_pure _
    | exact dereferenceStatusable_returns _ _ _
    | exact populateStatusFields_returns _ _ _ _ _ _ hA hS
    | exact hA _ _ _
    | exact returns_call _ _
    | refine returns_bind _ _ ?_ (fun _ => ?_)
    | split

/-- The featured collection is reconciled with posts resolved without refetch
and without their parent. -/
theorem featuredPinLoop_plain (env : Env) (getStatus : GetStatusFn) (ru : String)
    (uri : URL) (accountID : String) (items : List Item) (statusURIs : List URL) :
    featuredPinLoop env getStatus ru uri accountID items statusURIs =
      featuredPinLoop env (fun u x _ _ => getStatus u x false false) ru uri accountID items
        statusURIs := by
  induction items generalizing statusURIs with
  | nil => rfl
  | cons item rest ih =>
      unfold featuredPinLoop
      have h : featuredPinItem env getStatus ru uri accountID item statusURIs =
          featuredPinItem env (fun u x _ _ => getStatus u x false false) ru uri accountID item
            statusURIs := rfl
      rw [h]
      congr 1
      funext l
      exact ih l

theorem fetchRemoteAccountFeatured_plain (env : Env) (getStatus : GetStatusFn)
    (ru featuredCollectionURI accountID : String) :
    fetchRemoteAccountFeatured env getStatus ru featuredCollectionURI accountID =
      fetchRemoteAccountFeatured env (fun u x _ _ => getStatus u x false false) ru
        featuredCollectionURI accountID := by
  unfold fetchRemoteAccountFeatured featuredReconcile
  simp only [featuredPinLoop_plain env getStatus]

theorem GetStatusBody_no_parent (env : Env) (getAccountByURI : GetAccountFn)
    (getStatus other : GetStatusFn) (username : String) (statusURI : URL) (refetch : Bool) :
    GetStatusBody env getAccountByURI getStatus username statusURI refetch false =
      GetStatusBody env getAccountByURI other username statusURI refetch false := by
  simp [GetStatusBody, GetStatusFetch, GetStatusNew, GetStatusStore, populateStatusFields]

/-! ### Resolution of a stored account whose host is blocked -/

/-- The account was found in the database, by its URI or, failing that, by
its URL; `pre` are the lookups made.  `GetAccountByURI` goes on with the
account found. -/
theorem GetAccountByURI_found (env : Env) (depth : Nat) (requestUser : String) (uri : URL)
    (block : Bool) (pos : Nat) (t : Tables) (account : Account) (pre : List Event)
    (hfound : (env.dbGetAccountByURI pos uri.raw = .ok account ∧
        pre = [Event.dbGetAccountByURI uri.raw]) ∨
      ∃ err1, env.dbGetAccountByURI pos uri.raw = .error err1 ∧ err1.Is .ErrNoEntries = true ∧
        env.dbGetAccountByURL (pos + 1) uri.raw = .ok account ∧
        pre = [Event.dbGetAccountByURI uri.raw, Event.dbGetAccountByURL uri.raw]) :
    (∀ e ∈ pre, e.isNetwork = false ∧ e.isDereference = false) ∧
    (∀ r evs t', GetAccountByURIFound env (GetStatus env depth) requestUser uri account block
        (pos + pre.length) t = .done r evs t' →
      GetAccountByURI env (depth + 1) requestUser uri block pos t =
        .done r (pre ++ evs) t') ∧
    (∀ err evs t', GetAccountByURI env (depth + 1) requestUser uri block pos t ≠
      .done (.error err) evs t') := by
  rcases hfound with ⟨q1, rfl⟩ | ⟨err1, q1, hn1, q2, rfl⟩
  · refine ⟨?_, ?_, ?_⟩
    · intro e he
      rcases List.mem_singleton.1 he with rfl
      exact ⟨rfl, rfl⟩
    · intro r evs t' hrun
      rw [GetAccountByURI_succ]
      unfold GetAccountByURIBody
      refine bind_run (call_eq _ _ _ _) ?_
      simp only [q1]
      exact hrun
    · intro err evs t' hrun
      rw [GetAccountByURI_succ] at hrun
      unfold GetAccountByURIBody at hrun
      obtain ⟨a1, e1, t1, r1, hc, hf, rfl⟩ := bind_done hrun
      obtain ⟨ha, -, -⟩ := call_done hc
      rw [q1] at ha
      subst ha
      exact GetAccountByURIFound_ok _ _ _ _ _ _ _ _ _ _ _ hf
  · refine ⟨?_, ?_, ?_⟩
    · intro e he
      simp only [List.mem_cons, List.mem_singleton, List.mem_nil_iff, or_false] at he
      rcases he with rfl | rfl <;> exact ⟨rfl, rfl⟩
    · intro r evs t' hrun
      rw [GetAccountByURI_succ]
      unfold GetAccountByURIBody
      show _ = Outcome.done r ([Event.dbGetAccountByURI uri.raw] ++
        ([Event.dbGetAccountByURL uri.raw] ++ evs)) t'
      refine bind_run (call_eq _ _ _ _) ?_
      simp only [q1, hn1, Bool.not_true, Bool.false_eq_true, if_false]
      refine bind_run (call_eq _ _ _ _) ?_
      simp only [List.length_singleton, q2]
      exact hrun
    · intro err evs t' hrun
      rw [GetAccountByURI_succ] at hrun
      unfold GetAccountByURIBody at hrun
      obtain ⟨a1, e1, t1, r1, hc, hf, rfl⟩ := bind_done hrun
      obtain ⟨ha, he1, ht1⟩ := call_done hc
      rw [q1] at ha
      subst ha
      subst he1
      subst ht1
      simp only [hn1, Bool.not_true, Bool.false_eq_true, if_false] at hf
      obtain ⟨a2, e2, t2, r2, hc2, hf2, rfl⟩ := bind_done hf
      obtain ⟨ha2, -, -⟩ := call_done hc2
      rw [List.length_singleton, q2] at ha2
      subst ha2
      exact GetAccountByURIFound_ok _ _ _ _ _ _ _ _ _ _ _ hf2

/-- The fetch path of `enrichAccount` for an account without username when the
host of the URI is blocked: the account is left as it is and no network call
is made. -/
theorem enrichAccountFetch_blocked_no_username (env : Env) (getStatus : GetStatusFn)
    (requestUser : String) (uri : URL) (account : Account) (p : Nat) (tb : Tables)
    (hb : ∀ i, env.dbIsDomainBlocked i uri.Host = .ok true) (hu : account.Username = "") :
    ∃ err evs, enrichAccountFetch env getStatus requestUser (some uri) account p tb =
        .done (account, .error err) evs tb ∧ ∀ e ∈ evs, e.isNetwork = false := by
  rcases q : env.newTransportForUsername p requestUser with terr | tsport
  · refine ⟨.errorfW "enrichAccount: couldn't create transport" terr,
      [.newTransportForUsername requestUser], ?_, ?_⟩
    · simp [enrichAccountFetch, bind_eq, call_eq, pure_eq, q]
    · simp [Event.isNetwork]
  · refine ⟨.blocked "enrichAccount" uri.Host,
      [.newTransportForUsername requestUser, .dbIsDomainBlocked uri.Host], ?_, ?_⟩
    · simp [enrichAccountFetch, enrichAccountFinger, enrichAccountURI, bind_eq, call_eq,
        pure_eq, q, hu, hb]
    · simp [Event.isNetwork]

/-- The fetch path of `enrichAccount` when the webfinger fails and the host of
the URI is blocked: the account is left as it is and nothing is
dereferenced. -/
theorem enrichAccountFetch_blocked_finger_fails (env : Env) (getStatus : GetStatusFn)
    (requestUser : String) (uri : URL) (account : Account) (p : Nat) (tb : Tables)
    (hb : ∀ i, env.dbIsDomainBlocked i uri.Host = .ok true)
    (hf : ∀ i tr, ∃ e, env.finger i tr account.Username account.Domain = .error e) :
    ∃ err evs, enrichAccountFetch env getStatus requestUser (some uri) account p tb =
        .done (account, .error err) evs tb ∧ ∀ e ∈ evs, e.isDereference = false := by
  rcases q : env.newTransportForUsername p requestUser with terr | tsport
  · refine ⟨.errorfW "enrichAccount: couldn't create transport" terr,
      [.newTransportForUsername requestUser], ?_, ?_⟩
    · simp [enrichAccountFetch, bind_eq, call_eq, pure_eq, q]
    · simp [Event.isDereference]
  · by_cases hu : account.Username = ""
    · refine ⟨.blocked "enrichAccount" uri.Host,
        [.newTransportForUsername requestUser, .dbIsDomainBlocked uri.Host], ?_, ?_⟩
      · simp [enrichAccountFetch, enrichAccountFinger, enrichAccountURI, bind_eq, call_eq,
          pure_eq, q, hu, hb]
      · simp [Event.isDereference]
    · obtain ⟨ferr, hfe⟩ := hf (p + 1) tsport
      by_cases huri : account.URI = ""
      · refine ⟨.errorfW "enrichAccount: error webfingering account" ferr,
          [.newTransportForUsername requestUser,
            .finger tsport account.Username account.Domain], ?_, ?_⟩
        · simp [enrichAccountFetch, enrichAccountFinger, bind_eq, call_eq, pure_eq, q, hu, hfe,
            huri]
        · simp [Event.isDereference]
      · refine ⟨.blocked "enrichAccount" uri.Host,
          [.newTransportForUsername requestUser,
            .finger tsport account.Username account.Domain,
            .dbIsDomainBlocked uri.Host], ?_, ?_⟩
        · simp [enrichAccountFetch, enrichAccountFinger, enrichAccountURI, bind_eq, call_eq,
            pure_eq, q, hu, hfe, huri, hb]
        · simp [Event.isDereference]

/-- The fetch path of `enrichAccount` when the webfinger answers with the
domain of the account and a URI on a blocked host: the caller's account has
its URI overwritten by the answer before the blocklist stops the run. -/
theorem enrichAccountFetch_blocked_finger_answers (env : Env) (getStatus : GetStatusFn)
    (requestUser : String) (uri : Option URL) (account : Account) (p : Nat) (tb : Tables)
    (tsport : Transport) (accURI : URL)
    (hu : account.Username ≠ "")
    (q : env.newTransportForUsername p requestUser = .ok tsport)
    (hf : env.finger (p + 1) tsport account.Username account.Domain =
      .ok (account.Domain, accURI))
    (hb : env.dbIsDomainBlocked (p + 2) accURI.Host = .ok true) :
    enrichAccountFetch env getStatus requestUser uri account p tb =
      .done ({ account with URI := accURI.raw, Domain := account.Domain },
          .error (.blocked "enrichAccount" accURI.Host))
        [.newTransportForUsername requestUser, .finger tsport account.Username account.Domain,
          .dbIsDomainBlocked accURI.Host] tb := by
  simp [enrichAccountFetch, enrichAccountFinger, enrichAccountURI, bind_eq, call_eq,
    pure_eq, q, hu, hf, hb]

/-- An unforced `enrichAccount` that either returns early or takes a fetch
path which leaves the account as it is and fails, leaves the account as it
is. -/
theorem enrichAccount_unchanged_of_fetch (env : Env) (getStatus : GetStatusFn)
    (requestUser : String) (uri : Option URL) (account : Account) (block : Bool)
    (p : Nat) (tb : Tables) (P : Event → Prop) (hP : P .timeNow)
    (hfetch : ∀ q, ∃ err evs, enrichAccountFetch env getStatus requestUser uri account q tb =
      .done (account, .error err) evs tb ∧ ∀ e ∈ evs, P e) :
    ∃ r evs, enrichAccount env getStatus requestUser uri account false block p tb =
        .done (account, r) evs tb ∧ (∀ e ∈ evs, P e) ∧
      (∀ a, r = .ok a → a = account) := by
  unfold enrichAccount
  rcases hl : account.IsLocal env.cfg
  swap
  · exact ⟨.ok account, [], by simp [pure_eq], by simp, fun a h => by cases h; rfl⟩
  rcases hg : (!account.CreatedAt.IsZero && account.IsInstance)
  swap
  · exact ⟨.ok account, [], by simp [pure_eq], by simp, fun a h => by cases h; rfl⟩
  simp only [Bool.false_eq_true, if_false, Bool.not_false, if_true, bind_eq, timeNow, call_eq]
  rcases hbf : (Time.ofUnixNano (env.timeNow p)).Before (account.FetchedAt.Add (Hour * 48))
  · simp only [Bool.false_eq_true, if_false]
    obtain ⟨err, evs, hrun, hev⟩ := hfetch (p + [Event.timeNow].length)
    rw [hrun]
    refine ⟨.error err, .timeNow :: evs, rfl, ?_, fun a h => by cases h⟩
    intro e he
    rcases List.mem_cons.1 he with h | h
    · rw [h]
      exact hP
    · exact hev e h
  · refine ⟨.ok account, [.timeNow], by simp [pure_eq], ?_, fun a h => by cases h; rfl⟩
    intro e he
    rcases List.mem_singleton.1 he with h
    rw [h]
    exact hP

/-- When the enrichment leaves the account as it is, `GetAccountByURI` returns
the stored account. -/
theorem GetAccountByURIFound_unchanged (env : Env) (getStatus : GetStatusFn)
    (requestUser : String) (uri : URL) (account : Account) (block : Bool)
    (p : Nat) (tb : Tables) (r : Res Account) (evs : List Event)
    (hrun : enrichAccount env getStatus requestUser (some uri) account false block p tb =
      .done (account, r) evs tb)
    (hr : ∀ a, r = .ok a → a = account) :
    GetAccountByURIFound env getStatus requestUser uri account block p tb =
      .done (.ok account) evs tb := by
  unfold GetAccountByURIFound
  rw [bind_eq, hrun]
  rcases r with err | a
  · simp [pure_eq]
  · have := hr a rfl
    subst this
    simp [pure_eq]

/-! ### The avatar and header steps of `enrichAccount` -/

/-- The four ways a call of `fetchRemoteAccountAvatar` can go, with the calls
it makes: the URL does not parse; the pre-processing fails; a new dereference
is registered and loaded; a dereference in flight for the URL is awaited. -/
theorem fetchRemoteAccountAvatar_runs (env : Env) (tsport : Transport)
    (mediaURL accountID : String) (pos : Nat) (t : Tables) :
    (∀ err, env.urlParse mediaURL = .error err →
      fetchRemoteAccountAvatar env tsport mediaURL accountID pos t = .done (.error err) [] t) ∧
    (∀ mediaURI err, env.urlParse mediaURL = .ok mediaURI →
      t.derefAvatars.lookup mediaURL = none →
      env.preProcessMedia pos tsport mediaURI accountID true false mediaURL = .error err →
      fetchRemoteAccountAvatar env tsport mediaURL accountID pos t =
        .done (.error err)
          [.preProcessMedia tsport mediaURI accountID true false mediaURL] t) ∧
    (∀ mediaURI processing, env.urlParse mediaURL = .ok mediaURI →
      t.derefAvatars.lookup mediaURL = none →
      env.preProcessMedia pos tsport mediaURI accountID true false mediaURL = .ok processing →
      (∀ att, env.loadAttachment (pos + 1) processing = .ok att →
        fetchRemoteAccountAvatar env tsport mediaURL accountID pos t =
          .done (.ok processing.AttachmentID)
            [.preProcessMedia tsport mediaURI accountID true false mediaURL,
              .loadAttachment processing] t) ∧
      (∀ err, env.loadAttachment (pos + 1) processing = .error err →
        fetchRemoteAccountAvatar env tsport mediaURL accountID pos t =
          .done (.error err)
            [.preProcessMedia tsport mediaURI accountID true false mediaURL,
              .loadAttachment processing] t)) ∧
    (∀ mediaURI processing, env.urlParse mediaURL = .ok mediaURI →
      t.derefAvatars.lookup mediaURL = some processing →
      (∀ att, env.loadAttachment pos processing = .ok att →
        fetchRemoteAccountAvatar env tsport mediaURL accountID pos t =
          .done (.ok processing.AttachmentID) [.loadAttachment processing] t) ∧
      (∀ err, env.loadAttachment pos processing = .error err →
        fetchRemoteAccountAvatar env tsport mediaURL accountID pos t =
          .done (.error err) [.loadAttachment processing] t)) := by
  refine ⟨?_, ?_, ?_, ?_⟩
  · intro err hp
    simp [fetchRemoteAccountAvatar, hp, pure_eq]
  · intro mediaURI err hp hl hpre
    simp [fetchRemoteAccountAvatar, hp, bind_eq, getTables, hl, call_eq, hpre, pure_eq]
  · intro mediaURI processing hp hl hpre
    refine ⟨?_, ?_⟩
    · intro att hload
      simp only [fetchRemoteAccountAvatar, hp, bind_eq, getTables, hl, call_eq, hpre, setTables,
        List.length_nil, Nat.add_zero, List.nil_append, List.append_nil, List.length_singleton,
        filter_ne_of_lookup_none mediaURL t.derefAvatars hl, List.filter_cons,
        bne_self_eq_false, Bool.false_eq_true, if_false, hload]
      rfl
    · intro err hload
      simp only [fetchRemoteAccountAvatar, hp, bind_eq, getTables, hl, call_eq, hpre, setTables,
        List.length_nil, Nat.add_zero, List.nil_append, List.append_nil, List.length_singleton,
        filter_ne_of_lookup_none mediaURL t.derefAvatars hl, List.filter_cons,
        bne_self_eq_false, Bool.false_eq_true, if_false, hload]
      rfl
  · intro mediaURI processing hp hl
    refine ⟨?_, ?_⟩
    · intro att hload
      simp only [fetchRemoteAccountAvatar, hp, bind_eq, getTables, hl, call_eq,
        List.length_nil, Nat.add_zero, List.nil_append, hload]
      rfl
    · intro err hload
      simp only [fetchRemoteAccountAvatar, hp, bind_eq, getTables, hl, call_eq,
        List.length_nil, Nat.add_zero, List.nil_append, hload]
      rfl

/-- The same for `fetchRemoteAccountHeader`. -/
theorem fetchRemoteAccountHeader_runs (env : Env) (tsport : Transport)
    (mediaURL accountID : String) (pos : Nat) (t : Tables) :
    (∀ err, env.urlParse mediaURL = .error err →
      fetchRemoteAccountHeader env tsport mediaURL accountID pos t = .done (.error err) [] t) ∧
    (∀ mediaURI err, env.urlParse mediaURL = .ok mediaURI →
      t.derefHeaders.lookup mediaURL = none →
      env.preProcessMedia pos tsport mediaURI accountID false true mediaURL = .error err →
      fetchRemoteAccountHeader env tsport mediaURL accountID pos t =
        .done (.error err)
          [.preProcessMedia tsport mediaURI accountID false true mediaURL] t) ∧
    (∀ mediaURI processing, env.urlParse mediaURL = .ok mediaURI →
      t.derefHeaders.lookup mediaURL = none →
      env.preProcessMedia pos tsport mediaURI accountID false true mediaURL = .ok processing →
      (∀ att, env.loadAttachment (pos + 1) processing = .ok att →
        fetchRemoteAccountHeader env tsport mediaURL accountID pos t =
          .done (.ok processing.AttachmentID)
            [.preProcessMedia tsport mediaURI accountID false true mediaURL,
              .loadAttachment processing] t) ∧
      (∀ err, env.loadAttachment (pos + 1) processing = .error err →
        fetchRemoteAccountHeader env tsport mediaURL accountID pos t =
          .done (.error err)
            [.preProcessMedia tsport mediaURI accountID false true mediaURL,
              .loadAttachment processing] t)) ∧
    (∀ mediaURI processing, env.urlParse mediaURL = .ok mediaURI →
      t.derefHeaders.lookup mediaURL = some processing →
      (∀ att, env.loadAttachment pos processing = .ok att →
        fetchRemoteAccountHeader env tsport mediaURL accountID pos t =
          .done (.ok processing.AttachmentID) [.loadAttachment processing] t) ∧
      (∀ err, env.loadAttachment pos processing = .error err →
        fetchRemoteAccountHeader env tsport mediaURL accountID pos t =
          .done (.error err) [.loadAttachment processing] t)) := by
  refine ⟨?_, ?_, ?_, ?_⟩
  · intro err hp
    simp [fetchRemoteAccountHeader, hp, pure_eq]
  · intro mediaURI err hp hl hpre
    simp [fetchRemoteAccountHeader, hp, bind_eq, getTables, hl, call_eq, hpre, pure_eq]
  · intro mediaURI processing hp hl hpre
    refine ⟨?_, ?_⟩
    · intro att hload
      simp only [fetchRemoteAccountHeader, hp, bind_eq, getTables, hl, call_eq, hpre, setTables,
        List.length_nil, Nat.add_zero, List.nil_append, List.append_nil, List.length_singleton,
        filter_ne_of_lookup_none mediaURL t.derefHeaders hl, List.filter_cons,
        bne_self_eq_false, Bool.false_eq_true, if_false, hload]
      rfl
    · intro err hload
      simp only [fetchRemoteAccountHeader, hp, bind_eq, getTables, hl, call_eq, hpre, setTables,
        List.length_nil, Nat.add_zero, List.nil_append, List.append_nil, List.length_singleton,
        filter_ne_of_lookup_none mediaURL t.derefHeaders hl, List.filter_cons,
        bne_self_eq_false, Bool.false_eq_true, if_false, hload]
      rfl
  · intro mediaURI processing hp hl
    refine ⟨?_, ?_⟩
    · intro att hload
      simp only [fetchRemoteAccountHeader, hp, bind_eq, getTables, hl, call_eq,
        List.length_nil, Nat.add_zero, List.nil_append, hload]
      rfl
    · intro err hload
      simp only [fetchRemoteAccountHeader, hp, bind_eq, getTables, hl, call_eq,
        List.length_nil, Nat.add_zero, List.nil_append, hload]
      rfl

/-- The avatar step when the remote URL has changed to a new one: the result
follows the result of the fetch. -/
theorem enrichAccountAvatar_of_fetch (env : Env) (transport : Transport)
    (account latestAcc : Account) (pos : Nat) (t : Tables)
    (h : latestAcc.AvatarRemoteURL ≠ account.AvatarRemoteURL)
    (h0 : latestAcc.AvatarRemoteURL ≠ "") :
    (∀ attachmentID evs t',
      fetchRemoteAccountAvatar env transport latestAcc.AvatarRemoteURL latestAcc.ID pos t =
        .done (.ok attachmentID) evs t' →
      enrichAccountAvatar env transport account latestAcc pos t =
        .done { latestAcc with AvatarMediaAttachmentID := attachmentID } evs t') ∧
    (∀ err evs t',
      fetchRemoteAccountAvatar env transport latestAcc.AvatarRemoteURL latestAcc.ID pos t =
        .done (.error err) evs t' →
      enrichAccountAvatar env transport account latestAcc pos t =
        .done { latestAcc with
          AvatarMediaAttachmentID := account.AvatarMediaAttachmentID,
          AvatarRemoteURL := account.AvatarRemoteURL } evs t') := by
  refine ⟨?_, ?_⟩
  · intro attachmentID evs t' hf
    simp [enrichAccountAvatar, h, h0, bind_eq, hf, pure_eq]
  · intro err evs t' hf
    simp [enrichAccountAvatar, h, h0, bind_eq, hf, pure_eq]

/-- The same for the header step. -/
theorem enrichAccountHeader_of_fetch (env : Env) (transport : Transport)
    (account latestAcc : Account) (pos : Nat) (t : Tables)
    (h : latestAcc.HeaderRemoteURL ≠ account.HeaderRemoteURL)
    (h0 : latestAcc.HeaderRemoteURL ≠ "") :
    (∀ attachmentID evs t',
      fetchRemoteAccountHeader env transport latestAcc.HeaderRemoteURL latestAcc.ID pos t =
        .done (.ok attachmentID) evs t' →
      enrichAccountHeader env transport account latestAcc pos t =
        .done { latestAcc with HeaderMediaAttachmentID := attachmentID } evs t') ∧
    (∀ err evs t',
      fetchRemoteAccountHeader env transport latestAcc.HeaderRemoteURL latestAcc.ID pos t =
        .done (.error err) evs t' →
      enrichAccountHeader env transport account latestAcc pos t =
        .done { latestAcc with
          HeaderMediaAttachmentID := account.HeaderMediaAttachmentID,
          HeaderRemoteURL := account.HeaderRemoteURL } evs t') := by
  refine ⟨?_, ?_⟩
  · intro attachmentID evs t' hf
    simp [enrichAccountHeader, h, h0, bind_eq, hf, pure_eq]
  · intro err evs t' hf
    simp [enrichAccountHeader, h, h0, bind_eq, hf, pure_eq]


/-- Every way the avatar step of `enrichAccount` can go, with the calls it
makes; `url` is the remote URL of the account under construction and `id` its
ID. -/
theorem enrichAccountAvatar_cases (env : Env) (transport : Transport)
    (account latestAcc : Account) (url id : String) (pos : Nat) (t : Tables)
    (hurl : latestAcc.AvatarRemoteURL = url) (hid : latestAcc.ID = id) :
    (url = account.AvatarRemoteURL →
      enrichAccountAvatar env transport account latestAcc pos t = .done latestAcc [] t) ∧
    (url ≠ account.AvatarRemoteURL → url = "" →
      enrichAccountAvatar env transport account latestAcc pos t =
        .done { latestAcc with AvatarMediaAttachmentID := "" } [] t) ∧
    (url ≠ account.AvatarRemoteURL → url ≠ "" →
      (∀ mediaURI processing, env.urlParse url = .ok mediaURI →
        t.derefAvatars.lookup url = none →
        env.preProcessMedia pos transport mediaURI id true false url = .ok processing →
        (∀ att, env.loadAttachment (pos + 1) processing = .ok att →
          enrichAccountAvatar env transport account latestAcc pos t =
            .done { latestAcc with AvatarMediaAttachmentID := processing.AttachmentID }
              [.preProcessMedia transport mediaURI id true false url,
                .loadAttachment processing] t) ∧
        (∀ err, env.loadAttachment (pos + 1) processing = .error err →
          enrichAccountAvatar env transport account latestAcc pos t =
            .done { latestAcc with
                AvatarMediaAttachmentID := account.AvatarMediaAttachmentID,
                AvatarRemoteURL := account.AvatarRemoteURL }
              [.preProcessMedia transport mediaURI id true false url,
                .loadAttachment processing] t)) ∧
      (∀ mediaURI err, env.urlParse url = .ok mediaURI →
        t.derefAvatars.lookup url = none →
        env.preProcessMedia pos transport mediaURI id true false url = .error err →
        enrichAccountAvatar env transport account latestAcc pos t =
          .done { latestAcc with
              AvatarMediaAttachmentID := account.AvatarMediaAttachmentID,
              AvatarRemoteURL := account.AvatarRemoteURL }
            [.preProcessMedia transport mediaURI id true false url] t) ∧
      (∀ err, env.urlParse url = .error err →
        enrichAccountAvatar env transport account latestAcc pos t =
          .done { latestAcc with
              AvatarMediaAttachmentID := account.AvatarMediaAttachmentID,
              AvatarRemoteURL := account.AvatarRemoteURL } [] t) ∧
      (∀ mediaURI processing, env.urlParse url = .ok mediaURI →
        t.derefAvatars.lookup url = some processing →
        (∀ att, env.loadAttachment pos processing = .ok att →
          enrichAccountAvatar env transport account latestAcc pos t =
            .done { latestAcc with AvatarMediaAttachmentID := processing.AttachmentID }
              [.loadAttachment processing] t) ∧
        (∀ err, env.loadAttachment pos processing = .error err →
          enrichAccountAvatar env transport account latestAcc pos t =
            .done { latestAcc with
                AvatarMediaAttachmentID := account.AvatarMediaAttachmentID,
                AvatarRemoteURL := account.AvatarRemoteURL }
              [.loadAttachment processing] t))) := by
  subst hurl
  subst hid
  obtain ⟨f1, f2, f3, f4⟩ := fetchRemoteAccountAvatar_runs env transport latestAcc.AvatarRemoteURL
    latestAcc.ID pos t
  refine ⟨?_, ?_, ?_⟩
  · intro h
    simp [enrichAccountAvatar, h, pure_eq]
  · intro h h0
    have hne : (latestAcc.AvatarRemoteURL != account.AvatarRemoteURL) = true := by simpa using h
    have he : (latestAcc.AvatarRemoteURL != "") = false := by simp [h0]
    unfold enrichAccountAvatar
    simp only [hne, he, if_true, Bool.false_eq_true, if_false, pure_eq]
  · intro h h0
    obtain ⟨g1, g2⟩ := enrichAccountAvatar_of_fetch env transport account latestAcc pos t h h0
    refine ⟨?_, ?_, ?_, ?_⟩
    · intro mediaURI processing hp hl hpre
      exact ⟨fun att hload => g1 _ _ _ ((f3 mediaURI processing hp hl hpre).1 att hload),
        fun err hload => g2 _ _ _ ((f3 mediaURI processing hp hl hpre).2 err hload)⟩
    · intro mediaURI err hp hl hpre
      exact g2 _ _ _ (f2 mediaURI err hp hl hpre)
    · intro err hp
      exact g2 _ _ _ (f1 err hp)
    · intro mediaURI processing hp hl
      exact ⟨fun att hload => g1 _ _ _ ((f4 mediaURI processing hp hl).1 att hload),
        fun err hload => g2 _ _ _ ((f4 mediaURI processing hp hl).2 err hload)⟩

/-- Every way the header step of `enrichAccount` can go, with the calls it
makes; `url` is the remote URL of the account under construction and `id` its
ID. -/
theorem enrichAccountHeader_cases (env : Env) (transport : Transport)
    (account latestAcc : Account) (url id : String) (pos : Nat) (t : Tables)
    (hurl : latestAcc.HeaderRemoteURL = url) (hid : latestAcc.ID = id) :
    (url = account.HeaderRemoteURL →
      enrichAccountHeader env transport account latestAcc pos t = .done latestAcc [] t) ∧
    (url ≠ account.HeaderRemoteURL → url = "" →
      enrichAccountHeader env transport account latestAcc pos t =
        .done { latestAcc with HeaderMediaAttachmentID := "" } [] t) ∧
    (url ≠ account.HeaderRemoteURL → url ≠ "" →
      (∀ mediaURI processing, env.urlParse url = .ok mediaURI →
        t.derefHeaders.lookup url = none →
        env.preProcessMedia pos transport mediaURI id false true url = .ok processing →
        (∀ att, env.loadAttachment (pos + 1) processing = .ok att →
          enrichAccountHeader env transport account latestAcc pos t =
            .done { latestAcc with HeaderMediaAttachmentID := processing.AttachmentID }
              [.preProcessMedia transport mediaURI id false true url,
                .loadAttachment processing] t) ∧
        (∀ err, env.loadAttachment (pos + 1) processing = .error err →
          enrichAccountHeader env transport account latestAcc pos t =
            .done { latestAcc with
                HeaderMediaAttachmentID := account.HeaderMediaAttachmentID,
                HeaderRemoteURL := account.HeaderRemoteURL }
              [.preProcessMedia transport mediaURI id false true url,
                .loadAttachment processing] t)) ∧
      (∀ mediaURI err, env.urlParse url = .ok mediaURI →
        t.derefHeaders.lookup url = none →
        env.preProcessMedia pos transport mediaURI id false true url = .error err →
        enrichAccountHeader env transport account latestAcc pos t =
          .done { latestAcc with
              HeaderMediaAttachmentID := account.HeaderMediaAttachmentID,
              HeaderRemoteURL := account.HeaderRemoteURL }
            [.preProcessMedia transport mediaURI id false true url] t) ∧
      (∀ err, env.urlParse url = .error err →
        enrichAccountHeader env transport account latestAcc pos t =
          .done { latestAcc with
              HeaderMediaAttachmentID := account.HeaderMediaAttachmentID,
              HeaderRemoteURL := account.HeaderRemoteURL } [] t) ∧
      (∀ mediaURI processing, env.urlParse url = .ok mediaURI →
        t.derefHeaders.lookup url = some processing →
        (∀ att, env.loadAttachment pos processing = .ok att →
          enrichAccountHeader env transport account latestAcc pos t =
            .done { latestAcc with HeaderMediaAttachmentID := processing.AttachmentID }
              [.loadAttachment processing] t) ∧
        (∀ err, env.loadAttachment pos processing = .error err →
          enrichAccountHeader env transport account latestAcc pos t =
            .done { latestAcc with
                HeaderMediaAttachmentID := account.HeaderMediaAttachmentID,
                HeaderRemoteURL := account.HeaderRemoteURL }
              [.loadAttachment processing] t))) := by
  subst hurl
  subst hid
  obtain ⟨f1, f2, f3, f4⟩ := fetchRemoteAccountHeader_runs env transport latestAcc.HeaderRemoteURL
    latestAcc.ID pos t
  refine ⟨?_, ?_, ?_⟩
  · intro h
    simp [enrichAccountHeader, h, pure_eq]
  · intro h h0
    have hne : (latestAcc.HeaderRemoteURL != account.HeaderRemoteURL) = true := by simpa using h
    have he : (latestAcc.HeaderRemoteURL != "") = false := by simp [h0]
    unfold enrichAccountHeader
    simp only [hne, he, if_true, Bool.false_eq_true, if_false, pure_eq]
  · intro h h0
    obtain ⟨g1, g2⟩ := enrichAccountHeader_of_fetch env transport account latestAcc pos t h h0
    refine ⟨?_, ?_, ?_, ?_⟩
    · intro mediaURI processing hp hl hpre
      exact ⟨fun att hload => g1 _ _ _ ((f3 mediaURI processing hp hl hpre).1 att hload),
        fun err hload => g2 _ _ _ ((f3 mediaURI processing hp hl hpre).2 err hload)⟩
    · intro mediaURI err hp hl hpre
      exact g2 _ _ _ (f2 mediaURI err hp hl hpre)
    · intro err hp
      exact g2 _ _ _ (f1 err hp)
    · intro mediaURI processing hp hl
      exact ⟨fun att hload => g1 _ _ _ ((f4 mediaURI processing hp hl).1 att hload),
        fun err hload => g2 _ _ _ ((f4 mediaURI processing hp hl).2 err hload)⟩

/-- The avatar step touches neither the ID of the account nor the fields of
the header. -/
theorem enrichAccountAvatar_keeps (env : Env) (transport : Transport)
    (account latestAcc : Account) (pos : Nat) (t : Tables) (a : Account) (evs : List Event)
    (t' : Tables)
    (hrun : enrichAccountAvatar env transport account latestAcc pos t = .done a evs t') :
    a.ID = latestAcc.ID ∧ a.HeaderMediaAttachmentID = latestAcc.HeaderMediaAttachmentID ∧
      a.HeaderRemoteURL = latestAcc.HeaderRemoteURL := by
  unfold enrichAccountAvatar at hrun
  split at hrun
  · split at hrun
    · obtain ⟨res, e1, t1, e2, -, h2, rfl⟩ := bind_done hrun
      rcases res with err | id
      · obtain ⟨rfl, -, -⟩ := pure_done h2
        exact ⟨rfl, rfl, rfl⟩
      · obtain ⟨rfl, -, -⟩ := pure_done h2
        exact ⟨rfl, rfl, rfl⟩
    · obtain ⟨rfl, -, -⟩ := pure_done hrun
      exact ⟨rfl, rfl, rfl⟩
  · obtain ⟨rfl, -, -⟩ := pure_done hrun
    exact ⟨rfl, rfl, rfl⟩

/-- The header step touches neither the ID of the account nor the fields of
the avatar. -/
theorem enrichAccountHeader_keeps (env : Env) (transport : Transport)
    (account latestAcc : Account) (pos : Nat) (t : Tables) (a : Account) (evs : List Event)
    (t' : Tables)
    (hrun : enrichAccountHeader env transport account latestAcc pos t = .done a evs t') :
    a.ID = latestAcc.ID ∧ a.AvatarMediaAttachmentID = latestAcc.AvatarMediaAttachmentID ∧
      a.AvatarRemoteURL = latestAcc.AvatarRemoteURL := by
  unfold enrichAccountHeader at hrun
  split at hrun
  · split at hrun
    · obtain ⟨res, e1, t1, e2, -, h2, rfl⟩ := bind_done hrun
      rcases res with err | id
      · obtain ⟨rfl, -, -⟩ := pure_done h2
        exact ⟨rfl, rfl, rfl⟩
      · obtain ⟨rfl, -, -⟩ := pure_done h2
        exact ⟨rfl, rfl, rfl⟩
    · obtain ⟨rfl, -, -⟩ := pure_done hrun
      exact ⟨rfl, rfl, rfl⟩
  · obtain ⟨rfl, -, -⟩ := pure_done hrun
    exact ⟨rfl, rfl, rfl⟩

/-- The comparison of the emojis leaves the media fields of the account
untouched. -/
theorem compareEmojis_media (targetAccount : Account) (maybeEmojis gotEmojis : List Emoji)
    (gotEmojiIDs : List String) :
    (compareEmojis targetAccount maybeEmojis gotEmojis gotEmojiIDs).1.media =
      targetAccount.media := by
  unfold compareEmojis
  simp only []
  split_ifs <;> rfl

/-- The emoji step of `enrichAccount` returns, with the tables as it found
them and the media fields of the account untouched. -/
theorem fetchRemoteAccountEmojis_media (env : Env) (targetAccount : Account)
    (requestingUsername : String) (pos : Nat) (t : Tables) :
    ∃ r evs, fetchRemoteAccountEmojis env targetAccount requestingUsername pos t =
        .done r evs t ∧ r.1.media = targetAccount.media := by
  obtain ⟨r, evs, hrun, -⟩ := fetchRemoteAccountEmojis_done env targetAccount requestingUsername
    pos t
  refine ⟨r, evs, hrun, ?_⟩
  unfold fetchRemoteAccountEmojis at hrun
  obtain ⟨m, e1, t1, e2, -, h2, rfl⟩ := bind_done hrun
  rcases m with err | maybeEmojis
  · obtain ⟨rfl, -, -⟩ := pure_done h2
    rfl
  · obtain ⟨g, e3, t3, e4, -, h4, rfl⟩ := bind_done h2
    rcases g with err | gotEmojis
    · obtain ⟨rfl, -, -⟩ := pure_done h4
      rfl
    · obtain ⟨rfl, -, -⟩ := pure_done h4
      exact compareEmojis_media _ _ _ _

/-- The storing step returns; the accounts it hands to the database have the
media fields of the account it was given; and when the database accepts every
write it returns such an account. -/
theorem enrichAccountStore_media (env : Env) (account latestAcc : Account) (pos : Nat)
    (t : Tables) :
    ∃ r evsS, enrichAccountStore env account latestAcc pos t = .done r evsS t ∧
      (∃ a, a.media = latestAcc.media ∧
        (Event.dbPutAccount a ∈ evsS ∨ Event.dbUpdateAccount a ∈ evsS)) ∧
      (∀ a, Event.dbPutAccount a ∈ evsS ∨ Event.dbUpdateAccount a ∈ evsS →
        a.media = latestAcc.media) ∧
      ((∀ i a, env.dbPutAccount i a = none) → (∀ i a, env.dbUpdateAccount i a = none) →
        ∃ a, r = .ok a ∧ a.media = latestAcc.media) := by
  unfold enrichAccountStore
  rcases hz : account.CreatedAt.IsZero
  · simp only [Bool.false_eq_true, if_false, dbUpdateAccount, bind_eq, timeNow, call_eq, pure_eq]
    rcases hu : env.dbUpdateAccount (pos + [Event.timeNow].length)
      { latestAcc with
        UpdatedAt := Time.ofUnixNano (env.timeNow pos),
        CreatedAt := account.CreatedAt,
        Language := account.Language } with _ | err
    · refine ⟨_, _, rfl, ⟨{ latestAcc with
          UpdatedAt := Time.ofUnixNano (env.timeNow pos),
          CreatedAt := account.CreatedAt,
          Language := account.Language }, rfl, Or.inr (by simp)⟩, ?_, ?_⟩
      · intro a ha
        simp at ha
        rw [ha]
        rfl
      · intro _ _
        exact ⟨_, rfl, rfl⟩
    · refine ⟨_, _, rfl, ⟨{ latestAcc with
          UpdatedAt := Time.ofUnixNano (env.timeNow pos),
          CreatedAt := account.CreatedAt,
          Language := account.Language }, rfl, Or.inr (by simp)⟩, ?_, ?_⟩
      · intro a ha
        simp at ha
        rw [ha]
        rfl
      · intro _ hupd
        rw [hupd] at hu
        cases hu
  · simp only [if_true, bind_eq, call_eq, pure_eq]
    rcases hp : env.dbPutAccount pos { latestAcc with
        CreatedAt := latestAcc.FetchedAt, UpdatedAt := latestAcc.FetchedAt } with _ | err
    · refine ⟨_, _, rfl, ⟨{ latestAcc with
          CreatedAt := latestAcc.FetchedAt, UpdatedAt := latestAcc.FetchedAt }, rfl,
          Or.inl (by simp)⟩, ?_, ?_⟩
      · intro a ha
        simp at ha
        rw [ha]
        rfl
      · intro _ _
        exact ⟨_, rfl, rfl⟩
    · simp only []
      rcases he : err.Is .ErrAlreadyExists
      · simp only [Bool.false_eq_true, if_false, pure_eq]
        refine ⟨_, _, rfl, ⟨{ latestAcc with
          CreatedAt := latestAcc.FetchedAt, UpdatedAt := latestAcc.FetchedAt }, rfl,
          Or.inl (by simp)⟩, ?_, ?_⟩
        · intro a ha
          simp at ha
          rw [ha]
          rfl
        · intro hput _
          rw [hput] at hp
          cases hp
      · simp only [if_true, bind_eq, call_eq]
        rcases hg : env.dbGetAccountByURI (pos + [Event.dbPutAccount { latestAcc with
          CreatedAt := latestAcc.FetchedAt, UpdatedAt := latestAcc.FetchedAt }].length)
          latestAcc.URI with e2 | stored
        · simp only [pure_eq]
          refine ⟨_, _, rfl, ⟨{ latestAcc with
          CreatedAt := latestAcc.FetchedAt, UpdatedAt := latestAcc.FetchedAt }, rfl,
            Or.inl (by simp)⟩, ?_, ?_⟩
          · intro a ha
            simp at ha
            rw [ha]
            rfl
          · intro hput _
            rw [hput] at hp
            cases hp
        · simp only [pure_eq]
          refine ⟨_, _, rfl, ⟨{ latestAcc with
          CreatedAt := latestAcc.FetchedAt, UpdatedAt := latestAcc.FetchedAt }, rfl,
            Or.inl (by simp)⟩, ?_, ?_⟩
          · intro a ha
            simp at ha
            rw [ha]
            rfl
          · intro hput _
            rw [hput] at hp
            cases hp

/-- The part of `enrichAccount` from the dereference to the storing, once the
document is fetched and converted and the webfinger step has given
`fingered`: the avatar step runs on the preset account, the header step on its
result, and the accounts written and returned carry the media fields that the
header step left. -/
theorem enrichAccountLatest_media (env : Env) (requestUser : String)
    (transport : Transport) (uri : URL) (account : Account) (pos : Nat) (t : Tables)
    (apubAcc : Accountable) (converted fingered : Account) (evsD evF : List Event)
    (tD : Tables)
    (hD : dereferenceAccountable env transport uri pos t = .done (.ok apubAcc) evsD tD)
    (hC : env.asRepresentationToAccount (pos + evsD.length) apubAcc account.Domain =
      .ok converted)
    (hF : enrichAccountFingerLatest env transport account apubAcc converted
      (pos + evsD.length + 1) tD = .done (.ok fingered) evF tD) :
    ∃ (a5 : Account) (e5 : List Event) (a6 : Account) (e6 : List Event) (r : Res Account)
        (e7 evsS : List Event),
      enrichAccountAvatar env transport account
        (enrichAccountPreset account fingered
          (Time.ofUnixNano (env.timeNow (pos + evsD.length + 1 + evF.length))))
        (pos + evsD.length + 1 + evF.length + 1) tD = .done a5 e5 tD ∧
      enrichAccountHeader env transport account a5
        (pos + evsD.length + 1 + evF.length + 1 + e5.length) tD = .done a6 e6 tD ∧
      enrichAccountLatest env requestUser transport uri account pos t =
        .done r (evsD ++ .asRepresentationToAccount apubAcc account.Domain ::
          (evF ++ .timeNow :: (e5 ++ e6 ++ e7 ++ evsS))) tD ∧
      (∀ e ∈ e7, e.isAccountWrite = false) ∧
      (∃ a, a.media = a6.media ∧
        (Event.dbPutAccount a ∈ evsS ∨ Event.dbUpdateAccount a ∈ evsS)) ∧
      (∀ a, Event.dbPutAccount a ∈ evsS ∨ Event.dbUpdateAccount a ∈ evsS →
        a.media = a6.media) ∧
      ((∀ i a, env.dbPutAccount i a = none) → (∀ i a, env.dbUpdateAccount i a = none) →
        ∃ a, r = .ok a ∧ a.media = a6.media) := by
  obtain ⟨a5, e5, h5, -⟩ := enrichAccountAvatar_done env transport account
    (enrichAccountPreset account fingered
      (Time.ofUnixNano (env.timeNow (pos + evsD.length + 1 + evF.length))))
    (pos + evsD.length + 1 + evF.length + 1) tD
  obtain ⟨a6, e6, h6, -⟩ := enrichAccountHeader_done env transport account a5
    (pos + evsD.length + 1 + evF.length + 1 + e5.length) tD
  obtain ⟨a7, e7, h7, hm7⟩ := fetchRemoteAccountEmojis_media env a6 requestUser
    (pos + evsD.length + 1 + evF.length + 1 + e5.length + e6.length) tD
  obtain ⟨r, evsS, h8, hw1, hw2, hw3⟩ := enrichAccountStore_media env account a7.1
    (pos + evsD.length + 1 + evF.length + 1 + e5.length + e6.length + e7.length) tD
  rw [hm7] at hw1 hw2 hw3
  refine ⟨a5, e5, a6, e6, r, e7, evsS, h5, h6, ?_, ?_, hw1, hw2, hw3⟩
  · have hrun : enrichAccountLatest env requestUser transport uri account pos t =
        .done r (evsD ++ ([.asRepresentationToAccount apubAcc account.Domain] ++
          (evF ++ ([.timeNow] ++ (e5 ++ (e6 ++ (e7 ++ evsS))))))) tD := by
      unfold enrichAccountLatest
      refine bind_run hD ?_
      refine bind_run (call_eq _ _ _ _) ?_
      simp only [hC]
      refine bind_run hF ?_
      refine bind_run (call_eq _ _ _ _) ?_
      refine bind_run h5 ?_
      refine bind_run h6 ?_
      refine bind_run h7 ?_
      exact h8
    rw [hrun]
    simp [List.append_assoc]
  · intro e he
    exact isAccountWrite_of_enrichStep e
      (emits_done (fetchRemoteAccountEmojis_enrichStep _ _ _) h7 e he)

/-! ## The claims -/

/-- C1. For a remote, non-instance account and `force = false`: when the
clock reading is before `FetchedAt + 48h`, `enrichAccount` returns the account
unchanged and makes no call but the clock reading (no transport call, no
database write); when the clock reading is at or after `FetchedAt + 48h`, the
run goes on to re-fetch: after the clock reading it creates the transport, and
it returns without error only after having dereferenced the account. -/
theorem enrichAccount_staleness_window (env : Env) (getStatus : GetStatusFn)
    (requestUser : String) (uri : Option URL) (account : Account) (block : Bool)
    (pos : Nat) (t : Tables)
    (hremote : account.IsRemote env.cfg = true)
    (hinstance : account.IsInstance = false) :
    ((Time.ofUnixNano (env.timeNow pos)).ns < (account.FetchedAt.Add (Hour * 48)).ns →
      enrichAccount env getStatus requestUser uri account false block pos t =
        .done (account, .ok account) [.timeNow] t) ∧
    ((account.FetchedAt.Add (Hour * 48)).ns ≤ (Time.ofUnixNano (env.timeNow pos)).ns →
      (∀ r evs t',
        enrichAccount env getStatus requestUser uri account false block pos t =
          .done r evs t' →
        ∃ rest, evs = .timeNow :: .newTransportForUsername requestUser :: rest) ∧
      (∀ c r evs t',
        enrichAccount env getStatus requestUser uri account false block pos t =
          .done (c, .ok r) evs t' →
        ∃ e ∈ evs, e.isDereference = true)) := by
  have hl : account.IsLocal env.cfg = false := by
    simpa [Account.IsRemote] using hremote
  have hgate : (!account.CreatedAt.IsZero && account.IsInstance) = false := by
    simp [hinstance]
  constructor
  · intro hfresh
    have hb : (Time.ofUnixNano (env.timeNow pos)).Before (account.FetchedAt.Add (Hour * 48))
        = true := by
      simp only [Time.Before, decide_eq_true_eq]
      exact hfresh
    simp [enrichAccount, hl, hgate, bind_eq, timeNow, call_eq, hb, pure_eq]
  · intro hstale
    rw [enrichAccount_stale env getStatus requestUser uri account block pos t hremote hgate hstale]
    constructor
    · intro r evs t' hrun
      obtain ⟨a, e1, t1, e2, h1, h2, rfl⟩ := bind_done hrun
      obtain ⟨-, rfl, -⟩ := call_done h1
      obtain ⟨rest, rfl⟩ := enrichAccountFetch_head _ _ _ _ _ _ _ _ _ _ h2
      exact ⟨rest, rfl⟩
    · intro c r evs t' hrun
      obtain ⟨a, e1, t1, e2, h1, h2, rfl⟩ := bind_done hrun
      obtain ⟨e, he, hp⟩ := enrichAccountFetch_ok_dereference _ _ _ _ _ _ _ _ _ _ _ h2
      exact ⟨e, by simp [he], hp⟩

/-- C1 at `alice@remote.example` fetched 47 hours before the clock reading:
returned as it is. -/
theorem enrichAccount_staleness_window_witness :
    ((aliceFetchedAt (Time.ofUnixNano 190800000000000)).IsRemote emptyEnv.cfg = true ∧
      (aliceFetchedAt (Time.ofUnixNano 190800000000000)).IsInstance = false) ∧
    enrichAccount emptyEnv (GetStatus emptyEnv 0) "admin" none
        (aliceFetchedAt (Time.ofUnixNano 190800000000000)) false false 0 {} =
      .done (aliceFetchedAt (Time.ofUnixNano 190800000000000),
        .ok (aliceFetchedAt (Time.ofUnixNano 190800000000000))) [.timeNow] {} :=
  ⟨⟨by decide, by decide⟩,
    (enrichAccount_staleness_window emptyEnv (GetStatus emptyEnv 0) "admin" none
      (aliceFetchedAt (Time.ofUnixNano 190800000000000)) false 0 {}
      (by decide) (by decide)).1 (by decide)⟩


/-- C2, as stated, fails: `remoteInstanceAccount` is a stored remote record
with zero `FetchedAt`, and `enrichAccount`, forced or not, returns it as it is
without making a single call (account.go 133-137). -/
theorem enrichAccount_instance_account_not_enriched :
    ¬ ∀ (env : Env) (getStatus : GetStatusFn) (requestUser : String) (uri : Option URL)
        (account : Account) (force block : Bool) (pos : Nat) (t : Tables),
      account.FetchedAt = Time.zero → account.IsRemote env.cfg = true →
      (enrichAccount env getStatus requestUser uri account force block pos t).events ≠ [] := by
  intro h
  exact h emptyEnv (GetStatus emptyEnv 0) "admin" none remoteInstanceAccount true false 0 {}
    rfl rfl rfl

/-- C2, amended. A local account and a stored instance account (`CreatedAt`
not zero and `IsInstance`) are returned by `enrichAccount` as they are, without
any call, whatever their `FetchedAt` and whether forced or not.  Any other
record with zero `FetchedAt` is never returned as fresh: the unforced `enrichAccount`
is a clock reading followed by exactly the forced `enrichAccount`.  For an
identifier on a remote host that is not found locally, `GetAccountByURI` and
`GetAccountByUsernameDomain` build the bare placeholder and run its forced
enrichment after the clock reading; they return without error only after the
account has been dereferenced. -/
theorem placeholder_always_enriched (env : Env) (depth : Nat) (requestUser : String)
    (pos : Nat) (t : Tables) :
    (∀ (getStatus : GetStatusFn) (uri : Option URL) (account : Account) (force block : Bool),
      account.IsLocal env.cfg = true ∨
        (!account.CreatedAt.IsZero && account.IsInstance) = true →
      enrichAccount env getStatus requestUser uri account force block pos t =
        .done (account, .ok account) [] t) ∧
    (∀ (getStatus : GetStatusFn) (uri : Option URL) (account : Account) (block : Bool),
      account.FetchedAt = Time.zero → account.IsRemote env.cfg = true →
      (!account.CreatedAt.IsZero && account.IsInstance) = false →
      enrichAccount env getStatus requestUser uri account false block pos t =
        (timeNow env >>= fun _ =>
          enrichAccount env getStatus requestUser uri account true block) pos t) ∧
    (∀ (uri : URL) (block : Bool) (err1 err2 : Err),
      uri.Host ≠ "" → uri.Host ≠ env.cfg.Host → uri.Host ≠ env.cfg.AccountDomain →
      env.dbGetAccountByURI pos uri.raw = .error err1 → err1.Is .ErrNoEntries = true →
      env.dbGetAccountByURL (pos + 1) uri.raw = .error err2 → err2.Is .ErrNoEntries = true →
      GetAccountByURI env (depth + 1) requestUser uri block pos t =
        (call (.dbGetAccountByURI uri.raw) (fun i => env.dbGetAccountByURI i uri.raw) >>= fun _ =>
          call (.dbGetAccountByURL uri.raw) (fun i => env.dbGetAccountByURL i uri.raw) >>= fun _ =>
          call .newULID env.newULID >>= fun newID =>
          (timeNow env >>= fun _ =>
            enrichAccount env (GetStatus env depth) requestUser (some uri)
              { ID := newID, Domain := uri.Host, URI := uri.raw } true true) >>= fun r =>
          pure r.2) pos t ∧
      ∀ a evs t', GetAccountByURI env (depth + 1) requestUser uri block pos t =
          .done (.ok a) evs t' →
        ∃ e ∈ evs, e.isDereference = true) ∧
    (∀ (username domain : String) (block : Bool) (err : Err),
      domain ≠ "" → domain ≠ env.cfg.Host → domain ≠ env.cfg.AccountDomain →
      env.dbGetAccountByUsernameDomain pos username domain = .error err →
      err.Is .ErrNoEntries = true →
      GetAccountByUsernameDomain env (depth + 1) requestUser username domain block pos t =
        (call (.dbGetAccountByUsernameDomain username domain)
            (fun i => env.dbGetAccountByUsernameDomain i username domain) >>= fun _ =>
          call .newULID env.newULID >>= fun newID =>
          (timeNow env >>= fun _ =>
            enrichAccount env (GetStatus env depth) requestUser none
              { ID := newID, Username := username, Domain := domain } true true) >>= fun r =>
          pure r.2) pos t ∧
      ∀ a evs t', GetAccountByUsernameDomain env (depth + 1) requestUser username domain block
          pos t = .done (.ok a) evs t' →
        ∃ e ∈ evs, e.isDereference = true) := by
  refine ⟨?_, ?_, ?_, ?_⟩
  · intro getStatus uri account force block hearly
    unfold enrichAccount
    rcases hl : account.IsLocal env.cfg
    · rcases hearly with h | hgate
      · rw [hl] at h
        cases h
      · simp only [Bool.false_eq_true, if_false, hgate, if_true, pure_eq]
    · simp only [if_true, pure_eq]
  · intro getStatus uri account block hz hremote hgate
    exact enrichAccount_zero_fetchedAt env getStatus requestUser uri account block pos t
      hz hremote hgate
  · intro uri block err1 err2 h0 h1 h2 hq1 hn1 hq2 hn2
    have hl : (uri.Host == env.cfg.Host || uri.Host == env.cfg.AccountDomain) = false := by
      simp [h1, h2]
    have hE : ∀ newID p tb, enrichAccount env (GetStatus env depth) requestUser (some uri)
        { ID := newID, Domain := uri.Host, URI := uri.raw } false true p tb =
        (timeNow env >>= fun _ => enrichAccount env (GetStatus env depth) requestUser (some uri)
          { ID := newID, Domain := uri.Host, URI := uri.raw } true true) p tb := by
      intro newID p tb
      exact enrichAccount_zero_fetchedAt _ _ _ _ _ _ _ _ rfl
        (isRemote_of_host _ _ h0 h1 h2) rfl
    have hrun : GetAccountByURI env (depth + 1) requestUser uri block pos t =
        (call (.dbGetAccountByURI uri.raw) (fun i => env.dbGetAccountByURI i uri.raw) >>= fun _ =>
          call (.dbGetAccountByURL uri.raw) (fun i => env.dbGetAccountByURL i uri.raw) >>= fun _ =>
          call .newULID env.newULID >>= fun newID =>
          (timeNow env >>= fun _ =>
            enrichAccount env (GetStatus env depth) requestUser (some uri)
              { ID := newID, Domain := uri.Host, URI := uri.raw } true true) >>= fun r =>
          pure r.2) pos t := by
      rw [GetAccountByURI_succ]
      simp [GetAccountByURIBody, GetAccountByURINew, bind_eq, call_eq, pure_eq,
        hq1, hn1, hq2, hn2, hl, hE]
    refine ⟨hrun, ?_⟩
    intro a evs t' hdone
    rw [hrun] at hdone
    obtain ⟨x1, e1, t1, r1, -, hd1, rfl⟩ := bind_done hdone
    obtain ⟨x2, e2, t2, r2, -, hd2, rfl⟩ := bind_done hd1
    obtain ⟨newID, e3, t3, r3, -, hd3, rfl⟩ := bind_done hd2
    obtain ⟨r, e4, t4, r4, hd4, hp, rfl⟩ := bind_done hd3
    obtain ⟨hr, -, -⟩ := pure_done hp
    obtain ⟨x5, e5, t5, r5, -, hd5, rfl⟩ := bind_done hd4
    rw [enrichAccount_forced env _ requestUser _ _ true (isRemote_of_host _ _ h0 h1 h2)
      (by rfl)] at hd5
    rcases r with ⟨c, res⟩
    simp only at hr
    subst hr
    obtain ⟨e, he, hpe⟩ := enrichAccountFetch_ok_dereference _ _ _ _ _ _ _ _ _ _ _ hd5
    exact ⟨e, by simp [he], hpe⟩
  · intro username domain block err h0 h1 h2 hq hn
    have hl : (domain == env.cfg.Host || domain == env.cfg.AccountDomain) = false := by
      simp [h1, h2]
    have hE : ∀ newID p tb, enrichAccount env (GetStatus env depth) requestUser none
        { ID := newID, Username := username, Domain := domain } false true p tb =
        (timeNow env >>= fun _ => enrichAccount env (GetStatus env depth) requestUser none
          { ID := newID, Username := username, Domain := domain } true true) p tb := by
      intro newID p tb
      exact enrichAccount_zero_fetchedAt _ _ _ _ _ _ _ _ rfl
        (isRemote_of_host _ _ h0 h1 h2) rfl
    have hrun : GetAccountByUsernameDomain env (depth + 1) requestUser username domain block
        pos t =
        (call (.dbGetAccountByUsernameDomain username domain)
            (fun i => env.dbGetAccountByUsernameDomain i username domain) >>= fun _ =>
          call .newULID env.newULID >>= fun newID =>
          (timeNow env >>= fun _ =>
            enrichAccount env (GetStatus env depth) requestUser none
              { ID := newID, Username := username, Domain := domain } true true) >>= fun r =>
          pure r.2) pos t := by
      simp [GetAccountByUsernameDomain, GetAccountByUsernameDomainBody, bind_eq, call_eq, pure_eq,
        hq, hn, hl, hE, h0]
    refine ⟨hrun, ?_⟩
    intro a evs t' hdone
    rw [hrun] at hdone
    obtain ⟨x1, e1, t1, r1, -, hd1, rfl⟩ := bind_done hdone
    obtain ⟨newID, e3, t3, r3, -, hd3, rfl⟩ := bind_done hd1
    obtain ⟨r, e4, t4, r4, hd4, hp, rfl⟩ := bind_done hd3
    obtain ⟨hr, -, -⟩ := pure_done hp
    obtain ⟨x5, e5, t5, r5, -, hd5, rfl⟩ := bind_done hd4
    rw [enrichAccount_forced env _ requestUser _ _ true (isRemote_of_host _ _ h0 h1 h2)
      (by rfl)] at hd5
    rcases r with ⟨c, res⟩
    simp only at hr
    subst hr
    obtain ⟨e, he, hpe⟩ := enrichAccountFetch_ok_dereference _ _ _ _ _ _ _ _ _ _ _ hd5
    exact ⟨e, by simp [he], hpe⟩


/-- C2, amended, at `https://remote.example/users/bob` with an empty
database: the placeholder goes through the fetch path up to the dereference,
which fails. -/
theorem placeholder_always_enriched_witness :
    (bobURI.Host ≠ "" ∧ bobURI.Host ≠ emptyEnv.cfg.Host ∧
      bobURI.Host ≠ emptyEnv.cfg.AccountDomain) ∧
    GetAccountByURI emptyEnv 1 "admin" bobURI false 0 {} =
      .done
        (.error (.errorfW "enrichAccount: error dereferencing account"
          (.errorfW "DereferenceAccountable: error deferencing" (.external 6))))
        [.dbGetAccountByURI bobURI.raw, .dbGetAccountByURL bobURI.raw, .newULID, .timeNow,
          .newTransportForUsername "admin", .dbIsDomainBlocked "remote.example",
          .startHandshake "admin" bobURI, .dereference ⟨0⟩ bobURI,
          .stopHandshake "admin" bobURI] {} :=
  ⟨⟨by decide, by decide, by decide⟩,
    ((placeholder_always_enriched emptyEnv 0 "admin" 0 {}).2.2.1 bobURI false
      .ErrNoEntries .ErrNoEntries (by decide) (by decide) (by decide) rfl rfl rfl rfl).1.trans
      rfl⟩

/-- C3, as stated, fails: the database of `spoofEnv` holds a remote account
whose `url` is on the local host; `GetAccountByURI` on that URL finds the
account, does not take it for a local one, and enriches it, with a webfinger
request and a dereference of the local-host URI through the transport. -/
theorem GetAccountByURI_local_host_uses_transport :
    ¬ ∀ (env : Env) (depth : Nat) (requestUser : String) (uri : URL) (block : Bool)
        (pos : Nat) (t : Tables),
      (uri.Host = env.cfg.Host ∨ uri.Host = env.cfg.AccountDomain) →
      ∀ e ∈ (GetAccountByURI env (depth + 1) requestUser uri block pos t).events,
        e.usesTransport = false := by
  intro h
  have hrun : GetAccountByURI spoofEnv 1 "admin" spoofURI false 0 {} =
      .done (.ok spoofedAlice)
        [.dbGetAccountByURI spoofURI.raw, .dbGetAccountByURL spoofURI.raw, .timeNow,
          .newTransportForUsername "admin", .finger ⟨0⟩ "alice" "remote.example",
          .dbIsDomainBlocked "local.example", .startHandshake "admin" spoofURI,
          .dereference ⟨0⟩ spoofURI, .stopHandshake "admin" spoofURI] {} := rfl
  have h2 := h spoofEnv 0 "admin" spoofURI false 0 {} (Or.inl rfl)
    (.dereference ⟨0⟩ spoofURI) (by rw [hrun]; simp [Outcome.events])
  simp [Event.usesTransport] at h2

/-- C3, amended. For an actor URI whose host is the configured host or account
domain: when no account is stored under that URI or URL, `GetAccountByURI`
returns a NotRetrievable error; when one is stored and it is a local account,
`GetAccountByURI` returns that account; in both cases the run makes no call
but the database lookups. -/
theorem GetAccountByURI_local_host (env : Env) (depth : Nat) (requestUser : String)
    (uri : URL) (block : Bool) (pos : Nat) (t : Tables)
    (hlocal : uri.Host = env.cfg.Host ∨ uri.Host = env.cfg.AccountDomain) :
    (∀ err1 err2, env.dbGetAccountByURI pos uri.raw = .error err1 →
      err1.Is .ErrNoEntries = true →
      env.dbGetAccountByURL (pos + 1) uri.raw = .error err2 →
      err2.Is .ErrNoEntries = true →
      ∃ e, e.isNotRetrievable = true ∧
        GetAccountByURI env (depth + 1) requestUser uri block pos t =
          .done (.error e) [.dbGetAccountByURI uri.raw, .dbGetAccountByURL uri.raw] t) ∧
    (∀ account, env.dbGetAccountByURI pos uri.raw = .ok account →
      account.IsLocal env.cfg = true →
      GetAccountByURI env (depth + 1) requestUser uri block pos t =
        .done (.ok account) [.dbGetAccountByURI uri.raw] t) ∧
    (∀ err1 account, env.dbGetAccountByURI pos uri.raw = .error err1 →
      err1.Is .ErrNoEntries = true →
      env.dbGetAccountByURL (pos + 1) uri.raw = .ok account →
      account.IsLocal env.cfg = true →
      GetAccountByURI env (depth + 1) requestUser uri block pos t =
        .done (.ok account)
          [.dbGetAccountByURI uri.raw, .dbGetAccountByURL uri.raw] t) := by
  have hl : (uri.Host == env.cfg.Host || uri.Host == env.cfg.AccountDomain) = true := by
    rcases hlocal with h | h <;> simp [h]
  refine ⟨?_, ?_, ?_⟩
  · intro err1 err2 h1 hn1 h2 hn2
    rw [GetAccountByURI_succ]
    simp [GetAccountByURIBody, GetAccountByURINew, bind_eq, call_eq, pure_eq, hl, h1, hn1, h2,
      hn2, Err.isNotRetrievable]
  · intro account h1 hloc
    rw [GetAccountByURI_succ]
    simp [GetAccountByURIBody, GetAccountByURIFound, enrichAccount, bind_eq, call_eq, pure_eq,
      h1, hloc]
  · intro err1 account h1 hn1 h2 hloc
    rw [GetAccountByURI_succ]
    simp [GetAccountByURIBody, GetAccountByURIFound, enrichAccount, bind_eq, call_eq, pure_eq,
      h1, hn1, h2, hloc]

/-- C3, amended, at the local account `zork`: found by URI and returned with
no call but the lookup. -/
theorem GetAccountByURI_local_host_witness :
    (zorkURI.Host = zorkEnv.cfg.Host ∨ zorkURI.Host = zorkEnv.cfg.AccountDomain) ∧
    GetAccountByURI zorkEnv 1 "admin" zorkURI false 0 {} =
      .done (.ok localZork) [.dbGetAccountByURI zorkURI.raw] {} :=
  ⟨Or.inl rfl,
    (GetAccountByURI_local_host zorkEnv 0 "admin" zorkURI false 0 {} (Or.inl rfl)).2.1
      localZork rfl (by decide)⟩

/-- C4. For a status URI whose host is the configured host or account domain,
whatever `refetch` and `includeParent` are, no call of a `GetStatus` run uses
or creates a transport: the run returns the stored status with a nil
statusable when one is found by URI or, failing that, by URL, and a
NotRetrievable error when none is found. -/
theorem GetStatus_local_host (env : Env) (depth : Nat) (username : String) (statusURI : URL)
    (refetch includeParent : Bool) (pos : Nat) (t : Tables)
    (hlocal : statusURI.Host = env.cfg.Host ∨ statusURI.Host = env.cfg.AccountDomain) :
    (∀ e ∈ (GetStatus env (depth + 1) username statusURI refetch includeParent pos t).events,
        e.usesTransport = false) ∧
    (∀ found, env.dbGetStatusByURI pos statusURI.raw = .ok found →
      GetStatus env (depth + 1) username statusURI refetch includeParent pos t =
        .done (.ok (found, none)) [.dbGetStatusByURI statusURI.raw] t) ∧
    (∀ err found, env.dbGetStatusByURI pos statusURI.raw = .error err →
      err.Is .ErrNoEntries = true →
      env.dbGetStatusByURL (pos + 1) statusURI.raw = .ok found →
      GetStatus env (depth + 1) username statusURI refetch includeParent pos t =
        .done (.ok (found, none))
          [.dbGetStatusByURI statusURI.raw, .dbGetStatusByURL statusURI.raw] t) ∧
    (∀ err err2, env.dbGetStatusByURI pos statusURI.raw = .error err →
      err.Is .ErrNoEntries = true →
      env.dbGetStatusByURL (pos + 1) statusURI.raw = .error err2 →
      err2.Is .ErrNoEntries = true →
      ∃ e, e.isNotRetrievable = true ∧
        GetStatus env (depth + 1) username statusURI refetch includeParent pos t =
          .done (.error e)
            [.dbGetStatusByURI statusURI.raw, .dbGetStatusByURL statusURI.raw] t) := by
  have hl : (statusURI.Host == env.cfg.Host || statusURI.Host == env.cfg.AccountDomain) = true := by
    rcases hlocal with h | h <;> simp [h]
  refine ⟨?_, ?_, ?_, ?_⟩
  · intro e he
    rw [GetStatus_succ] at he
    rcases h1 : env.dbGetStatusByURI pos statusURI.raw with err | found
    · rcases hn : err.Is .ErrNoEntries
      · simp [GetStatusBody, GetStatusFetch, bind_eq, call_eq, pure_eq, hl, h1, hn,
          Outcome.events] at he
        subst he; rfl
      · rcases h2 : env.dbGetStatusByURL (pos + 1) statusURI.raw with err2 | found2
        · rcases hn2 : err2.Is .ErrNoEntries <;>
            simp [GetStatusBody, GetStatusFetch, bind_eq, call_eq, pure_eq, hl, h1, hn, h2, hn2,
              Outcome.events] at he <;>
            rcases he with he | he <;> subst he <;> rfl
        · cases refetch <;>
            simp [GetStatusBody, GetStatusFetch, bind_eq, call_eq, pure_eq, hl, h1, hn, h2,
              Outcome.events] at he <;>
            rcases he with he | he <;> subst he <;> rfl
    · cases refetch <;>
        simp [GetStatusBody, GetStatusFetch, bind_eq, call_eq, pure_eq, hl, h1,
          Outcome.events] at he <;> subst he <;> rfl
  · intro found h1
    rw [GetStatus_succ]
    cases refetch <;>
      simp [GetStatusBody, GetStatusFetch, bind_eq, call_eq, pure_eq, hl, h1]
  · intro err found h1 hn h2
    rw [GetStatus_succ]
    cases refetch <;>
      simp [GetStatusBody, GetStatusFetch, bind_eq, call_eq, pure_eq, hl, h1, hn, h2]
  · intro err err2 h1 hn h2 hn2
    rw [GetStatus_succ]
    simp [GetStatusBody, GetStatusFetch, bind_eq, call_eq, pure_eq, hl, h1, hn, h2, hn2,
      Err.isNotRetrievable]

/-- C4 at the local status of `zork`, with `refetch = true`: the stored status
is returned with a nil statusable after the single lookup. -/
theorem GetStatus_local_host_witness :
    (zorkStatusURI.Host = zorkStatusEnv.cfg.Host ∨
      zorkStatusURI.Host = zorkStatusEnv.cfg.AccountDomain) ∧
    GetStatus zorkStatusEnv 1 "admin" zorkStatusURI true true 0 {} =
      .done (.ok (zorkStatus, none)) [.dbGetStatusByURI zorkStatusURI.raw] {} :=
  ⟨Or.inl rfl,
    (GetStatus_local_host zorkStatusEnv 0 "admin" zorkStatusURI true true 0 {}
      (Or.inl rfl)).2.1 zorkStatus rfl⟩

/-- C5, as stated, fails: with every domain blocked, `GetStatus` without
refetch on the stored status of `blocked.example` returns that status and no
error. -/
theorem GetStatus_blocked_host_returns_stored :
    ¬ ∀ (env : Env) (depth : Nat) (username : String) (statusURI : URL)
        (refetch includeParent : Bool) (pos : Nat) (t : Tables),
      (∀ i, env.dbIsDomainBlocked i statusURI.Host = .ok true) →
      ∃ e evs t', GetStatus env (depth + 1) username statusURI refetch includeParent pos t =
        .done (.error e) evs t' ∧ e.isBlocked = true := by
  intro h
  obtain ⟨e, evs, t', hrun, -⟩ :=
    h blockedEnv 0 "admin" blockedStatusURI false false 0 {} (fun _ => rfl)
  have hrun2 : GetStatus blockedEnv 1 "admin" blockedStatusURI false false 0 {} =
      .done (.ok (blockedStatus, none)) [.dbGetStatusByURI blockedStatusURI.raw] {} := rfl
  rw [hrun2] at hrun
  simp at hrun

/-- C5, amended. For an identifier whose host is domain-blocked, non-empty and
not the local host.  `GetStatus`: no run issues a network call; when no status
is stored, or when one is stored (found by URI or by URL) and `refetch` is
true, it fails with the blocked-domain error once the transport is created;
when a status is stored and `refetch` is false it returns the stored status.
`GetAccountByURI`: when no account is stored it fails without any network
call, with the blocked-domain error once the transport is created; when an
account is stored (found by URI or by URL) it never returns an error; a stored
account without username is returned as it is, with no network call; a stored
account whose webfinger fails is returned as it is, with nothing dereferenced;
and when the webfinger of a stale stored account answers, the request has gone
out to the domain of the account before the blocklist is consulted, and with an
answer that names the same domain and a URI on a blocked host the run
dereferences nothing and returns the stored account with its URI overwritten
by the answer. -/
theorem blocked_host_no_fetch (env : Env) (depth : Nat) (requestUser : String) (uri : URL)
    (pos : Nat) (t : Tables)
    (hb : ∀ i, env.dbIsDomainBlocked i uri.Host = .ok true)
    (h0 : uri.Host ≠ "") (h1 : uri.Host ≠ env.cfg.Host)
    (h2 : uri.Host ≠ env.cfg.AccountDomain) :
    (∀ refetch includeParent,
      ∀ e ∈ (GetStatus env (depth + 1) requestUser uri refetch includeParent pos t).events,
        e.isNetwork = false) ∧
    (∀ refetch includeParent err1 err2 tsport,
      env.dbGetStatusByURI pos uri.raw = .error err1 → err1.Is .ErrNoEntries = true →
      env.dbGetStatusByURL (pos + 1) uri.raw = .error err2 → err2.Is .ErrNoEntries = true →
      env.newTransportForUsername (pos + 2) requestUser = .ok tsport →
      ∃ e, e.isBlocked = true ∧
        GetStatus env (depth + 1) requestUser uri refetch includeParent pos t =
          .done (.error e)
            [.dbGetStatusByURI uri.raw, .dbGetStatusByURL uri.raw,
              .newTransportForUsername requestUser, .dbIsDomainBlocked uri.Host] t) ∧
    (∀ includeParent found tsport,
      env.dbGetStatusByURI pos uri.raw = .ok found →
      env.newTransportForUsername (pos + 1) requestUser = .ok tsport →
      ∃ e, e.isBlocked = true ∧
        GetStatus env (depth + 1) requestUser uri true includeParent pos t =
          .done (.error e)
            [.dbGetStatusByURI uri.raw, .newTransportForUsername requestUser,
              .dbIsDomainBlocked uri.Host] t) ∧
    (∀ includeParent found err1 tsport,
      env.dbGetStatusByURI pos uri.raw = .error err1 → err1.Is .ErrNoEntries = true →
      env.dbGetStatusByURL (pos + 1) uri.raw = .ok found →
      env.newTransportForUsername (pos + 2) requestUser = .ok tsport →
      ∃ e, e.isBlocked = true ∧
        GetStatus env (depth + 1) requestUser uri true includeParent pos t =
          .done (.error e)
            [.dbGetStatusByURI uri.raw, .dbGetStatusByURL uri.raw,
              .newTransportForUsername requestUser, .dbIsDomainBlocked uri.Host] t) ∧
    (∀ includeParent found,
      env.dbGetStatusByURI pos uri.raw = .ok found →
      GetStatus env (depth + 1) requestUser uri false includeParent pos t =
        .done (.ok (found, none)) [.dbGetStatusByURI uri.raw] t) ∧
    (∀ includeParent found err1,
      env.dbGetStatusByURI pos uri.raw = .error err1 → err1.Is .ErrNoEntries = true →
      env.dbGetStatusByURL (pos + 1) uri.raw = .ok found →
      GetStatus env (depth + 1) requestUser uri false includeParent pos t =
        .done (.ok (found, none))
          [.dbGetStatusByURI uri.raw, .dbGetStatusByURL uri.raw] t) ∧
    (∀ block err1 err2,
      env.dbGetAccountByURI pos uri.raw = .error err1 → err1.Is .ErrNoEntries = true →
      env.dbGetAccountByURL (pos + 1) uri.raw = .error err2 → err2.Is .ErrNoEntries = true →
      ∃ e evs, GetAccountByURI env (depth + 1) requestUser uri block pos t =
          .done (.error e) evs t ∧
        (∀ ev ∈ evs, ev.isNetwork = false) ∧
        (∀ tsport, env.newTransportForUsername (pos + 4) requestUser = .ok tsport →
          e.isBlocked = true)) ∧
    (∀ block account pre,
      ((env.dbGetAccountByURI pos uri.raw = .ok account ∧
          pre = [Event.dbGetAccountByURI uri.raw]) ∨
        ∃ err1, env.dbGetAccountByURI pos uri.raw = .error err1 ∧
          err1.Is .ErrNoEntries = true ∧
          env.dbGetAccountByURL (pos + 1) uri.raw = .ok account ∧
          pre = [Event.dbGetAccountByURI uri.raw, Event.dbGetAccountByURL uri.raw]) →
      (∀ r evs t',
        GetAccountByURI env (depth + 1) requestUser uri block pos t = .done r evs t' →
        ∃ a, r = .ok a) ∧
      (account.Username = "" →
        ∃ evs, GetAccountByURI env (depth + 1) requestUser uri block pos t =
            .done (.ok account) evs t ∧
          ∀ e ∈ evs, e.isNetwork = false) ∧
      ((∀ i tr, ∃ e, env.finger i tr account.Username account.Domain = .error e) →
        ∃ evs, GetAccountByURI env (depth + 1) requestUser uri block pos t =
            .done (.ok account) evs t ∧
          ∀ e ∈ evs, e.isDereference = false) ∧
      (∀ tsport accURI,
        account.Username ≠ "" → account.IsRemote env.cfg = true →
        (!account.CreatedAt.IsZero && account.IsInstance) = false →
        (∀ i, (account.FetchedAt.Add (Hour * 48)).ns ≤ (Time.ofUnixNano (env.timeNow i)).ns) →
        (∀ i, env.newTransportForUsername i requestUser = .ok tsport) →
        (∀ i, env.finger i tsport account.Username account.Domain =
          .ok (account.Domain, accURI)) →
        (∀ i, env.dbIsDomainBlocked i accURI.Host = .ok true) →
        GetAccountByURI env (depth + 1) requestUser uri block pos t =
          .done (.ok { account with URI := accURI.raw, Domain := account.Domain })
            (pre ++ [.timeNow, .newTransportForUsername requestUser,
              .finger tsport account.Username account.Domain,
              .dbIsDomainBlocked accURI.Host]) t)) := by
  have hnl : (uri.Host == env.cfg.Host || uri.Host == env.cfg.AccountDomain) = false := by
    simp [h1, h2]
  refine ⟨?_, ?_, ?_, ?_, ?_, ?_, ?_, ?_⟩
  · intro refetch includeParent
    rw [GetStatus_succ]
    rcases q1 : env.dbGetStatusByURI pos uri.raw with err1 | found
    · rcases hn1 : err1.Is .ErrNoEntries
      · simp [GetStatusBody, bind_eq, call_eq, pure_eq, q1, hn1, Outcome.events,
          Event.isNetwork]
      · rcases q2 : env.dbGetStatusByURL (pos + 1) uri.raw with err2 | found
        · rcases hn2 : err2.Is .ErrNoEntries
          · simp [GetStatusBody, bind_eq, call_eq, pure_eq, q1, hn1, q2, hn2, Outcome.events,
              Event.isNetwork]
          · rcases q3 : env.newTransportForUsername (pos + 2) requestUser with terr | tsport <;>
              simp [GetStatusBody, GetStatusFetch, dereferenceStatusable, blockedOrErr,
                bind_eq, call_eq, pure_eq, q1, hn1, q2, hn2, q3, hnl, hb, Outcome.events,
                Event.isNetwork]
        · cases refetch
          · simp [GetStatusBody, bind_eq, call_eq, pure_eq, q1, hn1, q2, Outcome.events,
              Event.isNetwork]
          · rcases q3 : env.newTransportForUsername (pos + 2) requestUser with terr | tsport <;>
              simp [GetStatusBody, GetStatusFetch, dereferenceStatusable, blockedOrErr,
                bind_eq, call_eq, pure_eq, q1, hn1, q2, q3, hnl, hb, Outcome.events,
                Event.isNetwork]
    · cases refetch
      · simp [GetStatusBody, bind_eq, call_eq, pure_eq, q1, Outcome.events, Event.isNetwork]
      · rcases q3 : env.newTransportForUsername (pos + 1) requestUser with terr | tsport <;>
          simp [GetStatusBody, GetStatusFetch, dereferenceStatusable, blockedOrErr,
            bind_eq, call_eq, pure_eq, q1, q3, hnl, hb, Outcome.events, Event.isNetwork]
  · intro refetch includeParent err1 err2 tsport q1 hn1 q2 hn2 q3
    rw [GetStatus_succ]
    simp [GetStatusBody, GetStatusFetch, dereferenceStatusable, blockedOrErr,
      bind_eq, call_eq, pure_eq, q1, hn1, q2, hn2, q3, hnl, hb, Err.isBlocked]
  · intro includeParent found tsport q1 q3
    rw [GetStatus_succ]
    simp [GetStatusBody, GetStatusFetch, dereferenceStatusable, blockedOrErr,
      bind_eq, call_eq, pure_eq, q1, q3, hnl, hb, Err.isBlocked]
  · intro includeParent found err1 tsport q1 hn1 q2 q3
    rw [GetStatus_succ]
    simp [GetStatusBody, GetStatusFetch, dereferenceStatusable, blockedOrErr,
      bind_eq, call_eq, pure_eq, q1, hn1, q2, q3, hnl, hb, Err.isBlocked]
  · intro includeParent found q1
    rw [GetStatus_succ]
    simp [GetStatusBody, bind_eq, call_eq, pure_eq, q1]
  · intro includeParent found err1 q1 hn1 q2
    rw [GetStatus_succ]
    simp [GetStatusBody, bind_eq, call_eq, pure_eq, q1, hn1, q2]
  · intro block err1 err2 q1 hn1 q2 hn2
    rw [GetAccountByURI_succ,
      GetAccountByURIBody_not_found env _ requestUser uri block pos t err1 err2 h0 h1 h2 q1 hn1
        q2 hn2]
    rcases q3 : env.newTransportForUsername (pos + 4) requestUser with terr | tsport
    · refine ⟨.errorfW "enrichAccount: couldn't create transport" terr,
        [.dbGetAccountByURI uri.raw, .dbGetAccountByURL uri.raw, .newULID, .timeNow,
          .newTransportForUsername requestUser], ?_, ?_, ?_⟩
      · simp [enrichAccountFetch, bind_eq, call_eq, pure_eq, timeNow, q3]
      · simp [Event.isNetwork]
      · intro tsport htr
        cases htr
    · refine ⟨.blocked "enrichAccount" uri.Host,
        [.dbGetAccountByURI uri.raw, .dbGetAccountByURL uri.raw, .newULID, .timeNow,
          .newTransportForUsername requestUser, .dbIsDomainBlocked uri.Host], ?_, ?_, ?_⟩
      · simp [enrichAccountFetch, enrichAccountFinger, enrichAccountURI,
          bind_eq, call_eq, pure_eq, timeNow, q3, hb]
      · simp [Event.isNetwork]
      · intro _ _
        rfl
  · intro block account pre hfound
    obtain ⟨hpre, hlift, hnoerr⟩ := GetAccountByURI_found env depth requestUser uri block pos t
      account pre hfound
    refine ⟨?_, ?_, ?_, ?_⟩
    · intro r evs t' hrun
      rcases r with err | a
      · exact absurd hrun (hnoerr err evs t')
      · exact ⟨a, rfl⟩
    · intro hu
      obtain ⟨r, evs, hrun, hev, hr⟩ := enrichAccount_unchanged_of_fetch env (GetStatus env depth)
        requestUser (some uri) account block (pos + pre.length) t
        (fun e => e.isNetwork = false) rfl
        (fun q => enrichAccountFetch_blocked_no_username env _ requestUser uri account q t hb hu)
      refine ⟨pre ++ evs, hlift _ _ _
        (GetAccountByURIFound_unchanged env _ requestUser uri account block _ t r evs hrun hr),
        ?_⟩
      intro e he
      rcases List.mem_append.1 he with h | h
      · exact (hpre e h).1
      · exact hev e h
    · intro hf
      obtain ⟨r, evs, hrun, hev, hr⟩ := enrichAccount_unchanged_of_fetch env (GetStatus env depth)
        requestUser (some uri) account block (pos + pre.length) t
        (fun e => e.isDereference = false) rfl
        (fun q => enrichAccountFetch_blocked_finger_fails env _ requestUser uri account q t hb
          hf)
      refine ⟨pre ++ evs, hlift _ _ _
        (GetAccountByURIFound_unchanged env _ requestUser uri account block _ t r evs hrun hr),
        ?_⟩
      intro e he
      rcases List.mem_append.1 he with h | h
      · exact (hpre e h).2
      · exact hev e h
    · intro tsport accURI hu hremote hgate hstale htr hfa hba
      refine hlift _ _ _ ?_
      have hE : enrichAccount env (GetStatus env depth) requestUser (some uri) account false
          block (pos + pre.length) t =
          .done ({ account with URI := accURI.raw, Domain := account.Domain },
              .error (.blocked "enrichAccount" accURI.Host))
            ([.timeNow] ++ [.newTransportForUsername requestUser,
              .finger tsport account.Username account.Domain,
              .dbIsDomainBlocked accURI.Host]) t := by
        rw [enrichAccount_stale env _ requestUser (some uri) account block _ t hremote hgate
          (hstale _)]
        exact bind_run (call_eq _ _ _ _)
          (enrichAccountFetch_blocked_finger_answers env _ requestUser (some uri) account _ t
            tsport accURI hu (htr _) (hfa _) (hba _))
      unfold GetAccountByURIFound
      rw [bind_eq, hE]
      simp [pure_eq]

/-- C5, amended, at concrete inputs with every domain blocked: `GetStatus`
with `refetch = true` on the stored status of `blocked.example` fails with the
blocked-domain error after the check and dereferences nothing; and
`GetAccountByURI` on the stored account of eve, whose webfinger answers with a
new URI, sends the webfinger request and returns eve with her URI
overwritten. -/
theorem blocked_host_no_fetch_witness :
    ((∀ i, blockedEnv.dbIsDomainBlocked i blockedStatusURI.Host = .ok true) ∧
      blockedStatusURI.Host ≠ "" ∧ blockedStatusURI.Host ≠ blockedEnv.cfg.Host ∧
      blockedStatusURI.Host ≠ blockedEnv.cfg.AccountDomain) ∧
    (∃ e, e.isBlocked = true ∧
      GetStatus blockedEnv 1 "admin" blockedStatusURI true false 0 {} =
        .done (.error e)
          [.dbGetStatusByURI blockedStatusURI.raw, .newTransportForUsername "admin",
            .dbIsDomainBlocked blockedStatusURI.Host] {}) ∧
    GetAccountByURI eveMovedEnv 1 "admin" eveURI false 0 {} =
      .done (.ok { eveStale with URI := "https://blocked.example/users/eve2" })
        [.dbGetAccountByURI eveURI.raw, .timeNow, .newTransportForUsername "admin",
          .finger ⟨0⟩ "eve" "blocked.example", .dbIsDomainBlocked "blocked.example"] {} :=
  ⟨⟨fun _ => rfl, by decide, by decide, by decide⟩,
    (blocked_host_no_fetch blockedEnv 0 "admin" blockedStatusURI 0 {} (fun _ => rfl)
      (by decide) (by decide) (by decide)).2.2.1 false blockedStatus ⟨0⟩ rfl rfl,
    ((blocked_host_no_fetch eveMovedEnv 0 "admin" eveURI 0 {} (fun _ => rfl)
      (by decide) (by decide) (by decide)).2.2.2.2.2.2.2 false eveStale
        [.dbGetAccountByURI eveURI.raw] (Or.inl ⟨rfl, rfl⟩)).2.2.2 ⟨0⟩ eveMovedURI
      (by decide) (by decide) (by decide)
      (fun _ => (by decide :
        (eveStale.FetchedAt.Add (Hour * 48)).ns ≤ (Time.ofUnixNano 360000000000000).ns))
      (fun _ => rfl) (fun _ => rfl) (fun _ => rfl)⟩

/-- C6, as stated, fails: with every domain blocked, `enrichAccount` on the
stale account `eve@blocked.example`, whose username is known, sends the
webfinger request to `blocked.example` before the blocklist is consulted. -/
theorem enrichAccount_webfinger_before_blocklist :
    ¬ ∀ (env : Env) (getStatus : GetStatusFn) (requestUser : String) (uri : Option URL)
        (account : Account) (force block : Bool) (pos : Nat) (t : Tables)
        (pre : List Event) (ev : Event) (post : List Event),
      (enrichAccount env getStatus requestUser uri account force block pos t).events =
        pre ++ ev :: post →
      ev.isNetwork = true → ∃ host, Event.dbIsDomainBlocked host ∈ pre := by
  intro h
  have hrun : enrichAccount blockedEnv (GetStatus blockedEnv 0) "admin" (some eveURI) eveStale
      false false 0 {} =
      .done (eveStale, .error (.blocked "enrichAccount" "blocked.example"))
        [.timeNow, .newTransportForUsername "admin", .finger ⟨0⟩ "eve" "blocked.example",
          .dbIsDomainBlocked "blocked.example"] {} := rfl
  obtain ⟨host, hmem⟩ := h blockedEnv (GetStatus blockedEnv 0) "admin" (some eveURI) eveStale
    false false 0 {} [.timeNow, .newTransportForUsername "admin"]
    (.finger ⟨0⟩ "eve" "blocked.example") [.dbIsDomainBlocked "blocked.example"]
    (by rw [hrun]; rfl) rfl
  simp at hmem

/-- C6, amended. In every run of `enrichAccount`, either no dereference is
issued at all (and no network call at all when the account has no username),
or the first dereference, which is that of the account document, comes right
after the handshake mark that follows a consultation of the blocklist for the
host of the dereferenced URI, which answered that the host is not blocked;
before that consultation the only network call there can be is the webfinger
request made when a username is known.  So a run in which no consultation of
the blocklist answers "not blocked" dereferences nothing.  The statement is
about the first dereference of the run: it does not extend to the later ones
(the featured collection, account.go 627, and nested resolutions). -/
theorem enrichAccount_blocklist_before_dereference (env : Env) (getStatus : GetStatusFn)
    (requestUser : String) (uri : Option URL) (account : Account) (force block : Bool)
    (pos : Nat) (t : Tables) :
    (((∀ e ∈ (enrichAccount env getStatus requestUser uri account force block pos t).events,
          e.isDereference = false) ∧
        (account.Username = "" →
          ∀ e ∈ (enrichAccount env getStatus requestUser uri account force block pos t).events,
            e.isNetwork = false)) ∨
      ∃ pre tr target rest,
        (enrichAccount env getStatus requestUser uri account force block pos t).events =
          pre ++ .dbIsDomainBlocked target.Host :: .startHandshake requestUser target ::
            .dereference tr target :: rest ∧
        (∀ e ∈ pre, e.isDereference = false) ∧
        (account.Username = "" → ∀ e ∈ pre, e.isNetwork = false) ∧
        env.dbIsDomainBlocked (pos + pre.length) target.Host = .ok false) ∧
    ((∀ pre host rest,
        (enrichAccount env getStatus requestUser uri account force block pos t).events =
          pre ++ .dbIsDomainBlocked host :: rest →
        env.dbIsDomainBlocked (pos + pre.length) host ≠ .ok false) →
      ∀ e ∈ (enrichAccount env getStatus requestUser uri account force block pos t).events,
        e.isDereference = false) := by
  have main : CheckedFirst env requestUser account.Username pos
      (enrichAccount env getStatus requestUser uri account force block pos t).events := by
    unfold enrichAccount
    rcases hl : account.IsLocal env.cfg
    rotate_left
    · simp only [if_true, pure_eq, Outcome.events]
      exact checkedFirst_nil _ _ _ _
    rcases hg : (!account.CreatedAt.IsZero && account.IsInstance)
    rotate_left
    · simp only [Bool.false_eq_true, if_true, if_false, pure_eq, Outcome.events]
      exact checkedFirst_nil _ _ _ _
    cases force
    · simp only [Bool.false_eq_true, if_false, Bool.not_false, if_true, bind_eq, timeNow,
        call_eq]
      rcases hb : (Time.ofUnixNano (env.timeNow pos)).Before
          (account.FetchedAt.Add (Hour * 48))
      · simp only [Bool.false_eq_true, if_false]
        have hf := enrichAccountFetch_checkedFirst env getStatus requestUser uri account
          (pos + [Event.timeNow].length) t
        rcases hfo : enrichAccountFetch env getStatus requestUser uri account
            (pos + [Event.timeNow].length) t with ⟨b, e2, t2⟩ | ⟨e2, t2⟩ | _
        · simp only [hfo, Outcome.events] at hf ⊢
          exact checkedFirst_cons env requestUser account.Username pos Event.timeNow e2
            rfl rfl hf
        · simp only [hfo, Outcome.events] at hf ⊢
          exact checkedFirst_cons env requestUser account.Username pos Event.timeNow e2
            rfl rfl hf
        · simp only [Outcome.events]
          exact checkedFirst_nil _ _ _ _
      · simp only [if_true, pure_eq, Outcome.events, List.append_nil]
        exact checkedFirst_cons env requestUser account.Username pos Event.timeNow []
          rfl rfl (checkedFirst_nil _ _ _ _)
    · simp only [Bool.false_eq_true, if_false, Bool.not_true]
      exact enrichAccountFetch_checkedFirst env getStatus requestUser uri account pos t
  refine ⟨main, ?_⟩
  intro hall
  rcases main with ⟨hd, -⟩ | ⟨pre, tr, target, rest, heq, -, -, hans⟩
  · exact hd
  · exact absurd hans (hall pre target.Host _ heq)

/-- C6, amended, at a concrete input: the blocklist of `blockedEnv` never
answers "not blocked", and the run of `enrichAccount` on the stale account
`eve@blocked.example` dereferences nothing. -/
theorem enrichAccount_blocklist_before_dereference_witness :
    ∀ e ∈ (enrichAccount blockedEnv (GetStatus blockedEnv 0) "admin" (some eveURI) eveStale
        false false 0 {}).events, e.isDereference = false :=
  (enrichAccount_blocklist_before_dereference blockedEnv (GetStatus blockedEnv 0) "admin"
    (some eveURI) eveStale false false 0 {}).2 (fun _ _ _ _ h => by cases h)

/-- C7. With `refetch = false`, a status found by URI or, failing that, by URL
is returned with a nil statusable and no error, the run making no call but the
database lookups (no transport is created, nothing is written); and a run with
`refetch = false` that returns a non-nil statusable found no stored status,
neither by URI nor by URL. -/
theorem GetStatus_stored_no_refetch (env : Env) (depth : Nat) (username : String)
    (statusURI : URL) (includeParent : Bool) (pos : Nat) (t : Tables) :
    (∀ found, env.dbGetStatusByURI pos statusURI.raw = .ok found →
      GetStatus env (depth + 1) username statusURI false includeParent pos t =
        .done (.ok (found, none)) [.dbGetStatusByURI statusURI.raw] t) ∧
    (∀ err found, env.dbGetStatusByURI pos statusURI.raw = .error err →
      err.Is .ErrNoEntries = true →
      env.dbGetStatusByURL (pos + 1) statusURI.raw = .ok found →
      GetStatus env (depth + 1) username statusURI false includeParent pos t =
        .done (.ok (found, none))
          [.dbGetStatusByURI statusURI.raw, .dbGetStatusByURL statusURI.raw] t) ∧
    (∀ st statusable evs t',
      GetStatus env (depth + 1) username statusURI false includeParent pos t =
        .done (.ok (st, some statusable)) evs t' →
      (∃ err1, env.dbGetStatusByURI pos statusURI.raw = .error err1 ∧
        err1.Is .ErrNoEntries = true) ∧
      (∃ err2, env.dbGetStatusByURL (pos + 1) statusURI.raw = .error err2 ∧
        err2.Is .ErrNoEntries = true)) := by
  refine ⟨?_, ?_, ?_⟩
  · intro found h1
    rw [GetStatus_succ]
    simp [GetStatusBody, bind_eq, call_eq, pure_eq, h1]
  · intro err found h1 hn h2
    rw [GetStatus_succ]
    simp [GetStatusBody, bind_eq, call_eq, pure_eq, h1, hn, h2]
  · intro st statusable evs t' hrun
    rw [GetStatus_succ] at hrun
    rcases h1 : env.dbGetStatusByURI pos statusURI.raw with err1 | found
    · rcases hn1 : err1.Is .ErrNoEntries
      · simp [GetStatusBody, bind_eq, call_eq, pure_eq, h1, hn1] at hrun
      · rcases h2 : env.dbGetStatusByURL (pos + 1) statusURI.raw with err2 | found
        · rcases hn2 : err2.Is .ErrNoEntries
          · simp [GetStatusBody, bind_eq, call_eq, pure_eq, h1, hn1, h2, hn2] at hrun
          · exact ⟨⟨err1, rfl, hn1⟩, ⟨err2, rfl, hn2⟩⟩
        · simp [GetStatusBody, bind_eq, call_eq, pure_eq, h1, hn1, h2] at hrun
    · simp [GetStatusBody, bind_eq, call_eq, pure_eq, h1] at hrun

/-- C7 at the stored status of `zork`, found by URI. -/
theorem GetStatus_stored_no_refetch_witness :
    zorkStatusEnv.dbGetStatusByURI 0 zorkStatusURI.raw = .ok zorkStatus ∧
    GetStatus zorkStatusEnv 1 "admin" zorkStatusURI false false 0 {} =
      .done (.ok (zorkStatus, none)) [.dbGetStatusByURI zorkStatusURI.raw] {} :=
  ⟨rfl,
    (GetStatus_stored_no_refetch zorkStatusEnv 0 "admin" zorkStatusURI false 0 {}).1
      zorkStatus rfl⟩

/-- C8, as stated, fails: for the stored status of `zork`, whose URI is on the
local host, `GetStatus` with `refetch = true` returns the status without error
and with a nil statusable. -/
theorem GetStatus_refetch_local_nil_statusable :
    ¬ ∀ (env : Env) (depth : Nat) (username : String) (statusURI : URL)
        (includeParent : Bool) (pos : Nat) (t : Tables) (st : Status)
        (sa : Option Statusable) (evs : List Event) (t' : Tables),
      GetStatus env (depth + 1) username statusURI true includeParent pos t =
        .done (.ok (st, sa)) evs t' →
      sa.isSome = true := by
  intro h
  have hrun : GetStatus zorkStatusEnv 1 "admin" zorkStatusURI true false 0 {} =
      .done (.ok (zorkStatus, none)) [.dbGetStatusByURI zorkStatusURI.raw] {} := rfl
  have h2 := h zorkStatusEnv 0 "admin" zorkStatusURI false 0 {} _ _ _ _ hrun
  simp at h2

/-- C8, amended. With `refetch = true` and a status URI whose host is neither
the configured host nor the account domain, every error-free return of
`GetStatus` carries a non-nil statusable, the one that `dereferenceStatusable`
returned for that URI during the run; for a URI on the local host every
error-free return carries a nil statusable. -/
theorem GetStatus_refetch_statusable (env : Env) (depth : Nat) (username : String)
    (statusURI : URL) (includeParent : Bool) (pos : Nat) (t : Tables) (st : Status)
    (sa : Option Statusable) (evs : List Event) (t' : Tables)
    (hrun : GetStatus env (depth + 1) username statusURI true includeParent pos t =
      .done (.ok (st, sa)) evs t') :
    ((statusURI.Host ≠ env.cfg.Host ∧ statusURI.Host ≠ env.cfg.AccountDomain) →
      ∃ statusable tsport p tb e tb', sa = some statusable ∧
        dereferenceStatusable env tsport statusURI p tb = .done (.ok statusable) e tb') ∧
    ((statusURI.Host = env.cfg.Host ∨ statusURI.Host = env.cfg.AccountDomain) →
      sa = none) := by
  rw [GetStatus_succ] at hrun
  unfold GetStatusBody at hrun
  obtain ⟨a1, e1, t1, r1, -, h1, rfl⟩ := bind_done hrun
  have key : ∃ status p tb evs', GetStatusFetch env (GetAccountByURI env depth)
      (GetStatus env depth) username statusURI true includeParent status p tb =
        .done (.ok (st, sa)) evs' t' := by
    rcases a1 with err1 | found
    · rcases hn1 : err1.Is .ErrNoEntries
      · simp [hn1, pure_eq] at h1
      · simp only [hn1, Bool.not_true, Bool.false_eq_true, if_false] at h1
        obtain ⟨a2, e2, t2, r2, -, h2, rfl⟩ := bind_done h1
        rcases a2 with err2 | found
        · rcases hn2 : err2.Is .ErrNoEntries
          · simp [hn2, pure_eq] at h2
          · simp only [hn2, Bool.not_true, Bool.false_eq_true, if_false] at h2
            exact ⟨_, _, _, _, h2⟩
        · simp only [Bool.not_true, Bool.false_eq_true, if_false] at h2
          exact ⟨_, _, _, _, h2⟩
    · simp only [Bool.not_true, Bool.false_eq_true, if_false] at h1
      exact ⟨_, _, _, _, h1⟩
  obtain ⟨status, p, tb, evs', hk⟩ := key
  constructor
  · intro hnl
    have hb : (statusURI.Host == env.cfg.Host || statusURI.Host == env.cfg.AccountDomain)
        = false := by
      simp [hnl.1, hnl.2]
    exact GetStatusFetch_ok _ _ _ _ _ _ _ _ _ _ _ _ _ _ hb hk
  · intro hlocal
    have hb : (statusURI.Host == env.cfg.Host || statusURI.Host == env.cfg.AccountDomain)
        = true := by
      rcases hlocal with h | h <;> simp [h]
    unfold GetStatusFetch at hk
    simp only [hb, if_true] at hk
    rcases status with _ | found
    · simp [pure_eq] at hk
    · obtain ⟨ha, -, -⟩ := pure_done hk
      simp only [Except.ok.injEq, Prod.mk.injEq] at ha
      exact ha.2

/-- C8, amended, at the stored status of `alice@remote.example`: the refetch
returns the stored status with the Note served by `remote.example`. -/
theorem GetStatus_refetch_statusable_witness :
    GetStatus noteEnv 1 "admin" aliceStatusURI true false 0 {} =
      .done (.ok (aliceStatus, some aliceNote))
        [.dbGetStatusByURI aliceStatusURI.raw, .newTransportForUsername "admin",
          .dbIsDomainBlocked "remote.example", .dereference ⟨0⟩ aliceStatusURI] {} ∧
    ∃ statusable tsport p tb e tb', some aliceNote = some statusable ∧
      dereferenceStatusable noteEnv tsport aliceStatusURI p tb =
        .done (.ok statusable) e tb' :=
  ⟨rfl,
    (GetStatus_refetch_statusable noteEnv 0 "admin" aliceStatusURI false 0 {} aliceStatus
      (some aliceNote) _ _ rfl).1 ⟨by decide, by decide⟩⟩

/-- C9. For a status that is not stored (both lookups answer that there is no
entry) on a host that is not the local one, once the transport is created and
the status document is fetched and names its author: if resolving the author
with `GetAccountByURI` returns an error, `GetStatus` returns an error, and no
call of the run is `PutStatus`. -/
theorem GetStatus_author_failure_no_insert (env : Env) (depth : Nat) (username : String)
    (statusURI : URL) (refetch includeParent : Bool) (pos : Nat) (t : Tables)
    (err1 err2 : Err) (tsport : Transport) (statusable : Statusable) (accountURI : URL)
    (evsD : List Event) (tD : Tables) (errA : Err) (evsA : List Event) (tA : Tables)
    (q1 : env.dbGetStatusByURI pos statusURI.raw = .error err1)
    (hn1 : err1.Is .ErrNoEntries = true)
    (q2 : env.dbGetStatusByURL (pos + 1) statusURI.raw = .error err2)
    (hn2 : err2.Is .ErrNoEntries = true)
    (hnl : (statusURI.Host == env.cfg.Host || statusURI.Host == env.cfg.AccountDomain) = false)
    (q3 : env.newTransportForUsername (pos + 2) username = .ok tsport)
    (hd : dereferenceStatusable env tsport statusURI (pos + 3) t = .done (.ok statusable) evsD tD)
    (hat : env.extractAttributedTo statusable = .ok accountURI)
    (hacc : GetAccountByURI env depth username accountURI true (pos + 3 + evsD.length) tD =
      .done (.error errA) evsA tA) :
    GetStatus env (depth + 1) username statusURI refetch includeParent pos t =
      .done (.error (.ErrOther (.errorf "GetRemoteStatus: couldn't get status author")))
        (.dbGetStatusByURI statusURI.raw :: .dbGetStatusByURL statusURI.raw ::
          .newTransportForUsername username :: (evsD ++ evsA)) tA ∧
    ∀ e ∈ (GetStatus env (depth + 1) username statusURI refetch includeParent pos t).events,
      e.isPutStatus = false := by
  have hrun : GetStatus env (depth + 1) username statusURI refetch includeParent pos t =
      .done (.error (.ErrOther (.errorf "GetRemoteStatus: couldn't get status author")))
        (.dbGetStatusByURI statusURI.raw :: .dbGetStatusByURL statusURI.raw ::
          .newTransportForUsername username :: (evsD ++ evsA)) tA := by
    rw [GetStatus_succ]
    simp [GetStatusBody, GetStatusFetch, GetStatusNew, bind_eq, call_eq, pure_eq, q1, hn1, q2,
      hn2, q3, hnl, hd, hat, hacc]
  refine ⟨hrun, ?_⟩
  rw [hrun]
  intro e he
  simp only [Outcome.events, List.mem_cons, List.mem_append] at he
  rcases he with rfl | rfl | rfl | he | he
  · rfl
  · rfl
  · rfl
  · exact emits_done (dereferenceStatusable_noPut env tsport statusURI) hd e he
  · exact GetAccountByURI_error_noPut _ _ _ _ _ _ _ _ _ _ hacc e he

/-- C9 at a concrete input: the Note at `bobNoteURI` is not stored and names
the actor `bobURI`, whose document cannot be fetched; resolving the author
fails, and so does `GetStatus`, without a call to `PutStatus`. -/
theorem GetStatus_author_failure_no_insert_witness :
    (orphanNoteEnv.dbGetStatusByURI 0 bobNoteURI.raw = .error .ErrNoEntries ∧
      orphanNoteEnv.dbGetStatusByURL 1 bobNoteURI.raw = .error .ErrNoEntries ∧
      dereferenceStatusable orphanNoteEnv ⟨0⟩ bobNoteURI 3 {} =
        .done (.ok bobNote)
          [.dbIsDomainBlocked "remote.example", .dereference ⟨0⟩ bobNoteURI] {} ∧
      orphanNoteEnv.extractAttributedTo bobNote = .ok bobURI ∧
      GetAccountByURI orphanNoteEnv 1 "admin" bobURI true 5 {} =
        .done
          (.error (.errorfW "enrichAccount: error dereferencing account"
            (.errorfW "DereferenceAccountable: error deferencing" (.external 6))))
          [.dbGetAccountByURI bobURI.raw, .dbGetAccountByURL bobURI.raw, .newULID, .timeNow,
            .newTransportForUsername "admin", .dbIsDomainBlocked "remote.example",
            .startHandshake "admin" bobURI, .dereference ⟨0⟩ bobURI,
            .stopHandshake "admin" bobURI] {}) ∧
    GetStatus orphanNoteEnv 2 "admin" bobNoteURI false false 0 {} =
      .done (.error (.ErrOther (.errorf "GetRemoteStatus: couldn't get status author")))
        (.dbGetStatusByURI bobNoteURI.raw :: .dbGetStatusByURL bobNoteURI.raw ::
          .newTransportForUsername "admin" ::
          ([.dbIsDomainBlocked "remote.example", .dereference ⟨0⟩ bobNoteURI] ++
            [.dbGetAccountByURI bobURI.raw, .dbGetAccountByURL bobURI.raw, .newULID, .timeNow,
              .newTransportForUsername "admin", .dbIsDomainBlocked "remote.example",
              .startHandshake "admin" bobURI, .dereference ⟨0⟩ bobURI,
              .stopHandshake "admin" bobURI])) {} ∧
    ∀ e ∈ (GetStatus orphanNoteEnv 2 "admin" bobNoteURI false false 0 {}).events,
      e.isPutStatus = false :=
  ⟨⟨rfl, rfl, rfl, rfl, rfl⟩,
    GetStatus_author_failure_no_insert orphanNoteEnv 1 "admin" bobNoteURI false false 0 {}
      .ErrNoEntries .ErrNoEntries ⟨0⟩ bobNote bobURI
      [.dbIsDomainBlocked "remote.example", .dereference ⟨0⟩ bobNoteURI] {}
      (.errorfW "enrichAccount: error dereferencing account"
        (.errorfW "DereferenceAccountable: error deferencing" (.external 6)))
      [.dbGetAccountByURI bobURI.raw, .dbGetAccountByURL bobURI.raw, .newULID, .timeNow,
        .newTransportForUsername "admin", .dbIsDomainBlocked "remote.example",
        .startHandshake "admin" bobURI, .dereference ⟨0⟩ bobURI,
        .stopHandshake "admin" bobURI] {}
      rfl rfl rfl rfl rfl rfl rfl rfl rfl⟩

/-- C10. When the previously known emojis are at hand (`maybeEmojis`, loaded
from the database if the account carried only their IDs) and `populateEmojis`
resolves them to `gotEmojis`, `fetchRemoteAccountEmojis` returns no error and
a flag `changed`, which is false exactly when both lists are empty, or they
have the same length, every previously known emoji has its URI among the new
ones, and every new emoji has the URI and the ID of a previously known one.
The account is given the new emojis and their IDs exactly when `changed`. -/
theorem fetchRemoteAccountEmojis_changed_iff (env : Env) (targetAccount : Account)
    (requestingUsername : String) (pos : Nat) (t : Tables) (maybeEmojis : List Emoji)
    (evsM : List Event) (tM : Tables) (gotEmojis : List Emoji)
    (hm : maybeEmojisOf env targetAccount pos t = .done (.ok maybeEmojis) evsM tM)
    (hg : env.populateEmojis (pos + evsM.length) maybeEmojis requestingUsername =
      .ok gotEmojis) :
    ∃ changed : Bool,
      fetchRemoteAccountEmojis env targetAccount requestingUsername pos t =
        .done
          (if changed then
              { targetAccount with
                Emojis := gotEmojis, EmojiIDs := gotEmojis.map fun e => e.ID }
            else targetAccount,
            .ok changed)
          (evsM ++ [.populateEmojis maybeEmojis requestingUsername]) tM ∧
      (changed = false ↔
        (maybeEmojis = [] ∧ gotEmojis = []) ∨
        (maybeEmojis.length = gotEmojis.length ∧
          (∀ m ∈ maybeEmojis, ∃ g ∈ gotEmojis, m.URI = g.URI) ∧
          (∀ g ∈ gotEmojis, ∃ m ∈ maybeEmojis, g.URI = m.URI ∧ g.ID = m.ID))) := by
  refine ⟨(compareEmojis targetAccount maybeEmojis gotEmojis
    (gotEmojis.map fun e => e.ID)).2, ?_, compareEmojis_unchanged _ _ _ _⟩
  have hacc : (compareEmojis targetAccount maybeEmojis gotEmojis
      (gotEmojis.map fun e => e.ID)).1 =
      if (compareEmojis targetAccount maybeEmojis gotEmojis
          (gotEmojis.map fun e => e.ID)).2 = true then
        { targetAccount with Emojis := gotEmojis, EmojiIDs := gotEmojis.map fun e => e.ID }
      else targetAccount := by
    unfold compareEmojis
    simp only []
    split_ifs <;> simp_all
  rw [← hacc]
  unfold fetchRemoteAccountEmojis
  simp only [bind_eq, hm, call_eq, hg, pure_eq, List.append_nil]

/-- C10 at a concrete input: the account carries the stored emoji `:blob:`,
which is resolved to itself; the flag obeys the equivalence there. -/
theorem fetchRemoteAccountEmojis_changed_iff_witness :
    (maybeEmojisOf emojiEnv { Emojis := [blobEmoji], EmojiIDs := ["01EM"] } 0 {} =
        .done (.ok [blobEmoji]) [] {} ∧
      emojiEnv.populateEmojis 0 [blobEmoji] "admin" = .ok [blobEmoji]) ∧
    ∃ changed : Bool,
      fetchRemoteAccountEmojis emojiEnv { Emojis := [blobEmoji], EmojiIDs := ["01EM"] }
          "admin" 0 {} =
        .done
          (if changed then
              { ({ Emojis := [blobEmoji], EmojiIDs := ["01EM"] } : Account) with
                Emojis := [blobEmoji], EmojiIDs := [blobEmoji].map fun e => e.ID }
            else { Emojis := [blobEmoji], EmojiIDs := ["01EM"] },
            .ok changed)
          ([] ++ [.populateEmojis [blobEmoji] "admin"]) {} ∧
      (changed = false ↔
        ([blobEmoji] = [] ∧ [blobEmoji] = []) ∨
        ([blobEmoji].length = [blobEmoji].length ∧
          (∀ m ∈ [blobEmoji], ∃ g ∈ [blobEmoji], m.URI = g.URI) ∧
          (∀ g ∈ [blobEmoji], ∃ m ∈ [blobEmoji], g.URI = m.URI ∧ g.ID = m.ID))) :=
  ⟨⟨rfl, rfl⟩,
    fetchRemoteAccountEmojis_changed_iff emojiEnv { Emojis := [blobEmoji], EmojiIDs := ["01EM"] }
      "admin" 0 {} [blobEmoji] [] {} [blobEmoji] rfl rfl⟩

/-- C11, as stated, fails: the account carries the emoji `:blob:` without an
ID, and it is resolved to the stored emoji of the same URI; the two lists hold
the same URIs, and `fetchRemoteAccountEmojis` returns `changed = true`. -/
theorem fetchRemoteAccountEmojis_same_uris_changed :
    ¬ ∀ (env : Env) (targetAccount : Account) (requestingUsername : String) (pos : Nat)
        (t : Tables) (maybeEmojis : List Emoji) (evsM : List Event) (tM : Tables)
        (gotEmojis : List Emoji),
      maybeEmojisOf env targetAccount pos t = .done (.ok maybeEmojis) evsM tM →
      env.populateEmojis (pos + evsM.length) maybeEmojis requestingUsername = .ok gotEmojis →
      (∀ u, u ∈ maybeEmojis.map (fun e => e.URI) ↔ u ∈ gotEmojis.map (fun e => e.URI)) →
      ∃ acct evs t', fetchRemoteAccountEmojis env targetAccount requestingUsername pos t =
        .done (acct, .ok false) evs t' := by
  intro h
  obtain ⟨acct, evs, t', hrun⟩ := h emojiEnv { Emojis := [blobEmojiNoID] } "admin" 0 {}
    [blobEmojiNoID] [] {} [blobEmoji] rfl rfl (fun _ => Iff.rfl)
  have hrun2 : fetchRemoteAccountEmojis emojiEnv { Emojis := [blobEmojiNoID] } "admin" 0 {} =
      .done ({ Emojis := [blobEmoji], EmojiIDs := ["01EM"] }, .ok true)
        [.populateEmojis [blobEmojiNoID] "admin"] {} := rfl
  rw [hrun2] at hrun
  simp at hrun

/-- C11, amended. When the previously known emojis and the newly resolved ones
are as many, hold the same URIs, and every new emoji has the URI and the ID of
a previously known one, `fetchRemoteAccountEmojis` returns `changed = false`
and leaves the account as it was. -/
theorem fetchRemoteAccountEmojis_same_emojis_unchanged (env : Env) (targetAccount : Account)
    (requestingUsername : String) (pos : Nat) (t : Tables) (maybeEmojis : List Emoji)
    (evsM : List Event) (tM : Tables) (gotEmojis : List Emoji)
    (hm : maybeEmojisOf env targetAccount pos t = .done (.ok maybeEmojis) evsM tM)
    (hg : env.populateEmojis (pos + evsM.length) maybeEmojis requestingUsername =
      .ok gotEmojis)
    (hlen : maybeEmojis.length = gotEmojis.length)
    (huri : ∀ u, u ∈ maybeEmojis.map (fun e => e.URI) ↔ u ∈ gotEmojis.map (fun e => e.URI))
    (hid : ∀ g ∈ gotEmojis, ∃ m ∈ maybeEmojis, g.URI = m.URI ∧ g.ID = m.ID) :
    fetchRemoteAccountEmojis env targetAccount requestingUsername pos t =
      .done (targetAccount, .ok false)
        (evsM ++ [.populateEmojis maybeEmojis requestingUsername]) tM := by
  have hc : (compareEmojis targetAccount maybeEmojis gotEmojis
      (gotEmojis.map fun e => e.ID)).2 = false := by
    rw [compareEmojis_unchanged]
    right
    refine ⟨hlen, ?_, hid⟩
    intro m hm'
    have := (huri m.URI).1 (List.mem_map.2 ⟨m, hm', rfl⟩)
    obtain ⟨g, hg', hgu⟩ := List.mem_map.1 this
    exact ⟨g, hg', hgu.symm⟩
  have ha : (compareEmojis targetAccount maybeEmojis gotEmojis
      (gotEmojis.map fun e => e.ID)).1 = targetAccount := by
    have hc2 := hc
    unfold compareEmojis at hc2 ⊢
    simp only [] at hc2 ⊢
    split_ifs at hc2 ⊢ <;> simp_all
  unfold fetchRemoteAccountEmojis
  simp only [bind_eq, hm, call_eq, hg, pure_eq, List.append_nil, hc, ha]

/-- C11, amended, at previous `[a, b]` resolved to the same `[a, b]`. -/
theorem fetchRemoteAccountEmojis_same_emojis_unchanged_witness :
    (maybeEmojisOf sameEmojiEnv { Emojis := [emojiA, emojiB], EmojiIDs := ["01EA", "01EB"] }
        0 {} = .done (.ok [emojiA, emojiB]) [] {} ∧
      sameEmojiEnv.populateEmojis 0 [emojiA, emojiB] "admin" = .ok [emojiA, emojiB]) ∧
    fetchRemoteAccountEmojis sameEmojiEnv
        { Emojis := [emojiA, emojiB], EmojiIDs := ["01EA", "01EB"] } "admin" 0 {} =
      .done ({ Emojis := [emojiA, emojiB], EmojiIDs := ["01EA", "01EB"] }, .ok false)
        ([] ++ [.populateEmojis [emojiA, emojiB] "admin"]) {} :=
  ⟨⟨rfl, rfl⟩,
    fetchRemoteAccountEmojis_same_emojis_unchanged sameEmojiEnv
      { Emojis := [emojiA, emojiB], EmojiIDs := ["01EA", "01EB"] } "admin" 0 {}
      [emojiA, emojiB] [] {} [emojiA, emojiB] rfl rfl rfl (fun _ => Iff.rfl)
      (by decide)⟩

/-- C12. In every run of `fetchRemoteAccountEmojis` that returns: when the
result is `changed = true`, the account is the one it was given with `Emojis`
replaced by the list that `populateEmojis` answered and `EmojiIDs` by the IDs
of that list, in order; when the result is `changed = false` or an error, the
account is exactly the one it was given. -/
theorem fetchRemoteAccountEmojis_whole_set (env : Env) (targetAccount : Account)
    (requestingUsername : String) (pos : Nat) (t : Tables) (acct : Account) (r : Res Bool)
    (evs : List Event) (t' : Tables)
    (hrun : fetchRemoteAccountEmojis env targetAccount requestingUsername pos t =
      .done (acct, r) evs t') :
    (r = .ok true →
      ∃ maybeEmojis evsM gotEmojis,
        maybeEmojisOf env targetAccount pos t = .done (.ok maybeEmojis) evsM t' ∧
        env.populateEmojis (pos + evsM.length) maybeEmojis requestingUsername =
          .ok gotEmojis ∧
        acct = { targetAccount with
          Emojis := gotEmojis, EmojiIDs := gotEmojis.map fun e => e.ID }) ∧
    (r ≠ .ok true → acct = targetAccount) := by
  unfold fetchRemoteAccountEmojis at hrun
  obtain ⟨a1, e1, t1, r1, hm, h1, rfl⟩ := bind_done hrun
  rcases a1 with err | maybeEmojis
  · obtain ⟨ha, -, -⟩ := pure_done h1
    simp only [Prod.mk.injEq] at ha
    obtain ⟨rfl, rfl⟩ := ha
    exact ⟨fun h => (by cases h), fun _ => rfl⟩
  · obtain ⟨a2, e2, t2, r2, hc, h2, rfl⟩ := bind_done h1
    obtain ⟨hans, rfl, rfl⟩ := call_done hc
    rcases a2 with err | gotEmojis
    · obtain ⟨ha, -, -⟩ := pure_done h2
      simp only [Prod.mk.injEq] at ha
      obtain ⟨rfl, rfl⟩ := ha
      exact ⟨fun h => (by cases h), fun _ => rfl⟩
    · obtain ⟨ha, -, rfl⟩ := pure_done h2
      simp only [Prod.mk.injEq] at ha
      obtain ⟨rfl, rfl⟩ := ha
      have hacc : ∀ b, (compareEmojis targetAccount maybeEmojis gotEmojis
          (gotEmojis.map fun e => e.ID)).2 = b →
          (compareEmojis targetAccount maybeEmojis gotEmojis
            (gotEmojis.map fun e => e.ID)).1 =
          if b = true then
            { targetAccount with
              Emojis := gotEmojis, EmojiIDs := gotEmojis.map fun e => e.ID }
          else targetAccount := by
        intro b hb
        subst hb
        unfold compareEmojis
        simp only []
        split_ifs <;> simp_all
      constructor
      · intro hr
        simp only [Except.ok.injEq] at hr
        refine ⟨maybeEmojis, e1, gotEmojis, hm, hans.symm, ?_⟩
        rw [hacc true hr]
        simp
      · intro hr
        have hf : (compareEmojis targetAccount maybeEmojis gotEmojis
            (gotEmojis.map fun e => e.ID)).2 = false :=
          Bool.eq_false_iff.2 (fun hb => hr (congrArg Except.ok hb))
        rw [hacc false hf]
        simp

/-- C12 at previous `[a, b]` resolved to `[a, c]`: the result is
`changed = true` and the account holds exactly `[a, c]` and their IDs. -/
theorem fetchRemoteAccountEmojis_whole_set_witness :
    fetchRemoteAccountEmojis swapEmojiEnv
        { Emojis := [emojiA, emojiB], EmojiIDs := ["01EA", "01EB"] } "admin" 0 {} =
      .done ({ Emojis := [emojiA, emojiC], EmojiIDs := ["01EA", "01EC"] }, .ok true)
        [.populateEmojis [emojiA, emojiB] "admin"] {} ∧
    ((Except.ok true : Res Bool) = .ok true →
      ∃ maybeEmojis evsM gotEmojis,
        maybeEmojisOf swapEmojiEnv { Emojis := [emojiA, emojiB], EmojiIDs := ["01EA", "01EB"] }
          0 {} = .done (.ok maybeEmojis) evsM {} ∧
        swapEmojiEnv.populateEmojis (0 + evsM.length) maybeEmojis "admin" = .ok gotEmojis ∧
        ({ Emojis := [emojiA, emojiC], EmojiIDs := ["01EA", "01EC"] } : Account) =
          { ({ Emojis := [emojiA, emojiB], EmojiIDs := ["01EA", "01EB"] } : Account) with
            Emojis := gotEmojis, EmojiIDs := gotEmojis.map fun e => e.ID }) ∧
    ((Except.ok true : Res Bool) ≠ .ok true →
      ({ Emojis := [emojiA, emojiC], EmojiIDs := ["01EA", "01EC"] } : Account) =
        { Emojis := [emojiA, emojiB], EmojiIDs := ["01EA", "01EB"] }) :=
  ⟨rfl,
    fetchRemoteAccountEmojis_whole_set swapEmojiEnv
      { Emojis := [emojiA, emojiB], EmojiIDs := ["01EA", "01EB"] } "admin" 0 {}
      { Emojis := [emojiA, emojiC], EmojiIDs := ["01EA", "01EC"] } (.ok true)
      [.populateEmojis [emojiA, emojiB] "admin"] {} rfl⟩

/-- C13. Take a run of `fetchRemoteAccountFeatured` for the account
`accountID` that returns nil, where the document fetched from the collection
URI decodes to an ordered collection with the items `items`, `wasPinned` are
the previously pinned statuses that the database answers (none when it has no
entry), and every `UpdateStatus` succeeds.  Suppose that `GetStatus` answers
for each listed URI what `resolve` says, whenever it is asked, without
updating a status; that a previously pinned status resolves as pinned; and
that previously pinned statuses with one ID have one URI.  Then, in the
`pinned_at` column after the run: a previously pinned status whose URI is
listed keeps its entry; a previously pinned status whose URI is not listed has
a zero entry; a listed URI that resolves to a status that was not pinned,
belongs to the account and is not a boost has a non-zero entry; and every
other entry is as it was. -/
theorem fetchRemoteAccountFeatured_pinned_set (env : Env) (getStatus : GetStatusFn)
    (requestingUsername featuredCollectionURI accountID : String) (pos : Nat) (t : Tables)
    (evs : List Event) (t' : Tables)
    (uri : URL) (tsport : Transport) (b : Bytes) (m : JsonMap) (ty : VType) (items : List Item)
    (wasPinned : List Status)
    (resolve : URL → Res (Status × Option Statusable)) (col : String → Time)
    (hparse : env.urlParse featuredCollectionURI = .ok uri)
    (htr : env.newTransportForUsername pos requestingUsername = .ok tsport)
    (hderef : env.dereference (pos + 1) tsport uri = .ok b)
    (hjson : env.jsonUnmarshal b = .ok m)
    (htype : env.toType m = .ok ty)
    (hitems : ty.orderedItems = some items)
    (hwas : wasPinned =
      match env.dbGetAccountPinnedStatuses (pos + 2) accountID with
      | .ok stored => stored
      | .error _ => [])
    (hrun : fetchRemoteAccountFeatured env getStatus requestingUsername featuredCollectionURI
      accountID pos t = .done none evs t')
    (hupd : ∀ i s cols, env.dbUpdateStatus i s cols = none)
    (hres : ∀ u ∈ extractedURIs uri items, ∀ p tb, ∃ e tb',
      getStatus requestingUsername u false false p tb = .done (resolve u) e tb' ∧
      ∀ ev ∈ e, ev.isUpdateStatus = false)
    (hpinned : ∀ u ∈ extractedURIs uri items, ∀ status sa, resolve u = .ok (status, sa) →
      ∀ s ∈ wasPinned, s.ID = status.ID → status.PinnedAt.IsZero = false)
    (hkey : ∀ s1 ∈ wasPinned, ∀ s2 ∈ wasPinned, s1.ID = s2.ID → s1.URI = s2.URI) :
    (∀ s ∈ wasPinned, isListed (extractedURIs uri items) s = true →
      pinColumnAfter env pos evs col s.ID = col s.ID) ∧
    (∀ s ∈ wasPinned, isListed (extractedURIs uri items) s = false →
      pinColumnAfter env pos evs col s.ID = Time.zero) ∧
    (∀ u ∈ extractedURIs uri items, ∀ status sa, resolve u = .ok (status, sa) →
      pinEligible accountID status = true →
      (pinColumnAfter env pos evs col status.ID).IsZero = false) ∧
    (∀ id,
      (∀ s ∈ wasPinned, isListed (extractedURIs uri items) s = false → s.ID ≠ id) →
      (∀ u ∈ extractedURIs uri items, ∀ status sa, resolve u = .ok (status, sa) →
        pinEligible accountID status = true → status.ID ≠ id) →
      pinColumnAfter env pos evs col id = col id) := by
  obtain ⟨evsR, rfl, hR⟩ := fetchRemoteAccountFeatured_nil env getStatus requestingUsername
    featuredCollectionURI accountID pos t evs t' uri tsport b m ty items hparse htr hderef
    hjson htype hitems hrun
  rw [← hwas] at hR
  have hcol : ∀ id, pinColumnAfter env pos
      (.newTransportForUsername requestingUsername :: .dereference tsport uri ::
        .dbGetAccountPinnedStatuses accountID :: evsR) col id =
      pinColumnAfter env (pos + 3) evsR col id := fun _ => rfl
  simp only [hcol]
  exact featuredReconcile_pinColumn env getStatus requestingUsername uri accountID items
    wasPinned (pos + 3) t evsR t' resolve col hR hupd hres hpinned hkey

/-- C13 at the previous pins P1 and P2 of alice and her collection listing P2
and P3 (and P4 of bob, and a status on another host): the run returns nil, and
afterwards P1 is unpinned, P2 is pinned as before, P3 is pinned, and P4 is
not. -/
theorem fetchRemoteAccountFeatured_pinned_set_witness :
    fetchRemoteAccountFeatured pinEnv (GetStatus pinEnv 1) "admin" featuredURI.raw "01A" 0 {} =
      .done none
        [.newTransportForUsername "admin", .dereference ⟨0⟩ featuredURI,
          .dbGetAccountPinnedStatuses "01A", .dbGetStatusByURI p2URI.raw,
          .dbGetStatusByURI p3URI.raw, .timeNow,
          .dbUpdateStatus { statusP3 with PinnedAt := Time.ofUnixNano 360000000000000 }
            ["pinned_at"],
          .dbGetStatusByURI p4URI.raw, unpinCall statusP1] {} ∧
    pinColumnAfter pinEnv 0
        [.newTransportForUsername "admin", .dereference ⟨0⟩ featuredURI,
          .dbGetAccountPinnedStatuses "01A", .dbGetStatusByURI p2URI.raw,
          .dbGetStatusByURI p3URI.raw, .timeNow,
          .dbUpdateStatus { statusP3 with PinnedAt := Time.ofUnixNano 360000000000000 }
            ["pinned_at"],
          .dbGetStatusByURI p4URI.raw, unpinCall statusP1] pinColumn "01P1" = Time.zero ∧
    pinColumnAfter pinEnv 0
        [.newTransportForUsername "admin", .dereference ⟨0⟩ featuredURI,
          .dbGetAccountPinnedStatuses "01A", .dbGetStatusByURI p2URI.raw,
          .dbGetStatusByURI p3URI.raw, .timeNow,
          .dbUpdateStatus { statusP3 with PinnedAt := Time.ofUnixNano 360000000000000 }
            ["pinned_at"],
          .dbGetStatusByURI p4URI.raw, unpinCall statusP1] pinColumn "01P2" = ⟨2⟩ ∧
    (pinColumnAfter pinEnv 0
        [.newTransportForUsername "admin", .dereference ⟨0⟩ featuredURI,
          .dbGetAccountPinnedStatuses "01A", .dbGetStatusByURI p2URI.raw,
          .dbGetStatusByURI p3URI.raw, .timeNow,
          .dbUpdateStatus { statusP3 with PinnedAt := Time.ofUnixNano 360000000000000 }
            ["pinned_at"],
          .dbGetStatusByURI p4URI.raw, unpinCall statusP1] pinColumn "01P3").IsZero = false ∧
    pinColumnAfter pinEnv 0
        [.newTransportForUsername "admin", .dereference ⟨0⟩ featuredURI,
          .dbGetAccountPinnedStatuses "01A", .dbGetStatusByURI p2URI.raw,
          .dbGetStatusByURI p3URI.raw, .timeNow,
          .dbUpdateStatus { statusP3 with PinnedAt := Time.ofUnixNano 360000000000000 }
            ["pinned_at"],
          .dbGetStatusByURI p4URI.raw, unpinCall statusP1] pinColumn "01P4" = Time.zero := by
  have hext : extractedURIs featuredURI featuredItems = [p2URI, p3URI, p4URI] := by decide
  have h := fetchRemoteAccountFeatured_pinned_set pinEnv (GetStatus pinEnv 1) "admin"
    featuredURI.raw "01A" 0 {}
    [.newTransportForUsername "admin", .dereference ⟨0⟩ featuredURI,
      .dbGetAccountPinnedStatuses "01A", .dbGetStatusByURI p2URI.raw,
      .dbGetStatusByURI p3URI.raw, .timeNow,
      .dbUpdateStatus { statusP3 with PinnedAt := Time.ofUnixNano 360000000000000 }
        ["pinned_at"],
      .dbGetStatusByURI p4URI.raw, unpinCall statusP1] {}
    featuredURI ⟨0⟩ [5] ⟨5⟩ featuredCollection featuredItems [statusP1, statusP2]
    pinResolve pinColumn rfl rfl rfl rfl rfl rfl rfl rfl
    (fun _ _ _ => rfl)
    (by
      intro u hu p tb
      rw [hext] at hu
      simp only [List.mem_cons, List.mem_singleton, List.not_mem_nil, or_false] at hu
      rcases hu with rfl | rfl | rfl
      · exact ⟨[.dbGetStatusByURI p2URI.raw], tb, rfl, by simp [Event.isUpdateStatus]⟩
      · exact ⟨[.dbGetStatusByURI p3URI.raw], tb, rfl, by simp [Event.isUpdateStatus]⟩
      · exact ⟨[.dbGetStatusByURI p4URI.raw], tb, rfl, by simp [Event.isUpdateStatus]⟩)
    (by
      intro u hu status sa hr s hs heq
      rw [hext] at hu
      simp only [List.mem_cons, List.mem_singleton, List.not_mem_nil, or_false] at hu hs
      rcases hu with rfl | rfl | rfl <;> cases hr <;> rcases hs with rfl | rfl <;>
        first | rfl | exact absurd heq (by decide))
    (by
      intro s1 hs1 s2 hs2 heq
      simp only [List.mem_cons, List.mem_singleton, List.not_mem_nil, or_false] at hs1 hs2
      rcases hs1 with rfl | rfl <;> rcases hs2 with rfl | rfl <;>
        first | rfl | exact absurd heq (by decide))
  refine ⟨rfl, ?_, ?_, ?_, ?_⟩
  · exact h.2.1 statusP1 (by simp) (by decide)
  · exact h.1 statusP2 (by simp) (by decide)
  · exact h.2.2.1 p3URI (by rw [hext]; simp) statusP3 none rfl (by decide)
  · exact h.2.2.2 "01P4" (by decide) (by
      intro u hu status sa hr hel
      rw [hext] at hu
      simp only [List.mem_cons, List.mem_singleton, List.not_mem_nil, or_false] at hu
      rcases hu with rfl | rfl | rfl <;> cases hr <;> first | decide | cases hel)

/-- C14. Every call made by `fetchRemoteAccountFeatured` for the account
`accountID` that stores a non-zero `PinnedAt` on a status is either a call of
the nested `GetStatus` of a listed URI, or the update of a status that was
listed by the collection on its own host, was resolved by `GetStatus`, was not
pinned, has `AccountID = accountID` and an empty `BoostOfID`; the update stores
the column `pinned_at` only.  The same holds of the two loops (lines 662-755)
for any list of items. -/
theorem featured_pins_only_own_unpinned_originals (env : Env) (getStatus : GetStatusFn)
    (requestingUsername : String) :
    (∀ featuredCollectionURI accountID pos t,
      ∀ e ∈ (fetchRemoteAccountFeatured env getStatus requestingUsername featuredCollectionURI
          accountID pos t).events,
        PinJustified getStatus requestingUsername accountID
          (ListedAt env featuredCollectionURI) e) ∧
    (∀ uri accountID items wasPinned pos t,
      ∀ e ∈ (featuredReconcile env getStatus requestingUsername uri accountID items wasPinned
          pos t).events,
        PinJustified getStatus requestingUsername accountID
          (fun u => u ∈ extractedURIs uri items) e) :=
  ⟨fun featuredCollectionURI accountID pos t e he =>
      fetchRemoteAccountFeatured_justified env getStatus requestingUsername
        featuredCollectionURI accountID pos t e he,
    fun uri accountID items wasPinned pos t e he =>
      featuredReconcile_justified env getStatus requestingUsername uri accountID items
        wasPinned pos t e he⟩

/-- C14 at alice's featured collection: the update that pins P3 is a call of
the run, and it is justified. -/
theorem featured_pins_only_own_unpinned_originals_witness :
    Event.dbUpdateStatus { statusP3 with PinnedAt := Time.ofUnixNano 360000000000000 }
        ["pinned_at"] ∈
      (fetchRemoteAccountFeatured pinEnv (GetStatus pinEnv 1) "admin" featuredURI.raw "01A"
        0 {}).events ∧
    PinJustified (GetStatus pinEnv 1) "admin" "01A" (ListedAt pinEnv featuredURI.raw)
      (.dbUpdateStatus { statusP3 with PinnedAt := Time.ofUnixNano 360000000000000 }
        ["pinned_at"]) :=
  (fun hmem =>
    ⟨hmem, (featured_pins_only_own_unpinned_originals pinEnv (GetStatus pinEnv 1) "admin").1
      featuredURI.raw "01A" 0 {} _ hmem⟩)
    (by
      rw [show fetchRemoteAccountFeatured pinEnv (GetStatus pinEnv 1) "admin" featuredURI.raw
          "01A" 0 {} =
        .done none
          [.newTransportForUsername "admin", .dereference ⟨0⟩ featuredURI,
            .dbGetAccountPinnedStatuses "01A", .dbGetStatusByURI p2URI.raw,
            .dbGetStatusByURI p3URI.raw, .timeNow,
            .dbUpdateStatus { statusP3 with PinnedAt := Time.ofUnixNano 360000000000000 }
              ["pinned_at"],
            .dbGetStatusByURI p4URI.raw, unpinCall statusP1] {} from rfl]
      simp [Outcome.events])

/-- C15. An item of the featured collection whose identifier is on another
host than the collection URI is dropped without a trace: the round of the
first loop for it makes no call (so it is not passed to `GetStatus` and
nothing is pinned), keeps the list of status URIs as it is (so the item does
not count as listed in the unpin step) and goes on to the next item; the whole
reconciliation runs exactly as on the collection without the item, with the
same calls and the same result, and so does `fetchRemoteAccountFeatured` on a
collection that lists the item. -/
theorem featured_cross_host_item_discarded (env : Env) (getStatus : GetStatusFn)
    (requestingUsername : String) (uri : URL) (accountID : String) (item : Item)
    (statusURI : URL) (hitem : featuredStatusURI item = some statusURI)
    (hhost : statusURI.Host ≠ uri.Host) :
    (∀ statusURIs pos t,
      featuredPinItem env getStatus requestingUsername uri accountID item statusURIs pos t =
        .done statusURIs [] t) ∧
    (∀ pre post, extractedURIs uri (pre ++ item :: post) = extractedURIs uri (pre ++ post)) ∧
    (∀ pre post wasPinned,
      featuredReconcile env getStatus requestingUsername uri accountID (pre ++ item :: post)
          wasPinned =
        featuredReconcile env getStatus requestingUsername uri accountID (pre ++ post)
          wasPinned) ∧
    (∀ featuredCollectionURI pos t tsport b m ty pre post,
      env.urlParse featuredCollectionURI = .ok uri →
      env.newTransportForUsername pos requestingUsername = .ok tsport →
      env.dereference (pos + 1) tsport uri = .ok b →
      env.jsonUnmarshal b = .ok m →
      env.toType m = .ok ty →
      ty.typeName = ObjectOrderedCollection →
      ty.goType = ObjectOrderedCollection →
      ty.orderedItems = some (pre ++ item :: post) →
      fetchRemoteAccountFeatured env getStatus requestingUsername featuredCollectionURI
          accountID pos t =
        (call (.newTransportForUsername requestingUsername)
            (fun i => env.newTransportForUsername i requestingUsername) >>= fun _ =>
          call (.dereference tsport uri) (fun i => env.dereference i tsport uri) >>= fun _ =>
          call (.dbGetAccountPinnedStatuses accountID)
            (fun i => env.dbGetAccountPinnedStatuses i accountID) >>= fun answer =>
          match answer with
          | .error err =>
              if !err.Is .ErrNoEntries then
                pure (some (.errorfW "error getting account pinned statuses" err))
              else
                featuredReconcile env getStatus requestingUsername uri accountID
                  (pre ++ post) []
          | .ok wasPinned =>
              featuredReconcile env getStatus requestingUsername uri accountID
                (pre ++ post) wasPinned) pos t) := by
  have h : ∀ u, featuredStatusURI item = some u → u.Host ≠ uri.Host := by
    intro u hu
    rw [hitem] at hu
    cases hu
    exact hhost
  have hrec : ∀ pre post wasPinned,
      featuredReconcile env getStatus requestingUsername uri accountID (pre ++ item :: post)
          wasPinned =
        featuredReconcile env getStatus requestingUsername uri accountID (pre ++ post)
          wasPinned := by
    intro pre post wasPinned
    unfold featuredReconcile
    rw [featuredPinLoop_discard env getStatus requestingUsername uri accountID item h]
  refine ⟨?_, extractedURIs_discard uri item h, hrec, ?_⟩
  · intro statusURIs pos t
    rw [featuredPinItem_discard env getStatus requestingUsername uri accountID item statusURIs h]
    rfl
  · intro featuredCollectionURI pos t tsport b m ty pre post hparse htr hderef hjson htype
      hname hgo hitems
    rw [fetchRemoteAccountFeatured_items env getStatus requestingUsername featuredCollectionURI
      accountID pos t uri tsport b m ty _ hparse htr hderef hjson htype hname hgo hitems]
    simp only [bind_eq, call_eq]
    rcases env.dbGetAccountPinnedStatuses (pos + [Event.newTransportForUsername
      requestingUsername].length + [Event.dereference tsport uri].length) accountID with
      err | w <;> simp only [hrec]


/-- C15 at the featured collection of alice, which lists a status on
`elsewhere.example`: the round for that item makes no call and keeps the
status URIs as they are. -/
theorem featured_cross_host_item_discarded_witness :
    (featuredStatusURI (.other (some p5URI)) = some p5URI ∧ p5URI.Host ≠ featuredURI.Host) ∧
    featuredPinItem pinEnv (GetStatus pinEnv 1) "admin" featuredURI "01A" (.other (some p5URI))
        [p2URI, p3URI, p4URI] 6 {} = .done [p2URI, p3URI, p4URI] [] {} :=
  ⟨⟨rfl, by decide⟩,
    (featured_cross_host_item_discarded pinEnv (GetStatus pinEnv 1) "admin" featuredURI "01A"
      (.other (some p5URI)) p5URI rfl (by decide)).1 [p2URI, p3URI, p4URI] 6 {}⟩

/-- C16, as stated, fails: alice's featured collection no longer lists the
pinned status P1 and the database refuses to clear its `PinnedAt`; the
reconciliation stops with an error, and `enrichAccount` still returns the
account with no error. -/
theorem enrichAccount_unpin_failure_not_surfaced :
    ¬ ∀ (env : Env) (getStatus : GetStatusFn) (requestUser : String) (uri : Option URL)
        (account : Account) (force block : Bool) (pos : Nat) (t : Tables) (c : Account)
        (r : Res Account) (evs : List Event) (t' : Tables) (j : Nat) (s : Status) (cause : Err),
      enrichAccount env getStatus requestUser uri account force block pos t =
        .done (c, r) evs t' →
      evs.get? j = some (.dbUpdateStatus s ["pinned_at"]) →
      s.PinnedAt = Time.zero →
      env.dbUpdateStatus (pos + j) s ["pinned_at"] = some cause →
      ∃ e, r = .error e := by
  intro h
  have hrun : ∃ c a evs t',
      enrichAccount unpinFailEnv (GetStatus unpinFailEnv 1) "admin" (some aliceURI)
        (aliceFetchedAt (Time.ofUnixNano 0)) true false 0 {} = .done (c, .ok a) evs t' ∧
      evs.get? 18 = some (unpinCall statusP1) := ⟨_, _, _, _, rfl, rfl⟩
  obtain ⟨c, a, evs, t', hrun, hget⟩ := hrun
  obtain ⟨e, he⟩ := h unpinFailEnv (GetStatus unpinFailEnv 1) "admin" (some aliceURI)
    (aliceFetchedAt (Time.ofUnixNano 0)) true false 0 {} c (.ok a) evs t' 18
    { statusP1 with PinnedAt := Time.zero } (.external 13) hrun hget rfl rfl
  cases he

/-- C16, amended. A failure to store the cleared `PinnedAt` of a previously
pinned status ends the second loop of `fetchRemoteAccountFeatured` at once:
the failing update is the last call of the loop and the loop returns its error
wrapped as "error unpinning status"; the reconciliation returns what that loop
returns.  `enrichAccount` does not pass the error on: once the account is
stored, it returns that account with no error whatever
`fetchRemoteAccountFeatured` returns. -/
theorem featured_unpin_failure_aborts_reconciliation (env : Env) (getStatus : GetStatusFn)
    (requestUser : String) :
    (∀ statusURIs wasPinned pos t r evs t',
      featuredUnpinLoop env statusURIs wasPinned pos t = .done r evs t' →
      ∀ j s cols cause, evs.get? j = some (.dbUpdateStatus s cols) →
        env.dbUpdateStatus (pos + j) s cols = some cause →
        r = some (.errorfW "error unpinning status" cause) ∧ j + 1 = evs.length) ∧
    (∀ uri accountID items wasPinned pos t r evs t',
      featuredReconcile env getStatus requestUser uri accountID items wasPinned pos t =
        .done r evs t' →
      ∃ evsP tP evsU,
        featuredPinLoop env getStatus requestUser uri accountID items [] pos t =
          .done (extractedURIs uri items) evsP tP ∧
        featuredUnpinLoop env (extractedURIs uri items) wasPinned (pos + evsP.length) tP =
          .done r evsU t' ∧
        evs = evsP ++ evsU) ∧
    (∀ transport uri account pos t latestAcc e1 t1 ferr e2 t2,
      enrichAccountLatest env requestUser transport uri account (pos + 1) t =
        .done (.ok latestAcc) e1 t1 →
      latestAcc.FeaturedCollectionURI ≠ "" →
      fetchRemoteAccountFeatured env getStatus requestUser latestAcc.FeaturedCollectionURI
        latestAcc.ID (pos + 1 + e1.length) t1 = .done ferr e2 t2 →
      enrichAccountDeref env getStatus requestUser transport uri account pos t =
        .done (.ok latestAcc)
          (.startHandshake requestUser uri :: (e1 ++ e2 ++ [.stopHandshake requestUser uri]))
          t2) :=
  ⟨fun statusURIs wasPinned pos t r evs t' hrun =>
      featuredUnpinLoop_failure_last env statusURIs wasPinned pos t r evs t' hrun,
    fun uri accountID items wasPinned pos t r evs t' hrun =>
      featuredReconcile_done env getStatus requestUser uri accountID items wasPinned pos t r
        evs t' hrun,
    fun transport uri account pos t latestAcc e1 t1 ferr e2 t2 hl hf hfe =>
      enrichAccountDeref_featured_ignored env getStatus requestUser transport uri account pos t
        latestAcc e1 t1 ferr e2 t2 hl hf hfe⟩

/-- C16, amended, at alice's featured collection with the database refusing
to clear `PinnedAt`: `fetchRemoteAccountFeatured` returns the unpinning error
after the failed update of P1. -/
theorem featured_unpin_failure_aborts_reconciliation_witness :
    featuredUnpinLoop unpinFailEnv [p2URI, p3URI, p4URI] [statusP1, statusP2] 8 {} =
      .done (some (.errorfW "error unpinning status" (.external 13))) [unpinCall statusP1] {} ∧
    unpinFailEnv.dbUpdateStatus (8 + 0) { statusP1 with PinnedAt := Time.zero } ["pinned_at"] =
      some (.external 13) ∧
    (some (.errorfW "error unpinning status" (.external 13)) =
        some (Err.errorfW "error unpinning status" (.external 13)) ∧
      0 + 1 = [unpinCall statusP1].length) ∧
    fetchRemoteAccountFeatured unpinFailEnv (GetStatus unpinFailEnv 1) "admin" featuredURI.raw
        "01A" 0 {} =
      .done (some (.errorfW "error unpinning status" (.external 13)))
        [.newTransportForUsername "admin", .dereference ⟨0⟩ featuredURI,
          .dbGetAccountPinnedStatuses "01A", .dbGetStatusByURI p2URI.raw,
          .dbGetStatusByURI p3URI.raw, .timeNow,
          .dbUpdateStatus { statusP3 with PinnedAt := Time.ofUnixNano 360000000000000 }
            ["pinned_at"],
          .dbGetStatusByURI p4URI.raw, unpinCall statusP1] {} :=
  ⟨rfl, rfl,
    (featured_unpin_failure_aborts_reconciliation unpinFailEnv (GetStatus unpinFailEnv 1)
      "admin").1 [p2URI, p3URI, p4URI] [statusP1, statusP2] 8 {} _ _ _ rfl 0
      { statusP1 with PinnedAt := Time.zero } ["pinned_at"] (.external 13) rfl rfl,
    rfl⟩

/-- C17. In a run of `enrichAccount` that returns, when the first write of an
account is an insert (`PutAccount`) that fails with ErrAlreadyExists, the next
call re-reads the account stored under the URI of the account that was to be
inserted; the run returns the re-read row with no error, and it returns an
error exactly when the re-read fails. -/
theorem enrichAccount_insert_race_reread (env : Env) (getStatus : GetStatusFn)
    (requestUser : String) (uri : Option URL) (account : Account) (force block : Bool)
    (pos : Nat) (t : Tables) (c : Account) (r : Res Account) (evs : List Event) (t' : Tables)
    (pre : List Event) (a : Account) (post : List Event) (err : Err)
    (hrun : enrichAccount env getStatus requestUser uri account force block pos t =
      .done (c, r) evs t')
    (hsplit : evs = pre ++ .dbPutAccount a :: post)
    (hfirst : ∀ e ∈ pre, e.isAccountWrite = false)
    (hans : env.dbPutAccount (pos + pre.length) a = some err)
    (herr : err.Is .ErrAlreadyExists = true) :
    ∃ post', post = .dbGetAccountByURI a.URI :: post' ∧
      r = match env.dbGetAccountByURI (pos + pre.length + 1) a.URI with
        | .ok stored => .ok stored
        | .error e => .error (.errorfW "enrichAccount: error putting in database" e) := by
  have hput : Event.dbPutAccount a ∈ evs := by
    rw [hsplit]
    simp
  rcases enrichAccount_reachedStore _ _ _ _ _ _ _ _ _ _ _ _ _ hrun with
    ⟨-, hall⟩ | ⟨evsA, hA, h⟩
  · have := hall _ hput
    cases this
  rcases h with ⟨e0, -, hev⟩ | ⟨account2, latestAcc, tA, evsS, tS, evsB, hevs, hs⟩
  · subst hev
    have := hA _ hput
    cases this
  have hA2 : ∀ e ∈ evsA, ¬ e.isAccountWrite = true := by
    intro e he
    rw [isAccountWrite_of_enrichStep e (hA e he)]
    simp
  have hpre : ∀ e ∈ pre, ¬ e.isAccountWrite = true := by
    intro e he
    rw [hfirst e he]
    simp
  rcases enrichAccountStore_run env account2 latestAcc (pos + evsA.length) tA with
    ⟨-, r2, rest, hrun2, hcase⟩ | ⟨-, r2, a2, hrun2⟩
  · rw [hrun2] at hs
    simp only [Outcome.done.injEq] at hs
    obtain ⟨rfl, rfl, -⟩ := hs
    rw [hsplit] at hevs
    have hevs2 : pre ++ Event.dbPutAccount a :: post =
        evsA ++ Event.dbPutAccount { latestAcc with
          CreatedAt := latestAcc.FetchedAt, UpdatedAt := latestAcc.FetchedAt } ::
          (rest ++ evsB) := by
      rw [hevs]
      simp
    obtain ⟨rfl, hx, rfl⟩ := first_occurrence_unique (fun e => e.isAccountWrite = true)
      _ _ _ _ _ _ hevs2 rfl rfl hpre hA2
    simp only [Event.dbPutAccount.injEq] at hx
    subst hx
    obtain ⟨rfl, hr⟩ := hcase err hans herr
    exact ⟨evsB, rfl, hr⟩
  · rw [hrun2] at hs
    simp only [Outcome.done.injEq] at hs
    obtain ⟨rfl, rfl, -⟩ := hs
    rw [hsplit] at hevs
    have hevs2 : pre ++ Event.dbPutAccount a :: post =
        (evsA ++ [Event.timeNow]) ++ Event.dbUpdateAccount a2 :: evsB := by
      rw [hevs]
      simp
    have hA3 : ∀ e ∈ evsA ++ [Event.timeNow], ¬ e.isAccountWrite = true := by
      intro e he
      rcases List.mem_append.1 he with he | he
      · exact hA2 e he
      · simp at he
        subst he
        simp [Event.isAccountWrite]
    obtain ⟨-, hx, -⟩ := first_occurrence_unique (fun e => e.isAccountWrite = true)
      _ _ _ _ _ _ hevs2 rfl rfl hpre hA3
    cases hx

/-- C17 at a concrete race: the insert of the freshly dereferenced
`bob@remote.example` answers that the account already exists, the account is
re-read by its URI, and the stored row is returned with no error. -/
theorem enrichAccount_insert_race_reread_witness :
    enrichAccount raceEnv (GetStatus raceEnv 0) "admin" (some bobURI) bobPlaceholder true true
        0 {} =
      .done (bobPlaceholder, .ok bobStored)
        ([.newTransportForUsername "admin", .dbIsDomainBlocked "remote.example",
            .startHandshake "admin" bobURI, .dereference ⟨0⟩ bobURI,
            .asRepresentationToAccount bobPerson "remote.example",
            .finger ⟨0⟩ "bob" "remote.example", .timeNow, .populateEmojis [] "admin"] ++
          .dbPutAccount bobInserted ::
          [.dbGetAccountByURI "https://remote.example/users/bob",
            .stopHandshake "admin" bobURI]) {} ∧
    raceEnv.dbPutAccount 8 bobInserted = some .ErrAlreadyExists ∧
    ∃ post', [Event.dbGetAccountByURI "https://remote.example/users/bob",
          Event.stopHandshake "admin" bobURI] =
        .dbGetAccountByURI bobInserted.URI :: post' ∧
      (Except.ok bobStored : Res Account) =
        match raceEnv.dbGetAccountByURI (0 + 8 + 1) bobInserted.URI with
        | .ok stored => .ok stored
        | .error e => .error (.errorfW "enrichAccount: error putting in database" e) :=
  ⟨rfl, rfl,
    enrichAccount_insert_race_reread raceEnv (GetStatus raceEnv 0) "admin" (some bobURI)
      bobPlaceholder true true 0 {} bobPlaceholder (.ok bobStored) _ {}
      [.newTransportForUsername "admin", .dbIsDomainBlocked "remote.example",
        .startHandshake "admin" bobURI, .dereference ⟨0⟩ bobURI,
        .asRepresentationToAccount bobPerson "remote.example",
        .finger ⟨0⟩ "bob" "remote.example", .timeNow, .populateEmojis [] "admin"]
      bobInserted
      [.dbGetAccountByURI "https://remote.example/users/bob", .stopHandshake "admin" bobURI]
      .ErrAlreadyExists rfl rfl (by decide) rfl rfl⟩

/-- C18 on a concrete race: `bobNote` is not stored when `GetStatus` looks it
up, its insert answers ErrAlreadyExists, and from then on the lookup by URI
finds the row `bobNoteWinner` stored by the concurrent resolution.
`GetStatus` returns no error, but the insert is its last call: it makes no
re-read, and the status it returns is its own copy, under the ID it has just
generated, not the stored row. -/
theorem GetStatus_insert_race_keeps_own_copy :
    GetStatus statusRaceEnv 2 "admin" bobNoteURI false false 0 {} =
      .done (.ok ({ bobNoteConverted with ID := "01T" }, some bobNote))
        [.dbGetStatusByURI "https://remote.example/users/bob/statuses/1",
          .dbGetStatusByURL "https://remote.example/users/bob/statuses/1",
          .newTransportForUsername "admin", .dbIsDomainBlocked "remote.example",
          .dereference ⟨0⟩ bobNoteURI,
          .dbGetAccountByURI "https://remote.example/users/bob", .timeNow,
          .asStatusToStatus bobNote, .newULIDFromTime ⟨7⟩, .dbIsURIBlocked bobNoteURI,
          .populateEmojis [] "admin",
          .dbPutStatus { bobNoteConverted with ID := "01T" }] {} ∧
    statusRaceEnv.dbPutStatus 11 { bobNoteConverted with ID := "01T" } =
      some .ErrAlreadyExists ∧
    statusRaceEnv.dbGetStatusByURI 12 "https://remote.example/users/bob/statuses/1" =
      .ok bobNoteWinner ∧
    ({ bobNoteConverted with ID := "01T" } : Status).ID ≠ bobNoteWinner.ID :=
  ⟨rfl, rfl, rfl, by decide⟩

/-- C19. In `enrichAccount` the avatar step (lines 263-282) runs on the freshly
converted account after it was given the ID and the two attachment IDs of the
stored account (lines 255-260), and the header step (lines 284-303) runs on
the result of the avatar step.  For each of the two: when the fresh remote URL
equals the stored one the step makes no call and the stored attachment ID is
kept; when it differs and is empty the attachment ID is cleared and no call is
made; when it differs and is not empty the media is fetched, by the calls
`PreProcessMedia` (for the ID of the account, as avatar or as header) and
`LoadAttachment`, or by `LoadAttachment` alone when a dereference of the URL
is in flight, the attachment ID of the fetched media is used if the fetch
succeeds, and both the attachment ID and the remote URL are set back to the
stored ones if the URL does not parse, the pre-processing fails or the load
fails.  Both steps always return, neither touches the fields of the other, and
in a run of `enrichAccount` that has fetched and converted the document the
accounts written to the database and returned carry the media fields that the
two steps left. -/
theorem enrichAccount_avatar_header_refresh (env : Env) (transport : Transport)
    (account fingered : Account) :
    (∀ (now : Time) (pos : Nat) (t : Tables),
      (fingered.AvatarRemoteURL = account.AvatarRemoteURL →
        enrichAccountAvatar env transport account (enrichAccountPreset account fingered now) pos t = .done (enrichAccountPreset account fingered now) [] t ∧
        ((enrichAccountPreset account fingered now)).AvatarMediaAttachmentID = account.AvatarMediaAttachmentID) ∧
      (fingered.AvatarRemoteURL ≠ account.AvatarRemoteURL → fingered.AvatarRemoteURL = "" →
        enrichAccountAvatar env transport account (enrichAccountPreset account fingered now) pos t =
          .done { (enrichAccountPreset account fingered now) with AvatarMediaAttachmentID := "" } [] t) ∧
      (fingered.AvatarRemoteURL ≠ account.AvatarRemoteURL → fingered.AvatarRemoteURL ≠ "" →
        (∀ mediaURI processing, env.urlParse fingered.AvatarRemoteURL = .ok mediaURI →
          t.derefAvatars.lookup fingered.AvatarRemoteURL = none →
          env.preProcessMedia pos transport mediaURI account.ID true false fingered.AvatarRemoteURL =
            .ok processing →
          (∀ att, env.loadAttachment (pos + 1) processing = .ok att →
            enrichAccountAvatar env transport account (enrichAccountPreset account fingered now) pos t =
              .done { (enrichAccountPreset account fingered now) with AvatarMediaAttachmentID := processing.AttachmentID }
                [.preProcessMedia transport mediaURI account.ID true false fingered.AvatarRemoteURL,
                  .loadAttachment processing] t) ∧
          (∀ err, env.loadAttachment (pos + 1) processing = .error err →
            enrichAccountAvatar env transport account (enrichAccountPreset account fingered now) pos t =
              .done { (enrichAccountPreset account fingered now) with
                      AvatarMediaAttachmentID := account.AvatarMediaAttachmentID,
                      AvatarRemoteURL := account.AvatarRemoteURL }
                [.preProcessMedia transport mediaURI account.ID true false fingered.AvatarRemoteURL,
                  .loadAttachment processing] t)) ∧
        (∀ mediaURI err, env.urlParse fingered.AvatarRemoteURL = .ok mediaURI →
          t.derefAvatars.lookup fingered.AvatarRemoteURL = none →
          env.preProcessMedia pos transport mediaURI account.ID true false fingered.AvatarRemoteURL =
            .error err →
          enrichAccountAvatar env transport account (enrichAccountPreset account fingered now) pos t =
            .done { (enrichAccountPreset account fingered now) with
                      AvatarMediaAttachmentID := account.AvatarMediaAttachmentID,
                      AvatarRemoteURL := account.AvatarRemoteURL }
              [.preProcessMedia transport mediaURI account.ID true false fingered.AvatarRemoteURL] t) ∧
        (∀ err, env.urlParse fingered.AvatarRemoteURL = .error err →
          enrichAccountAvatar env transport account (enrichAccountPreset account fingered now) pos t =
            .done { (enrichAccountPreset account fingered now) with
                      AvatarMediaAttachmentID := account.AvatarMediaAttachmentID,
                      AvatarRemoteURL := account.AvatarRemoteURL } [] t) ∧
        (∀ mediaURI processing, env.urlParse fingered.AvatarRemoteURL = .ok mediaURI →
          t.derefAvatars.lookup fingered.AvatarRemoteURL = some processing →
          (∀ att, env.loadAttachment pos processing = .ok att →
            enrichAccountAvatar env transport account (enrichAccountPreset account fingered now) pos t =
              .done { (enrichAccountPreset account fingered now) with AvatarMediaAttachmentID := processing.AttachmentID }
                [.loadAttachment processing] t) ∧
          (∀ err, env.loadAttachment pos processing = .error err →
            enrichAccountAvatar env transport account (enrichAccountPreset account fingered now) pos t =
              .done { (enrichAccountPreset account fingered now) with
                      AvatarMediaAttachmentID := account.AvatarMediaAttachmentID,
                      AvatarRemoteURL := account.AvatarRemoteURL }
                [.loadAttachment processing] t)))) ∧
    (∀ (now : Time) (pos : Nat) (t : Tables) (a5 : Account) (e5 : List Event) (t5 : Tables),
      enrichAccountAvatar env transport account (enrichAccountPreset account fingered now)
        pos t = .done a5 e5 t5 →
      (fingered.HeaderRemoteURL = account.HeaderRemoteURL →
        enrichAccountHeader env transport account a5 (pos + e5.length) t5 = .done a5 [] t5 ∧
        (a5).HeaderMediaAttachmentID = account.HeaderMediaAttachmentID) ∧
      (fingered.HeaderRemoteURL ≠ account.HeaderRemoteURL → fingered.HeaderRemoteURL = "" →
        enrichAccountHeader env transport account a5 (pos + e5.length) t5 =
          .done { a5 with HeaderMediaAttachmentID := "" } [] t5) ∧
      (fingered.HeaderRemoteURL ≠ account.HeaderRemoteURL → fingered.HeaderRemoteURL ≠ "" →
        (∀ mediaURI processing, env.urlParse fingered.HeaderRemoteURL = .ok mediaURI →
          t5.derefHeaders.lookup fingered.HeaderRemoteURL = none →
          env.preProcessMedia (pos + e5.length) transport mediaURI account.ID false true fingered.HeaderRemoteURL =
            .ok processing →
          (∀ att, env.loadAttachment ((pos + e5.length) + 1) processing = .ok att →
            enrichAccountHeader env transport account a5 (pos + e5.length) t5 =
              .done { a5 with HeaderMediaAttachmentID := processing.AttachmentID }
                [.preProcessMedia transport mediaURI account.ID false true fingered.HeaderRemoteURL,
                  .loadAttachment processing] t5) ∧
          (∀ err, env.loadAttachment ((pos + e5.length) + 1) processing = .error err →
            enrichAccountHeader env transport account a5 (pos + e5.length) t5 =
              .done { a5 with
                      HeaderMediaAttachmentID := account.HeaderMediaAttachmentID,
                      HeaderRemoteURL := account.HeaderRemoteURL }
                [.preProcessMedia transport mediaURI account.ID false true fingered.HeaderRemoteURL,
                  .loadAttachment processing] t5)) ∧
        (∀ mediaURI err, env.urlParse fingered.HeaderRemoteURL = .ok mediaURI →
          t5.derefHeaders.lookup fingered.HeaderRemoteURL = none →
          env.preProcessMedia (pos + e5.length) transport mediaURI account.ID false true fingered.HeaderRemoteURL =
            .error err →
          enrichAccountHeader env transport account a5 (pos + e5.length) t5 =
            .done { a5 with
                      HeaderMediaAttachmentID := account.HeaderMediaAttachmentID,
                      HeaderRemoteURL := account.HeaderRemoteURL }
              [.preProcessMedia transport mediaURI account.ID false true fingered.HeaderRemoteURL] t5) ∧
        (∀ err, env.urlParse fingered.HeaderRemoteURL = .error err →
          enrichAccountHeader env transport account a5 (pos + e5.length) t5 =
            .done { a5 with
                      HeaderMediaAttachmentID := account.HeaderMediaAttachmentID,
                      HeaderRemoteURL := account.HeaderRemoteURL } [] t5) ∧
        (∀ mediaURI processing, env.urlParse fingered.HeaderRemoteURL = .ok mediaURI →
          t5.derefHeaders.lookup fingered.HeaderRemoteURL = some processing →
          (∀ att, env.loadAttachment (pos + e5.length) processing = .ok att →
            enrichAccountHeader env transport account a5 (pos + e5.length) t5 =
              .done { a5 with HeaderMediaAttachmentID := processing.AttachmentID }
                [.loadAttachment processing] t5) ∧
          (∀ err, env.loadAttachment (pos + e5.length) processing = .error err →
            enrichAccountHeader env transport account a5 (pos + e5.length) t5 =
              .done { a5 with
                      HeaderMediaAttachmentID := account.HeaderMediaAttachmentID,
                      HeaderRemoteURL := account.HeaderRemoteURL }
                [.loadAttachment processing] t5)))) ∧
    (∀ (now : Time) (pos : Nat) (t : Tables),
      ∃ a5 e5 a6 e6,
        enrichAccountAvatar env transport account (enrichAccountPreset account fingered now)
          pos t = .done a5 e5 t ∧
        enrichAccountHeader env transport account a5 (pos + e5.length) t = .done a6 e6 t ∧
        a5.HeaderMediaAttachmentID = account.HeaderMediaAttachmentID ∧
        a5.HeaderRemoteURL = fingered.HeaderRemoteURL ∧
        a6.AvatarMediaAttachmentID = a5.AvatarMediaAttachmentID ∧
        a6.AvatarRemoteURL = a5.AvatarRemoteURL) ∧
    (∀ (requestUser : String) (uri : URL) (pos : Nat) (t : Tables) (apubAcc : Accountable)
        (converted : Account) (evsD evF : List Event) (tD : Tables),
      dereferenceAccountable env transport uri pos t = .done (.ok apubAcc) evsD tD →
      env.asRepresentationToAccount (pos + evsD.length) apubAcc account.Domain =
        .ok converted →
      enrichAccountFingerLatest env transport account apubAcc converted
        (pos + evsD.length + 1) tD = .done (.ok fingered) evF tD →
      ∃ (a5 : Account) (e5 : List Event) (a6 : Account) (e6 : List Event) (r : Res Account)
          (e7 evsS : List Event),
        enrichAccountAvatar env transport account
          (enrichAccountPreset account fingered
            (Time.ofUnixNano (env.timeNow (pos + evsD.length + 1 + evF.length))))
          (pos + evsD.length + 1 + evF.length + 1) tD = .done a5 e5 tD ∧
        enrichAccountHeader env transport account a5
          (pos + evsD.length + 1 + evF.length + 1 + e5.length) tD = .done a6 e6 tD ∧
        enrichAccountLatest env requestUser transport uri account pos t =
          .done r (evsD ++ .asRepresentationToAccount apubAcc account.Domain ::
            (evF ++ .timeNow :: (e5 ++ e6 ++ e7 ++ evsS))) tD ∧
        (∀ e ∈ e7, e.isAccountWrite = false) ∧
        (∃ a, a.media = a6.media ∧
          (Event.dbPutAccount a ∈ evsS ∨ Event.dbUpdateAccount a ∈ evsS)) ∧
        (∀ a, Event.dbPutAccount a ∈ evsS ∨ Event.dbUpdateAccount a ∈ evsS →
          a.media = a6.media) ∧
        ((∀ i a, env.dbPutAccount i a = none) → (∀ i a, env.dbUpdateAccount i a = none) →
          ∃ a, r = .ok a ∧ a.media = a6.media)) := by
  refine ⟨?_, ?_, ?_, ?_⟩
  · intro now pos t
    obtain ⟨c1, c2, c3⟩ := enrichAccountAvatar_cases env transport account
      (enrichAccountPreset account fingered now) fingered.AvatarRemoteURL account.ID pos t
      rfl rfl
    exact ⟨fun h => ⟨c1 h, rfl⟩, c2, c3⟩
  · intro now pos t a5 e5 t5 hrun
    obtain ⟨k1, k2, k3⟩ := enrichAccountAvatar_keeps env transport account _ pos t a5 e5 t5 hrun
    obtain ⟨c1, c2, c3⟩ := enrichAccountHeader_cases env transport account a5
      fingered.HeaderRemoteURL account.ID (pos + e5.length) t5 k3 k1
    exact ⟨fun h => ⟨c1 h, k2⟩, c2, c3⟩
  · intro now pos t
    obtain ⟨a5, e5, h5, -⟩ := enrichAccountAvatar_done env transport account
      (enrichAccountPreset account fingered now) pos t
    obtain ⟨a6, e6, h6, -⟩ := enrichAccountHeader_done env transport account a5
      (pos + e5.length) t
    obtain ⟨-, k2, k3⟩ := enrichAccountAvatar_keeps env transport account _ pos t a5 e5 t h5
    obtain ⟨-, k5, k6⟩ := enrichAccountHeader_keeps env transport account _ _ t a6 e6 t h6
    exact ⟨a5, e5, a6, e6, h5, h6, k2, k3, k5, k6⟩
  · intro requestUser uri pos t apubAcc converted evsD evF tD hD hC hF
    exact enrichAccountLatest_media env requestUser transport uri account pos t apubAcc
      converted fingered evsD evF tD hD hC hF

/-- C19 at a concrete input: the document of alice names a new avatar and a
new header; the avatar is downloaded and its attachment `01AV2` is used, the
download of the header fails and the stored header attachment and URL are put
back; the whole enrichment returns no error, with these media fields. -/
theorem enrichAccount_avatar_header_refresh_witness :
    enrichAccountAvatar refreshEnv ⟨0⟩ aliceWithMedia
        (enrichAccountPreset aliceWithMedia aliceRenewed (Time.ofUnixNano 360000000000000))
        7 {} =
      .done { enrichAccountPreset aliceWithMedia aliceRenewed
            (Time.ofUnixNano 360000000000000) with AvatarMediaAttachmentID := "01AV2" }
        [.preProcessMedia ⟨0⟩ ⟨"remote.example", "https://remote.example/a2.png"⟩ "01A"
            true false "https://remote.example/a2.png",
          .loadAttachment ⟨"01AV2"⟩] {} ∧
    enrichAccountHeader refreshEnv ⟨0⟩ aliceWithMedia
        { enrichAccountPreset aliceWithMedia aliceRenewed
            (Time.ofUnixNano 360000000000000) with AvatarMediaAttachmentID := "01AV2" }
        9 {} =
      .done { enrichAccountPreset aliceWithMedia aliceRenewed
            (Time.ofUnixNano 360000000000000) with
          AvatarMediaAttachmentID := "01AV2",
          HeaderMediaAttachmentID := "01HD1",
          HeaderRemoteURL := "https://remote.example/h1.png" }
        [.preProcessMedia ⟨0⟩ ⟨"remote.example", "https://remote.example/h2.png"⟩ "01A"
            false true "https://remote.example/h2.png",
          .loadAttachment ⟨"01HD2"⟩] {} ∧
    ∃ c a evs t',
      enrichAccount refreshEnv (GetStatus refreshEnv 0) "admin" (some aliceURI) aliceWithMedia
        true false 0 {} = .done (c, .ok a) evs t' ∧
      a.AvatarMediaAttachmentID = "01AV2" ∧
      a.AvatarRemoteURL = "https://remote.example/a2.png" ∧
      a.HeaderMediaAttachmentID = "01HD1" ∧
      a.HeaderRemoteURL = "https://remote.example/h1.png" :=
  ⟨(((enrichAccount_avatar_header_refresh refreshEnv ⟨0⟩ aliceWithMedia aliceRenewed).1
      (Time.ofUnixNano 360000000000000) 7 {}).2.2 (by decide) (by decide)).1
      ⟨"remote.example", "https://remote.example/a2.png"⟩ ⟨"01AV2"⟩ rfl rfl rfl |>.1
      { ID := "01AV2", AccountID := "01A" } rfl,
    ((((enrichAccount_avatar_header_refresh refreshEnv ⟨0⟩ aliceWithMedia aliceRenewed).2.1
      (Time.ofUnixNano 360000000000000) 7 {} _ _ _ rfl).2.2 (by decide) (by decide)).1
      ⟨"remote.example", "https://remote.example/h2.png"⟩ ⟨"01HD2"⟩ rfl rfl rfl).2
      (.external 10) rfl,
    ⟨_, _, _, _, rfl, rfl, rfl, rfl, rfl⟩⟩

/-- C20, as stated, fails: the stored account `spoofedAlice` has a username
and a URI, the webfinger fails, and `enrichAccount` on the URI
`https://local.example/@alice`, under which the account was found, returns an
error; what it dereferences is that URI, not the URI of the account. -/
theorem enrichAccount_failed_webfinger_other_uri :
    ¬ ∀ (env : Env) (getStatus : GetStatusFn) (requestUser : String) (uri : Option URL)
        (account : Account) (force block : Bool) (pos : Nat) (t : Tables) (c : Account)
        (r : Res Account) (evs : List Event) (t' : Tables) (tr : Transport) (ferr : Err),
      enrichAccount env getStatus requestUser uri account force block pos t =
        .done (c, r) evs t' →
      account.Username ≠ "" →
      Event.finger tr account.Username account.Domain ∈ evs →
      (∀ i, env.finger i tr account.Username account.Domain = .error ferr) →
      ((∃ e, r = .error e) ↔ account.URI = "") ∧
      (account.URI ≠ "" → ∃ tr2 target, Event.dereference tr2 target ∈ evs ∧
        target.raw = account.URI) := by
  intro h
  have hrun : enrichAccount spoofEnv (GetStatus spoofEnv 0) "admin" (some spoofURI) spoofedAlice
      true true 0 {} =
      .done (spoofedAlice, .error (.errorfW "enrichAccount: error dereferencing account"
          (.errorfW "DereferenceAccountable: error deferencing" (.external 6))))
        [.newTransportForUsername "admin", .finger ⟨0⟩ "alice" "remote.example",
          .dbIsDomainBlocked "local.example", .startHandshake "admin" spoofURI,
          .dereference ⟨0⟩ spoofURI, .stopHandshake "admin" spoofURI] {} := rfl
  have h2 := (h spoofEnv (GetStatus spoofEnv 0) "admin" (some spoofURI) spoofedAlice true true
    0 {} _ _ _ _ ⟨0⟩ (.external 5) hrun (by decide) (by simp [spoofedAlice, aliceFetchedAt])
    (fun _ => rfl)).1
  have h3 := h2.1 ⟨_, rfl⟩
  revert h3
  decide

/-- C20, amended. After the early returns of `enrichAccount` (lines 148-355),
with a username known, the transport created and the webfinger call failing:
if the account has no URI the run ends at once with the webfinger error; if it
has one the run goes on with the account as it was (URI and Domain untouched)
to the URI it was given, or to the account's own URI when it was given none:
it fails if that URI does not parse, if the blocklist cannot be read or if the
host is blocked, and otherwise marks the handshake and dereferences that
URI.  A forced `enrichAccount` on a remote account that is not a
stored instance account is such a run. -/
theorem enrichAccount_failed_webfinger (env : Env) (getStatus : GetStatusFn)
    (requestUser : String) (uri : Option URL) (account : Account) (block : Bool) (pos : Nat)
    (t : Tables) (tr : Transport) (ferr : Err)
    (hu : account.Username ≠ "")
    (htr : env.newTransportForUsername pos requestUser = .ok tr)
    (hf : env.finger (pos + 1) tr account.Username account.Domain = .error ferr) :
    (account.IsRemote env.cfg = true →
      (!account.CreatedAt.IsZero && account.IsInstance) = false →
      enrichAccount env getStatus requestUser uri account true block =
        enrichAccountFetch env getStatus requestUser uri account) ∧
    (account.URI = "" →
      enrichAccountFetch env getStatus requestUser uri account pos t =
        .done (account, .error (.errorfW "enrichAccount: error webfingering account" ferr))
          [.newTransportForUsername requestUser,
            .finger tr account.Username account.Domain] t) ∧
    (account.URI ≠ "" →
      (∀ perr, enrichAccountURI env uri account = .error perr →
        enrichAccountFetch env getStatus requestUser uri account pos t =
          .done (account, .error (.errorfW "enrichAccount: invalid uri" perr))
            [.newTransportForUsername requestUser,
              .finger tr account.Username account.Domain] t) ∧
      (∀ target, enrichAccountURI env uri account = .ok target →
        (∀ berr, env.dbIsDomainBlocked (pos + 2) target.Host = .error berr →
          enrichAccountFetch env getStatus requestUser uri account pos t =
            .done (account, .error
                (.ErrDB (.errorfW "enrichAccount: error checking blocked domain" berr)))
              [.newTransportForUsername requestUser,
                .finger tr account.Username account.Domain,
                .dbIsDomainBlocked target.Host] t) ∧
        (env.dbIsDomainBlocked (pos + 2) target.Host = .ok true →
          enrichAccountFetch env getStatus requestUser uri account pos t =
            .done (account, .error (.blocked "enrichAccount" target.Host))
              [.newTransportForUsername requestUser,
                .finger tr account.Username account.Domain,
                .dbIsDomainBlocked target.Host] t) ∧
        (env.dbIsDomainBlocked (pos + 2) target.Host = .ok false →
          enrichAccountFetch env getStatus requestUser uri account pos t =
            (match enrichAccountDeref env getStatus requestUser tr target account
                (pos + 3) t with
              | .done r e t' =>
                  .done (account, r)
                    (.newTransportForUsername requestUser ::
                      .finger tr account.Username account.Domain ::
                      .dbIsDomainBlocked target.Host :: e) t'
              | .panicked e t' =>
                  .panicked
                    (.newTransportForUsername requestUser ::
                      .finger tr account.Username account.Domain ::
                      .dbIsDomainBlocked target.Host :: e) t'
              | .outOfFuel => .outOfFuel) ∧
          (enrichAccountDeref env getStatus requestUser tr target account (pos + 3) t =
              .outOfFuel ∨
            ∃ rest, (enrichAccountDeref env getStatus requestUser tr target account
                (pos + 3) t).events =
              [.startHandshake requestUser target, .dereference tr target] ++ rest)))) := by
  have hne : (account.Username != "") = true := by simpa using hu
  refine ⟨fun hremote hgate =>
    enrichAccount_forced env getStatus requestUser uri account block hremote hgate, ?_, ?_⟩
  · intro h0
    simp [enrichAccountFetch, enrichAccountFinger, bind_eq, call_eq, pure_eq, htr, hf, hne, h0]
  · intro h0
    have h0b : (account.URI == "") = false := by simpa using h0
    constructor
    · intro perr hp
      simp [enrichAccountFetch, enrichAccountFinger, bind_eq, call_eq, pure_eq, htr, hf, hne,
        h0, hp]
    · intro target hp
      refine ⟨?_, ?_, ?_⟩
      · intro berr hb
        simp [enrichAccountFetch, enrichAccountFinger, bind_eq, call_eq, pure_eq, htr, hf, hne,
          h0, hp, hb]
      · intro hb
        simp [enrichAccountFetch, enrichAccountFinger, bind_eq, call_eq, pure_eq, htr, hf, hne,
          h0, hp, hb]
      · intro hb
        refine ⟨?_, enrichAccountDeref_startsWith env getStatus requestUser tr target account
          (pos + 3) t⟩
        simp only [enrichAccountFetch, enrichAccountFinger, bind_eq, call_eq, pure_eq, htr, hf,
          hne, h0b, if_true, Bool.false_eq_true, if_false, hp, List.length_singleton,
          List.length_nil, Nat.add_zero, List.append_nil, Nat.add_assoc, Nat.reduceAdd, hb]
        rcases enrichAccountDeref env getStatus requestUser tr target account (pos + 3) t with
          ⟨r, e, t'⟩ | ⟨e, t'⟩ | _ <;> simp

/-- C20, amended, at the stored account `spoofedAlice`, found under the URI
`https://local.example/@alice`: the webfinger fails, the account has a URI,
and the run goes on to mark the handshake and dereference the URI it was
given. -/
theorem enrichAccount_failed_webfinger_witness :
    (spoofedAlice.Username ≠ "" ∧ spoofedAlice.URI ≠ "" ∧
      spoofEnv.newTransportForUsername 0 "admin" = .ok ⟨0⟩ ∧
      spoofEnv.finger (0 + 1) ⟨0⟩ spoofedAlice.Username spoofedAlice.Domain =
        .error (.external 5) ∧
      spoofEnv.dbIsDomainBlocked (0 + 2) spoofURI.Host = .ok false) ∧
    (enrichAccountDeref spoofEnv (GetStatus spoofEnv 0) "admin" ⟨0⟩ spoofURI spoofedAlice
        (0 + 3) {} = .outOfFuel ∨
      ∃ rest, (enrichAccountDeref spoofEnv (GetStatus spoofEnv 0) "admin" ⟨0⟩ spoofURI
          spoofedAlice (0 + 3) {}).events =
        [.startHandshake "admin" spoofURI, .dereference ⟨0⟩ spoofURI] ++ rest) :=
  ⟨⟨by decide, by decide, rfl, rfl, rfl⟩,
    ((((enrichAccount_failed_webfinger spoofEnv (GetStatus spoofEnv 0) "admin" (some spoofURI)
      spoofedAlice true 0 {} ⟨0⟩ (.external 5) (by decide) rfl rfl).2.2 (by decide)).2
      spoofURI rfl).2.2 rfl).2⟩

/-- C21. Take a run of `enrichAccount` that has fetched the document of the
account and converted it (lines 208-220).  When no username was known before
the fetch: no webfinger was made before the fetch and the account reaches the
fetch as it was; if the fetched actor has an id, the call that follows the
conversion is the webfinger of the converted username against the host of that
id; the steps after it make no webfinger and no write of an account until the
storing step, which hands to the database an account, and only accounts, whose
Domain is the domain that the webfinger returned if it succeeded, and the host
of the id if it failed; the run returns what the storing step returns, so a
failed webfinger does not fail the enrichment: when the database accepts the
write, the run returns the account with that Domain and no error.  When a
username was known before the fetch, no call after the conversion is a
webfinger. -/
theorem enrichAccount_post_fetch_webfinger (env : Env) (requestUser : String)
    (transport : Transport) (uri : URL) (account : Account) (pos : Nat) (t : Tables)
    (apubAcc : Accountable) (converted : Account) (evsD : List Event) (tD : Tables)
    (hD : dereferenceAccountable env transport uri pos t = .done (.ok apubAcc) evsD tD)
    (hC : env.asRepresentationToAccount (pos + evsD.length) apubAcc account.Domain =
      .ok converted) :
    (account.Username = "" →
      (∀ given, enrichAccountFinger env transport given account =
        pure (.ok (account, account, given))) ∧
      ∀ idIRI, apubAcc.id = some idIRI →
        ∃ (latestAcc : Account) (evsM : List Event) (r : Res Account) (evsS : List Event),
          enrichAccountLatest env requestUser transport uri account pos t =
            .done r (evsD ++ .asRepresentationToAccount apubAcc account.Domain ::
              .finger transport converted.Username idIRI.Host :: (evsM ++ evsS)) tD ∧
          (∀ e ∈ evsM, e.isFinger = false ∧ e.isAccountWrite = false) ∧
          (∀ e ∈ evsS, e.isFinger = false) ∧
          latestAcc.Domain =
            (match env.finger (pos + evsD.length + 1) transport converted.Username
                idIRI.Host with
              | .ok (accDomain, _) => accDomain
              | .error _ => idIRI.Host) ∧
          (∃ a, a.Domain = latestAcc.Domain ∧
            (Event.dbPutAccount a ∈ evsS ∨ Event.dbUpdateAccount a ∈ evsS)) ∧
          (∀ a, Event.dbPutAccount a ∈ evsS ∨ Event.dbUpdateAccount a ∈ evsS →
            a.Domain = latestAcc.Domain) ∧
          ((∀ i a, env.dbPutAccount i a = none) → (∀ i a, env.dbUpdateAccount i a = none) →
            ∃ a, r = .ok a ∧ a.Domain = latestAcc.Domain)) ∧
    (account.Username ≠ "" →
      ∃ (r : Res Account) (evs : List Event),
        enrichAccountLatest env requestUser transport uri account pos t =
          .done r (evsD ++ .asRepresentationToAccount apubAcc account.Domain :: evs) tD ∧
        ∀ e ∈ evs, e.isFinger = false) := by
  constructor
  · intro hu
    constructor
    · intro given
      simp [enrichAccountFinger, hu]
    · intro idIRI hid
      have hue : (account.Username == "") = true := by simp [hu]
      rcases hf : env.finger (pos + evsD.length + 1) transport converted.Username idIRI.Host with
        err | ⟨accDomain, accURI⟩
      · have hF : enrichAccountFingerLatest env transport account apubAcc converted
            (pos + evsD.length + 1) tD =
            .done (.ok { converted with Domain := idIRI.Host })
              [.finger transport converted.Username idIRI.Host] tD := by
          simp [enrichAccountFingerLatest, hue, hid, bind_eq, call_eq, hf, pure_eq]
        obtain ⟨latestAcc, evsM, r, evsS, hrun, hM, hS, hdom, hw⟩ :=
          enrichAccountLatest_after_finger env requestUser transport uri account pos t apubAcc
            converted _ evsD _ tD hD hC hF
        refine ⟨latestAcc, evsM, r, evsS, ?_, hM, hS, hdom, hw⟩
        rw [hrun]
        simp
      · have hF : enrichAccountFingerLatest env transport account apubAcc converted
            (pos + evsD.length + 1) tD =
            .done (.ok { converted with Domain := accDomain })
              [.finger transport converted.Username idIRI.Host] tD := by
          simp [enrichAccountFingerLatest, hue, hid, bind_eq, call_eq, hf, pure_eq]
        obtain ⟨latestAcc, evsM, r, evsS, hrun, hM, hS, hdom, hw⟩ :=
          enrichAccountLatest_after_finger env requestUser transport uri account pos t apubAcc
            converted _ evsD _ tD hD hC hF
        refine ⟨latestAcc, evsM, r, evsS, ?_, hM, hS, hdom, hw⟩
        rw [hrun]
        simp
  · intro hu
    have hue : (account.Username == "") = false := by simp [hu]
    have hF : enrichAccountFingerLatest env transport account apubAcc converted
        (pos + evsD.length + 1) tD = .done (.ok converted) [] tD := by
      simp [enrichAccountFingerLatest, hue, pure_eq]
    obtain ⟨latestAcc, evsM, r, evsS, hrun, hM, hS, -⟩ :=
      enrichAccountLatest_after_finger env requestUser transport uri account pos t apubAcc
        converted _ evsD _ tD hD hC hF
    refine ⟨r, evsM ++ evsS, ?_, ?_⟩
    · rw [hrun]
      simp
    · intro e he
      rcases List.mem_append.1 he with h | h
      · exact (hM e h).1
      · exact hS e h

/-- C21 at a first contact by a URI on `example.org` whose document names an
actor on `somewhere.else`, with every webfinger failing: the webfinger that
follows the conversion goes to `somewhere.else`, and the account is inserted
and returned with the Domain `somewhere.else`. -/
theorem enrichAccount_post_fetch_webfinger_witness :
    (∃ stored evs, GetAccountByURI redirectEnv 1 "admin" redirectURI false 0 {} =
        .done (.ok stored) evs {} ∧ stored.Domain = "somewhere.else" ∧
      Event.finger ⟨0⟩ "someone" "somewhere.else" ∈ evs) ∧
    ∃ (latestAcc : Account) (evsM : List Event) (r : Res Account) (evsS : List Event),
      enrichAccountLatest redirectEnv "admin" ⟨0⟩ redirectURI
          { ID := "01N", Domain := "example.org", URI := redirectURI.raw } 7 {} =
        .done r ([.dereference ⟨0⟩ redirectURI] ++
          .asRepresentationToAccount someonePerson "example.org" ::
          .finger ⟨0⟩ "someone" "somewhere.else" :: (evsM ++ evsS)) {} ∧
      latestAcc.Domain = "somewhere.else" ∧
      ∃ a, r = .ok a ∧ a.Domain = latestAcc.Domain := by
  refine ⟨⟨_, _, rfl, rfl, by decide⟩, ?_⟩
  obtain ⟨latestAcc, evsM, r, evsS, hrun, -, -, hdom, -, -, hok⟩ :=
    ((enrichAccount_post_fetch_webfinger redirectEnv "admin" ⟨0⟩ redirectURI
      { ID := "01N", Domain := "example.org", URI := redirectURI.raw } 7 {} someonePerson
      { Username := "someone", Domain := "example.org", URI := someoneURI.raw,
        URL := "https://somewhere.else/@someone",
        FollowingURI := "https://somewhere.else/users/someone/following",
        FollowersURI := "https://somewhere.else/users/someone/followers" }
      [.dereference ⟨0⟩ redirectURI] {} rfl rfl).1 rfl).2 someoneURI rfl
  exact ⟨latestAcc, evsM, r, evsS, hrun, hdom, hok (fun _ _ => rfl) (fun _ _ => rfl)⟩

/-- C22. Let the database answer `stored` to a lookup of an account by URI and
the resolution of actors answer `remote` for the targets that are not stored,
whenever they are asked.  (1) When mention IDs are generated and the inserts
of mentions are accepted, `populateStatusMentions` returns no error, for every
list of mentions on the status: each unresolved mention whose target can
neither be found locally nor dereferenced is skipped, and the mentions left on
the status are, in the original order, the already populated mentions
themselves and, for each unresolved mention whose target resolves, one new
mention built from the status, the mention and the resolved account;
`MentionIDs` are the IDs of these mentions in the same order, and nothing else
of the status changes.  (2) Whatever the collaborators do, an error is
returned only when generating an ID or inserting a mention failed, never for
an unresolvable target, and then the status is left as it was. -/
theorem populateStatusMentions_skips_unresolved (env : Env) (getAccountByURI : GetAccountFn)
    (status : Status) (requestingUsername : String) (pos : Nat) (t : Tables) :
    (∀ (stored : String → Res Account) (remote : URL → Res Account),
      (∀ i u, env.dbGetAccountByURI i u = stored u) →
      (∀ m ∈ status.Mentions, ∀ u, env.urlParse m.TargetAccountURI = .ok u →
        (∃ e, stored u.raw = .error e) → ∀ p tb, ∃ evs tb',
          getAccountByURI requestingUsername u false p tb = .done (remote u) evs tb') →
      (∀ i, ∃ id, env.newRandomULID i = .ok id) →
      (∀ i m, env.dbPutMention i m = none) →
      ∃ s' evs t',
        populateStatusMentions env getAccountByURI status requestingUsername pos t =
          .done (s', none) evs t' ∧
        List.Forall₂ (Attached env stored remote status)
          (status.Mentions.filter (isAttachable env stored remote)) s'.Mentions ∧
        s'.MentionIDs = s'.Mentions.map (fun m => m.ID) ∧
        s' = { status with MentionIDs := s'.MentionIDs, Mentions := s'.Mentions }) ∧
    (∀ s' err evs t',
      populateStatusMentions env getAccountByURI status requestingUsername pos t =
        .done (s', some err) evs t' →
      s' = status ∧
      (err = .errorf "populateStatusMentions: error generating ulid" ∨
        err = .errorf "populateStatusMentions: error creating mention")) := by
  constructor
  · intro stored remote hstored hremote hulid hput
    obtain ⟨new, evs, t', hrun, hall⟩ := populateStatusMentionsLoop_ok env getAccountByURI
      status requestingUsername status.Mentions stored remote hstored hremote hulid hput
      ([], []) pos t
    refine ⟨{ status with MentionIDs := new.map (fun m => m.ID), Mentions := new }, evs ++ [],
      t', ?_, hall, rfl, rfl⟩
    simp [populateStatusMentions, bind_eq, hrun, pure_eq]
  · intro s' err evs t' hrun
    unfold populateStatusMentions at hrun
    obtain ⟨a1, e1, t1, e2, h1, h2, rfl⟩ := bind_done hrun
    rcases a1 with e | r
    · obtain ⟨h, -, -⟩ := pure_done h2
      cases h
      exact ⟨rfl, populateStatusMentionsLoop_error _ _ _ _ _ _ _ _ _ _ _ h1⟩
    · obtain ⟨h, -, -⟩ := pure_done h2
      cases h

/-- C22 at a status with three unresolved mentions, of bob, of an actor that
is neither stored nor served, and of alice: no error is returned, and the
mentions of bob and alice are attached in this order under the IDs 01RA and
01RB.  When no mention can be inserted, the error is the insert error. -/
theorem populateStatusMentions_skips_unresolved_witness :
    (∃ s' evs t',
      populateStatusMentions mentionEnv (GetAccountByURI mentionEnv 1) taggedStatus "admin"
        0 {} = .done (s', none) evs t' ∧
      List.Forall₂
        (Attached mentionEnv (mentionEnv.dbGetAccountByURI 0)
          (fun _ => .error (.errorfW "enrichAccount: error dereferencing account"
            (.errorfW "DereferenceAccountable: error deferencing" (.external 6)))) taggedStatus)
        (taggedStatus.Mentions.filter
          (isAttachable mentionEnv (mentionEnv.dbGetAccountByURI 0)
            (fun _ => .error (.errorfW "enrichAccount: error dereferencing account"
              (.errorfW "DereferenceAccountable: error deferencing" (.external 6))))))
        s'.Mentions ∧
      s'.MentionIDs = s'.Mentions.map (fun m => m.ID) ∧
      s' = { taggedStatus with MentionIDs := s'.MentionIDs, Mentions := s'.Mentions }) ∧
    (∃ s' evs t',
      populateStatusMentions mentionEnv (GetAccountByURI mentionEnv 1) taggedStatus "admin"
        0 {} = .done (s', none) evs t' ∧
      s'.MentionIDs = ["01RA", "01RB"] ∧
      s'.Mentions =
        [newMentionFor taggedStatus { NameString := "@bob@remote.example" } bobStored "01RA",
          newMentionFor taggedStatus { NameString := "@alice@remote.example" } aliceWithMedia
            "01RB"]) ∧
    ∃ evs t',
      populateStatusMentions mentionPutFailsEnv (GetAccountByURI mentionPutFailsEnv 1)
        taggedStatus "admin" 0 {} =
      .done (taggedStatus, some (.errorf "populateStatusMentions: error creating mention"))
        evs t' := by
  refine ⟨?_, ⟨_, _, _, rfl, rfl, rfl⟩, ⟨_, _, rfl⟩⟩
  refine (populateStatusMentions_skips_unresolved mentionEnv (GetAccountByURI mentionEnv 1)
    taggedStatus "admin" 0 {}).1 (mentionEnv.dbGetAccountByURI 0) _ (fun _ _ => rfl) ?_
    (fun i => ?_) (fun _ _ => rfl)
  · intro m hm u hu hs p tb
    simp only [taggedStatus, List.mem_cons, List.mem_singleton, List.mem_nil_iff,
      or_false] at hm
    rcases hm with rfl | rfl | rfl
    · have : u = bobURI := by
        have h2 : mentionEnv.urlParse bobURI.raw = .ok bobURI := rfl
        rw [h2] at hu
        cases hu
        rfl
      subst this
      obtain ⟨e, he⟩ := hs
      cases he
    · have : u = ghostURI := by
        have h2 : mentionEnv.urlParse ghostURI.raw = .ok ghostURI := rfl
        rw [h2] at hu
        cases hu
        rfl
      subst this
      exact ⟨_, _, (GetAccountByURIBody_not_found mentionEnv (GetStatus mentionEnv 0) "admin"
        ghostURI false p tb .ErrNoEntries .ErrNoEntries (by decide) (by decide) (by decide)
        rfl rfl rfl rfl).trans rfl⟩
    · have : u = aliceURI := by
        have h2 : mentionEnv.urlParse aliceURI.raw = .ok aliceURI := rfl
        rw [h2] at hu
        cases hu
        rfl
      subst this
      obtain ⟨e, he⟩ := hs
      cases he
  · by_cases h : i = 1
    · exact ⟨"01RA", by simp [mentionEnv, h]⟩
    · exact ⟨"01RB", by simp [mentionEnv, h]⟩

/-- C23, as stated, fails: in `unbuildableEnv` the document fetched under the
URI of alice is well-formed JSON from which the type it claims cannot be
constructed, and `dereferenceAccountable` fails with a plain error that wraps
the error of `streams.ToType` (account.go 373-376), not with the WrongType
error. -/
theorem dereferenceAccountable_unbuildable_plain_error :
    ¬ ∀ (env : Env) (tr : Transport) (u : URL) (pos : Nat) (t : Tables) (b : Bytes)
        (m : JsonMap) (e : Err),
      env.dereference pos tr u = .ok b → env.jsonUnmarshal b = .ok m →
      env.toType m = .error e →
      ∃ err evs t', dereferenceAccountable env tr u pos t = .done (.error err) evs t' ∧
        err.isWrongType = true := by
  intro h
  obtain ⟨err, evs, t', hrun, hw⟩ :=
    h unbuildableEnv ⟨0⟩ aliceURI 0 {} [1] ⟨1⟩ (.external 3) rfl rfl rfl
  have hrun2 : dereferenceAccountable unbuildableEnv ⟨0⟩ aliceURI 0 {} =
      .done (.error (.errorfW "DereferenceAccountable: error resolving json into ap vocab type"
        (.external 3))) [.dereference ⟨0⟩ aliceURI] {} := rfl
  rw [hrun2] at hrun
  cases hrun
  cases hw

/-- C23, amended. For a document that was fetched and decoded to a value of
the type it names (what `streams.ToType` returns): `dereferenceAccountable`
returns the value when its type name is one of Application, Group,
Organization, Person, Service, and for any other type name it fails with the
WrongType error "type name not supported"; `dereferenceStatusable` (the host
not being blocked) returns the value when its type name is one of Article,
Document, Image, Video, Note, Page, Event, Place, Profile, and for any other
type name it fails with the WrongType error.  A document from which the type
it claims cannot be constructed (`streams.ToType` fails) does not get the
WrongType error: both functions fail with the plain error "error resolving
json into ap vocab type".  Neither function returns a value in any other
case. -/
theorem type_resolver_closed_set (env : Env) (tr : Transport) (u : URL) (pos : Nat)
    (t : Tables) :
    (∀ b m ty, env.dereference pos tr u = .ok b → env.jsonUnmarshal b = .ok m →
      env.toType m = .ok ty → ty.goType = ty.typeName →
      (ty.typeName ∈ actorTypeNames →
        dereferenceAccountable env tr u pos t = .done (.ok ty) [.dereference tr u] t) ∧
      (ty.typeName ∉ actorTypeNames →
        dereferenceAccountable env tr u pos t =
          .done (.error (.ErrWrongType
            (.errorf "DereferenceAccountable: type name not supported as Accountable")))
            [.dereference tr u] t)) ∧
    (∀ b m ty, env.dbIsDomainBlocked pos u.Host = .ok false →
      env.dereference (pos + 1) tr u = .ok b → env.jsonUnmarshal b = .ok m →
      env.toType m = .ok ty → ty.goType = ty.typeName →
      (ty.typeName ∈ objectTypeNames →
        dereferenceStatusable env tr u pos t =
          .done (.ok ty) [.dbIsDomainBlocked u.Host, .dereference tr u] t) ∧
      (ty.typeName ∉ objectTypeNames →
        dereferenceStatusable env tr u pos t =
          .done (.error (.ErrWrongType
            (.errorf "DereferenceStatusable: type name not supported as Statusable")))
            [.dbIsDomainBlocked u.Host, .dereference tr u] t)) ∧
    (∀ b m e, env.dereference pos tr u = .ok b → env.jsonUnmarshal b = .ok m →
      env.toType m = .error e →
      dereferenceAccountable env tr u pos t =
        .done (.error
          (.errorfW "DereferenceAccountable: error resolving json into ap vocab type" e))
          [.dereference tr u] t) ∧
    (∀ b m e, env.dbIsDomainBlocked pos u.Host = .ok false →
      env.dereference (pos + 1) tr u = .ok b → env.jsonUnmarshal b = .ok m →
      env.toType m = .error e →
      dereferenceStatusable env tr u pos t =
        .done (.error
          (.errorf "DereferenceStatusable: error resolving json into ap vocab type"))
          [.dbIsDomainBlocked u.Host, .dereference tr u] t ∧
      (Err.errorf "DereferenceStatusable: error resolving json into ap vocab type").isWrongType
        = false) ∧
    (∀ a evs t', dereferenceAccountable env tr u pos t = .done (.ok a) evs t' →
      ∃ b m, env.dereference pos tr u = .ok b ∧ env.jsonUnmarshal b = .ok m ∧
        env.toType m = .ok a ∧ a.typeName ∈ actorTypeNames) ∧
    (∀ a evs t', dereferenceStatusable env tr u pos t = .done (.ok a) evs t' →
      ∃ b m, env.dbIsDomainBlocked pos u.Host = .ok false ∧
        env.dereference (pos + 1) tr u = .ok b ∧ env.jsonUnmarshal b = .ok m ∧
        env.toType m = .ok a ∧ a.typeName ∈ objectTypeNames) := by
  refine ⟨?_, ?_, ?_, ?_, ?_, ?_⟩
  · intro b m ty hb hm hty hgo
    obtain ⟨h1, -, h3⟩ := dereferenceAccountable_decoded env tr u pos t b m ty hb hm hty
    exact ⟨fun hmem => h1 hmem hgo, h3⟩
  · intro b m ty hblock hb hm hty hgo
    obtain ⟨h1, -, h3⟩ := dereferenceStatusable_decoded env tr u pos t b m ty hblock hb hm hty
    exact ⟨fun hmem => h1 hmem hgo, h3⟩
  · intro b m e hb hm hty
    simp [dereferenceAccountable, bind_eq, call_eq, pure_eq, hb, hm, hty]
  · intro b m e hblock hb hm hty
    refine ⟨?_, rfl⟩
    simp [dereferenceStatusable, blockedOrErr, bind_eq, call_eq, pure_eq, hblock, hb, hm, hty]
  · intro a evs t' h
    obtain ⟨b, m, h1, h2, h3, h4, -⟩ := dereferenceAccountable_ok env tr u pos t a evs t' h
    exact ⟨b, m, h1, h2, h3, h4⟩
  · intro a evs t' h
    obtain ⟨b, m, h0, h1, h2, h3, h4, -⟩ := dereferenceStatusable_ok env tr u pos t a evs t' h
    exact ⟨b, m, h0, h1, h2, h3, h4⟩

/-- C23, amended, at concrete documents: the Person document of alice is
returned by `dereferenceAccountable`; a document of the type Mention gets the
WrongType error from `dereferenceStatusable`; a document from which no type
can be constructed gets the plain error from `dereferenceStatusable`. -/
theorem type_resolver_closed_set_witness :
    dereferenceAccountable mediaEnv ⟨0⟩ aliceURI 0 {} =
      .done (.ok alicePerson) [.dereference ⟨0⟩ aliceURI] {} ∧
    dereferenceStatusable mentionDocEnv ⟨0⟩ aliceStatusURI 0 {} =
      .done (.error (.ErrWrongType
        (.errorf "DereferenceStatusable: type name not supported as Statusable")))
        [.dbIsDomainBlocked "remote.example", .dereference ⟨0⟩ aliceStatusURI] {} ∧
    dereferenceStatusable unbuildableEnv ⟨0⟩ aliceStatusURI 0 {} =
      .done (.error (.errorf "DereferenceStatusable: error resolving json into ap vocab type"))
        [.dbIsDomainBlocked "remote.example", .dereference ⟨0⟩ aliceStatusURI] {} :=
  ⟨((type_resolver_closed_set mediaEnv ⟨0⟩ aliceURI 0 {}).1 [4] ⟨4⟩ alicePerson rfl rfl rfl
      rfl).1 (by decide),
    ((type_resolver_closed_set mentionDocEnv ⟨0⟩ aliceStatusURI 0 {}).2.1 [1] ⟨1⟩
      { typeName := "Mention", goType := "Mention" } rfl rfl rfl rfl rfl).2 (by decide),
    ((type_resolver_closed_set unbuildableEnv ⟨0⟩ aliceStatusURI 0 {}).2.2.2.1 [1] ⟨1⟩
      (.external 3) rfl rfl rfl rfl).1⟩

/-- C25. Every call of `fetchRemoteAccountAvatar` and of
`fetchRemoteAccountHeader` returns, and in a sequential run the two in-flight
tables after the call are the tables before it, whether the URL fails to
parse, a dereference is already in flight for it, the pre-processing fails,
or the attachment is loaded with or without success.  A call that registers an
entry (the URL parses, no entry is in flight for it, and the pre-processing
succeeds) makes the two calls to the media manager, and the table it leaves
is the one it found, which holds no entry for the URL. -/
theorem fetchRemoteAccountMedia_tables_restored (env : Env) (tsport : Transport)
    (mediaURL accountID : String) (pos : Nat) (t : Tables) :
    (∃ r evs, fetchRemoteAccountAvatar env tsport mediaURL accountID pos t = .done r evs t) ∧
    (∃ r evs, fetchRemoteAccountHeader env tsport mediaURL accountID pos t = .done r evs t) ∧
    (∀ mediaURI processing, env.urlParse mediaURL = .ok mediaURI →
      t.derefAvatars.lookup mediaURL = none →
      env.preProcessMedia pos tsport mediaURI accountID true false mediaURL = .ok processing →
      ∃ r, fetchRemoteAccountAvatar env tsport mediaURL accountID pos t =
        .done r [.preProcessMedia tsport mediaURI accountID true false mediaURL,
          .loadAttachment processing] t) ∧
    (∀ mediaURI processing, env.urlParse mediaURL = .ok mediaURI →
      t.derefHeaders.lookup mediaURL = none →
      env.preProcessMedia pos tsport mediaURI accountID false true mediaURL = .ok processing →
      ∃ r, fetchRemoteAccountHeader env tsport mediaURL accountID pos t =
        .done r [.preProcessMedia tsport mediaURI accountID false true mediaURL,
          .loadAttachment processing] t) :=
  ⟨fetchRemoteAccountAvatar_done env tsport mediaURL accountID pos t,
    fetchRemoteAccountHeader_done env tsport mediaURL accountID pos t,
    fun mediaURI processing hp hl hpre =>
      fetchRemoteAccountAvatar_registered env tsport mediaURL accountID pos t mediaURI
        processing hp hl hpre,
    fun mediaURI processing hp hl hpre =>
      fetchRemoteAccountHeader_registered env tsport mediaURL accountID pos t mediaURI
        processing hp hl hpre⟩

/-- C25 at a call that registers an entry while the avatar table holds an
entry for another URL and the header table one for the same URL: the download
fails, and both tables are left as they were. -/
theorem fetchRemoteAccountMedia_tables_restored_witness :
    ∃ r, fetchRemoteAccountAvatar mediaEnv ⟨0⟩ "https://remote.example/a2.png" "01A" 7
        { derefAvatars := [("https://remote.example/other.png", ⟨"01X"⟩)],
          derefHeaders := [("https://remote.example/a2.png", ⟨"01Y"⟩)] } =
      .done r
        [.preProcessMedia ⟨0⟩ ⟨"remote.example", "https://remote.example/a2.png"⟩ "01A"
            true false "https://remote.example/a2.png",
          .loadAttachment ⟨"01AV2"⟩]
        { derefAvatars := [("https://remote.example/other.png", ⟨"01X"⟩)],
          derefHeaders := [("https://remote.example/a2.png", ⟨"01Y"⟩)] } :=
  (fetchRemoteAccountMedia_tables_restored mediaEnv ⟨0⟩ "https://remote.example/a2.png" "01A" 7
    { derefAvatars := [("https://remote.example/other.png", ⟨"01X"⟩)],
      derefHeaders := [("https://remote.example/a2.png", ⟨"01Y"⟩)] }).2.2.1
    ⟨"remote.example", "https://remote.example/a2.png"⟩ ⟨"01AV2"⟩ rfl rfl rfl

/-- C26, the code at the failing input.  Against the server of `endlessEnv`,
which answers every request with a new post or a new actor, the resolution of
a post and the resolution of an actor are cut off at every depth of nesting
that is allowed: the post leads to its author (status.go 131), the author once
stored to its featured collection (account.go 350), the collection to a post
of a new author (account.go 702), and so on.  Storing the account before its
featured collection is fetched, which the comment at account.go 344-349 relies
on, ends the chain only when it comes back to an account that is stored. -/
theorem GetStatus_nesting_unbounded (depth : Nat) :
    GetStatus endlessEnv depth "admin" (evilStatusURI 0) false false 0 {} = .outOfFuel ∧
    GetAccountByURI endlessEnv depth "admin" (evilActorURI 0) false 0 {} = .outOfFuel :=
  ⟨(endless_outOfFuel depth).1 "admin" 0 0 {},
    (endless_outOfFuel depth).2 "admin" (toString 0) false 0 {}⟩

/-- C27, as stated, fails: an account whose Domain is the host of the instance
has a non-empty Domain, and `IsRemote` returns false for it. -/
theorem IsRemote_false_for_own_host :
    ¬ ∀ (cfg : Config) (a : Account),
      (a.Domain ≠ "" → a.IsRemote cfg = true) ∧
      (a.Domain = "" → a.IsLocal cfg = true) ∧
      a.IsRemote cfg = !a.IsLocal cfg := by
  intro h
  have h2 := (h ⟨"local.example", "local.example"⟩ { Domain := "local.example" }).1
    (by decide)
  revert h2
  decide

/-- C27, amended. `IsLocal` returns true whenever Domain is empty, and also
when Domain is the host or the account domain of the instance; `IsRemote`
returns true exactly when Domain is none of the three; `IsRemote` is always
the negation of `IsLocal`. -/
theorem IsRemote_iff_foreign_domain (cfg : Config) (a : Account) :
    (a.Domain = "" → a.IsLocal cfg = true) ∧
    (a.Domain = cfg.Host ∨ a.Domain = cfg.AccountDomain → a.IsLocal cfg = true) ∧
    (a.IsRemote cfg = true ↔
      a.Domain ≠ "" ∧ a.Domain ≠ cfg.Host ∧ a.Domain ≠ cfg.AccountDomain) ∧
    a.IsRemote cfg = !a.IsLocal cfg := by
  refine ⟨?_, ?_, ?_, rfl⟩
  · intro h
    simp [Account.IsLocal, h]
  · intro h
    rcases h with h | h <;> simp [Account.IsLocal, h]
  · simp [Account.IsRemote, Account.IsLocal, not_or, and_assoc]

/-- C27, amended, at concrete accounts of the instance `local.example`: the
account with Domain `remote.example` is remote, the account with an empty
Domain and the account with Domain `local.example` are local. -/
theorem IsRemote_iff_foreign_domain_witness :
    Account.IsRemote ⟨"local.example", "local.example"⟩ { Domain := "remote.example" } = true ∧
    Account.IsLocal ⟨"local.example", "local.example"⟩ { Domain := "" } = true ∧
    Account.IsLocal ⟨"local.example", "local.example"⟩ { Domain := "local.example" } = true :=
  ⟨(IsRemote_iff_foreign_domain ⟨"local.example", "local.example"⟩
      { Domain := "remote.example" }).2.2.1.2 (by decide),
    (IsRemote_iff_foreign_domain ⟨"local.example", "local.example"⟩ { Domain := "" }).1 rfl,
    (IsRemote_iff_foreign_domain ⟨"local.example", "local.example"⟩
      { Domain := "local.example" }).2.1 (Or.inl rfl)⟩

/-- C28, as stated, fails: the account `01ZORK` has ten pinned statuses, and
`PinCreate` on a status ID that is not in the database fails with 404 Not
Found, not with 422. -/
theorem PinCreate_full_unknown_status_not_found :
    ¬ ∀ (p : Processor) (table : StatusTable) (a : Account) (id : String),
      allowedPinnedCount ≤ countAccountPinned table a.ID →
      ∃ e, (PinCreate p table a id).2 = .error e ∧ e.Code = 422 := by
  intro h
  obtain ⟨e, he, hcode⟩ := h pinProcessor fullPinsTable { ID := "01ZORK" } "01NONE" (by decide)
  have hrun : (PinCreate pinProcessor fullPinsTable { ID := "01ZORK" } "01NONE").2 =
      .error (.ErrorNotFound (.errorfW "error fetching status" .ErrNoEntries)) := rfl
  rw [hrun] at he
  cases he
  revert hcode
  decide

/-- C28, amended. (1) Whenever the requesting account already has
`allowedPinnedCount` (10) or more pinned statuses, `PinCreate` fails and writes
nothing; a failure of `getPinnableStatus` (404 for a status that is unknown or
not visible, 500 for a failing lookup, 422 for a status of another account, a
direct message or a boost) is returned as it is; a target that passes
`getPinnableStatus` gives 422 when the count can be read and 500 when it
cannot.  (2) Whenever the target status is already pinned, `PinCreate` fails
and writes nothing; the failure is the 422 "status already pinned" whenever
`getPinnableStatus` let the target through.  (3) Hence, in a table whose rows
have distinct IDs, an account that has at most 10 pinned statuses has at most
10 after any sequence of `PinCreate` and `PinRemove` calls, made one after the
other by any accounts and with any behaviour of the collaborators. -/
theorem PinCreate_pin_limit (table : StatusTable) :
    (∀ (p : Processor) (a : Account) (id : String),
      allowedPinnedCount ≤ countAccountPinned table a.ID →
      (PinCreate p table a id).1 = table ∧
      (∃ e, (PinCreate p table a id).2 = .error e) ∧
      (∀ e, getPinnableStatus p table id a.ID = .error e →
        PinCreate p table a id = (table, .error e)) ∧
      (∀ s, getPinnableStatus p table id a.ID = .ok s → p.countFails = none →
        ∃ e, (PinCreate p table a id).2 = .error e ∧ e.Code = 422) ∧
      (∀ s err, getPinnableStatus p table id a.ID = .ok s → s.PinnedAt.IsZero = true →
        p.countFails = some err →
        ∃ e, (PinCreate p table a id).2 = .error e ∧ e.Code = 500)) ∧
    (∀ (p : Processor) (a : Account) (id : String) (s : Status),
      dbGetStatusByID p table id = .ok s → s.PinnedAt.IsZero = false →
      (PinCreate p table a id).1 = table ∧
      (∃ e, (PinCreate p table a id).2 = .error e) ∧
      (getPinnableStatus p table id a.ID = .ok s →
        (PinCreate p table a id).2 =
          .error (.ErrorUnprocessableEntity (.errorf "status already pinned")) ∧
        (WithCode.ErrorUnprocessableEntity (.errorf "status already pinned")).Code = 422)) ∧
    (∀ (p : Processor) (id requestingAccountID : String),
      (p.getStatusFails = none → table.find? (fun row => row.ID == id) = none →
        ∃ e, getPinnableStatus p table id requestingAccountID = .error e ∧ e.Code = 404) ∧
      (∀ s requestingAccount, dbGetStatusByID p table id = .ok s →
        p.dbGetAccountByID requestingAccountID = .ok requestingAccount →
        p.statusVisible s requestingAccount = .ok false →
        ∃ e, getPinnableStatus p table id requestingAccountID = .error e ∧ e.Code = 404)) ∧
    ((table.map (fun row => row.ID)).Nodup →
      ∀ (accountID : String) (calls : List PinCall),
        countAccountPinned table accountID ≤ allowedPinnedCount →
        countAccountPinned (runPinCalls table calls) accountID ≤ allowedPinnedCount) := by
  refine ⟨?_, ?_, ?_, ?_⟩
  · intro p a id hfull
    have htable : (PinCreate p table a id).1 = table := by
      rcases PinCreate_table p table a id with h | ⟨s, -, hlim, -⟩
      · exact h
      · omega
    refine ⟨htable, ?_, ?_, ?_, ?_⟩
    · unfold PinCreate
      rcases hg : getPinnableStatus p table id a.ID with e | s
      · exact ⟨_, rfl⟩
      · simp only []
        split
        · exact ⟨_, rfl⟩
        · rcases hc : dbCountAccountPinned p table a.ID with e | n
          · exact ⟨_, rfl⟩
          · simp only []
            split
            · exact ⟨_, rfl⟩
            · rename_i hlim
              exfalso
              unfold dbCountAccountPinned at hc
              split at hc
              · cases hc
              · cases hc
                omega
    · intro e hg
      unfold PinCreate
      simp only [hg]
    · intro s hg hcf
      unfold PinCreate
      simp only [hg]
      split
      · exact ⟨_, rfl, rfl⟩
      · have hc : dbCountAccountPinned p table a.ID = .ok (countAccountPinned table a.ID) := by
          simp [dbCountAccountPinned, hcf]
        simp only [hc]
        rw [if_pos (by simpa using hfull)]
        exact ⟨_, rfl, rfl⟩
    · intro s err hg hz hcf
      have hc : dbCountAccountPinned p table a.ID = .error err := by
        simp [dbCountAccountPinned, hcf]
      unfold PinCreate
      simp only [hg, hz, Bool.not_true, Bool.false_eq_true, if_false, hc]
      exact ⟨_, rfl, rfl⟩
  · intro p a id s hget hpinned
    have hres : (∃ e, getPinnableStatus p table id a.ID = .error e) ∨
        getPinnableStatus p table id a.ID = .ok s := by
      rcases hg : getPinnableStatus p table id a.ID with e | s2
      · exact Or.inl ⟨_, rfl⟩
      · right
        have := (getPinnableStatus_ok hg).1
        rw [hget] at this
        cases this
        rfl
    have hrun : ∀ s2, getPinnableStatus p table id a.ID = .ok s2 →
        PinCreate p table a id =
          (table, .error (.ErrorUnprocessableEntity (.errorf "status already pinned"))) := by
      intro s2 hg
      have := (getPinnableStatus_ok hg).1
      rw [hget] at this
      cases this
      unfold PinCreate
      simp [hg, hpinned]
    rcases hres with ⟨e, he⟩ | hg
    · have hrun2 : PinCreate p table a id = (table, .error e) := by
        unfold PinCreate
        simp [he]
      rw [hrun2]
      refine ⟨rfl, ⟨_, rfl⟩, ?_⟩
      intro hg
      rw [he] at hg
      cases hg
    · rw [hrun s hg]
      exact ⟨rfl, ⟨_, rfl⟩, fun _ => ⟨rfl, rfl⟩⟩
  · intro p id requestingAccountID
    refine ⟨?_, ?_⟩
    · intro hf hnone
      refine ⟨.ErrorNotFound (.errorfW "error fetching status" .ErrNoEntries), ?_, rfl⟩
      simp [getPinnableStatus, dbGetStatusByID, hf, hnone]
    · intro s requestingAccount hget hacc hvis
      refine ⟨.ErrorNotFound (.errorf "status not visible to account"), ?_, rfl⟩
      simp [getPinnableStatus, hget, hacc, hvis]
  · intro hkey accountID calls hcount
    exact runPinCalls_keeps calls table accountID hkey hcount

/-- C28, amended, at a table in which the account `01ZORK` has ten pinned
statuses and one status that is not pinned: pinning the eleventh fails with 422
and leaves the table as it is; pinning one that is pinned fails with 422;
pinning a status that is not in the table is refused by `getPinnableStatus`
with 404; and after pinning, unpinning one and pinning again the account has
ten pinned statuses. -/
theorem PinCreate_pin_limit_witness :
    (allowedPinnedCount ≤ countAccountPinned fullPinsTable "01ZORK" ∧
      (fullPinsTable.map (fun row => row.ID)).Nodup) ∧
    PinCreate pinProcessor fullPinsTable { ID := "01ZORK" } "01S2" =
      (fullPinsTable, .error (.ErrorUnprocessableEntity (.errorf "status pin limit exceeded"))) ∧
    (PinCreate pinProcessor fullPinsTable { ID := "01ZORK" } "01P3").2 =
      .error (.ErrorUnprocessableEntity (.errorf "status already pinned")) ∧
    (∃ e, getPinnableStatus pinProcessor fullPinsTable "01NONE" "01ZORK" = .error e ∧
      e.Code = 404) ∧
    countAccountPinned (runPinCalls fullPinsTable
      [.create pinProcessor { ID := "01ZORK" } "01S2",
        .remove pinProcessor { ID := "01ZORK" } "01P0",
        .create pinProcessor { ID := "01ZORK" } "01S2",
        .create pinProcessor { ID := "01ZORK" } "01P0"]) "01ZORK" ≤ allowedPinnedCount :=
  ⟨⟨by decide, by decide⟩, rfl,
    (((PinCreate_pin_limit fullPinsTable).2.1 pinProcessor { ID := "01ZORK" } "01P3"
      (pinnedStatus "01P3") rfl rfl).2.2 rfl).1,
    ((PinCreate_pin_limit fullPinsTable).2.2.1 pinProcessor "01NONE" "01ZORK").1 rfl rfl,
    (PinCreate_pin_limit fullPinsTable).2.2.2 (by decide) "01ZORK" _ (by decide)⟩

/-- C29, the code at the failing input: a mutuals-only status of the
requesting account, visible to it and not a boost, passes `getPinnableStatus`,
and `PinCreate` pins it. -/
theorem getPinnableStatus_mutuals_only_passes :
    mutualsStatus.Visibility = VisibilityMutualsOnly ∧
    mutualsStatus.Visibility ≠ VisibilityPublic ∧
    mutualsStatus.Visibility ≠ VisibilityUnlocked ∧
    mutualsStatus.Visibility ≠ VisibilityFollowersOnly ∧
    getPinnableStatus pinProcessor [mutualsStatus] "01S1" "01ZORK" = .ok mutualsStatus ∧
    PinCreate pinProcessor [mutualsStatus] { ID := "01ZORK" } "01S1" =
      ([{ mutualsStatus with PinnedAt := Time.ofUnixNano 360000000000000 }],
        .ok ⟨"01S1", true⟩) ∧
    PinRemove pinProcessor [{ mutualsStatus with PinnedAt := Time.ofUnixNano 1000 }]
        { ID := "01ZORK" } "01S1" =
      ([mutualsStatus], .ok ⟨"01S1", false⟩) := by
  refine ⟨rfl, by decide, by decide, by decide, rfl, rfl, rfl⟩

/-- C30. `processVisibility` never fails, and for every form and account
default: the visibility stored on the status is the form's (converted to the
model's values) if the form sets one, else the account default if set, else
the instance default; when it is followers-only or mutuals-only, Boostable is
false whatever the form requests; when it is public, the four flags are true
whatever the form requests; when it is direct, the flags are Federated=true,
Boostable=false, Replyable=true, Likeable=true. -/
theorem processVisibility_flags (apiVisToVis : String → String) (visibilityDefault : String)
    (form : AdvancedStatusCreateForm) (accountDefaultVis : String) (status : Status) :
    (processVisibility apiVisToVis visibilityDefault form accountDefaultVis status).2 = none ∧
    (form.Visibility ≠ "" →
      (processVisibility apiVisToVis visibilityDefault form accountDefaultVis status).1.Visibility
        = apiVisToVis form.Visibility) ∧
    (form.Visibility = "" → accountDefaultVis ≠ "" →
      (processVisibility apiVisToVis visibilityDefault form accountDefaultVis status).1.Visibility
        = accountDefaultVis) ∧
    (form.Visibility = "" → accountDefaultVis = "" →
      (processVisibility apiVisToVis visibilityDefault form accountDefaultVis status).1.Visibility
        = visibilityDefault) ∧
    (∀ s, s = (processVisibility apiVisToVis visibilityDefault form accountDefaultVis status).1 →
      (s.Visibility = VisibilityFollowersOnly ∨ s.Visibility = VisibilityMutualsOnly →
        s.Boostable = some false) ∧
      (s.Visibility = VisibilityPublic →
        s.Federated = some true ∧ s.Boostable = some true ∧
        s.Replyable = some true ∧ s.Likeable = some true) ∧
      (s.Visibility = VisibilityDirect →
        s.Federated = some true ∧ s.Boostable = some false ∧
        s.Replyable = some true ∧ s.Likeable = some true)) := by
  refine ⟨rfl, ?_, ?_, ?_, ?_⟩
  · intro h
    simp [processVisibility, h]
  · intro h h2
    simp [processVisibility, h, h2]
  · intro h h2
    simp [processVisibility, h, h2]
  · rintro s rfl
    refine ⟨?_, ?_, ?_⟩
    · intro h
      simp only [processVisibility] at h ⊢
      rcases h with h | h <;> rw [h] <;> rfl
    · intro h
      simp only [processVisibility] at h ⊢
      rw [h]
      exact ⟨rfl, rfl, rfl, rfl⟩
    · intro h
      simp only [processVisibility] at h ⊢
      rw [h]
      exact ⟨rfl, rfl, rfl, rfl⟩

/-- C30 at a concrete form: a followers-only post that asks to be boostable is
stored as not boostable, with the other flags as requested; with no visibility
on the form and none on the account the instance default is used. -/
theorem processVisibility_flags_witness :
    (processVisibility id VisibilityUnlocked
      { Visibility := "followers_only", Boostable := some true, Likeable := some false }
      "public" {}).1.Boostable = some false ∧
    (processVisibility id VisibilityUnlocked {} "" {}).1.Visibility = VisibilityUnlocked :=
  ⟨((processVisibility_flags id VisibilityUnlocked
      { Visibility := "followers_only", Boostable := some true, Likeable := some false }
      "public" {}).2.2.2.2 _ rfl).1 (Or.inl rfl),
    (processVisibility_flags id VisibilityUnlocked {} "" {}).2.2.2.1 rfl rfl⟩

end GoToSocial
